import Mathlib

/-!
# Morningside market maker: a shallow embedding of the pricing-and-hedging engine

The definitions below follow `src/market_maker.cpp`, `src/base_market_maker.hpp`,
`src/position.hpp`, `src/option.cpp`, `src/underlying.cpp` and `src/types.hpp`.

Modelling conventions.

* `Price`, `Quantity` and `Probability` are C++ `double`s; they are embedded as
  exact rationals (`ℚ`), so every statement is about exact arithmetic.
* `int` identifiers and strikes are `ℤ`; `steps_until_expiry` is a `ℕ`, because
  the `Option` constructor rejects negative step counts.
* `std::unordered_map<int, V>` is a function `ℤ → Option V` (`none` = key absent);
  `operator[]` on an absent key inserts the value-initialised `0`.
* The price cache is an association list: its order stands for the (unspecified)
  iteration order of the `std::unordered_map`, its length for `size()`.
* Mutating member functions take the engine state and return the new state
  together with their result.
* The trade callback is a `std::function` stored in the engine.  It is modelled
  as an optional oracle which, given the history of earlier invocations, says
  whether the call returns normally (`true`) or throws (`false`); every
  invocation is appended to `callback_log`.  An unregistered (empty) callback
  throws `std::bad_function_call` without being invoked.
* The hedge paths catch `std::exception` only.  The functions `exec_delta_hedge`,
  `rehedge`, `on_bid_hit`, `on_offer_hit`, `on_step_advance` and `run` give the
  state when every failure of the callback is caught, that is when the callback
  throws nothing but `std::exception`s.  A second oracle (`ForeignThrow`) says
  whether the object thrown by a failing invocation is something else; the
  functions `exec_delta_hedge_exn`, ..., `on_step_advance_exn` and `run_exn`
  return, beside the state, whether such an object left the call, and stop where
  the C++ code is left (in `on_step_advance`: before the remaining underlyings
  are rehedged and before `last_underlying_prices` is refreshed).  The two
  families agree when nothing is thrown past the `catch` clauses.
* The option counts of `Position` are C++ `int`s: `add_option_quantity` wraps its
  sum into 32 bits (`wrap_int32`), as the two's-complement targets of the build do.
* A cache key is the text `<option id>_<price printed with "%f">`; it is kept as
  the triple (id, sign, millionths) that this text encodes (`CacheKey`).
* `pump_it_up` re-runs the `Underlying` constructor on unchanged step sizes and
  probabilities, so it cannot fail on a validated record and is modelled as total;
  `pump_it_up_checked` keeps the validation of the constructor, and the two are
  proved to agree on validated records.

The file has two parts: the definitions (the embedding, then the notions used in
the statements), and the theorems.
-/

namespace MorningsideMM

/-! ## Value types (`types.hpp`, `underlying.hpp`, `option.hpp`, `position.hpp`) -/

/-- The C++ `enum class OptionType`. -/
inductive OptionType where
  | CALL
  | PUT
deriving DecidableEq, Repr

/-- The C++ `struct Underlying` (its fields, in declaration order). -/
structure Underlying where
  name : String
  underlying_id : ℤ
  valuation : ℚ
  down_move_probability : ℚ
  down_move_step : ℚ
  noise_std_dev : ℚ
  up_move_probability : ℚ
  up_move_step : ℚ
deriving DecidableEq

/-- The C++ `struct Option` (renamed: `Option` is taken in Lean). -/
structure OptionContract where
  option_id : ℤ
  option_type : OptionType
  steps_until_expiry : ℕ
  strike : ℤ
  underlying_id : ℤ
  underlying_name : String
deriving DecidableEq

/-- The kinds of failure the engine can raise (C++ exceptions). -/
inductive Error where
  | InvalidParameters
  | InvalidQuantity
  | TradeCallbackFailure
deriving DecidableEq, Repr

/-- The triple `std::tuple<Price, Price, Price>` = (price, delta, gamma). -/
abbrev Greeks := ℚ × ℚ × ℚ

/-- The pair `std::tuple<Price, Price>` = (bid, ask). -/
abbrev BidAsk := ℚ × ℚ

/-- The constant `MAX_POSITIONS` of `types.hpp`. -/
def MAX_POSITIONS : ℤ := 50

/-- The constant `MarketMaker::MIN_HEDGE`. -/
def MIN_HEDGE : ℚ := 5 / 100

/-- The constant `MarketMaker::HEDGE_TH`. -/
def HEDGE_TH : ℚ := 3 / 100

/-- The constant `MarketMaker::GAMMA_SCALP_TH`. -/
def GAMMA_SCALP_TH : ℚ := 5 / 1000

/-- The constant `MarketMaker::max_loss`. -/
def max_loss : ℚ := -50000

/-- The do-not-trade quote `std::make_tuple(0.01, 99999999.0)`. -/
def sentinel : BidAsk := (1 / 100, 99999999)

/-- `Underlying::validate_parameters`: the four checks, in source order. -/
def Underlying.validate_parameters (u : Underlying) : Except Error Unit :=
  if u.down_move_step ≤ 0 ∨ u.up_move_step ≤ 0 then
    .error .InvalidParameters
  else if u.down_move_probability ≤ 0 ∨ u.up_move_probability ≤ 0 then
    .error .InvalidParameters
  else if |u.down_move_probability + u.up_move_probability - 1| > 1 / 1000000000 then
    .error .InvalidParameters
  else if |u.down_move_probability * u.down_move_step
            - u.up_move_probability * u.up_move_step| > 1 / 100000 then
    .error .InvalidParameters
  else
    .ok ()

/-- The `Underlying` constructor: store the arguments, then validate. -/
def Underlying.new (name : String) (id : ℤ) (val down_prob down_step noise up_prob up_step : ℚ) :
    Except Error Underlying :=
  let u : Underlying :=
    { name := name, underlying_id := id, valuation := val,
      down_move_probability := down_prob, down_move_step := down_step,
      noise_std_dev := noise, up_move_probability := up_prob, up_move_step := up_step }
  match u.validate_parameters with
  | .error e => .error e
  | .ok _ => .ok u

/-- An `Underlying` record that the constructor accepts. -/
def Underlying.valid (u : Underlying) : Prop :=
  u.validate_parameters.toBool = true

instance (u : Underlying) : Decidable u.valid := by
  unfold Underlying.valid; infer_instance

/-- `Option::expiry_valuation`. -/
def OptionContract.expiry_valuation (o : OptionContract) (underlying_valuation : ℚ) : ℚ :=
  if o.option_type = OptionType.CALL then
    max 0 (underlying_valuation - (o.strike : ℚ))
  else
    max 0 ((o.strike : ℚ) - underlying_valuation)

/-- `Option::advance_step`. -/
def OptionContract.advance_step (o : OptionContract) : OptionContract :=
  if o.steps_until_expiry = 0 then o
  else { o with steps_until_expiry := o.steps_until_expiry - 1 }

/-- C `std::round`: to the nearest integer, halfway cases away from zero. -/
def cround (x : ℚ) : ℤ :=
  if 0 ≤ x then ⌊x + 1 / 2⌋ else ⌈x - 1 / 2⌉

/-- The C++ `class Position`. -/
structure Position where
  option_quantity_by_option_id : ℤ → Option ℤ
  underlying_quantity_by_underlying_id : ℤ → Option ℚ

/-- The default-constructed `Position`: both maps empty. -/
def Position.empty : Position :=
  { option_quantity_by_option_id := fun _ => none
    underlying_quantity_by_underlying_id := fun _ => none }

/-- The value a 32-bit `int` holds after an addition whose exact result is `x`:
`x` itself inside [-2^31, 2^31 - 1], and its two's-complement wrap outside. -/
def wrap_int32 (x : ℤ) : ℤ :=
  (x + 2147483648) % 4294967296 - 2147483648

/-- `Position::add_option_quantity`: `+=` on an `int` entry of the map. -/
def Position.add_option_quantity (p : Position) (option_id : ℤ) (quantity : ℤ) : Position :=
  let current : ℤ := (p.option_quantity_by_option_id option_id).getD 0
  { option_quantity_by_option_id :=
      Function.update p.option_quantity_by_option_id option_id
        (some (wrap_int32 (current + quantity)))
    underlying_quantity_by_underlying_id := p.underlying_quantity_by_underlying_id }

/-- `Position::add_underlying_quantity`: the quantity is rounded to two decimals. -/
def Position.add_underlying_quantity (p : Position) (underlying_id : ℤ) (quantity : ℚ) :
    Position :=
  let quantity : ℚ := (cround (quantity * 100) : ℚ) / 100
  let current : ℚ := (p.underlying_quantity_by_underlying_id underlying_id).getD 0
  { option_quantity_by_option_id := p.option_quantity_by_option_id
    underlying_quantity_by_underlying_id :=
      Function.update p.underlying_quantity_by_underlying_id underlying_id
        (some (current + quantity)) }

/-! ## The lattice pricer -/

/-- Lines 68-81 of `price_option_from_scratch`: the payoff stored in `tree[i]`. -/
def terminal_payoff (option : OptionContract) (underlying : Underlying) (i : ℕ) : ℚ :=
  let n := option.steps_until_expiry
  let up_moves : ℚ := (i : ℚ)
  let down_moves : ℚ := ((n - i : ℕ) : ℚ)
  let terminal := underlying.valuation + up_moves * underlying.up_move_step
                    - down_moves * underlying.down_move_step
  let terminal := max terminal 0
  if option.option_type = OptionType.CALL then
    max (terminal - (option.strike : ℚ)) 0
  else
    max ((option.strike : ℚ) - terminal) 0

/-- The inner loop `for (i = 0; i < step; ++i) tree[i] = pu*tree[i+1] + pd*tree[i]`,
executed in place, in increasing `i`. -/
def lattice_sweep (pu pd : ℚ) (tree : List ℚ) (step : ℕ) : List ℚ :=
  (List.range step).foldl
    (fun t i => t.set i (pu * t.getD (i + 1) 0 + pd * t.getD i 0)) tree

/-- The outer loop `for (step = n; step > 0; --step)`. -/
def back_induction (pu pd : ℚ) : ℕ → List ℚ → List ℚ
  | 0, tree => tree
  | step + 1, tree => back_induction pu pd step (lattice_sweep pu pd tree (step + 1))

/-- `MarketMaker::price_option_from_scratch`. -/
def price_option_from_scratch (option : OptionContract) (underlying : Underlying) : ℚ :=
  let n := option.steps_until_expiry
  let tree := (List.range (n + 1)).map (terminal_payoff option underlying)
  let tree := back_induction underlying.up_move_probability
                underlying.down_move_probability n tree
  tree.getD 0 0

/-- `MarketMaker::pump_it_up`.  The constructor is given the same step sizes and
probabilities as `underlying`, so its validation has the same outcome. -/
def pump_it_up (underlying : Underlying) (bump : ℚ) : Underlying :=
  { name := underlying.name
    underlying_id := underlying.underlying_id
    valuation := max 0 (underlying.valuation + bump)
    down_move_probability := underlying.down_move_probability
    down_move_step := underlying.down_move_step
    noise_std_dev := underlying.noise_std_dev
    up_move_probability := underlying.up_move_probability
    up_move_step := underlying.up_move_step }

/-- `MarketMaker::calculate_delta`. -/
def calculate_delta (option : OptionContract) (underlying : Underlying) (base_price : ℚ) : ℚ :=
  let bump_size := min 1 (underlying.up_move_step * (1 / 10))
  let bumped_underlying := pump_it_up underlying bump_size
  let bumped := price_option_from_scratch option bumped_underlying
  (bumped - base_price) / bump_size

/-- `MarketMaker::calculate_gamma`. -/
def calculate_gamma (option : OptionContract) (underlying : Underlying) : ℚ :=
  let bump_size := min 1 (underlying.up_move_step * (1 / 10))
  let center := price_option_from_scratch option underlying
  let up_u := pump_it_up underlying bump_size
  let up_price := price_option_from_scratch option up_u
  let down_u := pump_it_up underlying (-bump_size)
  let down_price := price_option_from_scratch option down_u
  (up_price - 2 * center + down_price) / (bump_size * bump_size)

/-! ## Engine state -/

/-- The text `std::to_string(option_id) + "_" + std::to_string(price)`.
`std::to_string(int)` is the decimal numeral of the id and contains no `_`, so the
id is recovered from the key by `key.find('_')` and `std::stoi`.
`std::to_string(double)` prints with `"%f"`: an optional minus sign and the
magnitude rounded to six decimals.  The text of the price is therefore determined
by, and determines, the sign flag and the number of millionths recorded here. -/
structure CacheKey where
  option_id : ℤ
  negative : Bool
  micros : ℕ
deriving DecidableEq

/-- Rounding to the nearest integer, halfway cases to the even neighbour (the
rounding `printf` applies to the digits it drops). -/
def round_half_even (x : ℚ) : ℤ :=
  let f := ⌊x⌋
  let r := x - (f : ℚ)
  if r < 1 / 2 then f
  else if 1 / 2 < r then f + 1
  else if f % 2 = 0 then f
  else f + 1

/-- `MarketMaker::cache_key_string`. -/
def cache_key_string (option_id : ℤ) (price : ℚ) : CacheKey :=
  { option_id := option_id
    negative := decide (price < 0)
    micros := (round_half_even (|price| * 1000000)).toNat }

/-- One invocation of the trade callback: underlying id, signed quantity, and
whether the callback returned normally. -/
abbrev TradeRecord := ℤ × ℚ × Bool

/-- The behaviour of a registered `TradeCallback`: given its earlier invocations
and the arguments, `true` if it returns normally and `false` if it throws. -/
abbrev TradeCallback := List TradeRecord → ℤ → ℚ → Bool

/-- The state of a `MarketMaker` (fields of `BaseMarketMaker` and `MarketMaker`),
together with the log of callback invocations. -/
structure MarketMaker where
  underlying_state : List Underlying
  active_option_state : List OptionContract
  position : Position
  trade_underlying_callback : Option TradeCallback
  price_cache : List (CacheKey × Greeks)
  last_underlying_prices : ℤ → Option ℚ
  target_deltas : ℤ → Option ℚ
  hedge_pos : ℤ → Option ℚ
  last_hedge : ℤ → Option ℚ
  pnl : ℚ
  safe_mode : Bool
  callback_log : List TradeRecord

/-- The `MarketMaker` constructor: the initial state vectors, empty maps,
`pnl = 0`, `safe_mode = false` and no callback registered. -/
def MarketMaker.new (underlying_initial_state : List Underlying)
    (option_initial_state : List OptionContract) : MarketMaker :=
  { underlying_state := underlying_initial_state
    active_option_state := option_initial_state
    position := Position.empty
    trade_underlying_callback := none
    price_cache := []
    last_underlying_prices := fun _ => none
    target_deltas := fun _ => none
    hedge_pos := fun _ => none
    last_hedge := fun _ => none
    pnl := 0
    safe_mode := false
    callback_log := [] }

/-- `BaseMarketMaker::register_trade_underlying_callback`. -/
def register_trade_underlying_callback (m : MarketMaker) (callback : TradeCallback) :
    MarketMaker :=
  { m with trade_underlying_callback := some callback }

/-- `price_cache.find(key)`. -/
def cache_find (cache : List (CacheKey × Greeks)) (key : CacheKey) : Option Greeks :=
  cache.lookup key

/-- `price_cache.emplace(key, greeks)`: inserts unless the key is present. -/
def cache_emplace (cache : List (CacheKey × Greeks)) (key : CacheKey) (greeks : Greeks) :
    List (CacheKey × Greeks) :=
  match cache_find cache key with
  | some _ => cache
  | none => (key, greeks) :: cache

/-- `MarketMaker::find_underlying`: the first underlying with the given id. -/
def find_underlying (m : MarketMaker) (u_id : ℤ) : Option Underlying :=
  m.underlying_state.find? (fun u => decide (u.underlying_id = u_id))

/-- The call `trade_underlying_callback(underlying_id, quantity)`.  The outcome `.error`
stands for an invocation that throws, whatever the object thrown; `throws_foreign` tells
whether it is one that `catch (const std::exception&)` lets through. -/
def invoke_callback (m : MarketMaker) (underlying_id : ℤ) (quantity : ℚ) :
    Except Error Unit × MarketMaker :=
  match m.trade_underlying_callback with
  | none => (.error .TradeCallbackFailure, m)
  | some callback =>
    let ok := callback m.callback_log underlying_id quantity
    let m := { m with callback_log := m.callback_log ++ [(underlying_id, quantity, ok)] }
    if ok then (.ok (), m) else (.error .TradeCallbackFailure, m)

/-- `BaseMarketMaker::buy_underlying`. -/
def buy_underlying (m : MarketMaker) (underlying_id : ℤ) (quantity : ℚ) :
    Except Error Unit × MarketMaker :=
  if quantity ≤ 0 then (.error .InvalidQuantity, m)
  else
    match invoke_callback m underlying_id quantity with
    | (.error e, m) => (.error e, m)
    | (.ok _, m) =>
      (.ok (), { m with position := m.position.add_underlying_quantity underlying_id quantity })

/-- `BaseMarketMaker::sell_underlying`. -/
def sell_underlying (m : MarketMaker) (underlying_id : ℤ) (quantity : ℚ) :
    Except Error Unit × MarketMaker :=
  if quantity ≤ 0 then (.error .InvalidQuantity, m)
  else
    match invoke_callback m underlying_id (-quantity) with
    | (.error e, m) => (.error e, m)
    | (.ok _, m) =>
      (.ok (), { m with position := m.position.add_underlying_quantity underlying_id (-quantity) })

/-! ## Greeks and pricing through the cache -/

/-- `MarketMaker::get_greeks`. -/
def get_greeks (m : MarketMaker) (option : OptionContract) (underlying : Underlying) :
    Greeks × MarketMaker :=
  let curr_price := underlying.valuation
  let key := cache_key_string option.option_id curr_price
  match cache_find m.price_cache key with
  | some greeks => (greeks, m)
  | none =>
    let price := price_option_from_scratch option underlying
    let delta := calculate_delta option underlying price
    let gamma := calculate_gamma option underlying
    let greeks : Greeks := (price, delta, gamma)
    (greeks, { m with price_cache := cache_emplace m.price_cache key greeks })

/-- Lines 330-337 of `price_option`: the full lattice computation. -/
def price_option_full (m : MarketMaker) (option : OptionContract) (underlying : Underlying)
    (cache_key : CacheKey) : ℚ × MarketMaker :=
  let curr_price := underlying.valuation
  let price := price_option_from_scratch option underlying
  let delta := calculate_delta option underlying price
  let gamma := calculate_gamma option underlying
  (price,
    { m with
      price_cache := cache_emplace m.price_cache cache_key (price, delta, gamma)
      last_underlying_prices :=
        Function.update m.last_underlying_prices underlying.underlying_id (some curr_price) })

/-- Lines 317-325 of `price_option`: the Taylor extrapolation from a cached triple. -/
def price_option_taylor (m : MarketMaker) (option : OptionContract) (underlying : Underlying)
    (cache_key : CacheKey) (last_price : ℚ) (old : Greeks) : ℚ × MarketMaker :=
  let curr_price := underlying.valuation
  let old_price := old.1
  let delta := old.2.1
  let gamma := old.2.2
  let dS := curr_price - last_price
  let price := old_price + delta * dS + (1 / 2) * gamma * dS * dS
  let new_delta := calculate_delta option underlying price
  let new_gamma := calculate_gamma option underlying
  (price, { m with price_cache := cache_emplace m.price_cache cache_key (price, new_delta, new_gamma) })

/-- `MarketMaker::price_option`. -/
def price_option (m : MarketMaker) (option : OptionContract) : ℚ × MarketMaker :=
  match find_underlying m option.underlying_id with
  | none => (0, m)
  | some underlying =>
    if option.steps_until_expiry = 0 then
      (option.expiry_valuation underlying.valuation, m)
    else
      let curr_price := underlying.valuation
      let cache_key := cache_key_string option.option_id curr_price
      match cache_find m.price_cache cache_key with
      | some greeks => (greeks.1, m)
      | none =>
        match m.last_underlying_prices underlying.underlying_id with
        | none => price_option_full m option underlying cache_key
        | some last_price =>
          if last_price ≠ curr_price ∧
              |curr_price - last_price| < underlying.up_move_step * (1 / 10) then
            match cache_find m.price_cache (cache_key_string option.option_id last_price) with
            | some old => price_option_taylor m option underlying cache_key last_price old
            | none => price_option_full m option underlying cache_key
          else
            price_option_full m option underlying cache_key

/-! ## Portfolio accounting and the risk supervisor -/

/-- The body of the first loop of `portfolio_value` (one active option). -/
def portfolio_value_option_step (acc : ℚ × MarketMaker) (option : OptionContract) :
    ℚ × MarketMaker :=
  match acc.2.position.option_quantity_by_option_id option.option_id with
  | none => acc
  | some quantity =>
    if quantity ≠ 0 then
      let r := price_option acc.2 option
      (acc.1 + (quantity : ℚ) * r.1, r.2)
    else acc

/-- The body of the second loop of `portfolio_value` (one underlying). -/
def portfolio_value_underlying_step (position : Position) (total : ℚ) (u : Underlying) : ℚ :=
  match position.underlying_quantity_by_underlying_id u.underlying_id with
  | none => total
  | some quantity => if quantity ≠ 0 then total + quantity * u.valuation else total

/-- `MarketMaker::portfolio_value`. -/
def portfolio_value (m : MarketMaker) : ℚ × MarketMaker :=
  let acc := m.active_option_state.foldl portfolio_value_option_step (m.pnl, m)
  let total := acc.2.underlying_state.foldl
    (portfolio_value_underlying_step acc.2.position) acc.1
  (total, acc.2)

/-- `MarketMaker::check_risk_limit`. -/
def check_risk_limit (m : MarketMaker) : Bool × MarketMaker :=
  let r := portfolio_value m
  let curr_value := r.1
  let m := r.2
  if curr_value < max_loss then
    (true, { m with safe_mode := true })
  else if m.safe_mode = true ∧ curr_value > max_loss * (1 / 2) then
    (false, { m with safe_mode := false })
  else
    (m.safe_mode, m)

/-- The body of the loop of `portfolio_delta` (one active option). -/
def portfolio_delta_step (u_id : ℤ) (underlying : Underlying) (acc : ℚ × MarketMaker)
    (opt : OptionContract) : ℚ × MarketMaker :=
  if opt.underlying_id = u_id then
    match acc.2.position.option_quantity_by_option_id opt.option_id with
    | none => acc
    | some quantity =>
      if quantity ≠ 0 then
        let r := get_greeks acc.2 opt underlying
        (acc.1 + (quantity : ℚ) * r.1.2.1, r.2)
      else acc
  else acc

/-- `MarketMaker::portfolio_delta`. -/
def portfolio_delta (m : MarketMaker) (u_id : ℤ) : ℚ × MarketMaker :=
  match find_underlying m u_id with
  | none => (0, m)
  | some underlying =>
    let acc := m.active_option_state.foldl (portfolio_delta_step u_id underlying) (0, m)
    match acc.2.hedge_pos u_id with
    | some hedge => (acc.1 - hedge, acc.2)
    | none => (acc.1, acc.2)

/-! ## The hedge controller -/

/-- `MarketMaker::exec_delta_hedge`.  Reading `hedge_pos[u_id]` creates the entry;
a failure of the trade leaves the ledger value as it was.  (The state; whether the
failure is swallowed or leaves the call is told by `exec_delta_hedge_exn`.) -/
def exec_delta_hedge (m : MarketMaker) (u_id : ℤ) (target : ℚ) : MarketMaker :=
  let current_hedge := (m.hedge_pos u_id).getD 0
  let m := { m with hedge_pos := Function.update m.hedge_pos u_id (some current_hedge) }
  let hedge_trade := target - current_hedge
  if |hedge_trade| < MIN_HEDGE then m
  else
    let r := if hedge_trade > 0 then sell_underlying m u_id |hedge_trade|
             else buy_underlying m u_id |hedge_trade|
    match r.1 with
    | .error _ => r.2
    | .ok _ =>
      { r.2 with
        hedge_pos := Function.update r.2.hedge_pos u_id (some (current_hedge + hedge_trade)) }

/-- `MarketMaker::delta_hedge_post_trade`. -/
def delta_hedge_post_trade (m : MarketMaker) (option : OptionContract) (q : ℤ) : MarketMaker :=
  match find_underlying m option.underlying_id with
  | none => m
  | some underlying =>
    let g := get_greeks m option underlying
    let delta := g.1.2.1
    let m := g.2
    let delta_exposure := (q : ℚ) * delta
    let target := (m.target_deltas underlying.underlying_id).getD 0 + delta_exposure
    let m := { m with
      target_deltas := Function.update m.target_deltas underlying.underlying_id (some target) }
    let d := portfolio_delta m underlying.underlying_id
    let net_delta := d.1
    let m := d.2
    if |net_delta| > HEDGE_TH then exec_delta_hedge m underlying.underlying_id net_delta
    else m

/-- Lines 228-242 of `rehedge`: the trade of the per-step hedge, inside its `try`. -/
def rehedge_trade (m : MarketMaker) (u_id : ℤ) (hedge_trade : ℚ) : MarketMaker :=
  let current_hedge := (m.hedge_pos u_id).getD 0
  let m := { m with hedge_pos := Function.update m.hedge_pos u_id (some current_hedge) }
  let r := if hedge_trade > 0 then buy_underlying m u_id |hedge_trade|
           else sell_underlying m u_id |hedge_trade|
  match r.1 with
  | .error _ => r.2
  | .ok _ =>
    { r.2 with
      hedge_pos := Function.update r.2.hedge_pos u_id (some (current_hedge + hedge_trade)) }

/-- The body of the loop of `rehedge` (one underlying of the new state). -/
def rehedge_step (m : MarketMaker) (u : Underlying) : MarketMaker :=
  let u_id := u.underlying_id
  let cprice := u.valuation
  let lprice := match m.last_underlying_prices u_id with
    | some last => last
    | none => cprice
  let diff := cprice - lprice
  if |diff| < GAMMA_SCALP_TH then m
  else
    let d := portfolio_delta m u_id
    let net_delta := d.1
    let m := d.2
    let m := if |net_delta| > HEDGE_TH then rehedge_trade m u_id net_delta else m
    { m with last_hedge := Function.update m.last_hedge u_id (some cprice) }

/-- `MarketMaker::rehedge` when every failure of a trade is caught (`rehedge_exn` is the
loop with the exceptions that leave it). -/
def rehedge (m : MarketMaker) (new_u_state : List Underlying) : MarketMaker :=
  new_u_state.foldl rehedge_step m

/-! ## Entry points -/

/-- Lines 254-288 of `make_market`: quote construction once the risk check passed. -/
def make_market_quote (m : MarketMaker) (option : OptionContract) : BidAsk × MarketMaker :=
  let f := price_option m option
  let fair := f.1
  let m := f.2
  let curr_pos : ℤ := match m.position.option_quantity_by_option_id option.option_id with
    | some quantity => quantity
    | none => 0
  let base_spread := max (1 / 100) (fair * (2 / 100))
  match find_underlying m option.underlying_id with
  | none => (sentinel, m)
  | some underlying =>
    let g := get_greeks m option underlying
    let gamma := g.1.2.2
    let m := g.2
    let gamma_adj := min (1 / 2) (|gamma| * underlying.valuation * (1 / 10))
    let time_adj : ℚ :=
      if option.steps_until_expiry ≤ 2 then 2
      else if option.steps_until_expiry ≤ 5 then 13 / 10
      else 1
    let spread := base_spread * time_adj * (1 + gamma_adj)
    let bid := max 0 (fair - spread / 2)
    let ask := fair + spread / 2
    if curr_pos > MAX_POSITIONS then ((1 / 100, ask), m)
    else if curr_pos < -MAX_POSITIONS then ((bid, ask * 10), m)
    else ((bid, ask), m)

/-- `MarketMaker::make_market`. -/
def make_market (m : MarketMaker) (option : OptionContract) : BidAsk × MarketMaker :=
  let r := check_risk_limit m
  if r.1 = true then (sentinel, r.2)
  else make_market_quote r.2 option

/-- `MarketMaker::on_bid_hit` (with `BaseMarketMaker::on_bid_hit`). -/
def on_bid_hit (m : MarketMaker) (option : OptionContract) (bid_price : ℚ) : MarketMaker :=
  let m := { m with position := m.position.add_option_quantity option.option_id 1 }
  let m := { m with pnl := m.pnl + bid_price }
  delta_hedge_post_trade m option 1

/-- `MarketMaker::on_offer_hit` (with `BaseMarketMaker::on_offer_hit`). -/
def on_offer_hit (m : MarketMaker) (option : OptionContract) (offer_price : ℚ) : MarketMaker :=
  let m := { m with position := m.position.add_option_quantity option.option_id (-1) }
  let m := { m with pnl := m.pnl - offer_price }
  delta_hedge_post_trade m option (-1)

/-- Lines 356-374 of `on_step_advance`: erase the entries of inactive options. -/
def prune_inactive (cache : List (CacheKey × Greeks)) (active_option_state : List OptionContract) :
    List (CacheKey × Greeks) :=
  cache.filter (fun entry =>
    decide (entry.1.option_id ∈ active_option_state.map (fun o => o.option_id)))

/-- Lines 376-382 of `on_step_advance`: above 100000 entries, erase the first 50000. -/
def prune_ceiling (cache : List (CacheKey × Greeks)) : List (CacheKey × Greeks) :=
  if cache.length > 100000 then cache.drop 50000 else cache

/-- The body of the last loop of `on_step_advance`. -/
def refresh_last_price (last : ℤ → Option ℚ) (u : Underlying) : ℤ → Option ℚ :=
  Function.update last u.underlying_id (some u.valuation)

/-- `MarketMaker::on_step_advance` (with `BaseMarketMaker::on_step_advance`) when every
failure of a rehedge trade is caught (`on_step_advance_exn` is the call with the
exceptions that leave it). -/
def on_step_advance (m : MarketMaker) (new_underlying_state : List Underlying)
    (new_option_state : List OptionContract) : MarketMaker :=
  let m := { m with
    underlying_state := new_underlying_state
    active_option_state := new_option_state }
  let m := { m with
    price_cache := prune_ceiling (prune_inactive m.price_cache m.active_option_state) }
  let m := rehedge m m.underlying_state
  { m with
    last_underlying_prices :=
      m.underlying_state.foldl refresh_last_price m.last_underlying_prices }

/-! ## Runs of entry-point calls -/

/-- A call of one of the public entry points of the engine. -/
inductive Action where
  | make_market (option : OptionContract)
  | price_option (option : OptionContract)
  | on_bid_hit (option : OptionContract) (bid_price : ℚ)
  | on_offer_hit (option : OptionContract) (offer_price : ℚ)
  | on_step_advance (new_underlying_state : List Underlying)
      (new_option_state : List OptionContract)
  | register_callback (callback : TradeCallback)

/-- The state after one entry-point call. -/
def Action.apply (m : MarketMaker) : Action → MarketMaker
  | .make_market option => (MorningsideMM.make_market m option).2
  | .price_option option => (MorningsideMM.price_option m option).2
  | .on_bid_hit option bid_price => MorningsideMM.on_bid_hit m option bid_price
  | .on_offer_hit option offer_price => MorningsideMM.on_offer_hit m option offer_price
  | .on_step_advance us os => MorningsideMM.on_step_advance m us os
  | .register_callback callback => register_trade_underlying_callback m callback

/-- The state after a sequence of entry-point calls. -/
def run (m : MarketMaker) (actions : List Action) : MarketMaker :=
  actions.foldl Action.apply m

/-- The engine states reachable from construction through the entry points. -/
def Reachable (m : MarketMaker) : Prop :=
  ∃ (us : List Underlying) (os : List OptionContract) (actions : List Action),
    m = run (MarketMaker.new us os) actions

/-! ## Definitions used in the statements -/

/-- The `k`-step binomial average of the node values `f`, started at node `i0`. -/
def lattice_value (pu pd : ℚ) (f : ℕ → ℚ) (k i0 : ℕ) : ℚ :=
  ∑ j in Finset.range (k + 1), (k.choose j : ℚ) * pu ^ j * pd ^ (k - j) * f (i0 + j)


/-- The payoff of the specification at terminal price `x`: `max(0, x - K)` for a
CALL and `max(0, K - x)` for a PUT. -/
def spec_payoff (option : OptionContract) (x : ℚ) : ℚ :=
  match option.option_type with
  | .CALL => max 0 (x - (option.strike : ℚ))
  | .PUT => max 0 ((option.strike : ℚ) - x)

/-- The undiscounted risk-neutral expectation of the floored terminal payoff, as
the specification writes it. -/
def risk_neutral_expectation (option : OptionContract) (underlying : Underlying) : ℚ :=
  let n := option.steps_until_expiry
  ∑ i in Finset.range (n + 1),
    (n.choose i : ℚ) * underlying.up_move_probability ^ i
      * underlying.down_move_probability ^ (n - i)
      * spec_payoff option
          (max 0 (underlying.valuation + (i : ℚ) * underlying.up_move_step
                    - ((n : ℚ) - (i : ℚ)) * underlying.down_move_step))

/-- Scenario A of the specification: S=150, u=d=2, pu=pd=0.5, noise=0.1. -/
def scenario_underlying : Underlying :=
  { name := "A", underlying_id := 0, valuation := 150
    down_move_probability := 1 / 2, down_move_step := 2
    noise_std_dev := 1 / 10, up_move_probability := 1 / 2, up_move_step := 2 }

/-- Scenario A of the specification: CALL, n=5, K=152. -/
def scenario_A_call : OptionContract :=
  { option_id := 0, option_type := .CALL, steps_until_expiry := 5, strike := 152
    underlying_id := 0, underlying_name := "A" }

/-- Scenario C of the specification: CALL at expiry (n=0), K=100. -/
def scenario_C_call : OptionContract :=
  { option_id := 1, option_type := .CALL, steps_until_expiry := 0, strike := 100
    underlying_id := 0, underlying_name := "A" }

/-- Scenario C of the specification: PUT at expiry (n=0), K=100. -/
def scenario_C_put : OptionContract :=
  { option_id := 2, option_type := .PUT, steps_until_expiry := 0, strike := 100
    underlying_id := 0, underlying_name := "A" }

/-- The engine of Scenario C, freshly constructed on the underlying with S=150. -/
def scenario_C_engine : MarketMaker :=
  MarketMaker.new [scenario_underlying] [scenario_C_call, scenario_C_put]

/-- Scenario B of the specification: CALL, n=5, K=150 (at the money for S=150). -/
def scenario_B_call : OptionContract :=
  { option_id := 3, option_type := .CALL, steps_until_expiry := 5, strike := 150
    underlying_id := 0, underlying_name := "A" }

/-- Scenario B of the specification: PUT, n=5, K=150. -/
def scenario_B_put : OptionContract :=
  { option_id := 4, option_type := .PUT, steps_until_expiry := 5, strike := 150
    underlying_id := 0, underlying_name := "A" }

/-- An underlying at S=1 with u=d=2 and pu=pd=0.5: a single down move is floored. -/
def low_underlying : Underlying :=
  { name := "L", underlying_id := 0, valuation := 1
    down_move_probability := 1 / 2, down_move_step := 2
    noise_std_dev := 0, up_move_probability := 1 / 2, up_move_step := 2 }

/-- A one-step CALL struck at 1. -/
def low_call : OptionContract :=
  { option_id := 5, option_type := .CALL, steps_until_expiry := 1, strike := 1
    underlying_id := 0, underlying_name := "L" }

/-- A one-step PUT struck at 1. -/
def low_put : OptionContract :=
  { option_id := 6, option_type := .PUT, steps_until_expiry := 1, strike := 1
    underlying_id := 0, underlying_name := "L" }

/-- The state `m'` differs from `m` at most in the price cache. -/
def only_cache_changed (m m' : MarketMaker) : Prop :=
  m' = { m with price_cache := m'.price_cache }

/-- The state `m'` differs from `m` at most in the price cache and in the last
underlying prices. -/
def only_pricing_changed (m m' : MarketMaker) : Prop :=
  m' = { m with
    price_cache := m'.price_cache
    last_underlying_prices := m'.last_underlying_prices }

/-- The state `m'` differs from `m` at most in the price cache, the last underlying
prices and the safe-mode flag. -/
def only_quoting_changed (m m' : MarketMaker) : Prop :=
  m' = { m with
    price_cache := m'.price_cache
    last_underlying_prices := m'.last_underlying_prices
    safe_mode := m'.safe_mode }

/-- The engine of Scenario A, freshly constructed. -/
def scenario_A_engine : MarketMaker :=
  MarketMaker.new [scenario_underlying] [scenario_A_call]

/-- The state `m'` differs from `m` at most in what the hedge controller writes: the
price cache, the share positions, the hedge ledger, the target deltas, the last hedge
prices and the callback log. -/
def only_hedging_changed (m m' : MarketMaker) : Prop :=
  m' = { m with
    price_cache := m'.price_cache
    position :=
      { option_quantity_by_option_id := m.position.option_quantity_by_option_id
        underlying_quantity_by_underlying_id :=
          m'.position.underlying_quantity_by_underlying_id }
    target_deltas := m'.target_deltas
    hedge_pos := m'.hedge_pos
    last_hedge := m'.last_hedge
    callback_log := m'.callback_log }

/-- The engine after the given bid hits on one option, in order. -/
def bid_hits (m : MarketMaker) (option : OptionContract) (bid_prices : List ℚ) : MarketMaker :=
  bid_prices.foldl (fun m bid_price => on_bid_hit m option bid_price) m

/-- A run in which the valuation returns to an earlier level: a fresh engine on the
underlying of Scenario B (S=150) holding the CALL with K=150, n=5. -/
def stale_state_0 : MarketMaker :=
  MarketMaker.new [scenario_underlying] [scenario_B_call]

/-- The CALL is priced once at S=150 with n=5. -/
def stale_state_1 : MarketMaker :=
  (price_option stale_state_0 scenario_B_call).2

/-- First step: the underlying moves up to 152, the option has 4 steps left. -/
def stale_state_2 : MarketMaker :=
  on_step_advance stale_state_1 [{ scenario_underlying with valuation := 152 }]
    [scenario_B_call.advance_step]

/-- Second step: the underlying moves back down to 150, the option has 3 steps left. -/
def stale_state_3 : MarketMaker :=
  on_step_advance stale_state_2 [scenario_underlying]
    [scenario_B_call.advance_step.advance_step]

/-- An underlying with u=d=2, pu=pd=0.5 and id 0, at valuation `S`. -/
def kink_underlying (S : ℚ) : Underlying :=
  { name := "K", underlying_id := 0, valuation := S
    down_move_probability := 1 / 2, down_move_step := 2
    noise_std_dev := 0, up_move_probability := 1 / 2, up_move_step := 2 }

/-- A one-step CALL struck at 10: at S=8 its up node sits exactly on the strike. -/
def kink_call : OptionContract :=
  { option_id := 7, option_type := .CALL, steps_until_expiry := 1, strike := 10
    underlying_id := 0, underlying_name := "K" }

/-- A fresh engine on the underlying at S=8. -/
def kink_state_0 : MarketMaker :=
  MarketMaker.new [kink_underlying 8] [kink_call]

/-- The CALL is priced once at S=8. -/
def kink_state_1 : MarketMaker :=
  (price_option kink_state_0 kink_call).2

/-- A step advance whose underlying vector carries the id 0 twice, at 7.9 and at 8. -/
def kink_state_2 : MarketMaker :=
  on_step_advance kink_state_1 [kink_underlying (79 / 10), kink_underlying 8] [kink_call]

/-- An underlying vector the constructor and `on_step_advance` are meant to receive:
every record passed validation and no id occurs twice. -/
def well_formed_underlyings (us : List Underlying) : Prop :=
  (∀ u ∈ us, u.valid) ∧ (us.map (fun u => u.underlying_id)).Nodup

/-- Every cached price is non-negative and every underlying of the state has
non-negative probabilities. -/
def cache_inv (m : MarketMaker) : Prop :=
  (∀ u ∈ m.underlying_state, 0 ≤ u.up_move_probability ∧ 0 ≤ u.down_move_probability)
  ∧ (∀ entry ∈ m.price_cache, 0 ≤ entry.2.1)

/-- The invariant of runs on well-formed underlying vectors: `cache_inv`, pairwise
distinct underlying ids, and a last underlying price, where recorded for an underlying
of the state, equal to its valuation. -/
def pricing_inv (m : MarketMaker) : Prop :=
  cache_inv m
  ∧ (m.underlying_state.map (fun u => u.underlying_id)).Nodup
  ∧ (∀ u ∈ m.underlying_state, ∀ s,
      m.last_underlying_prices u.underlying_id = some s → s = u.valuation)

/-- The state `m'` differs from `m` at most in what a trade writes: the share
positions, the hedge ledger and the callback log. -/
def only_trading_changed (m m' : MarketMaker) : Prop :=
  m' = { m with
    position :=
      { option_quantity_by_option_id := m.position.option_quantity_by_option_id
        underlying_quantity_by_underlying_id :=
          m'.position.underlying_quantity_by_underlying_id }
    hedge_pos := m'.hedge_pos
    callback_log := m'.callback_log }

/-- The call is an `on_bid_hit` on the option with the given id. -/
def Action.is_bid_hit_on (id : ℤ) : Action → Bool
  | .on_bid_hit option _ => decide (option.option_id = id)
  | _ => false

/-- The call is an `on_offer_hit` on the option with the given id. -/
def Action.is_offer_hit_on (id : ℤ) : Action → Bool
  | .on_offer_hit option _ => decide (option.option_id = id)
  | _ => false

/-- A one-step CALL on underlying 0 with the given option id. -/
def crowd_option (id : ℕ) : OptionContract :=
  { option_id := (id : ℤ), option_type := .CALL, steps_until_expiry := 1, strike := 150
    underlying_id := 0, underlying_name := "A" }

/-- The `n` options with ids 0, ..., n-1. -/
def crowd_options (n : ℕ) : List OptionContract :=
  (List.range n).map crowd_option

/-- A fresh engine on the underlying of Scenario A holding `n` options. -/
def crowd_state_0 (n : ℕ) : MarketMaker :=
  MarketMaker.new [scenario_underlying] (crowd_options n)

/-- Every one of the `n` options is priced once. -/
def crowd_state_1 (n : ℕ) : MarketMaker :=
  run (crowd_state_0 n) ((crowd_options n).map Action.price_option)

/-- A step advance that keeps the same underlying and the same `n` options. -/
def crowd_state_2 (n : ℕ) : MarketMaker :=
  on_step_advance (crowd_state_1 n) [scenario_underlying] (crowd_options n)

/-- The sum of the quantities the callback accepted (returned normally) for `uid` in a
list of invocations. -/
def accepted_quantity (uid : ℤ) (log : List TradeRecord) : ℚ :=
  (log.map (fun r => if r.1 = uid ∧ r.2.2 = true then r.2.1 else 0)).sum

/-- The callback invocations made during the call `a` in state `m`: the records the
call appended to the log. -/
def Action.call_records (m : MarketMaker) (a : Action) : List TradeRecord :=
  (a.apply m).callback_log.drop m.callback_log.length

/-- The call is an `on_step_advance`: its hedge is the per-step rehedge. -/
def Action.is_step_advance : Action → Bool
  | .on_step_advance _ _ => true
  | _ => false

/-- The call appended `suffix` to the callback log, and the hedge ledger moved against
the accepted quantities: ledger' = ledger - accepted. -/
def post_trade_accounting (m m' : MarketMaker) : Prop :=
  ∃ suffix, m'.callback_log = m.callback_log ++ suffix
    ∧ ∀ uid, (m'.hedge_pos uid).getD 0 = (m.hedge_pos uid).getD 0 - accepted_quantity uid suffix

/-- The call appended `suffix` to the callback log, and the hedge ledger moved with the
accepted quantities: ledger' = ledger + accepted. -/
def rehedge_accounting (m m' : MarketMaker) : Prop :=
  ∃ suffix, m'.callback_log = m.callback_log ++ suffix
    ∧ ∀ uid, (m'.hedge_pos uid).getD 0 = (m.hedge_pos uid).getD 0 + accepted_quantity uid suffix

/-- What a call of `buy_underlying` or `sell_underlying` with signed quantity
`signed_quantity` leaves behind: the ledger is untouched, and either the call failed and
nothing was accepted, or it succeeded and exactly one accepted invocation was logged. -/
def trade_outcome (r : Except Error Unit × MarketMaker) (m : MarketMaker) (uid : ℤ)
    (signed_quantity : ℚ) : Prop :=
  r.2.hedge_pos = m.hedge_pos
  ∧ ((r.1.toBool = false
        ∧ ∃ suffix, r.2.callback_log = m.callback_log ++ suffix
            ∧ ∀ u, accepted_quantity u suffix = 0)
    ∨ (r.1.toBool = true
        ∧ r.2.callback_log = m.callback_log ++ [(uid, signed_quantity, true)]))

/-- An engine on Scenario A whose registered callback accepts every trade. -/
def hedge_state_0 : MarketMaker :=
  register_trade_underlying_callback scenario_A_engine (fun _ _ _ => true)

/-- A first bid hit on the CALL of Scenario A (delta 1/2). -/
def hedge_state_1 : MarketMaker :=
  on_bid_hit hedge_state_0 scenario_A_call 1

/-- A second bid hit on the same CALL. -/
def hedge_state_2 : MarketMaker :=
  on_bid_hit hedge_state_1 scenario_A_call 1

/-- The lattice price `L(x)` of `option` on `underlying` with its valuation replaced by
`x` (same step sizes and probabilities). -/
def lattice_price_at (option : OptionContract) (underlying : Underlying) (x : ℚ) : ℚ :=
  price_option_from_scratch option { underlying with valuation := x }

/-- The bump `b = min(1.0, 0.1*u)` of the finite differences. -/
def fd_bump (underlying : Underlying) : ℚ :=
  min 1 ((1 / 10) * underlying.up_move_step)

/-- The forward difference `(L(max(0, S+b)) - base)/b` at the valuation `S` of
`underlying`, taken from the base price `base`. -/
def fd_delta (option : OptionContract) (underlying : Underlying) (base : ℚ) : ℚ :=
  (lattice_price_at option underlying (max 0 (underlying.valuation + fd_bump underlying)) - base)
    / fd_bump underlying

/-- The central second difference `(L(max(0, S+b)) - 2*L(S) + L(max(0, S-b)))/b^2` at the
valuation `S` of `underlying`. -/
def fd_gamma (option : OptionContract) (underlying : Underlying) : ℚ :=
  (lattice_price_at option underlying (max 0 (underlying.valuation + fd_bump underlying))
      - 2 * lattice_price_at option underlying underlying.valuation
      + lattice_price_at option underlying (max 0 (underlying.valuation - fd_bump underlying)))
    / fd_bump underlying ^ 2

/-- The state in which `delta_hedge_post_trade` computes the net delta of the option's
underlying: after `get_greeks` and the update of `target_deltas` (lines 178-181). -/
def post_trade_state (m : MarketMaker) (option : OptionContract) (q : ℤ)
    (underlying : Underlying) : MarketMaker :=
  let g := get_greeks m option underlying
  { g.2 with
    target_deltas := Function.update g.2.target_deltas underlying.underlying_id
      (some ((g.2.target_deltas underlying.underlying_id).getD 0 + (q : ℚ) * g.1.2.1)) }

/-- The net delta `portfolio_delta(uid)` that `delta_hedge_post_trade` computes (line 183). -/
def post_trade_net (m : MarketMaker) (option : OptionContract) (q : ℤ)
    (underlying : Underlying) : ℚ :=
  (portfolio_delta (post_trade_state m option q underlying) underlying.underlying_id).1

/-- The state of `on_step_advance` at its call of `rehedge`: the new state vectors are
stored and the cache is pruned (lines 354-382). -/
def step_advance_entry (m : MarketMaker) (new_underlying_state : List Underlying)
    (new_option_state : List OptionContract) : MarketMaker :=
  { m with
    underlying_state := new_underlying_state
    active_option_state := new_option_state
    price_cache := prune_ceiling (prune_inactive m.price_cache new_option_state) }

/-- The state in which the loop of `rehedge`, run by `on_step_advance`, reaches the
underlying that follows the underlyings `pre` of the new state. -/
def rehedge_reaches (m : MarketMaker) (new_underlying_state : List Underlying)
    (new_option_state : List OptionContract) (pre : List Underlying) : MarketMaker :=
  rehedge (step_advance_entry m new_underlying_state new_option_state) pre

/-- Every invocation for `uid` in the list failed: the callback threw. -/
def all_failed_for (uid : ℤ) (records : List TradeRecord) : Prop :=
  ∀ r ∈ records, r.1 = uid → r.2.2 = false

/-- An engine on the underlying `K` at S=7.7 holding the one-step CALL struck at 10,
with a callback that accepts every trade. -/
def thin_state_0 : MarketMaker :=
  register_trade_underlying_callback
    (MarketMaker.new [kink_underlying (77 / 10)] [kink_call]) (fun _ _ _ => true)

/-- A step advance at the same valuation: it records the last price 7.7. -/
def thin_state_1 : MarketMaker :=
  on_step_advance thin_state_0 [kink_underlying (77 / 10)] [kink_call]

/-- A bid hit on the CALL, whose delta at S=7.7 is 0: no hedge trade is made. -/
def thin_state_2 : MarketMaker :=
  on_bid_hit thin_state_1 kink_call 0

/-- The underlying moves to S=7.819, where the delta of the CALL is 0.0475. -/
def thin_state_3 : MarketMaker :=
  on_step_advance thin_state_2 [kink_underlying (7819 / 1000)] [kink_call]

/-- The call appended `suffix` to the callback log, and the share position of every
underlying for which all the appended invocations failed is what it was. -/
def shares_kept_on_failure (m m' : MarketMaker) : Prop :=
  ∃ suffix, m'.callback_log = m.callback_log ++ suffix
    ∧ ∀ uid, all_failed_for uid suffix →
        m'.position.underlying_quantity_by_underlying_id uid
          = m.position.underlying_quantity_by_underlying_id uid

/-- An underlying with u=d=2, pu=pd=0.5 and the given id, at valuation `S`. -/
def pair_underlying (id : ℤ) (S : ℚ) : Underlying :=
  { name := "P", underlying_id := id, valuation := S
    down_move_probability := 1 / 2, down_move_step := 2
    noise_std_dev := 0, up_move_probability := 1 / 2, up_move_step := 2 }

/-- A one-step CALL struck at 10 on the underlying with the given id; its option id is
20 plus the underlying id. -/
def pair_call (id : ℤ) : OptionContract :=
  { option_id := 20 + id, option_type := .CALL, steps_until_expiry := 1, strike := 10
    underlying_id := id, underlying_name := "P" }

/-- An engine on two underlyings at S=7.9, holding one CALL on each, with a callback
that rejects every trade. -/
def pair_state_0 : MarketMaker :=
  register_trade_underlying_callback
    (MarketMaker.new [pair_underlying 0 (79 / 10), pair_underlying 1 (79 / 10)]
      [pair_call 0, pair_call 1])
    (fun _ _ _ => false)

/-- A step advance at the same valuations: it records the last prices 7.9. -/
def pair_state_1 : MarketMaker :=
  on_step_advance pair_state_0 [pair_underlying 0 (79 / 10), pair_underlying 1 (79 / 10)]
    [pair_call 0, pair_call 1]

/-- A bid hit on the first CALL (delta 1/4 at S=7.9): the hedge trade is rejected. -/
def pair_state_2 : MarketMaker :=
  on_bid_hit pair_state_1 (pair_call 0) 0

/-- A bid hit on the second CALL (delta 1/4 at S=7.9): the hedge trade is rejected. -/
def pair_state_3 : MarketMaker :=
  on_bid_hit pair_state_2 (pair_call 1) 0

/-- Both underlyings move to S=8, where the delta of each CALL is 1/2. -/
def pair_state_4 : MarketMaker :=
  on_step_advance pair_state_3 [pair_underlying 0 8, pair_underlying 1 8]
    [pair_call 0, pair_call 1]

/-- A one-step PUT struck at 3: on `low_underlying` (S=1, d=2) its down node is floored. -/
def floored_put : OptionContract :=
  { option_id := 7, option_type := .PUT, steps_until_expiry := 1, strike := 3
    underlying_id := 0, underlying_name := "L" }

/-- `MarketMaker::pump_it_up` with the validation of the `Underlying` constructor it
calls: the fields of `underlying`, with the valuation `max(0.0, valuation + bump)`. -/
def pump_it_up_checked (underlying : Underlying) (bump : ℚ) : Except Error Underlying :=
  Underlying.new underlying.name underlying.underlying_id
    (max 0 (underlying.valuation + bump))
    underlying.down_move_probability underlying.down_move_step
    underlying.noise_std_dev underlying.up_move_probability
    underlying.up_move_step

/-- `MarketMaker::calculate_delta`, propagating a failure of `pump_it_up`. -/
def calculate_delta_checked (option : OptionContract) (underlying : Underlying)
    (base_price : ℚ) : Except Error ℚ :=
  let bump_size := min 1 (underlying.up_move_step * (1 / 10))
  match pump_it_up_checked underlying bump_size with
  | .error e => .error e
  | .ok bumped_underlying =>
    let bumped := price_option_from_scratch option bumped_underlying
    .ok ((bumped - base_price) / bump_size)

/-- `MarketMaker::calculate_gamma`, propagating a failure of `pump_it_up`. -/
def calculate_gamma_checked (option : OptionContract) (underlying : Underlying) :
    Except Error ℚ :=
  let bump_size := min 1 (underlying.up_move_step * (1 / 10))
  let center := price_option_from_scratch option underlying
  match pump_it_up_checked underlying bump_size with
  | .error e => .error e
  | .ok up_u =>
    let up_price := price_option_from_scratch option up_u
    match pump_it_up_checked underlying (-bump_size) with
    | .error e => .error e
    | .ok down_u =>
      let down_price := price_option_from_scratch option down_u
      .ok ((up_price - 2 * center + down_price) / (bump_size * bump_size))

/-- `MarketMaker::get_greeks`, propagating a failure of `calculate_delta` or
`calculate_gamma` (raised before the cache is written). -/
def get_greeks_checked (m : MarketMaker) (option : OptionContract) (underlying : Underlying) :
    Except Error Greeks × MarketMaker :=
  let curr_price := underlying.valuation
  let key := cache_key_string option.option_id curr_price
  match cache_find m.price_cache key with
  | some greeks => (.ok greeks, m)
  | none =>
    let price := price_option_from_scratch option underlying
    match calculate_delta_checked option underlying price with
    | .error e => (.error e, m)
    | .ok delta =>
      match calculate_gamma_checked option underlying with
      | .error e => (.error e, m)
      | .ok gamma =>
        let greeks : Greeks := (price, delta, gamma)
        (.ok greeks, { m with price_cache := cache_emplace m.price_cache key greeks })

/-- One call of `buy_underlying` or of `sell_underlying`: which of the two, and its
arguments. -/
structure TradeCall where
  sell : Bool
  underlying_id : ℤ
  quantity : ℚ

/-- The outcome of the call in the state `m`. -/
def TradeCall.perform (c : TradeCall) (m : MarketMaker) : Except Error Unit × MarketMaker :=
  if c.sell = true then sell_underlying m c.underlying_id c.quantity
  else buy_underlying m c.underlying_id c.quantity

/-- The calls of `buy_underlying` and `sell_underlying` that `exec_delta_hedge` makes
(lines 192-201): none below `MIN_HEDGE`, else one with the quantity `std::abs(hedge_trade)`. -/
def exec_delta_hedge_calls (m : MarketMaker) (u_id : ℤ) (target : ℚ) : List TradeCall :=
  let current_hedge := (m.hedge_pos u_id).getD 0
  let hedge_trade := target - current_hedge
  if |hedge_trade| < MIN_HEDGE then []
  else if hedge_trade > 0 then
    [{ sell := true, underlying_id := u_id, quantity := |hedge_trade| }]
  else
    [{ sell := false, underlying_id := u_id, quantity := |hedge_trade| }]

/-- The calls of `buy_underlying` and `sell_underlying` that one iteration of the loop
of `rehedge` makes (lines 213-233). -/
def rehedge_step_calls (m : MarketMaker) (u : Underlying) : List TradeCall :=
  let u_id := u.underlying_id
  let cprice := u.valuation
  let lprice := match m.last_underlying_prices u_id with
    | some last => last
    | none => cprice
  let diff := cprice - lprice
  if |diff| < GAMMA_SCALP_TH then []
  else
    let net_delta := (portfolio_delta m u_id).1
    if |net_delta| > HEDGE_TH then
      let hedge_trade := net_delta
      if hedge_trade > 0 then
        [{ sell := false, underlying_id := u_id, quantity := |hedge_trade| }]
      else
        [{ sell := true, underlying_id := u_id, quantity := |hedge_trade| }]
    else []

/-- The calls of `buy_underlying` and `sell_underlying` that `rehedge` makes, in order. -/
def rehedge_calls : MarketMaker → List Underlying → List TradeCall
  | _, [] => []
  | m, u :: us => rehedge_step_calls m u ++ rehedge_calls (rehedge_step m u) us

/-- The `try` block shared by `exec_delta_hedge` and `rehedge`, with its trade given as
a list of calls: create the ledger entry, perform the call if there is one, and add
`hedge_trade` to the ledger unless the call failed. -/
def hedge_by_calls (m : MarketMaker) (u_id : ℤ) (hedge_trade : ℚ) (calls : List TradeCall) :
    MarketMaker :=
  let current_hedge := (m.hedge_pos u_id).getD 0
  let m := { m with hedge_pos := Function.update m.hedge_pos u_id (some current_hedge) }
  match calls with
  | [] => m
  | c :: _ =>
    match (c.perform m).1 with
    | .error _ => (c.perform m).2
    | .ok _ =>
      { (c.perform m).2 with
        hedge_pos :=
          Function.update (c.perform m).2.hedge_pos u_id (some (current_hedge + hedge_trade)) }

/-- The option part of the portfolio value in the words of the specification: for each
option of the list with a non-zero position, position × `price_option`.  The calls of
`price_option` are made in list order, each in the state the previous one left; the
result is the sum and the state after the last call. -/
def option_value_sum : MarketMaker → List OptionContract → ℚ × MarketMaker
  | m, [] => (0, m)
  | m, option :: rest =>
    let quantity : ℤ := (m.position.option_quantity_by_option_id option.option_id).getD 0
    if quantity ≠ 0 then
      let r := price_option m option
      let s := option_value_sum r.2 rest
      ((quantity : ℚ) * r.1 + s.1, s.2)
    else option_value_sum m rest

/-- The share part of the portfolio value in the words of the specification: for each
underlying of the list with a non-zero share position, shares × valuation. -/
def share_value_sum (position : Position) (underlyings : List Underlying) : ℚ :=
  (underlyings.map (fun u =>
    let shares : ℚ := (position.underlying_quantity_by_underlying_id u.underlying_id).getD 0
    if shares ≠ 0 then shares * u.valuation else 0)).sum

/-- The sum of position × delta over the active options on the underlying `u_id`, each
delta being the one `get_greeks` returns in the state `m`. -/
def position_delta_sum (m : MarketMaker) (u_id : ℤ) (underlying : Underlying) : ℚ :=
  (m.active_option_state.map (fun opt =>
    if opt.underlying_id = u_id then
      (((m.position.option_quantity_by_option_id opt.option_id).getD 0 : ℤ) : ℚ)
        * (get_greeks m opt underlying).1.2.1
    else 0)).sum

/-- The underlyings of the vector have pairwise distinct ids. -/
def distinct_underlying_ids (us : List Underlying) : Prop :=
  (us.map (fun u => u.underlying_id)).Nodup

/-- An entry-point call whose underlying vector, if it has one, has pairwise distinct
ids. -/
def Action.distinct_underlying_ids : Action → Prop
  | .on_step_advance us _ => MorningsideMM.distinct_underlying_ids us
  | _ => True

/-- For each underlying id present both in `last_underlying_prices` and in the engine
state, the recorded price is that underlying's current valuation. -/
def last_prices_current (m : MarketMaker) : Prop :=
  ∀ u ∈ m.underlying_state, ∀ s,
    m.last_underlying_prices u.underlying_id = some s → s = u.valuation

/-- The guards under which `price_option` reaches its Taylor extrapolation (lines 309-325):
the underlying is found, the option is not at expiry, the key of the current valuation is
not cached, a last price is recorded that differs from the valuation by less than 0.1*u,
and the key of the last price is cached. -/
def takes_taylor_branch (m : MarketMaker) (option : OptionContract) : Prop :=
  ∃ (underlying : Underlying) (last_price : ℚ) (old : Greeks),
    find_underlying m option.underlying_id = some underlying
    ∧ option.steps_until_expiry ≠ 0
    ∧ cache_find m.price_cache
        (cache_key_string option.option_id underlying.valuation) = none
    ∧ m.last_underlying_prices underlying.underlying_id = some last_price
    ∧ last_price ≠ underlying.valuation
    ∧ |underlying.valuation - last_price| < underlying.up_move_step * (1 / 10)
    ∧ cache_find m.price_cache (cache_key_string option.option_id last_price) = some old

/-- The states in which the entry-point call `a`, made in the state `m`, enters
`price_option`: the state `m` for a `price_option` call; for a `make_market` call, the
state before each iteration of the option loop of `portfolio_value`, and the state after
the risk check, in which quote construction prices the option.  The other entry points
do not call `price_option`. -/
def enters_price_option (m : MarketMaker) (a : Action) (s : MarketMaker) : Prop :=
  match a with
  | .price_option _ => s = m
  | .make_market _ =>
    (∃ pre post, m.active_option_state = pre ++ post
      ∧ s = (pre.foldl portfolio_value_option_step (m.pnl, m)).2)
    ∨ s = (check_risk_limit m).2
  | _ => False

/-- Beside the callback oracle: given the earlier invocations and the arguments, whether
the object a failing invocation throws is one that `catch (const std::exception&)` does
not catch. -/
abbrev ForeignThrow := List TradeRecord → ℤ → ℚ → Bool

/-- The call `trade_underlying_callback(underlying_id, quantity)` in the state `m` throws
an object that is not a `std::exception`.  (An empty `std::function` throws
`std::bad_function_call`, which is one.) -/
def throws_foreign (foreign : ForeignThrow) (m : MarketMaker) (underlying_id : ℤ)
    (quantity : ℚ) : Bool :=
  match m.trade_underlying_callback with
  | none => false
  | some callback =>
    !(callback m.callback_log underlying_id quantity)
      && foreign m.callback_log underlying_id quantity

/-- The call `buy_underlying(underlying_id, quantity)` throws an object that is not a
`std::exception`: the quantity is positive (a quantity `<= 0` gives `std::invalid_argument`
before the callback is invoked) and the callback throws such an object. -/
def buy_underlying_throws_foreign (foreign : ForeignThrow) (m : MarketMaker)
    (underlying_id : ℤ) (quantity : ℚ) : Bool :=
  if quantity ≤ 0 then false else throws_foreign foreign m underlying_id quantity

/-- The call `sell_underlying(underlying_id, quantity)` throws an object that is not a
`std::exception`; the callback is invoked with `-quantity`. -/
def sell_underlying_throws_foreign (foreign : ForeignThrow) (m : MarketMaker)
    (underlying_id : ℤ) (quantity : ℚ) : Bool :=
  if quantity ≤ 0 then false else throws_foreign foreign m underlying_id (-quantity)

/-- `MarketMaker::exec_delta_hedge` with the exceptions its `catch` clause lets through. -/
def exec_delta_hedge_exn (foreign : ForeignThrow) (m : MarketMaker) (u_id : ℤ) (target : ℚ) :
    Bool × MarketMaker :=
  let current_hedge := (m.hedge_pos u_id).getD 0
  let m := { m with hedge_pos := Function.update m.hedge_pos u_id (some current_hedge) }
  let hedge_trade := target - current_hedge
  if |hedge_trade| < MIN_HEDGE then (false, m)
  else
    let r := if hedge_trade > 0 then sell_underlying m u_id |hedge_trade|
             else buy_underlying m u_id |hedge_trade|
    let thrown := if hedge_trade > 0 then
                    sell_underlying_throws_foreign foreign m u_id |hedge_trade|
                  else buy_underlying_throws_foreign foreign m u_id |hedge_trade|
    match r.1 with
    | .error _ => (thrown, r.2)
    | .ok _ =>
      (false,
        { r.2 with
          hedge_pos := Function.update r.2.hedge_pos u_id (some (current_hedge + hedge_trade)) })

/-- `MarketMaker::delta_hedge_post_trade` with the exceptions that leave it. -/
def delta_hedge_post_trade_exn (foreign : ForeignThrow) (m : MarketMaker)
    (option : OptionContract) (q : ℤ) : Bool × MarketMaker :=
  match find_underlying m option.underlying_id with
  | none => (false, m)
  | some underlying =>
    let g := get_greeks m option underlying
    let delta := g.1.2.1
    let m := g.2
    let delta_exposure := (q : ℚ) * delta
    let target := (m.target_deltas underlying.underlying_id).getD 0 + delta_exposure
    let m := { m with
      target_deltas := Function.update m.target_deltas underlying.underlying_id (some target) }
    let d := portfolio_delta m underlying.underlying_id
    let net_delta := d.1
    let m := d.2
    if |net_delta| > HEDGE_TH then
      exec_delta_hedge_exn foreign m underlying.underlying_id net_delta
    else (false, m)

/-- `MarketMaker::on_bid_hit` with the exceptions that leave it. -/
def on_bid_hit_exn (foreign : ForeignThrow) (m : MarketMaker) (option : OptionContract)
    (bid_price : ℚ) : Bool × MarketMaker :=
  let m := { m with position := m.position.add_option_quantity option.option_id 1 }
  let m := { m with pnl := m.pnl + bid_price }
  delta_hedge_post_trade_exn foreign m option 1

/-- `MarketMaker::on_offer_hit` with the exceptions that leave it. -/
def on_offer_hit_exn (foreign : ForeignThrow) (m : MarketMaker) (option : OptionContract)
    (offer_price : ℚ) : Bool × MarketMaker :=
  let m := { m with position := m.position.add_option_quantity option.option_id (-1) }
  let m := { m with pnl := m.pnl - offer_price }
  delta_hedge_post_trade_exn foreign m option (-1)

/-- Lines 228-242 of `rehedge` (the trade inside its `try`) with the exceptions its
`catch` clause lets through. -/
def rehedge_trade_exn (foreign : ForeignThrow) (m : MarketMaker) (u_id : ℤ)
    (hedge_trade : ℚ) : Bool × MarketMaker :=
  let current_hedge := (m.hedge_pos u_id).getD 0
  let m := { m with hedge_pos := Function.update m.hedge_pos u_id (some current_hedge) }
  let r := if hedge_trade > 0 then buy_underlying m u_id |hedge_trade|
           else sell_underlying m u_id |hedge_trade|
  let thrown := if hedge_trade > 0 then
                  buy_underlying_throws_foreign foreign m u_id |hedge_trade|
                else sell_underlying_throws_foreign foreign m u_id |hedge_trade|
  match r.1 with
  | .error _ => (thrown, r.2)
  | .ok _ =>
    (false,
      { r.2 with
        hedge_pos := Function.update r.2.hedge_pos u_id (some (current_hedge + hedge_trade)) })

/-- The body of the loop of `rehedge` with the exceptions that leave it: an exception
leaves before `last_hedge[u_id] = cprice`. -/
def rehedge_step_exn (foreign : ForeignThrow) (m : MarketMaker) (u : Underlying) :
    Bool × MarketMaker :=
  let u_id := u.underlying_id
  let cprice := u.valuation
  let lprice := match m.last_underlying_prices u_id with
    | some last => last
    | none => cprice
  let diff := cprice - lprice
  if |diff| < GAMMA_SCALP_TH then (false, m)
  else
    let d := portfolio_delta m u_id
    let net_delta := d.1
    let m := d.2
    let r := if |net_delta| > HEDGE_TH then rehedge_trade_exn foreign m u_id net_delta
             else (false, m)
    if r.1 = true then (true, r.2)
    else (false, { r.2 with last_hedge := Function.update r.2.last_hedge u_id (some cprice) })

/-- `MarketMaker::rehedge` with the exceptions that leave it: the loop ends at the first
one. -/
def rehedge_exn (foreign : ForeignThrow) : MarketMaker → List Underlying → Bool × MarketMaker
  | m, [] => (false, m)
  | m, u :: us =>
    let r := rehedge_step_exn foreign m u
    if r.1 = true then (true, r.2) else rehedge_exn foreign r.2 us

/-- `MarketMaker::on_step_advance` with the exceptions that leave it: an exception
leaving `rehedge` skips the refresh of `last_underlying_prices` (lines 386-388). -/
def on_step_advance_exn (foreign : ForeignThrow) (m : MarketMaker)
    (new_underlying_state : List Underlying) (new_option_state : List OptionContract) :
    Bool × MarketMaker :=
  let m := { m with
    underlying_state := new_underlying_state
    active_option_state := new_option_state }
  let m := { m with
    price_cache := prune_ceiling (prune_inactive m.price_cache m.active_option_state) }
  let r := rehedge_exn foreign m m.underlying_state
  if r.1 = true then (true, r.2)
  else
    (false,
      { r.2 with
        last_underlying_prices :=
          r.2.underlying_state.foldl refresh_last_price r.2.last_underlying_prices })

/-- One entry-point call: whether an exception left it, and the state it leaves. -/
def Action.apply_exn (foreign : ForeignThrow) (m : MarketMaker) : Action → Bool × MarketMaker
  | .make_market option => (false, (MorningsideMM.make_market m option).2)
  | .price_option option => (false, (MorningsideMM.price_option m option).2)
  | .on_bid_hit option bid_price => on_bid_hit_exn foreign m option bid_price
  | .on_offer_hit option offer_price => on_offer_hit_exn foreign m option offer_price
  | .on_step_advance us os => on_step_advance_exn foreign m us os
  | .register_callback callback => (false, register_trade_underlying_callback m callback)

/-- The state after a sequence of entry-point calls, each made on the engine as the
previous one left it, whether that one returned or threw. -/
def run_exn (foreign : ForeignThrow) (m : MarketMaker) (actions : List Action) : MarketMaker :=
  actions.foldl (fun m a => (a.apply_exn foreign m).2) m

/-- Every `on_step_advance` call of the run returns: none is left by an exception. -/
def step_advances_return (foreign : ForeignThrow) : MarketMaker → List Action → Prop
  | _, [] => True
  | m, a :: rest =>
    (a.is_step_advance = true → (a.apply_exn foreign m).1 = false)
    ∧ step_advances_return foreign (a.apply_exn foreign m).2 rest

/-- Whatever the earlier invocations and the arguments, the callback registered in `m`
returns or throws a `std::exception`. -/
def throws_only_std (foreign : ForeignThrow) (m : MarketMaker) : Prop :=
  ∀ (log : List TradeRecord) (underlying_id : ℤ) (quantity : ℚ),
    throws_foreign foreign { m with callback_log := log } underlying_id quantity = false

/-! ## A step advance left by an exception (two underlyings, distinct ids) -/

/-- An engine on two underlyings at S=8 with the one-step CALLs struck at 10 active, and a
callback that fails at every invocation. -/
def down_state_0 : MarketMaker :=
  register_trade_underlying_callback
    (MarketMaker.new [pair_underlying 0 8, pair_underlying 1 8] [pair_call 0, pair_call 1])
    (fun _ _ _ => false)

/-- A step advance at the same valuations: it records the last prices 8. -/
def down_state_1 : MarketMaker :=
  on_step_advance down_state_0 [pair_underlying 0 8, pair_underlying 1 8]
    [pair_call 0, pair_call 1]

/-- The second CALL is priced at S=8: its triple (0, 1/2, 5/2) is cached. -/
def down_state_2 : MarketMaker :=
  (price_option down_state_1 (pair_call 1)).2

/-- A bid hit on the first CALL (delta 1/2 at S=8): the hedge trade fails. -/
def down_state_3 : MarketMaker :=
  on_bid_hit down_state_2 (pair_call 0) 0

/-- Both underlyings move to S=7.9.  The purchase (0, 1/4) for the first underlying fails
with an object that is not a `std::exception`: the state `on_step_advance` is left in. -/
def down_state_4 : MarketMaker :=
  (on_step_advance_exn (fun _ _ _ => true) down_state_3
    [pair_underlying 0 (79 / 10), pair_underlying 1 (79 / 10)] [pair_call 0, pair_call 1]).2

/-- The calls that lead from construction to `down_state_4`. -/
def down_actions : List Action :=
  [Action.register_callback (fun _ _ _ => false),
    Action.on_step_advance [pair_underlying 0 8, pair_underlying 1 8]
      [pair_call 0, pair_call 1],
    Action.price_option (pair_call 1),
    Action.on_bid_hit (pair_call 0) 0,
    Action.on_step_advance [pair_underlying 0 (79 / 10), pair_underlying 1 (79 / 10)]
      [pair_call 0, pair_call 1]]

/-! # Theorems -/

/-! ## The lattice pricer as a binomial expectation -/

theorem lattice_value_zero (pu pd : ℚ) (f : ℕ → ℚ) (i0 : ℕ) :
    lattice_value pu pd f 0 i0 = f i0 := by
  simp [lattice_value]

theorem lattice_value_succ (pu pd : ℚ) (f : ℕ → ℚ) (k i0 : ℕ) :
    lattice_value pu pd f (k + 1) i0
      = pu * lattice_value pu pd f k (i0 + 1) + pd * lattice_value pu pd f k i0 := by
  unfold lattice_value
  rw [Finset.sum_range_succ' _ (k + 1)]
  have h1 : ∀ j ∈ Finset.range (k + 1),
      ((k + 1).choose (j + 1) : ℚ) * pu ^ (j + 1) * pd ^ (k + 1 - (j + 1)) * f (i0 + (j + 1))
        = pu * ((k.choose j : ℚ) * pu ^ j * pd ^ (k - j) * f (i0 + 1 + j))
          + (k.choose (j + 1) : ℚ) * pu ^ (j + 1) * pd ^ (k - j) * f (i0 + (j + 1)) := by
    intro j _
    have e : i0 + 1 + j = i0 + (j + 1) := by omega
    rw [Nat.choose_succ_succ, Nat.succ_sub_succ, e]
    push_cast
    ring
  rw [Finset.sum_congr rfl h1, Finset.sum_add_distrib, ← Finset.mul_sum]
  have h2 : (∑ j in Finset.range (k + 1),
        (k.choose (j + 1) : ℚ) * pu ^ (j + 1) * pd ^ (k - j) * f (i0 + (j + 1)))
        + ((k + 1).choose 0 : ℚ) * pu ^ 0 * pd ^ (k + 1 - 0) * f (i0 + 0)
      = pd * ∑ j in Finset.range (k + 1), (k.choose j : ℚ) * pu ^ j * pd ^ (k - j) * f (i0 + j) := by
    rw [Finset.mul_sum]
    have h3 : ∀ j ∈ Finset.range (k + 1),
        pd * ((k.choose j : ℚ) * pu ^ j * pd ^ (k - j) * f (i0 + j))
          = (k.choose j : ℚ) * pu ^ j * pd ^ (k + 1 - j) * f (i0 + j) := by
      intro j hj
      have hjk : j ≤ k := Nat.lt_succ_iff.mp (Finset.mem_range.mp hj)
      have e : k + 1 - j = (k - j) + 1 := by omega
      rw [e, pow_succ]
      ring
    rw [Finset.sum_congr rfl h3]
    have h4 : (∑ j in Finset.range (k + 1 + 1),
        (k.choose j : ℚ) * pu ^ j * pd ^ (k + 1 - j) * f (i0 + j))
        = ∑ j in Finset.range (k + 1), (k.choose j : ℚ) * pu ^ j * pd ^ (k + 1 - j) * f (i0 + j) := by
      rw [Finset.sum_range_succ _ (k + 1)]
      simp
    rw [← h4, Finset.sum_range_succ' _ (k + 1)]
    simp
  linarith [h2]

theorem getD_set (l : List ℚ) (j i : ℕ) (a : ℚ) :
    (l.set j a).getD i 0 = if i = j ∧ j < l.length then a else l.getD i 0 := by
  simp only [List.getD_eq_getElem?_getD, List.getElem?_set]
  by_cases h : j = i
  · subst h
    by_cases h2 : j < l.length
    · simp [h2]
    · simp [h2, List.getElem?_eq_none (not_lt.mp h2)]
  · have h' : ¬ i = j := fun e => h e.symm
    simp [h, h']

theorem lattice_sweep_succ (pu pd : ℚ) (t : List ℚ) (s : ℕ) :
    lattice_sweep pu pd t (s + 1)
      = (lattice_sweep pu pd t s).set s
          (pu * (lattice_sweep pu pd t s).getD (s + 1) 0 + pd * (lattice_sweep pu pd t s).getD s 0) := by
  simp [lattice_sweep, List.range_succ, List.foldl_append]

theorem lattice_sweep_length (pu pd : ℚ) (t : List ℚ) (s : ℕ) :
    (lattice_sweep pu pd t s).length = t.length := by
  induction s with
  | zero => simp [lattice_sweep]
  | succ s ih => rw [lattice_sweep_succ, List.length_set, ih]

theorem lattice_sweep_getD (pu pd : ℚ) (t : List ℚ) (s : ℕ) (hs : s ≤ t.length) (i : ℕ) :
    (lattice_sweep pu pd t s).getD i 0
      = if i < s then pu * t.getD (i + 1) 0 + pd * t.getD i 0 else t.getD i 0 := by
  induction s generalizing i with
  | zero => simp [lattice_sweep]
  | succ s ih =>
    have hs' : s ≤ t.length := Nat.le_of_succ_le hs
    have hlen : s < (lattice_sweep pu pd t s).length := by
      rw [lattice_sweep_length]; exact hs
    rw [lattice_sweep_succ, getD_set, ih hs' i, ih hs' (s + 1), ih hs' s]
    by_cases h1 : i = s
    · subst h1
      simp [hlen]
    · by_cases h2 : i < s
      · have h3 : i < s + 1 := Nat.lt_succ_of_lt h2
        simp [h1, h2, h3]
      · have h3 : ¬ i < s + 1 := by omega
        simp [h1, h2, h3]

theorem back_induction_head (pu pd : ℚ) (s : ℕ) :
    ∀ t : List ℚ, s < t.length →
      (back_induction pu pd s t).getD 0 0 = lattice_value pu pd (fun j => t.getD j 0) s 0 := by
  induction s with
  | zero =>
    intro t _
    simp [back_induction, lattice_value_zero]
  | succ s ih =>
    intro t ht
    have hlen : s < (lattice_sweep pu pd t (s + 1)).length := by
      rw [lattice_sweep_length]; omega
    rw [back_induction, ih _ hlen, lattice_value_succ]
    unfold lattice_value
    rw [Finset.mul_sum, Finset.mul_sum, ← Finset.sum_add_distrib]
    apply Finset.sum_congr rfl
    intro j hj
    have hj' : j < s + 1 := Finset.mem_range.mp hj
    have e : 0 + 1 + j = j + 1 := by omega
    beta_reduce
    rw [lattice_sweep_getD pu pd t (s + 1) (Nat.le_of_lt ht), e, Nat.zero_add, if_pos hj']
    ring

theorem price_option_from_scratch_eq_lattice_value (option : OptionContract)
    (underlying : Underlying) :
    price_option_from_scratch option underlying
      = lattice_value underlying.up_move_probability underlying.down_move_probability
          (terminal_payoff option underlying) option.steps_until_expiry 0 := by
  unfold price_option_from_scratch
  simp only []
  rw [back_induction_head _ _ _ _ (by simp)]
  unfold lattice_value
  apply Finset.sum_congr rfl
  intro j hj
  have hj' : j < option.steps_until_expiry + 1 := Finset.mem_range.mp hj
  simp [List.getD_eq_getElem?_getD, List.getElem?_range, hj']

theorem terminal_payoff_eq_spec (option : OptionContract) (underlying : Underlying) (i : ℕ)
    (hi : i ≤ option.steps_until_expiry) :
    terminal_payoff option underlying i
      = spec_payoff option
          (max 0 (underlying.valuation + (i : ℚ) * underlying.up_move_step
                    - ((option.steps_until_expiry : ℚ) - (i : ℚ)) * underlying.down_move_step)) := by
  unfold terminal_payoff spec_payoff
  simp only [Nat.cast_sub hi]
  cases h : option.option_type <;> simp [max_comm]

/-- C1: for every option (n >= 0 by typing) and every underlying, in particular every valid
one, `price_option_from_scratch` returns the undiscounted risk-neutral expectation
of the floored terminal payoff, sum over i = 0..n of
C(n,i) * pu^i * pd^(n-i) * payoff(max(0, S + i*u - (n-i)*d)); for Scenario A
(S=150, u=d=2, pu=pd=0.5, CALL, n=5, K=152) the value is 7/8. -/
theorem C1_price_from_scratch_is_expectation :
    (∀ (option : OptionContract) (underlying : Underlying),
      price_option_from_scratch option underlying
        = risk_neutral_expectation option underlying)
    ∧ price_option_from_scratch scenario_A_call scenario_underlying = 7 / 8 := by
  have key : ∀ (option : OptionContract) (underlying : Underlying),
      price_option_from_scratch option underlying
        = risk_neutral_expectation option underlying := by
    intro option underlying
    rw [price_option_from_scratch_eq_lattice_value]
    unfold lattice_value risk_neutral_expectation
    apply Finset.sum_congr rfl
    intro i hi
    have hi' : i ≤ option.steps_until_expiry :=
      Nat.lt_succ_iff.mp (Finset.mem_range.mp hi)
    rw [Nat.zero_add, terminal_payoff_eq_spec option underlying i hi']
  refine ⟨key, ?_⟩
  rw [key]
  norm_num [risk_neutral_expectation, spec_payoff, scenario_A_call, scenario_underlying,
    Finset.sum_range_succ, Nat.choose]

/-! ## Pricing at expiry -/

/-- C2: for every option with steps_until_expiry = 0 whose underlying is present in
engine state, `price_option` returns exactly the intrinsic payoff against the current
valuation S (max(0, S - K) for a CALL, max(0, K - S) for a PUT), whatever the price
cache holds, and leaves the cache (indeed the whole engine state) unchanged; in
Scenario C (K=100, S=150) this is 50 for the CALL and 0 for the PUT. -/
theorem C2_price_option_at_expiry_is_intrinsic :
    (∀ (m : MarketMaker) (option : OptionContract) (underlying : Underlying),
      option.steps_until_expiry = 0 →
      find_underlying m option.underlying_id = some underlying →
      price_option m option
        = (match option.option_type with
           | .CALL => max 0 (underlying.valuation - (option.strike : ℚ))
           | .PUT => max 0 ((option.strike : ℚ) - underlying.valuation), m))
    ∧ price_option scenario_C_engine scenario_C_call = (50, scenario_C_engine)
    ∧ price_option scenario_C_engine scenario_C_put = (0, scenario_C_engine) := by
  have key : ∀ (m : MarketMaker) (option : OptionContract) (underlying : Underlying),
      option.steps_until_expiry = 0 →
      find_underlying m option.underlying_id = some underlying →
      price_option m option
        = (match option.option_type with
           | .CALL => max 0 (underlying.valuation - (option.strike : ℚ))
           | .PUT => max 0 ((option.strike : ℚ) - underlying.valuation), m) := by
    intro m option underlying hn hu
    unfold price_option
    rw [hu]
    simp only [hn, if_true, OptionContract.expiry_valuation]
    cases h : option.option_type <;> simp
  have hfind : ∀ o : OptionContract, o.underlying_id = 0 →
      find_underlying scenario_C_engine o.underlying_id = some scenario_underlying := by
    intro o ho
    simp [find_underlying, scenario_C_engine, MarketMaker.new, scenario_underlying, ho]
  refine ⟨key, ?_, ?_⟩
  · rw [key scenario_C_engine scenario_C_call scenario_underlying rfl (hfind _ rfl)]
    norm_num [scenario_C_call, scenario_underlying]
  · rw [key scenario_C_engine scenario_C_put scenario_underlying rfl (hfind _ rfl)]
    norm_num [scenario_C_put, scenario_underlying]

/-- Witness for C2: the theorem applied to the CALL of Scenario C. -/
theorem C2_price_option_at_expiry_is_intrinsic_witness :
    scenario_C_call.steps_until_expiry = 0
    ∧ find_underlying scenario_C_engine scenario_C_call.underlying_id = some scenario_underlying
    ∧ price_option scenario_C_engine scenario_C_call
        = (max 0 (scenario_underlying.valuation - (scenario_C_call.strike : ℚ)),
            scenario_C_engine) :=
  ⟨rfl, by simp [find_underlying, scenario_C_engine, MarketMaker.new, scenario_underlying,
      scenario_C_call],
    C2_price_option_at_expiry_is_intrinsic.1 scenario_C_engine scenario_C_call
      scenario_underlying rfl
      (by simp [find_underlying, scenario_C_engine, MarketMaker.new, scenario_underlying,
        scenario_C_call])⟩

/-! ## Validity of underlyings and algebra of the lattice -/

theorem valid_iff (u : Underlying) :
    u.valid ↔ 0 < u.down_move_step ∧ 0 < u.up_move_step
      ∧ 0 < u.down_move_probability ∧ 0 < u.up_move_probability
      ∧ |u.down_move_probability + u.up_move_probability - 1| ≤ 1 / 1000000000
      ∧ |u.down_move_probability * u.down_move_step
          - u.up_move_probability * u.up_move_step| ≤ 1 / 100000 := by
  unfold Underlying.valid Underlying.validate_parameters
  constructor
  · intro h
    split_ifs at h with h1 h2 h3 h4
    · simp [Except.toBool] at h
    · simp [Except.toBool] at h
    · simp [Except.toBool] at h
    · simp [Except.toBool] at h
    · push_neg at h1 h2 h3 h4
      exact ⟨h1.1, h1.2, h2.1, h2.2, h3, h4⟩
  · rintro ⟨h1, h2, h3, h4, h5, h6⟩
    have n1 : ¬ (u.down_move_step ≤ 0 ∨ u.up_move_step ≤ 0) := by
      push_neg; exact ⟨h1, h2⟩
    have n2 : ¬ (u.down_move_probability ≤ 0 ∨ u.up_move_probability ≤ 0) := by
      push_neg; exact ⟨h3, h4⟩
    rw [if_neg n1, if_neg n2, if_neg (not_lt.mpr h5), if_neg (not_lt.mpr h6)]
    rfl

theorem lattice_value_mono (pu pd : ℚ) (hpu : 0 ≤ pu) (hpd : 0 ≤ pd) (f g : ℕ → ℚ) (k i0 : ℕ)
    (hfg : ∀ j, j ≤ k → f (i0 + j) ≤ g (i0 + j)) :
    lattice_value pu pd f k i0 ≤ lattice_value pu pd g k i0 := by
  unfold lattice_value
  apply Finset.sum_le_sum
  intro j hj
  have hj' : j ≤ k := Nat.lt_succ_iff.mp (Finset.mem_range.mp hj)
  apply mul_le_mul_of_nonneg_left (hfg j hj')
  positivity

theorem lattice_value_nonneg (pu pd : ℚ) (hpu : 0 ≤ pu) (hpd : 0 ≤ pd) (f : ℕ → ℚ) (k i0 : ℕ)
    (hf : ∀ j, j ≤ k → 0 ≤ f (i0 + j)) :
    0 ≤ lattice_value pu pd f k i0 := by
  unfold lattice_value
  apply Finset.sum_nonneg
  intro j hj
  have hj' : j ≤ k := Nat.lt_succ_iff.mp (Finset.mem_range.mp hj)
  have := hf j hj'
  positivity

theorem lattice_value_congr (pu pd : ℚ) (f g : ℕ → ℚ) (k i0 : ℕ)
    (hfg : ∀ j, j ≤ k → f (i0 + j) = g (i0 + j)) :
    lattice_value pu pd f k i0 = lattice_value pu pd g k i0 := by
  unfold lattice_value
  apply Finset.sum_congr rfl
  intro j hj
  rw [hfg j (Nat.lt_succ_iff.mp (Finset.mem_range.mp hj))]

theorem lattice_value_sub (pu pd : ℚ) (f g : ℕ → ℚ) (k i0 : ℕ) :
    lattice_value pu pd f k i0 - lattice_value pu pd g k i0
      = lattice_value pu pd (fun j => f j - g j) k i0 := by
  unfold lattice_value
  rw [← Finset.sum_sub_distrib]
  apply Finset.sum_congr rfl
  intro j _
  ring

theorem lattice_value_affine (pu pd : ℚ) (h : pu + pd = 1) (c b : ℚ) (k : ℕ) :
    ∀ i0 : ℕ, lattice_value pu pd (fun j => c + b * (j : ℚ)) k i0
      = c + b * (i0 : ℚ) + (k : ℚ) * b * pu := by
  induction k with
  | zero => intro i0; simp [lattice_value_zero]
  | succ k ih =>
    intro i0
    have hpd : pd = 1 - pu := by linarith
    rw [lattice_value_succ, ih, ih, hpd]
    push_cast
    ring

theorem terminal_payoff_nonneg (option : OptionContract) (underlying : Underlying) (i : ℕ) :
    0 ≤ terminal_payoff option underlying i := by
  unfold terminal_payoff
  simp only []
  split_ifs <;> exact le_max_right _ _

/-- Without flooring, CALL payoff minus PUT payoff at node `i` is `S_i - K`. -/
theorem terminal_payoff_call_sub_put (call put : OptionContract) (underlying : Underlying)
    (hc : call.option_type = OptionType.CALL) (hp : put.option_type = OptionType.PUT)
    (hk : put.strike = call.strike) (hn : put.steps_until_expiry = call.steps_until_expiry)
    (hu : 0 ≤ underlying.up_move_step) (hd : 0 ≤ underlying.down_move_step)
    (hfloor : 0 ≤ underlying.valuation
      - (call.steps_until_expiry : ℚ) * underlying.down_move_step)
    (i : ℕ) (hi : i ≤ call.steps_until_expiry) :
    terminal_payoff call underlying i - terminal_payoff put underlying i
      = (underlying.valuation - (call.steps_until_expiry : ℚ) * underlying.down_move_step
          - (call.strike : ℚ))
        + (underlying.up_move_step + underlying.down_move_step) * (i : ℚ) := by
  unfold terminal_payoff
  simp only [hc, hp, hk, hn, if_true, Nat.cast_sub hi]
  have hi' : (i : ℚ) ≤ (call.steps_until_expiry : ℚ) := by exact_mod_cast hi
  have hi0 : (0 : ℚ) ≤ (i : ℚ) := by positivity
  have ht : 0 ≤ underlying.valuation + (i : ℚ) * underlying.up_move_step
      - ((call.steps_until_expiry : ℚ) - (i : ℚ)) * underlying.down_move_step := by
    nlinarith [mul_nonneg hi0 hu, mul_nonneg hi0 hd]
  rw [max_eq_left ht]
  simp only [reduceCtorEq, if_false]
  rcases le_total ((call.strike : ℚ)) (underlying.valuation + (i : ℚ) * underlying.up_move_step
      - ((call.steps_until_expiry : ℚ) - (i : ℚ)) * underlying.down_move_step) with h | h
  · rw [max_eq_left (by linarith), max_eq_right (by linarith)]
    ring
  · rw [max_eq_right (by linarith), max_eq_left (by linarith)]
    ring

/-- Put-call parity of the lattice when no terminal node is floored. -/
theorem lattice_put_call_parity (call put : OptionContract) (underlying : Underlying)
    (hc : call.option_type = OptionType.CALL) (hp : put.option_type = OptionType.PUT)
    (hk : put.strike = call.strike) (hn : put.steps_until_expiry = call.steps_until_expiry)
    (hu : 0 ≤ underlying.up_move_step) (hd : 0 ≤ underlying.down_move_step)
    (hsum : underlying.up_move_probability + underlying.down_move_probability = 1)
    (hdrift : underlying.up_move_probability * underlying.up_move_step
      = underlying.down_move_probability * underlying.down_move_step)
    (hfloor : 0 ≤ underlying.valuation
      - (call.steps_until_expiry : ℚ) * underlying.down_move_step) :
    price_option_from_scratch call underlying - price_option_from_scratch put underlying
      = underlying.valuation - (call.strike : ℚ) := by
  rw [price_option_from_scratch_eq_lattice_value, price_option_from_scratch_eq_lattice_value,
    hn, lattice_value_sub]
  rw [lattice_value_congr _ _ _
    (fun j => (underlying.valuation
        - (call.steps_until_expiry : ℚ) * underlying.down_move_step - (call.strike : ℚ))
      + (underlying.up_move_step + underlying.down_move_step) * (j : ℚ)) _ _
    (fun j hj => by
      rw [Nat.zero_add]
      exact terminal_payoff_call_sub_put call put underlying hc hp hk hn hu hd hfloor j hj)]
  rw [lattice_value_affine _ _ hsum]
  have hpd : underlying.down_move_probability = 1 - underlying.up_move_probability := by
    linarith
  rw [hpd] at hdrift
  push_cast
  linear_combination (call.steps_until_expiry : ℚ) * hdrift

/-! ## Put-call relations and monotonicity -/

theorem put_eq_call_iff_false : (OptionType.PUT = OptionType.CALL) ↔ False := by
  constructor
  · intro h; cases h
  · intro h; exact h.elim

theorem scenario_underlying_valid : scenario_underlying.valid := by
  rw [valid_iff]
  norm_num [scenario_underlying, abs_of_nonneg]

theorem low_underlying_valid : low_underlying.valid := by
  rw [valid_iff]
  norm_num [low_underlying, abs_of_nonneg]

/-- C5 (as stated) fails: with S = K = 1, u = d = 2, pu = pd = 0.5 and n = 1 the down
node is floored at 0, the CALL is worth 1 and the PUT only 1/2. -/
theorem C5_counterexample :
    low_underlying.valid
    ∧ low_call.option_type = OptionType.CALL ∧ low_put.option_type = OptionType.PUT
    ∧ 1 ≤ low_call.steps_until_expiry
    ∧ low_put.steps_until_expiry = low_call.steps_until_expiry
    ∧ low_put.strike = low_call.strike
    ∧ low_underlying.valuation = (low_call.strike : ℚ)
    ∧ low_underlying.up_move_step = low_underlying.down_move_step
    ∧ low_underlying.up_move_probability = 1 / 2
    ∧ low_underlying.down_move_probability = 1 / 2
    ∧ price_option_from_scratch low_call low_underlying = 1
    ∧ price_option_from_scratch low_put low_underlying = 1 / 2
    ∧ price_option_from_scratch low_call low_underlying
        ≠ price_option_from_scratch low_put low_underlying := by
  have hc : price_option_from_scratch low_call low_underlying = 1 := by
    norm_num [price_option_from_scratch, back_induction, lattice_sweep, terminal_payoff,
      low_call, low_underlying, List.range_succ]
  have hp : price_option_from_scratch low_put low_underlying = 1 / 2 := by
    norm_num [price_option_from_scratch, back_induction, lattice_sweep, terminal_payoff,
      low_put, low_underlying, List.range_succ, put_eq_call_iff_false]
  refine ⟨low_underlying_valid, rfl, rfl, by decide, rfl, rfl, ?_, rfl, rfl, rfl, hc, hp, ?_⟩
  · norm_num [low_underlying, low_call]
  · rw [hc, hp]; norm_num

/-- C5 (amended): for every CALL with n >= 1 and strike K, and every valid underlying
with S = K, u = d and pu = pd = 0.5, the lattice price of the CALL is strictly
positive; and when no terminal node is floored (K - n*d >= 0) it equals the lattice
price of the PUT with the same K and n. -/
theorem C5_at_the_money_symmetry (call put : OptionContract) (underlying : Underlying)
    (hv : underlying.valid)
    (hc : call.option_type = OptionType.CALL) (hp : put.option_type = OptionType.PUT)
    (hk : put.strike = call.strike) (hn : put.steps_until_expiry = call.steps_until_expiry)
    (hn1 : 1 ≤ call.steps_until_expiry)
    (hS : underlying.valuation = (call.strike : ℚ))
    (hud : underlying.up_move_step = underlying.down_move_step)
    (hpu : underlying.up_move_probability = 1 / 2)
    (hpd : underlying.down_move_probability = 1 / 2) :
    0 < price_option_from_scratch call underlying
    ∧ (0 ≤ (call.strike : ℚ) - (call.steps_until_expiry : ℚ) * underlying.down_move_step →
        price_option_from_scratch call underlying
          = price_option_from_scratch put underlying) := by
  obtain ⟨hd0, hu0, -, -, -, -⟩ := (valid_iff underlying).mp hv
  constructor
  · rw [price_option_from_scratch_eq_lattice_value]
    unfold lattice_value
    have hmem : call.steps_until_expiry ∈ Finset.range (call.steps_until_expiry + 1) :=
      Finset.mem_range.mpr (Nat.lt_succ_self _)
    apply Finset.sum_pos'
    · intro j _
      have := terminal_payoff_nonneg call underlying (0 + j)
      rw [hpu, hpd]
      positivity
    · refine ⟨call.steps_until_expiry, hmem, ?_⟩
      have hn0 : (0 : ℚ) < (call.steps_until_expiry : ℚ) := by exact_mod_cast hn1
      have hpay : 0 < terminal_payoff call underlying (0 + call.steps_until_expiry) := by
        unfold terminal_payoff
        simp only [hc, if_true, Nat.zero_add, Nat.sub_self, Nat.cast_zero, zero_mul, sub_zero, hS]
        have hnu : 0 < (call.steps_until_expiry : ℚ) * underlying.up_move_step :=
          mul_pos hn0 hu0
        rcases le_total 0 ((call.strike : ℚ)
            + (call.steps_until_expiry : ℚ) * underlying.up_move_step) with h | h
        · rw [max_eq_left h]
          exact lt_max_of_lt_left (by linarith)
        · rw [max_eq_right h]
          exact lt_max_of_lt_left (by linarith)
      rw [hpu, hpd]
      simp only [Nat.choose_self, Nat.cast_one, Nat.sub_self, pow_zero, mul_one, one_mul]
      positivity
  · intro hfloor
    have := lattice_put_call_parity call put underlying hc hp hk hn (le_of_lt hu0)
      (le_of_lt hd0) (by rw [hpu, hpd]; norm_num) (by rw [hpu, hpd, hud])
      (by rw [hS]; exact hfloor)
    rw [hS] at this
    linarith

/-- Witness for C5 (amended): Scenario B, where S = K = 150 and 150 - 5*2 >= 0. -/
theorem C5_at_the_money_symmetry_witness :
    0 < price_option_from_scratch scenario_B_call scenario_underlying
    ∧ price_option_from_scratch scenario_B_call scenario_underlying
        = price_option_from_scratch scenario_B_put scenario_underlying :=
  have h := C5_at_the_money_symmetry scenario_B_call scenario_B_put scenario_underlying
    scenario_underlying_valid rfl rfl rfl rfl (by decide)
    (by norm_num [scenario_underlying, scenario_B_call]) rfl rfl rfl
  ⟨h.1, h.2 (by norm_num [scenario_underlying, scenario_B_call])⟩

/-- C6: for every valid underlying with pu + pd = 1 and pu*u = pd*d exactly, and every
n and K with S - n*d >= 0 (no terminal node floored), the lattice price of the CALL
minus that of the PUT with the same K and n is S - K; in particular they are equal
when S = K, and in Scenario B (S=150, K=150, n=5, u=d=2, pu=pd=0.5) both are 15/8. -/
theorem C6_put_call_parity_without_flooring :
    (∀ (call put : OptionContract) (underlying : Underlying),
      underlying.valid →
      call.option_type = OptionType.CALL → put.option_type = OptionType.PUT →
      put.strike = call.strike → put.steps_until_expiry = call.steps_until_expiry →
      underlying.up_move_probability + underlying.down_move_probability = 1 →
      underlying.up_move_probability * underlying.up_move_step
        = underlying.down_move_probability * underlying.down_move_step →
      0 ≤ underlying.valuation
        - (call.steps_until_expiry : ℚ) * underlying.down_move_step →
      (price_option_from_scratch call underlying - price_option_from_scratch put underlying
          = underlying.valuation - (call.strike : ℚ))
      ∧ (underlying.valuation = (call.strike : ℚ) →
          price_option_from_scratch call underlying
            = price_option_from_scratch put underlying))
    ∧ price_option_from_scratch scenario_B_call scenario_underlying = 15 / 8
    ∧ price_option_from_scratch scenario_B_put scenario_underlying = 15 / 8 := by
  refine ⟨?_, ?_, ?_⟩
  · intro call put underlying hv hc hp hk hn hsum hdrift hfloor
    obtain ⟨hd0, hu0, -, -, -, -⟩ := (valid_iff underlying).mp hv
    have h := lattice_put_call_parity call put underlying hc hp hk hn (le_of_lt hu0)
      (le_of_lt hd0) hsum hdrift hfloor
    exact ⟨h, fun hS => by rw [hS] at h; linarith⟩
  · norm_num [price_option_from_scratch, back_induction, lattice_sweep, terminal_payoff,
      scenario_B_call, scenario_underlying, List.range_succ]
  · norm_num [price_option_from_scratch, back_induction, lattice_sweep, terminal_payoff,
      scenario_B_put, scenario_underlying, List.range_succ, put_eq_call_iff_false]

/-- Witness for C6: the parity statement applied to Scenario B. -/
theorem C6_put_call_parity_without_flooring_witness :
    (price_option_from_scratch scenario_B_call scenario_underlying
        - price_option_from_scratch scenario_B_put scenario_underlying
      = scenario_underlying.valuation - (scenario_B_call.strike : ℚ))
    ∧ price_option_from_scratch scenario_B_call scenario_underlying
        = price_option_from_scratch scenario_B_put scenario_underlying :=
  have h := C6_put_call_parity_without_flooring.1 scenario_B_call scenario_B_put
    scenario_underlying scenario_underlying_valid rfl rfl rfl rfl
    (by norm_num [scenario_underlying]) (by norm_num [scenario_underlying])
    (by norm_num [scenario_underlying, scenario_B_call])
  ⟨h.1, h.2 (by norm_num [scenario_underlying, scenario_B_call])⟩

theorem terminal_payoff_mono_call (option : OptionContract) (u1 u2 : Underlying)
    (hc : option.option_type = OptionType.CALL)
    (hu : u2.up_move_step = u1.up_move_step) (hd : u2.down_move_step = u1.down_move_step)
    (hS : u1.valuation ≤ u2.valuation) (i : ℕ) :
    terminal_payoff option u1 i ≤ terminal_payoff option u2 i := by
  unfold terminal_payoff
  simp only [hc, if_true, hu, hd]
  apply max_le_max _ (le_refl _)
  apply sub_le_sub_right
  apply max_le_max _ (le_refl _)
  linarith

theorem terminal_payoff_anti_put (option : OptionContract) (u1 u2 : Underlying)
    (hp : option.option_type = OptionType.PUT)
    (hu : u2.up_move_step = u1.up_move_step) (hd : u2.down_move_step = u1.down_move_step)
    (hS : u1.valuation ≤ u2.valuation) (i : ℕ) :
    terminal_payoff option u2 i ≤ terminal_payoff option u1 i := by
  unfold terminal_payoff
  simp only [hp, reduceCtorEq, if_false, hu, hd]
  apply max_le_max _ (le_refl _)
  apply sub_le_sub_left
  apply max_le_max _ (le_refl _)
  linarith

/-- C7: for every option and every two valid underlyings that differ only in valuation,
with S1 <= S2, the lattice price of a CALL at S1 is at most its price at S2 and the
lattice price of a PUT at S1 is at least its price at S2. -/
theorem C7_price_monotone_in_underlying (option : OptionContract) (u1 u2 : Underlying)
    (hv1 : u1.valid) (_hv2 : u2.valid)
    (hdiff : u2 = { u1 with valuation := u2.valuation })
    (hS : u1.valuation ≤ u2.valuation) :
    (option.option_type = OptionType.CALL →
      price_option_from_scratch option u1 ≤ price_option_from_scratch option u2)
    ∧ (option.option_type = OptionType.PUT →
      price_option_from_scratch option u2 ≤ price_option_from_scratch option u1) := by
  obtain ⟨-, -, hpd, hpu, -, -⟩ := (valid_iff u1).mp hv1
  have e1 : u2.up_move_step = u1.up_move_step := by rw [hdiff]
  have e2 : u2.down_move_step = u1.down_move_step := by rw [hdiff]
  have e3 : u2.up_move_probability = u1.up_move_probability := by rw [hdiff]
  have e4 : u2.down_move_probability = u1.down_move_probability := by rw [hdiff]
  rw [price_option_from_scratch_eq_lattice_value, price_option_from_scratch_eq_lattice_value,
    e3, e4]
  constructor
  · intro hc
    exact lattice_value_mono _ _ (le_of_lt hpu) (le_of_lt hpd) _ _ _ _
      (fun j _ => terminal_payoff_mono_call option u1 u2 hc e1 e2 hS _)
  · intro hp
    exact lattice_value_mono _ _ (le_of_lt hpu) (le_of_lt hpd) _ _ _ _
      (fun j _ => terminal_payoff_anti_put option u1 u2 hp e1 e2 hS _)

/-- Witness for C7: Scenario B priced at S=1 and at S=150. -/
theorem C7_price_monotone_in_underlying_witness :
    price_option_from_scratch scenario_B_call { scenario_underlying with valuation := 1 }
      ≤ price_option_from_scratch scenario_B_call scenario_underlying
    ∧ price_option_from_scratch scenario_B_put scenario_underlying
      ≤ price_option_from_scratch scenario_B_put { scenario_underlying with valuation := 1 } :=
  ⟨(C7_price_monotone_in_underlying scenario_B_call
      { scenario_underlying with valuation := 1 } scenario_underlying
      (by rw [valid_iff]; norm_num [scenario_underlying, abs_of_nonneg])
      scenario_underlying_valid rfl (by norm_num [scenario_underlying])).1 rfl,
   (C7_price_monotone_in_underlying scenario_B_put
      { scenario_underlying with valuation := 1 } scenario_underlying
      (by rw [valid_iff]; norm_num [scenario_underlying, abs_of_nonneg])
      scenario_underlying_valid rfl (by norm_num [scenario_underlying])).2 rfl⟩

/-! ## Frame properties of pricing and quoting -/

theorem only_cache_changed_refl (m : MarketMaker) : only_cache_changed m m := rfl

theorem only_cache_changed_trans {m m' m'' : MarketMaker} (h1 : only_cache_changed m m')
    (h2 : only_cache_changed m' m'') : only_cache_changed m m'' := by
  unfold only_cache_changed at *
  rw [h2, h1]

theorem only_pricing_changed_refl (m : MarketMaker) : only_pricing_changed m m := rfl

theorem only_pricing_changed_trans {m m' m'' : MarketMaker} (h1 : only_pricing_changed m m')
    (h2 : only_pricing_changed m' m'') : only_pricing_changed m m'' := by
  unfold only_pricing_changed at *
  rw [h2, h1]

theorem only_cache_changed.to_pricing {m m' : MarketMaker} (h : only_cache_changed m m') :
    only_pricing_changed m m' := by
  unfold only_cache_changed at h
  unfold only_pricing_changed
  rw [h]

theorem only_quoting_changed_refl (m : MarketMaker) : only_quoting_changed m m := rfl

theorem only_quoting_changed_trans {m m' m'' : MarketMaker} (h1 : only_quoting_changed m m')
    (h2 : only_quoting_changed m' m'') : only_quoting_changed m m'' := by
  unfold only_quoting_changed at *
  rw [h2, h1]

theorem only_pricing_changed.to_quoting {m m' : MarketMaker} (h : only_pricing_changed m m') :
    only_quoting_changed m m' := by
  unfold only_pricing_changed at h
  unfold only_quoting_changed
  rw [h]

theorem get_greeks_frame (m : MarketMaker) (option : OptionContract) (underlying : Underlying) :
    only_cache_changed m (get_greeks m option underlying).2 := by
  unfold get_greeks
  simp only []
  split
  · exact only_cache_changed_refl m
  · rfl

theorem price_option_frame (m : MarketMaker) (option : OptionContract) :
    only_pricing_changed m (price_option m option).2 := by
  unfold price_option
  split
  · exact only_pricing_changed_refl m
  · split_ifs
    · exact only_pricing_changed_refl m
    · simp only []
      split
      · exact only_pricing_changed_refl m
      · split
        · rfl
        · split_ifs
          · split
            · rfl
            · rfl
          · rfl

theorem foldl_frame {α β : Type} (R : MarketMaker → MarketMaker → Prop)
    (hrefl : ∀ m, R m m) (htrans : ∀ {a b c}, R a b → R b c → R a c)
    (step : β × MarketMaker → α → β × MarketMaker)
    (hstep : ∀ acc x, R acc.2 (step acc x).2) (l : List α) :
    ∀ acc : β × MarketMaker, R acc.2 (l.foldl step acc).2 := by
  induction l with
  | nil => intro acc; exact hrefl _
  | cons x xs ih =>
    intro acc
    rw [List.foldl_cons]
    exact htrans (hstep acc x) (ih _)

theorem portfolio_value_option_step_frame (acc : ℚ × MarketMaker) (option : OptionContract) :
    only_pricing_changed acc.2 (portfolio_value_option_step acc option).2 := by
  unfold portfolio_value_option_step
  split
  · exact only_pricing_changed_refl _
  · split_ifs
    · exact price_option_frame _ _
    · exact only_pricing_changed_refl _

theorem portfolio_value_frame (m : MarketMaker) :
    only_pricing_changed m (portfolio_value m).2 := by
  unfold portfolio_value
  exact foldl_frame only_pricing_changed only_pricing_changed_refl
    only_pricing_changed_trans _ portfolio_value_option_step_frame _ (m.pnl, m)

theorem check_risk_limit_frame (m : MarketMaker) :
    only_quoting_changed m (check_risk_limit m).2 := by
  have h := (portfolio_value_frame m).to_quoting
  unfold check_risk_limit
  simp only []
  split_ifs
  · exact only_quoting_changed_trans h rfl
  · exact only_quoting_changed_trans h rfl
  · exact h

theorem portfolio_delta_step_frame (u_id : ℤ) (underlying : Underlying)
    (acc : ℚ × MarketMaker) (opt : OptionContract) :
    only_cache_changed acc.2 (portfolio_delta_step u_id underlying acc opt).2 := by
  unfold portfolio_delta_step
  split_ifs
  · split
    · exact only_cache_changed_refl _
    · split_ifs
      · exact get_greeks_frame _ _ _
      · exact only_cache_changed_refl _
  · exact only_cache_changed_refl _

theorem portfolio_delta_frame (m : MarketMaker) (u_id : ℤ) :
    only_cache_changed m (portfolio_delta m u_id).2 := by
  unfold portfolio_delta
  split
  · exact only_cache_changed_refl m
  · have h := foldl_frame only_cache_changed only_cache_changed_refl
      only_cache_changed_trans _ (portfolio_delta_step_frame u_id ‹_›)
      m.active_option_state (0, m)
    simp only []
    split
    · exact h
    · exact h

theorem make_market_quote_frame (m : MarketMaker) (option : OptionContract) :
    only_pricing_changed m (make_market_quote m option).2 := by
  have h1 := price_option_frame m option
  unfold make_market_quote
  simp only []
  split
  · exact h1
  · have h2 := (get_greeks_frame (price_option m option).2 option ‹_›).to_pricing
    have h := only_pricing_changed_trans h1 h2
    split_ifs <;> exact h

theorem make_market_frame (m : MarketMaker) (option : OptionContract) :
    only_quoting_changed m (make_market m option).2 := by
  have h := check_risk_limit_frame m
  unfold make_market
  simp only []
  split_ifs
  · exact h
  · exact only_quoting_changed_trans h (make_market_quote_frame _ _).to_quoting

/-! ## Quote construction and the risk supervisor -/

theorem quoting_keeps_underlying_state {m m' : MarketMaker}
    (h : only_quoting_changed m m') : m'.underlying_state = m.underlying_state := by
  have e : _ = _ := h
  rw [e]

theorem quoting_keeps_active_option_state {m m' : MarketMaker}
    (h : only_quoting_changed m m') : m'.active_option_state = m.active_option_state := by
  have e : _ = _ := h
  rw [e]

theorem quoting_keeps_position {m m' : MarketMaker}
    (h : only_quoting_changed m m') : m'.position = m.position := by
  have e : _ = _ := h
  rw [e]

theorem quoting_keeps_pnl {m m' : MarketMaker}
    (h : only_quoting_changed m m') : m'.pnl = m.pnl := by
  have e : _ = _ := h
  rw [e]

theorem quoting_keeps_hedge_pos {m m' : MarketMaker}
    (h : only_quoting_changed m m') : m'.hedge_pos = m.hedge_pos := by
  have e : _ = _ := h
  rw [e]

theorem quoting_keeps_callback_log {m m' : MarketMaker}
    (h : only_quoting_changed m m') : m'.callback_log = m.callback_log := by
  have e : _ = _ := h
  rw [e]

theorem quoting_keeps_trade_underlying_callback {m m' : MarketMaker}
    (h : only_quoting_changed m m') :
    m'.trade_underlying_callback = m.trade_underlying_callback := by
  have e : _ = _ := h
  rw [e]

theorem pricing_keeps_safe_mode {m m' : MarketMaker}
    (h : only_pricing_changed m m') : m'.safe_mode = m.safe_mode := by
  have e : _ = _ := h
  rw [e]

theorem cache_keeps_last_underlying_prices {m m' : MarketMaker}
    (h : only_cache_changed m m') : m'.last_underlying_prices = m.last_underlying_prices := by
  have e : _ = _ := h
  rw [e]

theorem find_underlying_congr {m m' : MarketMaker}
    (h : m'.underlying_state = m.underlying_state) (u_id : ℤ) :
    find_underlying m' u_id = find_underlying m u_id := by
  unfold find_underlying
  rw [h]

/-- C8: when the risk check passes and the option's underlying is in engine state, with
fair = price_option(option), gamma from get_greeks, S the valuation, n the steps until
expiry and q the signed option position, spread = max(0.01, 0.02*fair) * t *
(1 + min(0.5, 0.1*|gamma|*S)) with t = 2.0 if n <= 2, 1.3 if 3 <= n <= 5, 1.0 otherwise,
and make_market returns (max(0, fair - spread/2), fair + spread/2) when -50 <= q <= 50,
(0.01, fair + spread/2) when q > 50, and (max(0, fair - spread/2), 10*(fair + spread/2))
when q < -50. -/
theorem C8_make_market_quote_formula (m : MarketMaker) (option : OptionContract)
    (underlying : Underlying)
    (hrisk : (check_risk_limit m).1 = false)
    (hu : find_underlying m option.underlying_id = some underlying) :
    let m1 := (check_risk_limit m).2
    let fair := (price_option m1 option).1
    let gamma := (get_greeks (price_option m1 option).2 option underlying).1.2.2
    let S := underlying.valuation
    let n := option.steps_until_expiry
    let q : ℤ := (m.position.option_quantity_by_option_id option.option_id).getD 0
    let t : ℚ := if n ≤ 2 then 2 else if 3 ≤ n ∧ n ≤ 5 then 13 / 10 else 1
    let spread := max (1 / 100) ((2 / 100) * fair) * t * (1 + min (1 / 2) ((1 / 10) * |gamma| * S))
    (make_market m option).1
      = if -50 ≤ q ∧ q ≤ 50 then (max 0 (fair - spread / 2), fair + spread / 2)
        else if q > 50 then (1 / 100, fair + spread / 2)
        else (max 0 (fair - spread / 2), 10 * (fair + spread / 2)) := by
  intro m1 fair gamma S n q t spread
  have hf1 := check_risk_limit_frame m
  have hf2 := price_option_frame m1 option
  have hf := only_quoting_changed_trans hf1 hf2.to_quoting
  have hus := quoting_keeps_underlying_state hf
  have hpos := quoting_keeps_position hf
  have hfind : find_underlying (price_option m1 option).2 option.underlying_id
      = some underlying := by
    rw [find_underlying_congr hus]; exact hu
  have hq : (match (price_option m1 option).2.position.option_quantity_by_option_id
        option.option_id with
      | some quantity => quantity
      | none => 0) = q := by
    rw [hpos]
    cases h : m.position.option_quantity_by_option_id option.option_id <;>
      simp [q, h]
  have hmm : (make_market m option).1 = (make_market_quote m1 option).1 := by
    unfold make_market
    simp only [hrisk]
    rfl
  rw [hmm]
  unfold make_market_quote
  simp only []
  rw [hfind]
  simp only [hq]
  have ht : (if option.steps_until_expiry ≤ 2 then (2 : ℚ)
      else if option.steps_until_expiry ≤ 5 then 13 / 10 else 1) = t := by
    simp only [t, n]
    by_cases h2 : option.steps_until_expiry ≤ 2
    · simp [h2]
    · have h3 : 3 ≤ option.steps_until_expiry := by omega
      simp [h2, h3]
  rw [ht]
  have hs : max (1 / 100) ((price_option m1 option).1 * (2 / 100)) * t
      * (1 + min (1 / 2)
          (|(get_greeks (price_option m1 option).2 option underlying).1.2.2|
            * underlying.valuation * (1 / 10))) = spread := by
    simp only [spread, fair, gamma, S]
    ring_nf
  rw [hs]
  by_cases hq1 : q > 50
  · have : ¬ (-50 ≤ q ∧ q ≤ 50) := by omega
    simp [MAX_POSITIONS, hq1, this, fair]
  · by_cases hq2 : q < -50
    · have : ¬ (-50 ≤ q ∧ q ≤ 50) := by omega
      simp [MAX_POSITIONS, hq1, hq2, this, fair, mul_comm]
    · have : -50 ≤ q ∧ q ≤ 50 := by omega
      simp [MAX_POSITIONS, hq1, hq2, this, fair]

/-! ## Frame properties of the hedge controller -/

theorem only_hedging_changed_refl (m : MarketMaker) : only_hedging_changed m m := rfl

theorem only_hedging_changed_trans {m m' m'' : MarketMaker} (h1 : only_hedging_changed m m')
    (h2 : only_hedging_changed m' m'') : only_hedging_changed m m'' := by
  unfold only_hedging_changed at *
  rw [h2, h1]

theorem only_cache_changed.to_hedging {m m' : MarketMaker} (h : only_cache_changed m m') :
    only_hedging_changed m m' := by
  unfold only_cache_changed at h
  unfold only_hedging_changed
  rw [h]

theorem hedging_keeps_option_quantity {m m' : MarketMaker}
    (h : only_hedging_changed m m') :
    m'.position.option_quantity_by_option_id = m.position.option_quantity_by_option_id := by
  have e : _ = _ := h
  rw [e]

theorem hedging_keeps_underlying_state {m m' : MarketMaker}
    (h : only_hedging_changed m m') : m'.underlying_state = m.underlying_state := by
  have e : _ = _ := h
  rw [e]

theorem hedging_keeps_active_option_state {m m' : MarketMaker}
    (h : only_hedging_changed m m') : m'.active_option_state = m.active_option_state := by
  have e : _ = _ := h
  rw [e]

theorem hedging_keeps_last_underlying_prices {m m' : MarketMaker}
    (h : only_hedging_changed m m') :
    m'.last_underlying_prices = m.last_underlying_prices := by
  have e : _ = _ := h
  rw [e]

theorem hedging_keeps_safe_mode {m m' : MarketMaker}
    (h : only_hedging_changed m m') : m'.safe_mode = m.safe_mode := by
  have e : _ = _ := h
  rw [e]

theorem hedging_keeps_pnl {m m' : MarketMaker}
    (h : only_hedging_changed m m') : m'.pnl = m.pnl := by
  have e : _ = _ := h
  rw [e]

theorem hedging_keeps_trade_underlying_callback {m m' : MarketMaker}
    (h : only_hedging_changed m m') :
    m'.trade_underlying_callback = m.trade_underlying_callback := by
  have e : _ = _ := h
  rw [e]

theorem invoke_callback_frame (m : MarketMaker) (u_id : ℤ) (quantity : ℚ) :
    only_hedging_changed m (invoke_callback m u_id quantity).2 := by
  unfold invoke_callback
  split
  · exact only_hedging_changed_refl m
  · simp only []
    split_ifs <;> rfl

theorem buy_underlying_frame (m : MarketMaker) (u_id : ℤ) (quantity : ℚ) :
    only_hedging_changed m (buy_underlying m u_id quantity).2 := by
  have h := invoke_callback_frame m u_id quantity
  unfold buy_underlying
  split_ifs
  · exact only_hedging_changed_refl m
  · split
    · rename_i e m1 heq
      rw [heq] at h
      exact h
    · rename_i x m1 heq
      rw [heq] at h
      exact only_hedging_changed_trans h rfl

theorem sell_underlying_frame (m : MarketMaker) (u_id : ℤ) (quantity : ℚ) :
    only_hedging_changed m (sell_underlying m u_id quantity).2 := by
  have h := invoke_callback_frame m u_id (-quantity)
  unfold sell_underlying
  split_ifs
  · exact only_hedging_changed_refl m
  · split
    · rename_i e m1 heq
      rw [heq] at h
      exact h
    · rename_i x m1 heq
      rw [heq] at h
      exact only_hedging_changed_trans h rfl

theorem exec_delta_hedge_frame (m : MarketMaker) (u_id : ℤ) (target : ℚ) :
    only_hedging_changed m (exec_delta_hedge m u_id target) := by
  unfold exec_delta_hedge
  simp only []
  have h0 : only_hedging_changed m
      { m with hedge_pos := Function.update m.hedge_pos u_id (some ((m.hedge_pos u_id).getD 0)) } :=
    rfl
  split_ifs with h1 h2
  · exact h0
  · have h := only_hedging_changed_trans h0 (sell_underlying_frame _ u_id |target - (m.hedge_pos u_id).getD 0|)
    split
    · exact h
    · exact only_hedging_changed_trans h rfl
  · have h := only_hedging_changed_trans h0 (buy_underlying_frame _ u_id |target - (m.hedge_pos u_id).getD 0|)
    split
    · exact h
    · exact only_hedging_changed_trans h rfl

theorem rehedge_trade_frame (m : MarketMaker) (u_id : ℤ) (hedge_trade : ℚ) :
    only_hedging_changed m (rehedge_trade m u_id hedge_trade) := by
  unfold rehedge_trade
  simp only []
  have h0 : only_hedging_changed m
      { m with hedge_pos := Function.update m.hedge_pos u_id (some ((m.hedge_pos u_id).getD 0)) } :=
    rfl
  split_ifs with h1
  · have h := only_hedging_changed_trans h0 (buy_underlying_frame _ u_id |hedge_trade|)
    split
    · exact h
    · exact only_hedging_changed_trans h rfl
  · have h := only_hedging_changed_trans h0 (sell_underlying_frame _ u_id |hedge_trade|)
    split
    · exact h
    · exact only_hedging_changed_trans h rfl

theorem delta_hedge_post_trade_frame (m : MarketMaker) (option : OptionContract) (q : ℤ) :
    only_hedging_changed m (delta_hedge_post_trade m option q) := by
  unfold delta_hedge_post_trade
  split
  · exact only_hedging_changed_refl m
  · rename_i underlying _
    simp only []
    have h1 := (get_greeks_frame m option underlying).to_hedging
    have h2 : only_hedging_changed m
        { (get_greeks m option underlying).2 with
          target_deltas := Function.update (get_greeks m option underlying).2.target_deltas
            underlying.underlying_id
            (some (((get_greeks m option underlying).2.target_deltas
                underlying.underlying_id).getD 0
              + (q : ℚ) * (get_greeks m option underlying).1.2.1)) } :=
      only_hedging_changed_trans h1 rfl
    have h3 := only_hedging_changed_trans h2
      (portfolio_delta_frame _ underlying.underlying_id).to_hedging
    split_ifs
    · exact only_hedging_changed_trans h3 (exec_delta_hedge_frame _ _ _)
    · exact h3

theorem rehedge_step_frame (m : MarketMaker) (u : Underlying) :
    only_hedging_changed m (rehedge_step m u) := by
  unfold rehedge_step
  simp only []
  split_ifs with h1 h2
  · exact only_hedging_changed_refl m
  · have h := (portfolio_delta_frame m u.underlying_id).to_hedging
    exact only_hedging_changed_trans
      (only_hedging_changed_trans h (rehedge_trade_frame _ _ _)) rfl
  · have h := (portfolio_delta_frame m u.underlying_id).to_hedging
    exact only_hedging_changed_trans h rfl

theorem rehedge_frame (new_u_state : List Underlying) :
    ∀ m : MarketMaker, only_hedging_changed m (rehedge m new_u_state) := by
  induction new_u_state with
  | nil => intro m; exact only_hedging_changed_refl m
  | cons u us ih =>
    intro m
    unfold rehedge at *
    rw [List.foldl_cons]
    exact only_hedging_changed_trans (rehedge_step_frame m u) (ih _)

theorem wrap_int32_of_range (x : ℤ) (h1 : -2147483648 ≤ x) (h2 : x < 2147483648) :
    wrap_int32 x = x := by
  unfold wrap_int32
  omega

theorem wrap_int32_range (x : ℤ) :
    -2147483648 ≤ wrap_int32 x ∧ wrap_int32 x < 2147483648 := by
  unfold wrap_int32
  omega

theorem wrap_int32_idem (x : ℤ) : wrap_int32 (wrap_int32 x) = wrap_int32 x := by
  unfold wrap_int32
  omega

theorem wrap_int32_add (x y : ℤ) : wrap_int32 (wrap_int32 x + y) = wrap_int32 (x + y) := by
  unfold wrap_int32
  omega

theorem on_bid_hit_option_quantity (m : MarketMaker) (option : OptionContract) (bid_price : ℚ) :
    (on_bid_hit m option bid_price).position.option_quantity_by_option_id
      = Function.update m.position.option_quantity_by_option_id option.option_id
          (some (wrap_int32
            ((m.position.option_quantity_by_option_id option.option_id).getD 0 + 1))) := by
  unfold on_bid_hit
  simp only []
  rw [hedging_keeps_option_quantity (delta_hedge_post_trade_frame _ option 1)]
  rfl

theorem on_offer_hit_option_quantity (m : MarketMaker) (option : OptionContract)
    (offer_price : ℚ) :
    (on_offer_hit m option offer_price).position.option_quantity_by_option_id
      = Function.update m.position.option_quantity_by_option_id option.option_id
          (some (wrap_int32
            ((m.position.option_quantity_by_option_id option.option_id).getD 0 + -1))) := by
  unfold on_offer_hit
  simp only []
  rw [hedging_keeps_option_quantity (delta_hedge_post_trade_frame _ option (-1))]
  rfl

theorem bid_hits_option_quantity (option : OptionContract) (bid_prices : List ℚ) :
    ∀ m : MarketMaker,
      wrap_int32 ((m.position.option_quantity_by_option_id option.option_id).getD 0)
        = (m.position.option_quantity_by_option_id option.option_id).getD 0 →
      ((bid_hits m option bid_prices).position.option_quantity_by_option_id
          option.option_id).getD 0
        = wrap_int32 ((m.position.option_quantity_by_option_id option.option_id).getD 0
            + (bid_prices.length : ℤ)) := by
  induction bid_prices with
  | nil =>
    intro m hw
    simp only [bid_hits, List.foldl_nil, List.length_nil, Nat.cast_zero, add_zero]
    exact hw.symm
  | cons p ps ih =>
    intro m _
    have hq : ((on_bid_hit m option p).position.option_quantity_by_option_id
        option.option_id).getD 0
        = wrap_int32 ((m.position.option_quantity_by_option_id option.option_id).getD 0 + 1) := by
      rw [on_bid_hit_option_quantity]
      simp only [Function.update_same, Option.getD_some]
    have h := ih (on_bid_hit m option p) (by rw [hq, wrap_int32_idem])
    unfold bid_hits at *
    rw [List.foldl_cons, h, hq, wrap_int32_add, List.length_cons]
    push_cast
    congr 1
    ring

/-! ## Inventory skew and the risk supervisor -/

theorem make_market_quote_bid_of_long (m : MarketMaker) (option : OptionContract)
    (hq : 50 < (m.position.option_quantity_by_option_id option.option_id).getD 0) :
    (make_market_quote m option).1.1 = 1 / 100 := by
  have hpos := quoting_keeps_position (price_option_frame m option).to_quoting
  unfold make_market_quote
  simp only []
  split
  · rfl
  · have hcur : (match (price_option m option).2.position.option_quantity_by_option_id
          option.option_id with
        | some quantity => quantity
        | none => 0) > MAX_POSITIONS := by
      rw [hpos]
      cases h : m.position.option_quantity_by_option_id option.option_id with
      | none => rw [h] at hq; simp at hq
      | some q => rw [h] at hq; simpa [MAX_POSITIONS] using hq
    rw [if_pos hcur]

/-- C9: in every engine state in which position.options[id] > 50, make_market for that
option returns a bid of exactly 0.01 (through the skew branch or as the sentinel); in
particular after 51 on_bid_hit calls on one option, starting from a fresh engine (with
or without a registered callback), the next make_market for it returns bid = 0.01. -/
theorem C9_inventory_skew_bid :
    (∀ (m : MarketMaker) (option : OptionContract),
      50 < (m.position.option_quantity_by_option_id option.option_id).getD 0 →
      (make_market m option).1.1 = 1 / 100)
    ∧ (∀ (us : List Underlying) (os : List OptionContract) (cb : Option TradeCallback)
        (option : OptionContract) (bid_prices : List ℚ),
      bid_prices.length = 51 →
      (make_market
        (bid_hits { MarketMaker.new us os with trade_underlying_callback := cb }
          option bid_prices) option).1.1 = 1 / 100) := by
  have key : ∀ (m : MarketMaker) (option : OptionContract),
      50 < (m.position.option_quantity_by_option_id option.option_id).getD 0 →
      (make_market m option).1.1 = 1 / 100 := by
    intro m option hq
    have hpos := quoting_keeps_position (check_risk_limit_frame m)
    unfold make_market
    simp only []
    split_ifs
    · rfl
    · apply make_market_quote_bid_of_long
      rw [hpos]
      exact hq
  refine ⟨key, ?_⟩
  intro us os cb option bid_prices hlen
  apply key
  rw [bid_hits_option_quantity _ _ _ (by simp [MarketMaker.new, Position.empty, wrap_int32]),
    hlen]
  simp [MarketMaker.new, Position.empty, wrap_int32]

/-- Witness for C9: 51 bid hits at price 1 on the CALL of Scenario A, from a fresh
engine, then a quote. -/
theorem C9_inventory_skew_bid_witness :
    (make_market
      (bid_hits
        { MarketMaker.new [scenario_underlying] [scenario_A_call] with
          trade_underlying_callback := none }
        scenario_A_call (List.replicate 51 1))
      scenario_A_call).1.1 = 1 / 100 :=
  C9_inventory_skew_bid.2 [scenario_underlying] [scenario_A_call] none scenario_A_call
    (List.replicate 51 1) (List.length_replicate 51 1)

/-- C10: on each make_market call with v = portfolio_value(): if v < -50,000 then
safe_mode becomes true and the result is the sentinel (0.01, 99999999.0); otherwise, if
safe_mode was true and v > -25,000, safe_mode is cleared and the call proceeds to normal
quote construction; otherwise, if safe_mode is true (-50,000 <= v <= -25,000), the result
is the sentinel and safe_mode stays true; otherwise (safe_mode false, v >= -50,000)
normal quote construction runs and safe_mode stays false. -/
theorem C10_risk_supervisor_transitions (m : MarketMaker) (option : OptionContract) :
    let v := (portfolio_value m).1
    let mv := (portfolio_value m).2
    (v < -50000 →
      make_market m option = ((1 / 100, 99999999), { mv with safe_mode := true }))
    ∧ (¬ v < -50000 → m.safe_mode = true → v > -25000 →
      make_market m option = make_market_quote { mv with safe_mode := false } option
      ∧ (make_market m option).2.safe_mode = false)
    ∧ (m.safe_mode = true → -50000 ≤ v → v ≤ -25000 →
      make_market m option = ((1 / 100, 99999999), mv)
      ∧ (make_market m option).2.safe_mode = true)
    ∧ (m.safe_mode = false → -50000 ≤ v →
      make_market m option = make_market_quote mv option
      ∧ (make_market m option).2.safe_mode = false) := by
  intro v mv
  have hsafe : mv.safe_mode = m.safe_mode := pricing_keeps_safe_mode (portfolio_value_frame m)
  have hml : max_loss * (1 / 2) = -25000 := by norm_num [max_loss]
  refine ⟨?_, ?_, ?_, ?_⟩
  · intro hv
    have hv' : (portfolio_value m).1 < max_loss := by simpa [max_loss] using hv
    unfold make_market check_risk_limit
    simp only []
    rw [if_pos hv']
    rfl
  · intro hv hs hv2
    have hv' : ¬ (portfolio_value m).1 < max_loss := by simpa [max_loss] using hv
    have hc : (portfolio_value m).2.safe_mode = true
        ∧ (portfolio_value m).1 > max_loss * (1 / 2) := by
      rw [hml]; exact ⟨hsafe.trans hs, hv2⟩
    have e : make_market m option
        = make_market_quote { mv with safe_mode := false } option := by
      unfold make_market check_risk_limit
      simp only []
      rw [if_neg hv', if_pos hc]
      rfl
    refine ⟨e, ?_⟩
    rw [e, pricing_keeps_safe_mode (make_market_quote_frame _ option)]
  · intro hs hv1 hv2
    have hv' : ¬ (portfolio_value m).1 < max_loss := by
      simpa [max_loss] using hv1
    have hc : ¬ ((portfolio_value m).2.safe_mode = true
        ∧ (portfolio_value m).1 > max_loss * (1 / 2)) := by
      rw [hml]; intro h; exact absurd h.2 (not_lt.mpr hv2)
    have hs' : (portfolio_value m).2.safe_mode = true := hsafe.trans hs
    have e : make_market m option = ((1 / 100, 99999999), mv) := by
      unfold make_market check_risk_limit
      simp only []
      rw [if_neg hv', if_neg hc, if_pos hs']
      rfl
    refine ⟨e, ?_⟩
    rw [e]
    exact hs'
  · intro hs hv1
    have hv' : ¬ (portfolio_value m).1 < max_loss := by
      simpa [max_loss] using hv1
    have hs' : (portfolio_value m).2.safe_mode = false := hsafe.trans hs
    have hc : ¬ ((portfolio_value m).2.safe_mode = true
        ∧ (portfolio_value m).1 > max_loss * (1 / 2)) := by
      rw [hs']; simp
    have e : make_market m option = make_market_quote mv option := by
      unfold make_market check_risk_limit
      simp only []
      rw [if_neg hv', if_neg hc, if_neg (by rw [hs']; simp)]
    refine ⟨e, ?_⟩
    rw [e, pricing_keeps_safe_mode (make_market_quote_frame _ option)]
    exact hs'

theorem portfolio_value_of_empty_position (m : MarketMaker)
    (hpos : m.position = Position.empty) : portfolio_value m = (m.pnl, m) := by
  have hopt : ∀ (l : List OptionContract) (acc : ℚ × MarketMaker),
      acc.2.position = Position.empty →
      l.foldl portfolio_value_option_step acc = acc := by
    intro l
    induction l with
    | nil => intro acc _; rfl
    | cons o l ih =>
      intro acc hacc
      have h1 : portfolio_value_option_step acc o = acc := by
        unfold portfolio_value_option_step
        rw [hacc]
        rfl
      rw [List.foldl_cons, h1]
      exact ih acc hacc
  have hund : ∀ (l : List Underlying) (total : ℚ),
      l.foldl (portfolio_value_underlying_step Position.empty) total = total := by
    intro l
    induction l with
    | nil => intro total; rfl
    | cons u l ih =>
      intro total
      rw [List.foldl_cons]
      exact ih total
  unfold portfolio_value
  simp only []
  rw [hopt _ _ hpos]
  simp only [hpos]
  exact Prod.ext (hund _ _) rfl

/-- Witness for C10: a flat engine whose realized P&L is -60,000 returns the sentinel and
enters safe mode; the fresh engine (value 0, safe mode off) builds a normal quote. -/
theorem C10_risk_supervisor_transitions_witness :
    make_market { scenario_A_engine with pnl := -60000 } scenario_A_call
      = ((1 / 100, 99999999),
          { (portfolio_value { scenario_A_engine with pnl := -60000 }).2 with
            safe_mode := true })
    ∧ make_market scenario_A_engine scenario_A_call
      = make_market_quote (portfolio_value scenario_A_engine).2 scenario_A_call :=
  ⟨(C10_risk_supervisor_transitions { scenario_A_engine with pnl := -60000 }
      scenario_A_call).1
      (by rw [portfolio_value_of_empty_position _ rfl]; norm_num),
   ((C10_risk_supervisor_transitions scenario_A_engine scenario_A_call).2.2.2 rfl
      (by rw [portfolio_value_of_empty_position _ rfl]; norm_num [scenario_A_engine,
        MarketMaker.new])).1⟩

/-! ## The branches of `price_option` -/

theorem price_option_hit (m : MarketMaker) (option : OptionContract) (underlying : Underlying)
    (greeks : Greeks)
    (hu : find_underlying m option.underlying_id = some underlying)
    (hn : option.steps_until_expiry ≠ 0)
    (hc : cache_find m.price_cache
      (cache_key_string option.option_id underlying.valuation) = some greeks) :
    price_option m option = (greeks.1, m) := by
  unfold price_option
  rw [hu]
  simp only [hn, if_false, hc]

theorem price_option_miss_full (m : MarketMaker) (option : OptionContract)
    (underlying : Underlying)
    (hu : find_underlying m option.underlying_id = some underlying)
    (hn : option.steps_until_expiry ≠ 0)
    (hc : cache_find m.price_cache
      (cache_key_string option.option_id underlying.valuation) = none)
    (hl : ∀ s, m.last_underlying_prices underlying.underlying_id = some s →
      s = underlying.valuation) :
    price_option m option
      = price_option_full m option underlying
          (cache_key_string option.option_id underlying.valuation) := by
  unfold price_option
  rw [hu]
  simp only [hn, if_false, hc]
  cases h : m.last_underlying_prices underlying.underlying_id with
  | none => rfl
  | some s =>
    have hs := hl s h
    simp only [hs, ne_eq, not_true_eq_false, false_and, if_false]

theorem price_option_miss_taylor (m : MarketMaker) (option : OptionContract)
    (underlying : Underlying) (last_price : ℚ) (old : Greeks)
    (hu : find_underlying m option.underlying_id = some underlying)
    (hn : option.steps_until_expiry ≠ 0)
    (hc : cache_find m.price_cache
      (cache_key_string option.option_id underlying.valuation) = none)
    (hl : m.last_underlying_prices underlying.underlying_id = some last_price)
    (hne : last_price ≠ underlying.valuation)
    (hclose : |underlying.valuation - last_price| < underlying.up_move_step * (1 / 10))
    (hold : cache_find m.price_cache
      (cache_key_string option.option_id last_price) = some old) :
    price_option m option
      = price_option_taylor m option underlying
          (cache_key_string option.option_id underlying.valuation) last_price old := by
  unfold price_option
  rw [hu]
  simp only [hn, if_false, hc, hl]
  rw [if_pos ⟨hne, hclose⟩]
  simp only [hold]

/-! ## The cache key at prices with at most six decimals -/

theorem round_half_even_intCast (z : ℤ) : round_half_even (z : ℚ) = z := by
  simp [round_half_even]

theorem cache_key_string_of_micros (option_id : ℤ) (price : ℚ) (k : ℕ)
    (h : |price| * 1000000 = (k : ℚ)) :
    cache_key_string option_id price
      = { option_id := option_id, negative := decide (price < 0), micros := k } := by
  unfold cache_key_string
  have h' : |price| * 1000000 = (((k : ℤ)) : ℚ) := by rw [h]; simp
  rw [h', round_half_even_intCast]
  simp

/-! ## A step advance of an engine without option positions -/

theorem portfolio_delta_flat (m : MarketMaker) (u_id : ℤ)
    (hpos : m.position.option_quantity_by_option_id = fun _ => none)
    (hhedge : m.hedge_pos = fun _ => none) :
    portfolio_delta m u_id = (0, m) := by
  have hfold : ∀ (underlying : Underlying) (l : List OptionContract),
      l.foldl (portfolio_delta_step u_id underlying) (0, m) = (0, m) := by
    intro underlying l
    induction l with
    | nil => rfl
    | cons o l ih =>
      have h1 : portfolio_delta_step u_id underlying (0, m) o = (0, m) := by
        unfold portfolio_delta_step
        simp only [hpos]
        split_ifs <;> rfl
      rw [List.foldl_cons, h1, ih]
  unfold portfolio_delta
  split
  · rfl
  · simp only [hfold, hhedge]

theorem rehedge_flat (new_u_state : List Underlying) :
    ∀ m : MarketMaker,
      (m.position.option_quantity_by_option_id = fun _ => none) →
      (m.hedge_pos = fun _ => none) →
      (rehedge m new_u_state).price_cache = m.price_cache
      ∧ (rehedge m new_u_state).hedge_pos = m.hedge_pos := by
  induction new_u_state with
  | nil => intro m _ _; exact ⟨rfl, rfl⟩
  | cons u us ih =>
    intro m hpos hhedge
    have hstep : ∃ lh, rehedge_step m u = { m with last_hedge := lh } := by
      unfold rehedge_step
      simp only [portfolio_delta_flat m u.underlying_id hpos hhedge]
      have h0 : ¬ |(0 : ℚ)| > HEDGE_TH := by norm_num [HEDGE_TH]
      simp only [h0, if_false]
      split_ifs
      · exact ⟨m.last_hedge, rfl⟩
      · exact ⟨_, rfl⟩
    obtain ⟨lh, h⟩ := hstep
    unfold rehedge at *
    rw [List.foldl_cons, h]
    exact ih { m with last_hedge := lh } hpos hhedge

theorem on_step_advance_flat (m : MarketMaker) (us : List Underlying)
    (os : List OptionContract)
    (hpos : m.position.option_quantity_by_option_id = fun _ => none)
    (hhedge : m.hedge_pos = fun _ => none) :
    (on_step_advance m us os).underlying_state = us
    ∧ (on_step_advance m us os).price_cache
        = prune_ceiling (prune_inactive m.price_cache os)
    ∧ (on_step_advance m us os).last_underlying_prices
        = us.foldl refresh_last_price m.last_underlying_prices
    ∧ (on_step_advance m us os).position.option_quantity_by_option_id = (fun _ => none)
    ∧ (on_step_advance m us os).hedge_pos = (fun _ => none) := by
  have hf := rehedge_frame us
    { m with
      underlying_state := us
      active_option_state := os
      price_cache := prune_ceiling (prune_inactive m.price_cache os) }
  have hfl := rehedge_flat us
    { m with
      underlying_state := us
      active_option_state := os
      price_cache := prune_ceiling (prune_inactive m.price_cache os) } hpos hhedge
  unfold on_step_advance
  simp only []
  refine ⟨?_, ?_, ?_, ?_, ?_⟩
  · exact hedging_keeps_underlying_state hf
  · exact hfl.1
  · rw [hedging_keeps_underlying_state hf, hedging_keeps_last_underlying_prices hf]
  · rw [hedging_keeps_option_quantity hf]; exact hpos
  · rw [hfl.2]; exact hhedge

/-! ## Pricing after a step advance -/

theorem scenario_B_call_price :
    price_option_from_scratch scenario_B_call scenario_underlying = 15 / 8 := by
  norm_num [price_option_from_scratch, back_induction, lattice_sweep, terminal_payoff,
    scenario_B_call, scenario_underlying, List.range_succ]

theorem cache_find_singleton (key : CacheKey) (greeks : Greeks) :
    cache_find [(key, greeks)] key = some greeks := by
  simp [cache_find, List.lookup]

theorem stale_state_1_cache :
    ∃ delta gamma : ℚ, stale_state_1.price_cache
      = [(cache_key_string 3 150, (15 / 8, delta, gamma))] := by
  have hfull : price_option stale_state_0 scenario_B_call
      = price_option_full stale_state_0 scenario_B_call scenario_underlying
          (cache_key_string scenario_B_call.option_id scenario_underlying.valuation) := by
    apply price_option_miss_full
    · simp [find_underlying, stale_state_0, MarketMaker.new, scenario_underlying,
        scenario_B_call]
    · decide
    · rfl
    · intro s hs
      simp [stale_state_0, MarketMaker.new] at hs
  refine ⟨calculate_delta scenario_B_call scenario_underlying (15 / 8),
    calculate_gamma scenario_B_call scenario_underlying, ?_⟩
  unfold stale_state_1
  rw [hfull]
  unfold price_option_full
  simp only [scenario_B_call_price]
  rfl

/-- C3 fails on the code: the CALL with K=150 is priced at S=150 with n=5 (15/8) and the
entry stays in the cache, keyed by option id and valuation only; after two step advances
(150 -> 152 -> 150, n = 5 -> 4 -> 3) `price_option` still returns 15/8 for the option
with 3 steps left, whose lattice price against the new underlying is 3/2. -/
theorem C3_stale_price_after_step_advance :
    scenario_B_call.advance_step.advance_step ∈ stale_state_3.active_option_state
    ∧ 1 ≤ scenario_B_call.advance_step.advance_step.steps_until_expiry
    ∧ find_underlying stale_state_3 scenario_B_call.advance_step.advance_step.underlying_id
        = some scenario_underlying
    ∧ (price_option stale_state_3 scenario_B_call.advance_step.advance_step).1 = 15 / 8
    ∧ price_option_from_scratch scenario_B_call.advance_step.advance_step
        scenario_underlying = 3 / 2 := by
  obtain ⟨delta, gamma, hc1⟩ := stale_state_1_cache
  have hframe1 : only_pricing_changed stale_state_0 stale_state_1 :=
    price_option_frame stale_state_0 scenario_B_call
  have hpos1 : stale_state_1.position.option_quantity_by_option_id = fun _ => none := by
    rw [quoting_keeps_position hframe1.to_quoting]; rfl
  have hhedge1 : stale_state_1.hedge_pos = fun _ => none := by
    rw [quoting_keeps_hedge_pos hframe1.to_quoting]; rfl
  obtain ⟨-, hc2, -, hpos2, hhedge2⟩ := on_step_advance_flat stale_state_1
    [{ scenario_underlying with valuation := 152 }] [scenario_B_call.advance_step]
    hpos1 hhedge1
  obtain ⟨hus3, hc3, -, -, -⟩ := on_step_advance_flat stale_state_2
    [scenario_underlying] [scenario_B_call.advance_step.advance_step] hpos2 hhedge2
  have hcache2 : stale_state_2.price_cache
      = [(cache_key_string 3 150, (15 / 8, delta, gamma))] := by
    unfold stale_state_2
    rw [hc2, hc1]
    simp [prune_inactive, prune_ceiling, cache_key_string, OptionContract.advance_step,
      scenario_B_call]
  have hcache3 : stale_state_3.price_cache
      = [(cache_key_string 3 150, (15 / 8, delta, gamma))] := by
    unfold stale_state_3
    rw [hc3, hcache2]
    simp [prune_inactive, prune_ceiling, cache_key_string, OptionContract.advance_step,
      scenario_B_call]
  have hfind : find_underlying stale_state_3
      scenario_B_call.advance_step.advance_step.underlying_id = some scenario_underlying := by
    unfold find_underlying stale_state_3
    rw [hus3]
    simp [scenario_underlying, OptionContract.advance_step, scenario_B_call]
  have hhit := price_option_hit stale_state_3 scenario_B_call.advance_step.advance_step
    scenario_underlying (15 / 8, delta, gamma) hfind (by decide)
    (by rw [hcache3]; exact cache_find_singleton _ _)
  refine ⟨?_, by decide, hfind, ?_, ?_⟩
  · have hact : stale_state_3.active_option_state
        = [scenario_B_call.advance_step.advance_step] := by
      have hf := rehedge_frame [scenario_underlying]
        { stale_state_2 with
          underlying_state := [scenario_underlying]
          active_option_state := [scenario_B_call.advance_step.advance_step]
          price_cache := prune_ceiling (prune_inactive stale_state_2.price_cache
            [scenario_B_call.advance_step.advance_step]) }
      exact hedging_keeps_active_option_state hf
    rw [hact]
    exact List.mem_singleton.mpr rfl
  · rw [hhit]
  · norm_num [price_option_from_scratch, back_induction, lattice_sweep, terminal_payoff,
      scenario_B_call, scenario_underlying, List.range_succ, OptionContract.advance_step]

/-! ## A negative price through the Taylor branch -/

theorem kink_state_1_eq :
    price_option kink_state_0 kink_call
      = price_option_full kink_state_0 kink_call (kink_underlying 8)
          (cache_key_string 7 8) := by
  apply price_option_miss_full kink_state_0 kink_call (kink_underlying 8)
  · simp [find_underlying, kink_state_0, MarketMaker.new, kink_underlying, kink_call]
  · decide
  · rfl
  · intro s hs
    simp [kink_state_0, MarketMaker.new] at hs

theorem kink_state_1_cache :
    kink_state_1.price_cache = [(cache_key_string 7 8, (0, 1 / 2, 5 / 2))] := by
  have hp : price_option_from_scratch kink_call (kink_underlying 8) = 0 := by
    norm_num [price_option_from_scratch, back_induction, lattice_sweep, terminal_payoff,
      kink_call, kink_underlying, List.range_succ]
  have hd : calculate_delta kink_call (kink_underlying 8) 0 = 1 / 2 := by
    norm_num [calculate_delta, pump_it_up, price_option_from_scratch, back_induction,
      lattice_sweep, terminal_payoff, kink_call, kink_underlying, List.range_succ]
  have hg : calculate_gamma kink_call (kink_underlying 8) = 5 / 2 := by
    norm_num [calculate_gamma, pump_it_up, price_option_from_scratch, back_induction,
      lattice_sweep, terminal_payoff, kink_call, kink_underlying, List.range_succ]
  unfold kink_state_1
  rw [kink_state_1_eq]
  unfold price_option_full
  simp only [hp, hd, hg]
  rfl

theorem kink_state_1_last :
    kink_state_1.last_underlying_prices = Function.update (fun _ => none) 0 (some 8) := by
  unfold kink_state_1
  rw [kink_state_1_eq]
  rfl

theorem only_trading_changed_refl (m : MarketMaker) : only_trading_changed m m := rfl

theorem only_trading_changed_trans {m m' m'' : MarketMaker} (h1 : only_trading_changed m m')
    (h2 : only_trading_changed m' m'') : only_trading_changed m m'' := by
  unfold only_trading_changed at *
  rw [h2, h1]

theorem trading_keeps_price_cache {m m' : MarketMaker} (h : only_trading_changed m m') :
    m'.price_cache = m.price_cache := by
  have e : _ = _ := h
  rw [e]

theorem invoke_callback_trading (m : MarketMaker) (u_id : ℤ) (quantity : ℚ) :
    only_trading_changed m (invoke_callback m u_id quantity).2 := by
  unfold invoke_callback
  split
  · exact only_trading_changed_refl m
  · simp only []
    split_ifs <;> rfl

theorem buy_underlying_trading (m : MarketMaker) (u_id : ℤ) (quantity : ℚ) :
    only_trading_changed m (buy_underlying m u_id quantity).2 := by
  have h := invoke_callback_trading m u_id quantity
  unfold buy_underlying
  split_ifs
  · exact only_trading_changed_refl m
  · split
    · rename_i e m1 heq
      rw [heq] at h
      exact h
    · rename_i x m1 heq
      rw [heq] at h
      exact only_trading_changed_trans h rfl

theorem sell_underlying_trading (m : MarketMaker) (u_id : ℤ) (quantity : ℚ) :
    only_trading_changed m (sell_underlying m u_id quantity).2 := by
  have h := invoke_callback_trading m u_id (-quantity)
  unfold sell_underlying
  split_ifs
  · exact only_trading_changed_refl m
  · split
    · rename_i e m1 heq
      rw [heq] at h
      exact h
    · rename_i x m1 heq
      rw [heq] at h
      exact only_trading_changed_trans h rfl

theorem exec_delta_hedge_trading (m : MarketMaker) (u_id : ℤ) (target : ℚ) :
    only_trading_changed m (exec_delta_hedge m u_id target) := by
  unfold exec_delta_hedge
  simp only []
  have h0 : only_trading_changed m
      { m with hedge_pos := Function.update m.hedge_pos u_id (some ((m.hedge_pos u_id).getD 0)) } :=
    rfl
  split_ifs with h1 h2
  · exact h0
  · have h := only_trading_changed_trans h0
      (sell_underlying_trading _ u_id |target - (m.hedge_pos u_id).getD 0|)
    split
    · exact h
    · exact only_trading_changed_trans h rfl
  · have h := only_trading_changed_trans h0
      (buy_underlying_trading _ u_id |target - (m.hedge_pos u_id).getD 0|)
    split
    · exact h
    · exact only_trading_changed_trans h rfl

theorem find_underlying_mem {m : MarketMaker} {u_id : ℤ} {u : Underlying}
    (h : find_underlying m u_id = some u) :
    u ∈ m.underlying_state ∧ u.underlying_id = u_id := by
  unfold find_underlying at h
  refine ⟨List.mem_of_find?_eq_some h, ?_⟩
  have := List.find?_some h
  simpa using this

theorem foldl_inv {α β : Type} (P : MarketMaker → Prop)
    (step : β × MarketMaker → α → β × MarketMaker)
    (hstep : ∀ acc x, P acc.2 → P (step acc x).2) (l : List α) :
    ∀ acc : β × MarketMaker, P acc.2 → P (l.foldl step acc).2 := by
  induction l with
  | nil => intro acc h; exact h
  | cons x xs ih =>
    intro acc h
    rw [List.foldl_cons]
    exact ih _ (hstep acc x h)

theorem eq_of_mem_of_id_eq {us : List Underlying}
    (hnd : (us.map (fun u => u.underlying_id)).Nodup) {u u' : Underlying}
    (hu : u ∈ us) (hu' : u' ∈ us) (hid : u'.underlying_id = u.underlying_id) : u' = u :=
  List.inj_on_of_nodup_map hnd hu' hu hid

theorem refresh_not_mem (us : List Underlying) (u_id : ℤ)
    (hid : u_id ∉ us.map (fun u => u.underlying_id)) :
    ∀ last : ℤ → Option ℚ, (us.foldl refresh_last_price last) u_id = last u_id := by
  induction us with
  | nil => intro last; rfl
  | cons x xs ih =>
    intro last
    have hx : u_id ≠ x.underlying_id := by
      intro e; exact hid (by simp [e])
    have hxs : u_id ∉ xs.map (fun u => u.underlying_id) := by
      intro e; exact hid (by simp only [List.map_cons]; exact List.mem_cons_of_mem _ e)
    rw [List.foldl_cons, ih hxs]
    unfold refresh_last_price
    exact Function.update_noteq hx _ _

theorem refresh_mem (us : List Underlying)
    (hnd : (us.map (fun u => u.underlying_id)).Nodup) (u : Underlying) (hu : u ∈ us) :
    ∀ last : ℤ → Option ℚ,
      (us.foldl refresh_last_price last) u.underlying_id = some u.valuation := by
  induction us with
  | nil => exact absurd hu (List.not_mem_nil u)
  | cons x xs ih =>
    intro last
    rw [List.map_cons, List.nodup_cons] at hnd
    rw [List.foldl_cons]
    rcases List.mem_cons.mp hu with h | h
    · subst h
      rw [refresh_not_mem xs u.underlying_id hnd.1]
      unfold refresh_last_price
      exact Function.update_same _ _ _
    · exact ih hnd.2 h _

/-- On a run with well-formed underlying vectors, an option with n >= 1 whose key
(option id, valuation) is not cached is priced by the lattice. -/
theorem price_option_uncached_is_lattice_price (m : MarketMaker) (option : OptionContract)
    (underlying : Underlying) (h : pricing_inv m)
    (hu : find_underlying m option.underlying_id = some underlying)
    (hn : option.steps_until_expiry ≠ 0)
    (hc : cache_find m.price_cache
      (cache_key_string option.option_id underlying.valuation) = none) :
    (price_option m option).1 = price_option_from_scratch option underlying := by
  rw [price_option_miss_full m option underlying hu hn hc
    (fun s hs => h.2.2 underlying (find_underlying_mem hu).1 s hs)]
  rfl

/-! ## The quote of Scenario A -/

theorem check_risk_limit_of_empty_position (m : MarketMaker)
    (hpos : m.position = Position.empty) (hpnl : max_loss ≤ m.pnl) (hsafe : m.safe_mode = false) :
    check_risk_limit m = (false, m) := by
  unfold check_risk_limit
  rw [portfolio_value_of_empty_position m hpos]
  simp only []
  rw [if_neg (not_lt.mpr hpnl), if_neg (by rw [hsafe]; simp), hsafe]

/-- Witness for C8: the fresh engine of Scenario A quotes its CALL (fair 7/8, gamma 25/16,
n = 5, flat position) at bid 0.8579375 and ask 0.8920625. -/
theorem C8_make_market_quote_formula_witness :
    (make_market scenario_A_engine scenario_A_call).1 = (13727 / 16000, 14273 / 16000) := by
  have hrisk : check_risk_limit scenario_A_engine = (false, scenario_A_engine) :=
    check_risk_limit_of_empty_position _ rfl (by norm_num [max_loss, scenario_A_engine, MarketMaker.new]) rfl
  have hfind : find_underlying scenario_A_engine scenario_A_call.underlying_id
      = some scenario_underlying := by
    simp [find_underlying, scenario_A_engine, MarketMaker.new, scenario_underlying,
      scenario_A_call]
  have h := C8_make_market_quote_formula scenario_A_engine scenario_A_call scenario_underlying
    (by rw [hrisk]) hfind
  have hfull : price_option scenario_A_engine scenario_A_call
      = price_option_full scenario_A_engine scenario_A_call scenario_underlying
          (cache_key_string scenario_A_call.option_id scenario_underlying.valuation) := by
    apply price_option_miss_full _ _ _ hfind (by decide) rfl
    intro s hs
    simp [scenario_A_engine, MarketMaker.new] at hs
  have hp : price_option_from_scratch scenario_A_call scenario_underlying = 7 / 8 := by
    norm_num [price_option_from_scratch, back_induction, lattice_sweep, terminal_payoff,
      scenario_A_call, scenario_underlying, List.range_succ]
  have hg : calculate_gamma scenario_A_call scenario_underlying = 25 / 16 := by
    norm_num [calculate_gamma, pump_it_up, price_option_from_scratch, back_induction,
      lattice_sweep, terminal_payoff, scenario_A_call, scenario_underlying, List.range_succ]
  have hgreeks : (get_greeks (price_option scenario_A_engine scenario_A_call).2
      scenario_A_call scenario_underlying).1.2.2 = 25 / 16 := by
    rw [hfull]
    unfold price_option_full get_greeks
    simp only []
    have hc : cache_find (cache_emplace scenario_A_engine.price_cache
        (cache_key_string scenario_A_call.option_id scenario_underlying.valuation)
        (price_option_from_scratch scenario_A_call scenario_underlying,
          calculate_delta scenario_A_call scenario_underlying
            (price_option_from_scratch scenario_A_call scenario_underlying),
          calculate_gamma scenario_A_call scenario_underlying))
        (cache_key_string scenario_A_call.option_id scenario_underlying.valuation)
        = some (price_option_from_scratch scenario_A_call scenario_underlying,
          calculate_delta scenario_A_call scenario_underlying
            (price_option_from_scratch scenario_A_call scenario_underlying),
          calculate_gamma scenario_A_call scenario_underlying) :=
      cache_find_singleton _ _
    rw [hc]
    exact hg
  have hfair : (price_option scenario_A_engine scenario_A_call).1 = 7 / 8 := by
    rw [hfull]; exact hp
  have ha : |(25 / 16 : ℚ)| = 25 / 16 := abs_of_pos (by norm_num)
  simp only [hrisk, hgreeks, hfair, ha] at h
  rw [h]
  norm_num [scenario_A_engine, MarketMaker.new, Position.empty, scenario_A_call,
    scenario_underlying]

/-! ## What a step advance keeps -/

theorem on_step_advance_safe_mode (m : MarketMaker) (us : List Underlying)
    (os : List OptionContract) : (on_step_advance m us os).safe_mode = m.safe_mode := by
  unfold on_step_advance
  simp only []
  rw [hedging_keeps_safe_mode (rehedge_frame us _)]

theorem on_step_advance_option_quantity (m : MarketMaker) (us : List Underlying)
    (os : List OptionContract) :
    (on_step_advance m us os).position.option_quantity_by_option_id
      = m.position.option_quantity_by_option_id := by
  unfold on_step_advance
  simp only []
  rw [hedging_keeps_option_quantity (rehedge_frame us _)]

theorem on_step_advance_active_option_state (m : MarketMaker) (us : List Underlying)
    (os : List OptionContract) : (on_step_advance m us os).active_option_state = os := by
  unfold on_step_advance
  simp only []
  rw [hedging_keeps_active_option_state (rehedge_frame us _)]

theorem on_bid_hit_safe_mode (m : MarketMaker) (option : OptionContract) (bid_price : ℚ) :
    (on_bid_hit m option bid_price).safe_mode = m.safe_mode := by
  unfold on_bid_hit
  simp only []
  rw [hedging_keeps_safe_mode (delta_hedge_post_trade_frame _ option 1)]

theorem on_offer_hit_safe_mode (m : MarketMaker) (option : OptionContract) (offer_price : ℚ) :
    (on_offer_hit m option offer_price).safe_mode = m.safe_mode := by
  unfold on_offer_hit
  simp only []
  rw [hedging_keeps_safe_mode (delta_hedge_post_trade_frame _ option (-1))]

/-! ## Leaving safe mode -/

theorem make_market_safe_mode_cleared (m : MarketMaker) (option : OptionContract)
    (hs : m.safe_mode = true) (hc : (make_market m option).2.safe_mode = false) :
    (portfolio_value m).1 > -25000 := by
  have hsafe : (portfolio_value m).2.safe_mode = true :=
    (pricing_keeps_safe_mode (portfolio_value_frame m)).trans hs
  by_contra hv
  have hml : max_loss * (1 / 2) = -25000 := by norm_num [max_loss]
  have hcontra : (make_market m option).2.safe_mode = true := by
    unfold make_market check_risk_limit
    simp only []
    by_cases h1 : (portfolio_value m).1 < max_loss
    · rw [if_pos h1]
      rfl
    · have h2 : ¬ ((portfolio_value m).2.safe_mode = true
          ∧ (portfolio_value m).1 > max_loss * (1 / 2)) := by
        rw [hml]; exact fun h => hv h.2
      rw [if_neg h1, if_neg h2, if_pos hsafe]
      exact hsafe
  rw [hcontra] at hc
  exact Bool.noConfusion hc

theorem make_market_clears_safe_mode (m : MarketMaker) (option : OptionContract)
    (hs : m.safe_mode = true) (hv : (portfolio_value m).1 > -25000) :
    (make_market m option).2.safe_mode = false := by
  have hsafe : (portfolio_value m).2.safe_mode = true :=
    (pricing_keeps_safe_mode (portfolio_value_frame m)).trans hs
  have h1 : ¬ (portfolio_value m).1 < max_loss := by
    have : max_loss = -50000 := rfl
    rw [this]; intro h; linarith
  have h2 : (portfolio_value m).2.safe_mode = true
      ∧ (portfolio_value m).1 > max_loss * (1 / 2) := by
    have hml : max_loss * (1 / 2) = -25000 := by norm_num [max_loss]
    rw [hml]; exact ⟨hsafe, hv⟩
  unfold make_market check_risk_limit
  simp only []
  rw [if_neg h1, if_pos h2]
  simp only [Bool.false_eq_true, if_false]
  rw [pricing_keeps_safe_mode (make_market_quote_frame _ option)]

theorem apply_safe_mode_cleared (m : MarketMaker) (a : Action)
    (hs : m.safe_mode = true) (hc : (a.apply m).safe_mode = false) :
    ∃ option, a = Action.make_market option ∧ (portfolio_value m).1 > -25000 := by
  cases a with
  | make_market option => exact ⟨option, rfl, make_market_safe_mode_cleared m option hs hc⟩
  | price_option option =>
    have h : (price_option m option).2.safe_mode = m.safe_mode :=
      pricing_keeps_safe_mode (price_option_frame m option)
    have hc' : (price_option m option).2.safe_mode = false := hc
    rw [h, hs] at hc'
    exact Bool.noConfusion hc'
  | on_bid_hit option bid_price =>
    have hc' : (on_bid_hit m option bid_price).safe_mode = false := hc
    rw [on_bid_hit_safe_mode, hs] at hc'
    exact Bool.noConfusion hc'
  | on_offer_hit option offer_price =>
    have hc' : (on_offer_hit m option offer_price).safe_mode = false := hc
    rw [on_offer_hit_safe_mode, hs] at hc'
    exact Bool.noConfusion hc'
  | on_step_advance us os =>
    have hc' : (on_step_advance m us os).safe_mode = false := hc
    rw [on_step_advance_safe_mode, hs] at hc'
    exact Bool.noConfusion hc'
  | register_callback callback =>
    have hc' : m.safe_mode = false := hc
    rw [hs] at hc'
    exact Bool.noConfusion hc'

theorem run_append_singleton (m : MarketMaker) (actions : List Action) (a : Action) :
    run m (actions ++ [a]) = a.apply (run m actions) := by
  unfold run
  rw [List.foldl_append]
  rfl

/-- C11: safe_mode is false on a fresh engine; price_option, on_bid_hit, on_offer_hit and
on_step_advance never change it; a make_market call that finds safe_mode true and leaves
it false had portfolio_value() > -25,000; hence in every run of entry-point calls a
transition of safe_mode from true to false happens only in a make_market call whose
portfolio_value() is strictly greater than -25,000. -/
theorem C11_safe_mode_exit_only_after_recovery :
    (∀ (us : List Underlying) (os : List OptionContract),
      (MarketMaker.new us os).safe_mode = false)
    ∧ (∀ (m : MarketMaker) (option : OptionContract),
      (price_option m option).2.safe_mode = m.safe_mode)
    ∧ (∀ (m : MarketMaker) (option : OptionContract) (bid_price : ℚ),
      (on_bid_hit m option bid_price).safe_mode = m.safe_mode)
    ∧ (∀ (m : MarketMaker) (option : OptionContract) (offer_price : ℚ),
      (on_offer_hit m option offer_price).safe_mode = m.safe_mode)
    ∧ (∀ (m : MarketMaker) (us : List Underlying) (os : List OptionContract),
      (on_step_advance m us os).safe_mode = m.safe_mode)
    ∧ (∀ (m : MarketMaker) (option : OptionContract),
      m.safe_mode = true → (make_market m option).2.safe_mode = false →
      (portfolio_value m).1 > -25000)
    ∧ (∀ (us : List Underlying) (os : List OptionContract) (actions : List Action)
        (a : Action),
      (run (MarketMaker.new us os) actions).safe_mode = true →
      (run (MarketMaker.new us os) (actions ++ [a])).safe_mode = false →
      ∃ option, a = Action.make_market option
        ∧ (portfolio_value (run (MarketMaker.new us os) actions)).1 > -25000) := by
  refine ⟨fun _ _ => rfl, ?_, on_bid_hit_safe_mode, on_offer_hit_safe_mode,
    on_step_advance_safe_mode, make_market_safe_mode_cleared, ?_⟩
  · intro m option
    exact pricing_keeps_safe_mode (price_option_frame m option)
  · intro us os actions a hs hc
    rw [run_append_singleton] at hc
    exact apply_safe_mode_cleared _ a hs hc

/-- Witness for C11: a flat engine in safe mode whose value has recovered to -20,000
leaves safe mode in make_market, and its value is above -25,000. -/
theorem C11_safe_mode_exit_only_after_recovery_witness :
    (make_market { scenario_A_engine with pnl := -20000, safe_mode := true }
      scenario_A_call).2.safe_mode = false
    ∧ (portfolio_value { scenario_A_engine with pnl := -20000, safe_mode := true }).1
        > -25000 :=
  have hc := make_market_clears_safe_mode
    { scenario_A_engine with pnl := -20000, safe_mode := true } scenario_A_call rfl
    (by rw [portfolio_value_of_empty_position _ rfl]; norm_num)
  ⟨hc, C11_safe_mode_exit_only_after_recovery.2.2.2.2.2.1
    { scenario_A_engine with pnl := -20000, safe_mode := true } scenario_A_call rfl hc⟩

/-! ## The option position ledger -/

theorem apply_option_quantity (m : MarketMaker) (a : Action) (id : ℤ)
    (hw : wrap_int32 ((m.position.option_quantity_by_option_id id).getD 0)
      = (m.position.option_quantity_by_option_id id).getD 0) :
    ((a.apply m).position.option_quantity_by_option_id id).getD 0
      = wrap_int32 ((m.position.option_quantity_by_option_id id).getD 0
          + (if a.is_bid_hit_on id = true then 1 else 0)
          - (if a.is_offer_hit_on id = true then 1 else 0)) := by
  cases a with
  | make_market option =>
    have h : (make_market m option).2.position = m.position :=
      quoting_keeps_position (make_market_frame m option)
    show (((make_market m option).2.position.option_quantity_by_option_id id).getD 0) = _
    rw [h]
    simp [Action.is_bid_hit_on, Action.is_offer_hit_on, hw]
  | price_option option =>
    have h : (price_option m option).2.position = m.position :=
      quoting_keeps_position (price_option_frame m option).to_quoting
    show (((price_option m option).2.position.option_quantity_by_option_id id).getD 0) = _
    rw [h]
    simp [Action.is_bid_hit_on, Action.is_offer_hit_on, hw]
  | on_bid_hit option bid_price =>
    show (((on_bid_hit m option bid_price).position.option_quantity_by_option_id id).getD 0)
      = _
    rw [on_bid_hit_option_quantity]
    by_cases hid : option.option_id = id
    · subst hid
      simp [Action.is_bid_hit_on, Action.is_offer_hit_on]
    · have hid' : id ≠ option.option_id := fun e => hid e.symm
      simp [Action.is_bid_hit_on, Action.is_offer_hit_on, hid, Function.update_noteq hid', hw]
  | on_offer_hit option offer_price =>
    show (((on_offer_hit m option offer_price).position.option_quantity_by_option_id
      id).getD 0) = _
    rw [on_offer_hit_option_quantity]
    by_cases hid : option.option_id = id
    · subst hid
      simp [Action.is_bid_hit_on, Action.is_offer_hit_on]
      congr 1
    · have hid' : id ≠ option.option_id := fun e => hid e.symm
      simp [Action.is_bid_hit_on, Action.is_offer_hit_on, hid, Function.update_noteq hid', hw]
  | on_step_advance us os =>
    show (((on_step_advance m us os).position.option_quantity_by_option_id id).getD 0) = _
    rw [on_step_advance_option_quantity]
    simp [Action.is_bid_hit_on, Action.is_offer_hit_on, hw]
  | register_callback callback =>
    show ((m.position.option_quantity_by_option_id id).getD 0) = _
    simp [Action.is_bid_hit_on, Action.is_offer_hit_on, hw]

theorem run_option_quantity (id : ℤ) (actions : List Action) :
    ∀ m : MarketMaker,
      wrap_int32 ((m.position.option_quantity_by_option_id id).getD 0)
        = (m.position.option_quantity_by_option_id id).getD 0 →
      ((run m actions).position.option_quantity_by_option_id id).getD 0
        = wrap_int32 ((m.position.option_quantity_by_option_id id).getD 0
            + (actions.countP (Action.is_bid_hit_on id) : ℤ)
            - (actions.countP (Action.is_offer_hit_on id) : ℤ)) := by
  induction actions with
  | nil =>
    intro m hw
    simp only [run, List.foldl_nil, List.countP_nil, Nat.cast_zero, add_zero, sub_zero]
    exact hw.symm
  | cons a as ih =>
    intro m hw
    have hrun : run m (a :: as) = run (a.apply m) as := rfl
    have ha := apply_option_quantity m a id hw
    rw [hrun, ih (a.apply m) (by rw [ha, wrap_int32_idem]), ha, List.countP_cons,
      List.countP_cons, add_sub_assoc, wrap_int32_add]
    congr 1
    push_cast
    split_ifs <;> ring

/-! ## Pricing twice -/

theorem price_option_miss_cases (m : MarketMaker) (option : OptionContract)
    (underlying : Underlying)
    (hu : find_underlying m option.underlying_id = some underlying)
    (hn : option.steps_until_expiry ≠ 0)
    (hc : cache_find m.price_cache
      (cache_key_string option.option_id underlying.valuation) = none) :
    price_option m option
        = price_option_full m option underlying
            (cache_key_string option.option_id underlying.valuation)
    ∨ ∃ last_price old,
        m.last_underlying_prices underlying.underlying_id = some last_price
        ∧ last_price ≠ underlying.valuation
        ∧ |underlying.valuation - last_price| < underlying.up_move_step * (1 / 10)
        ∧ cache_find m.price_cache (cache_key_string option.option_id last_price) = some old
        ∧ price_option m option
            = price_option_taylor m option underlying
                (cache_key_string option.option_id underlying.valuation) last_price old := by
  cases hl : m.last_underlying_prices underlying.underlying_id with
  | none =>
    left
    exact price_option_miss_full m option underlying hu hn hc
      (fun s hs => by rw [hl] at hs; exact Option.noConfusion hs)
  | some last_price =>
    by_cases hcond : last_price ≠ underlying.valuation
        ∧ |underlying.valuation - last_price| < underlying.up_move_step * (1 / 10)
    · cases hold : cache_find m.price_cache
          (cache_key_string option.option_id last_price) with
      | some old =>
        right
        exact ⟨last_price, old, rfl, hcond.1, hcond.2, hold,
          price_option_miss_taylor m option underlying last_price old hu hn hc hl
            hcond.1 hcond.2 hold⟩
      | none =>
        left
        unfold price_option
        rw [hu]
        simp only [hn, if_false, hc, hl]
        rw [if_pos hcond]
        simp only [hold]
    · left
      unfold price_option
      rw [hu]
      simp only [hn, if_false, hc, hl]
      rw [if_neg hcond]

theorem cache_find_emplace_of_miss (cache : List (CacheKey × Greeks)) (key : CacheKey)
    (greeks : Greeks) (h : cache_find cache key = none) :
    cache_find (cache_emplace cache key greeks) key = some greeks := by
  unfold cache_emplace
  rw [h]
  simp [cache_find, List.lookup]

/-- C15: for every engine state and every option, a second `price_option` call right
after the first returns the same value and leaves the price cache and the last
underlying prices (indeed the whole state) as the first call left them: it is a cache
hit, an expiry bypass or a missing-underlying return. -/
theorem C15_price_option_idempotent (m : MarketMaker) (option : OptionContract) :
    price_option (price_option m option).2 option
      = ((price_option m option).1, (price_option m option).2) := by
  cases hu : find_underlying m option.underlying_id with
  | none =>
    have e : price_option m option = (0, m) := by
      unfold price_option; rw [hu]
    rw [e]
    exact e
  | some underlying =>
    by_cases hn : option.steps_until_expiry = 0
    · have e : price_option m option
          = (option.expiry_valuation underlying.valuation, m) := by
        unfold price_option; rw [hu]; simp only [hn, if_true]
      rw [e]
      exact e
    · cases hc : cache_find m.price_cache
          (cache_key_string option.option_id underlying.valuation) with
      | some greeks =>
        rw [price_option_hit m option underlying greeks hu hn hc]
        exact price_option_hit m option underlying greeks hu hn hc
      | none =>
        have hus : (price_option m option).2.underlying_state = m.underlying_state :=
          quoting_keeps_underlying_state (price_option_frame m option).to_quoting
        have hu' : find_underlying (price_option m option).2 option.underlying_id
            = some underlying := by
          rw [find_underlying_congr hus]; exact hu
        rcases price_option_miss_cases m option underlying hu hn hc with h | h
        · have hcached : cache_find (price_option m option).2.price_cache
              (cache_key_string option.option_id underlying.valuation)
              = some ((price_option m option).1,
                  calculate_delta option underlying (price_option m option).1,
                  calculate_gamma option underlying) := by
            rw [h]
            exact cache_find_emplace_of_miss _ _ _ hc
          rw [price_option_hit _ option underlying _ hu' hn hcached]
        · obtain ⟨last_price, old, -, -, -, -, ht⟩ := h
          have hcached : cache_find (price_option m option).2.price_cache
              (cache_key_string option.option_id underlying.valuation)
              = some ((price_option m option).1,
                  calculate_delta option underlying (price_option m option).1,
                  calculate_gamma option underlying) := by
            rw [ht]
            exact cache_find_emplace_of_miss _ _ _ hc
          rw [price_option_hit _ option underlying _ hu' hn hcached]

/-! ## Missing underlyings -/

/-- C19: for every engine state and every option whose underlying_id matches no
underlying in engine state, make_market returns exactly the sentinel quote
(0.01, 99999999.0), whatever the option position and the safe_mode flag are. -/
theorem C19_make_market_missing_underlying (m : MarketMaker) (option : OptionContract)
    (hu : find_underlying m option.underlying_id = none) :
    (make_market m option).1 = (1 / 100, 99999999) := by
  unfold make_market
  simp only []
  split_ifs
  · rfl
  · have hus : (price_option (check_risk_limit m).2 option).2.underlying_state
        = m.underlying_state :=
      quoting_keeps_underlying_state (only_quoting_changed_trans (check_risk_limit_frame m)
        (price_option_frame _ option).to_quoting)
    unfold make_market_quote
    simp only []
    rw [find_underlying_congr hus, hu]
    rfl

/-- Witness for C19: the fresh engine of Scenario A asked for a quote on an option whose
underlying id 99 is not in its state. -/
theorem C19_make_market_missing_underlying_witness :
    (make_market scenario_A_engine { scenario_A_call with underlying_id := 99 }).1
      = (1 / 100, 99999999) :=
  C19_make_market_missing_underlying scenario_A_engine
    { scenario_A_call with underlying_id := 99 }
    (by simp [find_underlying, scenario_A_engine, MarketMaker.new, scenario_underlying])

/-- C20: for every option whose underlying_id is absent from engine state, price_option
returns 0.0 and changes no engine state; and for every uid absent from engine state,
portfolio_delta(uid) returns 0.0 (and changes no state), whatever the hedge ledger and
the option positions hold for that uid. -/
theorem C20_missing_underlying_soft_failure :
    (∀ (m : MarketMaker) (option : OptionContract),
      find_underlying m option.underlying_id = none → price_option m option = (0, m))
    ∧ (∀ (m : MarketMaker) (u_id : ℤ),
      find_underlying m u_id = none → portfolio_delta m u_id = (0, m)) := by
  constructor
  · intro m option hu
    unfold price_option
    rw [hu]
  · intro m u_id hu
    unfold portfolio_delta
    rw [hu]

/-- Witness for C20: an engine whose hedge ledger holds 5 for every id, asked about the
id 99 that is not in its state. -/
theorem C20_missing_underlying_soft_failure_witness :
    price_option { scenario_A_engine with hedge_pos := fun _ => some 5 }
        { scenario_A_call with underlying_id := 99 }
      = (0, { scenario_A_engine with hedge_pos := fun _ => some 5 })
    ∧ portfolio_delta { scenario_A_engine with hedge_pos := fun _ => some 5 } 99
      = (0, { scenario_A_engine with hedge_pos := fun _ => some 5 }) :=
  ⟨C20_missing_underlying_soft_failure.1
      { scenario_A_engine with hedge_pos := fun _ => some 5 }
      { scenario_A_call with underlying_id := 99 }
      (by simp [find_underlying, scenario_A_engine, MarketMaker.new, scenario_underlying]),
    C20_missing_underlying_soft_failure.2
      { scenario_A_engine with hedge_pos := fun _ => some 5 } 99
      (by simp [find_underlying, scenario_A_engine, MarketMaker.new, scenario_underlying])⟩

/-! ## Cache keys after a step advance -/

theorem prune_ceiling_length (cache : List (CacheKey × Greeks)) :
    (prune_ceiling cache).length = if cache.length > 100000 then cache.length - 50000
      else cache.length := by
  unfold prune_ceiling
  split_ifs
  · exact List.length_drop _ _
  · rfl

theorem prune_inactive_length_le (cache : List (CacheKey × Greeks))
    (os : List OptionContract) : (prune_inactive cache os).length ≤ cache.length := by
  unfold prune_inactive
  exact List.length_filter_le _ _

theorem prune_inactive_of_all_active (cache : List (CacheKey × Greeks))
    (os : List OptionContract)
    (h : ∀ entry ∈ cache, entry.1.option_id ∈ os.map (fun o => o.option_id)) :
    prune_inactive cache os = cache := by
  unfold prune_inactive
  apply List.filter_eq_self.mpr
  intro entry he
  exact decide_eq_true (h entry he)

theorem price_option_new_id (m : MarketMaker) (option : OptionContract)
    (underlying : Underlying)
    (hu : find_underlying m option.underlying_id = some underlying)
    (hn : option.steps_until_expiry ≠ 0)
    (hid : ∀ entry ∈ m.price_cache, entry.1.option_id ≠ option.option_id) :
    ∃ greeks, (price_option m option).2.price_cache
      = (cache_key_string option.option_id underlying.valuation, greeks) :: m.price_cache := by
  have hc : cache_find m.price_cache
      (cache_key_string option.option_id underlying.valuation) = none := by
    cases h : cache_find m.price_cache
        (cache_key_string option.option_id underlying.valuation) with
    | none => rfl
    | some g =>
      exfalso
      have hmem : ∀ (c : List (CacheKey × Greeks)) (k : CacheKey) (g : Greeks),
          cache_find c k = some g → (k, g) ∈ c := by
        intro c k g
        unfold cache_find
        induction c with
        | nil => intro h; simp [List.lookup] at h
        | cons e es ih =>
          intro h
          obtain ⟨k', g'⟩ := e
          rw [List.lookup_cons] at h
          by_cases hk : (k == k') = true
          · rw [hk] at h
            have hg : g' = g := Option.some.inj h
            have hk' : k = k' := by simpa using hk
            rw [hg, hk']
            exact List.mem_cons_self _ _
          · have hk2 : (k == k') = false := by simpa using hk
            rw [hk2] at h
            exact List.mem_cons_of_mem _ (ih h)
      exact hid _ (hmem _ _ _ h) rfl
  rcases price_option_miss_cases m option underlying hu hn hc with h | h
  · refine ⟨(price_option_from_scratch option underlying,
      calculate_delta option underlying (price_option_from_scratch option underlying),
      calculate_gamma option underlying), ?_⟩
    rw [h]
    unfold price_option_full cache_emplace
    simp only [hc]
  · obtain ⟨last_price, old, -, -, -, -, ht⟩ := h
    refine ⟨((price_option_taylor m option underlying
        (cache_key_string option.option_id underlying.valuation) last_price old).1,
      calculate_delta option underlying (price_option_taylor m option underlying
        (cache_key_string option.option_id underlying.valuation) last_price old).1,
      calculate_gamma option underlying), ?_⟩
    rw [ht]
    unfold price_option_taylor cache_emplace
    simp only [hc]

theorem price_all_cache_length (ids : List ℕ) (hnd : ids.Nodup) :
    ∀ m : MarketMaker,
      find_underlying m 0 = some scenario_underlying →
      (∀ entry ∈ m.price_cache, ∀ id ∈ ids, entry.1.option_id ≠ (id : ℤ)) →
      (run m ((ids.map crowd_option).map Action.price_option)).price_cache.length
          = m.price_cache.length + ids.length
      ∧ (run m ((ids.map crowd_option).map Action.price_option)).position = m.position
      ∧ (run m ((ids.map crowd_option).map Action.price_option)).hedge_pos = m.hedge_pos
      ∧ ∀ entry ∈ (run m ((ids.map crowd_option).map Action.price_option)).price_cache,
          entry ∈ m.price_cache ∨ ∃ id ∈ ids, entry.1.option_id = (id : ℤ) := by
  induction ids with
  | nil =>
    intro m _ _
    exact ⟨rfl, rfl, rfl, fun entry he => Or.inl he⟩
  | cons id ids ih =>
    intro m hu hfresh
    rw [List.nodup_cons] at hnd
    have hrun : run m (((id :: ids).map crowd_option).map Action.price_option)
        = run (price_option m (crowd_option id)).2
            ((ids.map crowd_option).map Action.price_option) := rfl
    obtain ⟨g, hcache⟩ := price_option_new_id m (crowd_option id) scenario_underlying hu
      Nat.one_ne_zero (fun entry he => hfresh entry he id (List.mem_cons_self _ _))
    have hframe := (price_option_frame m (crowd_option id)).to_quoting
    have hu' : find_underlying (price_option m (crowd_option id)).2 0
        = some scenario_underlying := by
      rw [find_underlying_congr (quoting_keeps_underlying_state hframe)]; exact hu
    have hfresh' : ∀ entry ∈ (price_option m (crowd_option id)).2.price_cache,
        ∀ id' ∈ ids, entry.1.option_id ≠ (id' : ℤ) := by
      intro entry he id' hid'
      rw [hcache] at he
      rcases List.mem_cons.mp he with h | h
      · rw [h]
        show ((id : ℕ) : ℤ) ≠ (id' : ℤ)
        intro e
        have : id = id' := by exact_mod_cast e
        exact hnd.1 (this ▸ hid')
      · exact hfresh entry h id' (List.mem_cons_of_mem _ hid')
    obtain ⟨h1, h2, h3, h4⟩ := ih hnd.2 _ hu' hfresh'
    rw [hrun]
    refine ⟨?_, ?_, ?_, ?_⟩
    · rw [h1, hcache]
      simp only [List.length_cons]
      omega
    · rw [h2]; exact quoting_keeps_position hframe
    · rw [h3]; exact quoting_keeps_hedge_pos hframe
    · intro entry he
      rcases h4 entry he with h | ⟨id', hid', h⟩
      · rw [hcache] at h
        rcases List.mem_cons.mp h with h' | h'
        · right
          exact ⟨id, List.mem_cons_self _ _, by rw [h']; rfl⟩
        · left; exact h'
      · right
        exact ⟨id', List.mem_cons_of_mem _ hid', h⟩

theorem crowd_state_1_facts (n : ℕ) :
    (crowd_state_1 n).price_cache.length = n
    ∧ ((crowd_state_1 n).position.option_quantity_by_option_id = fun _ => none)
    ∧ ((crowd_state_1 n).hedge_pos = fun _ => none)
    ∧ ∀ entry ∈ (crowd_state_1 n).price_cache,
        entry.1.option_id ∈ (crowd_options n).map (fun o => o.option_id) := by
  have hu : find_underlying (crowd_state_0 n) 0 = some scenario_underlying := by
    simp [find_underlying, crowd_state_0, MarketMaker.new, scenario_underlying]
  obtain ⟨h1, h2, h3, h4⟩ := price_all_cache_length (List.range n) (List.nodup_range n)
    (crowd_state_0 n) hu (fun entry he => by simp [crowd_state_0, MarketMaker.new] at he)
  refine ⟨?_, ?_, ?_, ?_⟩
  · unfold crowd_state_1 crowd_options
    rw [h1]
    simp [crowd_state_0, MarketMaker.new]
  · unfold crowd_state_1 crowd_options
    rw [h2]; rfl
  · unfold crowd_state_1 crowd_options
    rw [h3]; rfl
  · intro entry he
    rcases h4 entry he with h | ⟨id, hid, h⟩
    · simp [crowd_state_0, MarketMaker.new] at h
    · rw [h]
      exact List.mem_map.mpr ⟨crowd_option id, List.mem_map.mpr ⟨id, hid, rfl⟩, rfl⟩

theorem crowd_pruned_length (n : ℕ) (hn : n > 100000) :
    (prune_ceiling (prune_inactive (crowd_state_1 n).price_cache (crowd_options n))).length
      = n - 50000
    ∧ (crowd_state_2 n).price_cache.length = n - 50000 := by
  obtain ⟨hlen, hpos, hhedge, hall⟩ := crowd_state_1_facts n
  have hpruned : (prune_ceiling (prune_inactive (crowd_state_1 n).price_cache
      (crowd_options n))).length = n - 50000 := by
    rw [prune_inactive_of_all_active _ _ hall, prune_ceiling_length, hlen, if_pos hn]
  refine ⟨hpruned, ?_⟩
  unfold crowd_state_2
  rw [(on_step_advance_flat (crowd_state_1 n) [scenario_underlying] (crowd_options n)
    hpos hhedge).2.1]
  exact hpruned

/-- C17 (as stated) fails: a fresh engine holds 150,001 options and prices each of them
once; the next on_step_advance keeps them all active, so the active-set prune removes
nothing and the bulk drop removes 50,000 entries, leaving 100,001 in the cache. -/
theorem C17_counterexample :
    Reachable (crowd_state_1 150001)
    ∧ (prune_ceiling (prune_inactive (crowd_state_1 150001).price_cache
        (crowd_options 150001))).length = 100001
    ∧ (crowd_state_2 150001).price_cache.length = 100001
    ∧ ¬ (∀ (m : MarketMaker) (os : List OptionContract),
          (prune_ceiling (prune_inactive m.price_cache os)).length ≤ 100000) := by
  obtain ⟨h1, h2⟩ := crowd_pruned_length 150001 (by norm_num)
  have e : 150001 - 50000 = 100001 := by norm_num
  rw [e] at h1 h2
  refine ⟨⟨[scenario_underlying], crowd_options 150001,
    (crowd_options 150001).map Action.price_option, rfl⟩, h1, h2, ?_⟩
  intro hall
  have := hall (crowd_state_1 150001) (crowd_options 150001)
  rw [h1] at this
  omega

/-- C17 (amended): once on_step_advance has finished its cache pruning (active-set prune
followed by the bulk drop), the price cache holds at most 100,000 entries when at most
150,000 entries survive the active-set prune, in particular when the cache held at most
150,000 entries before the call; in general the bulk drop removes exactly 50,000 entries
when more than 100,000 survive, and none otherwise. -/
theorem C17_cache_ceiling (cache : List (CacheKey × Greeks)) (os : List OptionContract) :
    ((prune_inactive cache os).length ≤ 150000 →
      (prune_ceiling (prune_inactive cache os)).length ≤ 100000)
    ∧ (cache.length ≤ 150000 →
      (prune_ceiling (prune_inactive cache os)).length ≤ 100000)
    ∧ (prune_ceiling (prune_inactive cache os)).length
        = if (prune_inactive cache os).length > 100000
          then (prune_inactive cache os).length - 50000
          else (prune_inactive cache os).length := by
  have hle := prune_inactive_length_le cache os
  have hlen := prune_ceiling_length (prune_inactive cache os)
  refine ⟨?_, ?_, hlen⟩
  · intro h
    rw [hlen]
    split_ifs <;> omega
  · intro h
    rw [hlen]
    split_ifs <;> omega

/-- Witness for C17 (amended): the one-entry cache of the engine that priced the CALL of
Scenario B once. -/
theorem C17_cache_ceiling_witness :
    (prune_ceiling (prune_inactive stale_state_1.price_cache [scenario_B_call])).length
      ≤ 100000 :=
  (C17_cache_ceiling stale_state_1.price_cache [scenario_B_call]).2.1
    (by
      obtain ⟨delta, gamma, h⟩ := stale_state_1_cache
      rw [h]
      simp)

/-! ## Which valuations share a cache key -/

theorem round_half_even_of_lt_half (x : ℚ) (z : ℤ) (h1 : (z : ℚ) ≤ x)
    (h2 : x < (z : ℚ) + 1 / 2) : round_half_even x = z := by
  have hfloor : ⌊x⌋ = z := by
    rw [Int.floor_eq_iff]
    exact ⟨h1, by linarith⟩
  unfold round_half_even
  simp only [hfloor]
  rw [if_pos (by linarith)]

/-- C18 (as stated) fails: the key prints the valuation with six decimals, so 150 and
150.0000001 give the same key for the same option id. -/
theorem C18_counterexample :
    (150 : ℚ) ≠ 150 + 1 / 10000000
    ∧ cache_key_string 3 150 = cache_key_string 3 (150 + 1 / 10000000)
    ∧ ¬ (∀ (id1 id2 : ℤ) (p1 p2 : ℚ),
          cache_key_string id1 p1 = cache_key_string id2 p2 → id1 = id2 ∧ p1 = p2) := by
  have hne : (150 : ℚ) ≠ 150 + 1 / 10000000 := by norm_num
  have hk1 : cache_key_string 3 150
      = { option_id := 3, negative := false, micros := 150000000 } := by
    rw [cache_key_string_of_micros 3 150 150000000 (by norm_num)]
    norm_num
  have hk2 : cache_key_string 3 (150 + 1 / 10000000)
      = { option_id := 3, negative := false, micros := 150000000 } := by
    unfold cache_key_string
    have habs : |(150 + 1 / 10000000 : ℚ)| = 150 + 1 / 10000000 :=
      abs_of_pos (by norm_num)
    rw [habs, round_half_even_of_lt_half _ 150000000 (by norm_num) (by norm_num)]
    have ht : Int.toNat 150000000 = 150000000 := rfl
    rw [ht]
    norm_num
  refine ⟨hne, hk1.trans hk2.symm, ?_⟩
  intro hinj
  exact hne (hinj 3 3 150 (150 + 1 / 10000000) (hk1.trans hk2.symm)).2

/-- C18 (amended): `cache_key_string` is injective on the pairs (option_id, valuation)
whose valuation has at most six decimals (a whole number of millionths), in particular
on valuations rounded to 0.01: for such pairs equal keys mean equal option ids and equal
valuations, so different valuations of one option occupy distinct cache entries. -/
theorem C18_cache_key_injective_on_six_decimals (id1 id2 : ℤ) (p1 p2 : ℚ) (k1 k2 : ℤ)
    (h1 : p1 = (k1 : ℚ) / 1000000) (h2 : p2 = (k2 : ℚ) / 1000000)
    (hkey : cache_key_string id1 p1 = cache_key_string id2 p2) :
    id1 = id2 ∧ p1 = p2 := by
  have key_of : ∀ (id : ℤ) (p : ℚ) (k : ℤ), p = (k : ℚ) / 1000000 →
      cache_key_string id p
        = { option_id := id, negative := decide (k < 0), micros := k.natAbs } := by
    intro id p k hp
    have habs : |p| * 1000000 = ((k.natAbs : ℕ) : ℚ) := by
      rw [hp, abs_div, abs_of_pos (by norm_num : (0 : ℚ) < 1000000)]
      rw [div_mul_cancel₀ _ (by norm_num : (1000000 : ℚ) ≠ 0)]
      rw [Nat.cast_natAbs, Int.cast_abs]
    rw [cache_key_string_of_micros id p k.natAbs habs]
    have hneg : (p < 0) ↔ (k < 0) := by
      rw [hp]
      constructor
      · intro h
        have : (k : ℚ) < 0 := by
          by_contra hk
          push_neg at hk
          have : (0 : ℚ) ≤ (k : ℚ) / 1000000 := by positivity
          linarith
        exact_mod_cast this
      · intro h
        have : (k : ℚ) < 0 := by exact_mod_cast h
        exact div_neg_of_neg_of_pos this (by norm_num)
    simp only [hneg]
  rw [key_of id1 p1 k1 h1, key_of id2 p2 k2 h2] at hkey
  have hid : id1 = id2 := congrArg CacheKey.option_id hkey
  have hneg : decide (k1 < 0) = decide (k2 < 0) := congrArg CacheKey.negative hkey
  have hmic : k1.natAbs = k2.natAbs := congrArg CacheKey.micros hkey
  refine ⟨hid, ?_⟩
  have hk : k1 = k2 := by
    have hiff : k1 < 0 ↔ k2 < 0 := by
      constructor
      · intro h
        have : decide (k2 < 0) = true := by rw [← hneg]; exact decide_eq_true h
        exact of_decide_eq_true this
      · intro h
        have : decide (k1 < 0) = true := by rw [hneg]; exact decide_eq_true h
        exact of_decide_eq_true this
    omega
  rw [h1, h2, hk]

/-- Witness for C18 (amended): the valuations 150.00 and 152.00 of one option. -/
theorem C18_cache_key_injective_on_six_decimals_witness :
    cache_key_string 3 150 ≠ cache_key_string 3 152 := fun hkey =>
  absurd (C18_cache_key_injective_on_six_decimals 3 3 150 152 150000000 152000000
    (by norm_num) (by norm_num) hkey).2 (by norm_num)

/-! ## Accounting of hedge trades -/

theorem accepted_quantity_nil (uid : ℤ) : accepted_quantity uid [] = 0 := rfl

theorem accepted_quantity_append (uid : ℤ) (l1 l2 : List TradeRecord) :
    accepted_quantity uid (l1 ++ l2) = accepted_quantity uid l1 + accepted_quantity uid l2 := by
  unfold accepted_quantity
  rw [List.map_append, List.sum_append]

theorem accepted_quantity_singleton (uid u : ℤ) (q : ℚ) (ok : Bool) :
    accepted_quantity uid [(u, q, ok)] = if u = uid ∧ ok = true then q else 0 := by
  unfold accepted_quantity
  simp

theorem getD_update_self_default (f : ℤ → Option ℚ) (uid u : ℤ) :
    ((Function.update f uid (some ((f uid).getD 0))) u).getD 0 = (f u).getD 0 := by
  by_cases h : u = uid
  · subst h
    rw [Function.update_same]
    rfl
  · rw [Function.update_noteq h]

theorem invoke_callback_outcome (m : MarketMaker) (uid : ℤ) (quantity : ℚ) :
    trade_outcome (invoke_callback m uid quantity) m uid quantity := by
  cases hcb : m.trade_underlying_callback with
  | none =>
    have e : invoke_callback m uid quantity = (.error .TradeCallbackFailure, m) := by
      unfold invoke_callback; rw [hcb]
    rw [e]
    exact ⟨rfl, Or.inl ⟨rfl, [], (List.append_nil _).symm, fun u => rfl⟩⟩
  | some callback =>
    cases hok : callback m.callback_log uid quantity with
    | false =>
      have e : invoke_callback m uid quantity
          = (.error .TradeCallbackFailure,
              { m with callback_log := m.callback_log ++ [(uid, quantity, false)] }) := by
        unfold invoke_callback; rw [hcb]; simp only [hok, Bool.false_eq_true, if_false]
      rw [e]
      refine ⟨rfl, Or.inl ⟨rfl, [(uid, quantity, false)], rfl, fun u => ?_⟩⟩
      rw [accepted_quantity_singleton]
      simp
    | true =>
      have e : invoke_callback m uid quantity
          = (.ok (),
              { m with callback_log := m.callback_log ++ [(uid, quantity, true)] }) := by
        unfold invoke_callback; rw [hcb]; simp only [hok, if_true]
      rw [e]
      exact ⟨rfl, Or.inr ⟨rfl, rfl⟩⟩

theorem buy_underlying_outcome (m : MarketMaker) (uid : ℤ) (quantity : ℚ) :
    trade_outcome (buy_underlying m uid quantity) m uid quantity := by
  have h := invoke_callback_outcome m uid quantity
  unfold buy_underlying
  split_ifs
  · exact ⟨rfl, Or.inl ⟨rfl, [], (List.append_nil _).symm, fun u => rfl⟩⟩
  · split
    · rename_i e m1 heq
      rw [heq] at h
      exact h
    · rename_i x m1 heq
      rw [heq] at h
      exact h

theorem sell_underlying_outcome (m : MarketMaker) (uid : ℤ) (quantity : ℚ) :
    trade_outcome (sell_underlying m uid quantity) m uid (-quantity) := by
  have h := invoke_callback_outcome m uid (-quantity)
  unfold sell_underlying
  split_ifs
  · exact ⟨rfl, Or.inl ⟨rfl, [], (List.append_nil _).symm, fun u => rfl⟩⟩
  · split
    · rename_i e m1 heq
      rw [heq] at h
      exact h
    · rename_i x m1 heq
      rw [heq] at h
      exact h

theorem post_trade_accounting_of_outcome (m : MarketMaker) (uid : ℤ) (trade : ℚ)
    (r : Except Error Unit × MarketMaker)
    (ho : trade_outcome r
      { m with hedge_pos := Function.update m.hedge_pos uid (some ((m.hedge_pos uid).getD 0)) }
      uid (-trade)) :
    post_trade_accounting m
      (match r.1 with
        | .error _ => r.2
        | .ok _ =>
          { r.2 with
            hedge_pos := Function.update r.2.hedge_pos uid
              (some ((m.hedge_pos uid).getD 0 + trade)) }) := by
  obtain ⟨hh, hcase⟩ := ho
  rcases hcase with ⟨hfail, suffix, hlog, hzero⟩ | ⟨hok, hlog⟩
  · cases hr : r.1 with
    | ok x => rw [hr] at hfail; exact Bool.noConfusion hfail
    | error e =>
      simp only []
      refine ⟨suffix, hlog, fun u => ?_⟩
      rw [hh, hzero, sub_zero]
      exact getD_update_self_default _ _ _
  · cases hr : r.1 with
    | error e => rw [hr] at hok; exact Bool.noConfusion hok
    | ok x =>
      simp only []
      refine ⟨[(uid, -trade, true)], hlog, fun u => ?_⟩
      rw [accepted_quantity_singleton]
      by_cases hu : u = uid
      · subst hu
        simp
      · have hu' : ¬ uid = u := fun e => hu e.symm
        rw [hh]
        simp only [Function.update_noteq hu, hu', false_and, if_false, sub_zero]

theorem rehedge_accounting_of_outcome (m : MarketMaker) (uid : ℤ) (trade : ℚ)
    (r : Except Error Unit × MarketMaker)
    (ho : trade_outcome r
      { m with hedge_pos := Function.update m.hedge_pos uid (some ((m.hedge_pos uid).getD 0)) }
      uid trade) :
    rehedge_accounting m
      (match r.1 with
        | .error _ => r.2
        | .ok _ =>
          { r.2 with
            hedge_pos := Function.update r.2.hedge_pos uid
              (some ((m.hedge_pos uid).getD 0 + trade)) }) := by
  obtain ⟨hh, hcase⟩ := ho
  rcases hcase with ⟨hfail, suffix, hlog, hzero⟩ | ⟨hok, hlog⟩
  · cases hr : r.1 with
    | ok x => rw [hr] at hfail; exact Bool.noConfusion hfail
    | error e =>
      simp only []
      refine ⟨suffix, hlog, fun u => ?_⟩
      rw [hh, hzero, add_zero]
      exact getD_update_self_default _ _ _
  · cases hr : r.1 with
    | error e => rw [hr] at hok; exact Bool.noConfusion hok
    | ok x =>
      simp only []
      refine ⟨[(uid, trade, true)], hlog, fun u => ?_⟩
      rw [accepted_quantity_singleton]
      by_cases hu : u = uid
      · subst hu
        simp
      · have hu' : ¬ uid = u := fun e => hu e.symm
        rw [hh]
        simp only [Function.update_noteq hu, hu', false_and, if_false, add_zero]

theorem exec_delta_hedge_accounting (m : MarketMaker) (uid : ℤ) (target : ℚ) :
    post_trade_accounting m (exec_delta_hedge m uid target) := by
  unfold exec_delta_hedge
  simp only []
  split_ifs with hsmall hpos
  · exact ⟨[], (List.append_nil _).symm, fun u => by
      rw [accepted_quantity_nil, sub_zero]; exact getD_update_self_default _ _ _⟩
  · apply post_trade_accounting_of_outcome
    have ho := sell_underlying_outcome
      { m with hedge_pos := Function.update m.hedge_pos uid (some ((m.hedge_pos uid).getD 0)) }
      uid |target - (m.hedge_pos uid).getD 0|
    rw [abs_of_pos hpos] at ho ⊢
    exact ho
  · apply post_trade_accounting_of_outcome
    have ho := buy_underlying_outcome
      { m with hedge_pos := Function.update m.hedge_pos uid (some ((m.hedge_pos uid).getD 0)) }
      uid |target - (m.hedge_pos uid).getD 0|
    have hneg : target - (m.hedge_pos uid).getD 0 ≤ 0 := not_lt.mp hpos
    rw [abs_of_nonpos hneg] at ho ⊢
    exact ho

theorem rehedge_trade_accounting (m : MarketMaker) (uid : ℤ) (hedge_trade : ℚ) :
    rehedge_accounting m (rehedge_trade m uid hedge_trade) := by
  unfold rehedge_trade
  simp only []
  split_ifs with hpos
  · apply rehedge_accounting_of_outcome
    have ho := buy_underlying_outcome
      { m with hedge_pos := Function.update m.hedge_pos uid (some ((m.hedge_pos uid).getD 0)) }
      uid |hedge_trade|
    rw [abs_of_pos hpos] at ho ⊢
    exact ho
  · apply rehedge_accounting_of_outcome
    have ho := sell_underlying_outcome
      { m with hedge_pos := Function.update m.hedge_pos uid (some ((m.hedge_pos uid).getD 0)) }
      uid |hedge_trade|
    have hneg : hedge_trade ≤ 0 := not_lt.mp hpos
    rw [abs_of_nonpos hneg] at ho ⊢
    rw [neg_neg] at ho
    exact ho

theorem post_trade_accounting_of_unchanged {m m' : MarketMaker}
    (hh : m'.hedge_pos = m.hedge_pos) (hl : m'.callback_log = m.callback_log) :
    post_trade_accounting m m' :=
  ⟨[], by rw [hl, List.append_nil], fun u => by rw [hh, accepted_quantity_nil, sub_zero]⟩

theorem rehedge_accounting_of_unchanged {m m' : MarketMaker}
    (hh : m'.hedge_pos = m.hedge_pos) (hl : m'.callback_log = m.callback_log) :
    rehedge_accounting m m' :=
  ⟨[], by rw [hl, List.append_nil], fun u => by rw [hh, accepted_quantity_nil, add_zero]⟩

theorem post_trade_accounting_trans {m m' m'' : MarketMaker}
    (h1 : post_trade_accounting m m') (h2 : post_trade_accounting m' m'') :
    post_trade_accounting m m'' := by
  obtain ⟨s1, hl1, hh1⟩ := h1
  obtain ⟨s2, hl2, hh2⟩ := h2
  refine ⟨s1 ++ s2, by rw [hl2, hl1, List.append_assoc], fun u => ?_⟩
  rw [hh2, hh1, accepted_quantity_append]
  ring

theorem rehedge_accounting_trans {m m' m'' : MarketMaker}
    (h1 : rehedge_accounting m m') (h2 : rehedge_accounting m' m'') :
    rehedge_accounting m m'' := by
  obtain ⟨s1, hl1, hh1⟩ := h1
  obtain ⟨s2, hl2, hh2⟩ := h2
  refine ⟨s1 ++ s2, by rw [hl2, hl1, List.append_assoc], fun u => ?_⟩
  rw [hh2, hh1, accepted_quantity_append]
  ring

theorem cache_keeps_hedge_pos {m m' : MarketMaker} (h : only_cache_changed m m') :
    m'.hedge_pos = m.hedge_pos := by
  have e : _ = _ := h
  rw [e]

theorem cache_keeps_callback_log {m m' : MarketMaker} (h : only_cache_changed m m') :
    m'.callback_log = m.callback_log := by
  have e : _ = _ := h
  rw [e]

theorem delta_hedge_post_trade_accounting (m : MarketMaker) (option : OptionContract)
    (q : ℤ) : post_trade_accounting m (delta_hedge_post_trade m option q) := by
  unfold delta_hedge_post_trade
  split
  · exact post_trade_accounting_of_unchanged rfl rfl
  · rename_i underlying _
    simp only []
    have hg := get_greeks_frame m option underlying
    have h2 : post_trade_accounting m
        { (get_greeks m option underlying).2 with
          target_deltas := Function.update (get_greeks m option underlying).2.target_deltas
            underlying.underlying_id
            (some (((get_greeks m option underlying).2.target_deltas
                underlying.underlying_id).getD 0
              + (q : ℚ) * (get_greeks m option underlying).1.2.1)) } :=
      post_trade_accounting_trans
        (post_trade_accounting_of_unchanged (cache_keeps_hedge_pos hg)
          (cache_keeps_callback_log hg))
        (post_trade_accounting_of_unchanged rfl rfl)
    have hd := portfolio_delta_frame
        { (get_greeks m option underlying).2 with
          target_deltas := Function.update (get_greeks m option underlying).2.target_deltas
            underlying.underlying_id
            (some (((get_greeks m option underlying).2.target_deltas
                underlying.underlying_id).getD 0
              + (q : ℚ) * (get_greeks m option underlying).1.2.1)) }
        underlying.underlying_id
    have h3 := post_trade_accounting_trans h2
      (post_trade_accounting_of_unchanged (cache_keeps_hedge_pos hd)
        (cache_keeps_callback_log hd))
    split_ifs
    · exact post_trade_accounting_trans h3 (exec_delta_hedge_accounting _ _ _)
    · exact h3

theorem on_bid_hit_accounting (m : MarketMaker) (option : OptionContract) (bid_price : ℚ) :
    post_trade_accounting m (on_bid_hit m option bid_price) := by
  unfold on_bid_hit
  simp only []
  have h0 : post_trade_accounting m
      { m with
        position := m.position.add_option_quantity option.option_id 1
        pnl := m.pnl + bid_price } :=
    post_trade_accounting_of_unchanged rfl rfl
  exact post_trade_accounting_trans h0 (delta_hedge_post_trade_accounting _ option 1)

theorem on_offer_hit_accounting (m : MarketMaker) (option : OptionContract)
    (offer_price : ℚ) : post_trade_accounting m (on_offer_hit m option offer_price) := by
  unfold on_offer_hit
  simp only []
  have h0 : post_trade_accounting m
      { m with
        position := m.position.add_option_quantity option.option_id (-1)
        pnl := m.pnl - offer_price } :=
    post_trade_accounting_of_unchanged rfl rfl
  exact post_trade_accounting_trans h0 (delta_hedge_post_trade_accounting _ option (-1))

theorem rehedge_step_accounting (m : MarketMaker) (u : Underlying) :
    rehedge_accounting m (rehedge_step m u) := by
  unfold rehedge_step
  simp only []
  have hd := portfolio_delta_frame m u.underlying_id
  have h1 : rehedge_accounting m (portfolio_delta m u.underlying_id).2 :=
    rehedge_accounting_of_unchanged (cache_keeps_hedge_pos hd) (cache_keeps_callback_log hd)
  split_ifs with hskip htrade
  · exact rehedge_accounting_of_unchanged rfl rfl
  · exact rehedge_accounting_trans
      (rehedge_accounting_trans h1 (rehedge_trade_accounting _ _ _))
      (rehedge_accounting_of_unchanged rfl rfl)
  · exact rehedge_accounting_trans h1 (rehedge_accounting_of_unchanged rfl rfl)

theorem rehedge_run_accounting (new_u_state : List Underlying) :
    ∀ m : MarketMaker, rehedge_accounting m (rehedge m new_u_state) := by
  induction new_u_state with
  | nil => intro m; exact rehedge_accounting_of_unchanged rfl rfl
  | cons u us ih =>
    intro m
    unfold rehedge at *
    rw [List.foldl_cons]
    exact rehedge_accounting_trans (rehedge_step_accounting m u) (ih _)

theorem on_step_advance_accounting (m : MarketMaker) (us : List Underlying)
    (os : List OptionContract) : rehedge_accounting m (on_step_advance m us os) := by
  unfold on_step_advance
  simp only []
  have h0 : rehedge_accounting m
      { m with
        underlying_state := us
        active_option_state := os
        price_cache := prune_ceiling (prune_inactive m.price_cache os) } :=
    rehedge_accounting_of_unchanged rfl rfl
  exact rehedge_accounting_trans (rehedge_accounting_trans h0 (rehedge_run_accounting us _))
    (rehedge_accounting_of_unchanged rfl rfl)

theorem call_records_of_append {m : MarketMaker} {a : Action} {suffix : List TradeRecord}
    (h : (a.apply m).callback_log = m.callback_log ++ suffix) :
    a.call_records m = suffix := by
  unfold Action.call_records
  rw [h, List.drop_left]

theorem get_greeks_hit (m : MarketMaker) (option : OptionContract) (underlying : Underlying)
    (greeks : Greeks)
    (h : cache_find m.price_cache
      (cache_key_string option.option_id underlying.valuation) = some greeks) :
    get_greeks m option underlying = (greeks, m) := by
  unfold get_greeks
  simp only [h]

theorem get_greeks_value_miss (m : MarketMaker) (option : OptionContract)
    (underlying : Underlying)
    (h : cache_find m.price_cache
      (cache_key_string option.option_id underlying.valuation) = none) :
    (get_greeks m option underlying).1
      = (price_option_from_scratch option underlying,
          calculate_delta option underlying (price_option_from_scratch option underlying),
          calculate_gamma option underlying) := by
  unfold get_greeks
  simp only [h]

theorem get_greeks_caches (m : MarketMaker) (option : OptionContract)
    (underlying : Underlying) :
    cache_find (get_greeks m option underlying).2.price_cache
        (cache_key_string option.option_id underlying.valuation)
      = some (get_greeks m option underlying).1 := by
  cases h : cache_find m.price_cache
      (cache_key_string option.option_id underlying.valuation) with
  | some greeks =>
    rw [get_greeks_hit m option underlying greeks h]
    exact h
  | none =>
    unfold get_greeks
    simp only [h]
    exact cache_find_emplace_of_miss _ _ _ h

theorem portfolio_delta_single (m : MarketMaker) (option : OptionContract)
    (underlying : Underlying) (q : ℤ) (greeks : Greeks)
    (hA : m.active_option_state = [option])
    (hU : find_underlying m option.underlying_id = some underlying)
    (hP : m.position.option_quantity_by_option_id option.option_id = some q)
    (hq : q ≠ 0)
    (hC : cache_find m.price_cache
      (cache_key_string option.option_id underlying.valuation) = some greeks) :
    portfolio_delta m option.underlying_id
      = ((q : ℚ) * greeks.2.1 - (m.hedge_pos option.underlying_id).getD 0, m) := by
  unfold portfolio_delta
  rw [hU]
  simp only [hA, List.foldl]
  have hstep : portfolio_delta_step option.underlying_id underlying (0, m) option
      = ((q : ℚ) * greeks.2.1, m) := by
    unfold portfolio_delta_step
    simp only [if_true, hP, hq, ne_eq, not_false_eq_true]
    rw [get_greeks_hit m option underlying greeks hC]
    simp
  rw [hstep]
  cases hh : m.hedge_pos option.underlying_id with
  | none => simp
  | some h => simp

theorem delta_hedge_post_trade_single (m : MarketMaker) (option : OptionContract)
    (underlying : Underlying) (q s : ℤ)
    (hA : m.active_option_state = [option])
    (hU : find_underlying m option.underlying_id = some underlying)
    (hP : m.position.option_quantity_by_option_id option.option_id = some q)
    (hq : q ≠ 0) :
    ∃ m2 : MarketMaker,
      only_hedging_changed m m2
      ∧ m2.price_cache = (get_greeks m option underlying).2.price_cache
      ∧ m2.hedge_pos = m.hedge_pos
      ∧ m2.callback_log = m.callback_log
      ∧ delta_hedge_post_trade m option s
        = if |(q : ℚ) * (get_greeks m option underlying).1.2.1
                - (m.hedge_pos option.underlying_id).getD 0| > HEDGE_TH
          then exec_delta_hedge m2 option.underlying_id
            ((q : ℚ) * (get_greeks m option underlying).1.2.1
              - (m.hedge_pos option.underlying_id).getD 0)
          else m2 := by
  have hid : underlying.underlying_id = option.underlying_id := (find_underlying_mem hU).2
  have hg := get_greeks_frame m option underlying
  have e1 : (get_greeks m option underlying).2
      = { m with price_cache := (get_greeks m option underlying).2.price_cache } := hg
  refine ⟨{ (get_greeks m option underlying).2 with
      target_deltas := Function.update (get_greeks m option underlying).2.target_deltas
        underlying.underlying_id
        (some (((get_greeks m option underlying).2.target_deltas
            underlying.underlying_id).getD 0
          + (s : ℚ) * (get_greeks m option underlying).1.2.1)) }, ?_, rfl, ?_, ?_, ?_⟩
  · exact only_hedging_changed_trans hg.to_hedging rfl
  · show (get_greeks m option underlying).2.hedge_pos = m.hedge_pos
    exact cache_keeps_hedge_pos hg
  · show (get_greeks m option underlying).2.callback_log = m.callback_log
    exact cache_keeps_callback_log hg
  · have hpd := portfolio_delta_single
      { (get_greeks m option underlying).2 with
        target_deltas := Function.update (get_greeks m option underlying).2.target_deltas
          underlying.underlying_id
          (some (((get_greeks m option underlying).2.target_deltas
              underlying.underlying_id).getD 0
            + (s : ℚ) * (get_greeks m option underlying).1.2.1)) }
      option underlying q (get_greeks m option underlying).1
      (by rw [e1]; exact hA)
      (by rw [find_underlying_congr (by rw [e1])]; exact hU)
      (by rw [e1]; exact hP) hq
      (get_greeks_caches m option underlying)
    have hh : (get_greeks m option underlying).2.hedge_pos = m.hedge_pos :=
      cache_keeps_hedge_pos hg
    simp only [] at hpd
    rw [← hid] at hpd
    unfold delta_hedge_post_trade
    rw [hU]
    simp only []
    rw [hpd]
    simp only [hh, hid]

theorem exec_delta_hedge_small_log (m : MarketMaker) (uid : ℤ) (target : ℚ)
    (h : |target - (m.hedge_pos uid).getD 0| < MIN_HEDGE) :
    (exec_delta_hedge m uid target).callback_log = m.callback_log := by
  unfold exec_delta_hedge
  simp only []
  rw [if_pos h]

theorem exec_delta_hedge_sell_accepted_log (m : MarketMaker) (uid : ℤ) (target : ℚ)
    (callback : TradeCallback)
    (hbig : ¬ |target - (m.hedge_pos uid).getD 0| < MIN_HEDGE)
    (hpos : target - (m.hedge_pos uid).getD 0 > 0)
    (hcb : m.trade_underlying_callback = some callback)
    (hok : callback m.callback_log uid (-(target - (m.hedge_pos uid).getD 0)) = true) :
    (exec_delta_hedge m uid target).callback_log
      = m.callback_log ++ [(uid, -(target - (m.hedge_pos uid).getD 0), true)] := by
  have hq : ¬ |target - (m.hedge_pos uid).getD 0| ≤ 0 := by
    rw [abs_of_pos hpos]; exact not_le.mpr hpos
  unfold exec_delta_hedge
  simp only []
  rw [if_neg hbig, if_pos hpos]
  unfold sell_underlying
  rw [if_neg hq]
  unfold invoke_callback
  simp only [hcb, abs_of_pos hpos, hok, if_true]

theorem accounting_suffix {m m' : MarketMaker} (suffix : List TradeRecord)
    (h : post_trade_accounting m m') (hlog : m'.callback_log = m.callback_log ++ suffix)
    (uid : ℤ) :
    (m'.hedge_pos uid).getD 0 = (m.hedge_pos uid).getD 0 - accepted_quantity uid suffix := by
  obtain ⟨s, hs, hh⟩ := h
  have : s = suffix := List.append_cancel_left (hs.symm.trans hlog)
  rw [hh, this]

theorem scenario_A_greeks :
    price_option_from_scratch scenario_A_call scenario_underlying = 7 / 8
    ∧ calculate_delta scenario_A_call scenario_underlying (7 / 8) = 1 / 2
    ∧ calculate_gamma scenario_A_call scenario_underlying = 25 / 16 := by
  refine ⟨?_, ?_, ?_⟩
  · norm_num [price_option_from_scratch, back_induction, lattice_sweep, terminal_payoff,
      scenario_A_call, scenario_underlying, List.range_succ]
  · norm_num [calculate_delta, pump_it_up, price_option_from_scratch, back_induction,
      lattice_sweep, terminal_payoff, scenario_A_call, scenario_underlying, List.range_succ]
  · norm_num [calculate_gamma, pump_it_up, price_option_from_scratch, back_induction,
      lattice_sweep, terminal_payoff, scenario_A_call, scenario_underlying, List.range_succ]

theorem hedge_state_1_facts :
    hedge_state_1.callback_log = [(0, -1 / 2, true)]
    ∧ (hedge_state_1.hedge_pos 0).getD 0 = 1 / 2
    ∧ cache_find hedge_state_1.price_cache
        (cache_key_string scenario_A_call.option_id scenario_underlying.valuation)
        = some (7 / 8, 1 / 2, 25 / 16) := by
  have hU : find_underlying
      { hedge_state_0 with
        position := hedge_state_0.position.add_option_quantity scenario_A_call.option_id 1
        pnl := hedge_state_0.pnl + 1 } scenario_A_call.underlying_id
      = some scenario_underlying := by
    simp [find_underlying, hedge_state_0, register_trade_underlying_callback,
      scenario_A_engine, MarketMaker.new, scenario_underlying, scenario_A_call]
  have hgv : (get_greeks
      { hedge_state_0 with
        position := hedge_state_0.position.add_option_quantity scenario_A_call.option_id 1
        pnl := hedge_state_0.pnl + 1 } scenario_A_call scenario_underlying).1
      = (7 / 8, 1 / 2, 25 / 16) := by
    rw [get_greeks_value_miss
      { hedge_state_0 with
        position := hedge_state_0.position.add_option_quantity scenario_A_call.option_id 1
        pnl := hedge_state_0.pnl + 1 } scenario_A_call scenario_underlying rfl,
      scenario_A_greeks.1, scenario_A_greeks.2.1, scenario_A_greeks.2.2]
  obtain ⟨m2, hf, hc2, hh2, hl2, heq⟩ := delta_hedge_post_trade_single
      { hedge_state_0 with
        position := hedge_state_0.position.add_option_quantity scenario_A_call.option_id 1
        pnl := hedge_state_0.pnl + 1 } scenario_A_call scenario_underlying 1 1
      rfl hU
      (by simp [Position.add_option_quantity, wrap_int32, hedge_state_0,
        register_trade_underlying_callback, scenario_A_engine, MarketMaker.new,
        Position.empty])
      (by decide)
  have h1 : hedge_state_1 = delta_hedge_post_trade
      { hedge_state_0 with
        position := hedge_state_0.position.add_option_quantity scenario_A_call.option_id 1
        pnl := hedge_state_0.pnl + 1 } scenario_A_call 1 := rfl
  rw [hgv] at heq
  have hnet : ((1 : ℤ) : ℚ) * (1 / 2 : ℚ) - ((fun _ => none : ℤ → Option ℚ)
      scenario_A_call.underlying_id).getD 0 = 1 / 2 := by norm_num
  have hh0 : ({ hedge_state_0 with
        position := hedge_state_0.position.add_option_quantity scenario_A_call.option_id 1
        pnl := hedge_state_0.pnl + 1 } : MarketMaker).hedge_pos = fun _ => none := rfl
  rw [hh0] at heq hh2
  simp only [hnet] at heq
  rw [if_pos (by rw [abs_of_pos (by norm_num)]; norm_num [HEDGE_TH])] at heq
  have hcur : (m2.hedge_pos scenario_A_call.underlying_id).getD 0 = 0 := by rw [hh2]; rfl
  have hlog : hedge_state_1.callback_log = [(0, -1 / 2, true)] := by
    rw [h1, heq, exec_delta_hedge_sell_accepted_log m2 scenario_A_call.underlying_id (1 / 2)
      (fun _ _ _ => true)
      (by rw [hcur]; norm_num [MIN_HEDGE, abs_of_pos])
      (by rw [hcur]; norm_num)
      (by rw [hedging_keeps_trade_underlying_callback hf]; rfl) rfl, hl2, hcur]
    norm_num [hedge_state_0, register_trade_underlying_callback, scenario_A_engine,
      MarketMaker.new, scenario_A_call]
  have hacc : post_trade_accounting m2 hedge_state_1 := by
    rw [h1, heq]; exact exec_delta_hedge_accounting _ _ _
  refine ⟨hlog, ?_, ?_⟩
  · have hl2' : m2.callback_log = [] := hl2
    have := accounting_suffix [(0, -1 / 2, true)] hacc
      (by rw [hlog, hl2']; rfl) 0
    rw [this, hh2, accepted_quantity_singleton]
    norm_num
  · have ht := exec_delta_hedge_trading m2 scenario_A_call.underlying_id (1 / 2)
    rw [h1, heq, trading_keeps_price_cache ht, hc2, get_greeks_caches, hgv]

theorem hedge_state_1_frame :
    hedge_state_1.active_option_state = [scenario_A_call]
    ∧ hedge_state_1.underlying_state = [scenario_underlying]
    ∧ hedge_state_1.trade_underlying_callback = some (fun _ _ _ => true)
    ∧ hedge_state_1.position.option_quantity_by_option_id scenario_A_call.option_id
        = some 1 := by
  have hf := delta_hedge_post_trade_frame
      { hedge_state_0 with
        position := hedge_state_0.position.add_option_quantity scenario_A_call.option_id 1
        pnl := hedge_state_0.pnl + 1 } scenario_A_call 1
  have h1 : hedge_state_1 = delta_hedge_post_trade
      { hedge_state_0 with
        position := hedge_state_0.position.add_option_quantity scenario_A_call.option_id 1
        pnl := hedge_state_0.pnl + 1 } scenario_A_call 1 := rfl
  rw [← h1] at hf
  refine ⟨?_, ?_, ?_, ?_⟩
  · rw [hedging_keeps_active_option_state hf]; rfl
  · rw [hedging_keeps_underlying_state hf]; rfl
  · rw [hedging_keeps_trade_underlying_callback hf]; rfl
  · rw [hedging_keeps_option_quantity hf]
    simp [Position.add_option_quantity, wrap_int32, hedge_state_0, register_trade_underlying_callback,
      scenario_A_engine, MarketMaker.new, Position.empty]

theorem hedge_state_2_facts :
    hedge_state_2.callback_log = [(0, -1 / 2, true)]
    ∧ (hedge_state_2.hedge_pos 0).getD 0 = 1 / 2
    ∧ (portfolio_delta hedge_state_2 scenario_A_call.underlying_id).1 = 1 / 2 := by
  obtain ⟨hlog1, hhedge1, hcache1⟩ := hedge_state_1_facts
  obtain ⟨hA1, hus1, hcb1, hpos1⟩ := hedge_state_1_frame
  have hU : find_underlying
      { hedge_state_1 with
        position := hedge_state_1.position.add_option_quantity scenario_A_call.option_id 1
        pnl := hedge_state_1.pnl + 1 } scenario_A_call.underlying_id
      = some scenario_underlying := by
    unfold find_underlying
    simp only [hus1]
    simp [scenario_underlying, scenario_A_call]
  have hgv : (get_greeks
      { hedge_state_1 with
        position := hedge_state_1.position.add_option_quantity scenario_A_call.option_id 1
        pnl := hedge_state_1.pnl + 1 } scenario_A_call scenario_underlying).1
      = (7 / 8, 1 / 2, 25 / 16) := by
    rw [get_greeks_hit
      { hedge_state_1 with
        position := hedge_state_1.position.add_option_quantity scenario_A_call.option_id 1
        pnl := hedge_state_1.pnl + 1 } scenario_A_call scenario_underlying _ hcache1]
  have hP : ({ hedge_state_1 with
        position := hedge_state_1.position.add_option_quantity scenario_A_call.option_id 1
        pnl := hedge_state_1.pnl + 1 } : MarketMaker).position.option_quantity_by_option_id
        scenario_A_call.option_id = some 2 := by
    simp [Position.add_option_quantity, wrap_int32, hpos1]
  obtain ⟨m2, hf, hc2, hh2, hl2, heq⟩ := delta_hedge_post_trade_single
      { hedge_state_1 with
        position := hedge_state_1.position.add_option_quantity scenario_A_call.option_id 1
        pnl := hedge_state_1.pnl + 1 } scenario_A_call scenario_underlying 2 1
      hA1 hU hP (by decide)
  have h2 : hedge_state_2 = delta_hedge_post_trade
      { hedge_state_1 with
        position := hedge_state_1.position.add_option_quantity scenario_A_call.option_id 1
        pnl := hedge_state_1.pnl + 1 } scenario_A_call 1 := rfl
  have hh1 : (({ hedge_state_1 with
        position := hedge_state_1.position.add_option_quantity scenario_A_call.option_id 1
        pnl := hedge_state_1.pnl + 1 } : MarketMaker).hedge_pos
        scenario_A_call.underlying_id).getD 0 = 1 / 2 := hhedge1
  rw [hgv, hh1] at heq
  have hnet : ((2 : ℤ) : ℚ) * (1 / 2 : ℚ) - 1 / 2 = 1 / 2 := by norm_num
  simp only [hnet] at heq
  rw [if_pos (by rw [abs_of_pos (by norm_num)]; norm_num [HEDGE_TH])] at heq
  have hcur : (m2.hedge_pos scenario_A_call.underlying_id).getD 0 = 1 / 2 := by
    rw [hh2]; exact hhedge1
  have hsmall : |(1 / 2 : ℚ) - (m2.hedge_pos scenario_A_call.underlying_id).getD 0|
      < MIN_HEDGE := by
    rw [hcur]; norm_num [MIN_HEDGE]
  have hlog : hedge_state_2.callback_log = [(0, -1 / 2, true)] := by
    rw [h2, heq, exec_delta_hedge_small_log m2 _ _ hsmall, hl2]
    exact hlog1
  have hacc : post_trade_accounting m2 hedge_state_2 := by
    rw [h2, heq]; exact exec_delta_hedge_accounting _ _ _
  have hhedge : (hedge_state_2.hedge_pos 0).getD 0 = 1 / 2 := by
    have := accounting_suffix [] hacc
      (by rw [hlog, hl2, List.append_nil]; exact hlog1.symm) 0
    rw [this, accepted_quantity_nil, sub_zero]
    exact hcur
  have ht := exec_delta_hedge_trading m2 scenario_A_call.underlying_id (1 / 2)
  rw [← heq, ← h2] at ht
  have hf2 : only_hedging_changed
      { hedge_state_1 with
        position := hedge_state_1.position.add_option_quantity scenario_A_call.option_id 1
        pnl := hedge_state_1.pnl + 1 } hedge_state_2 := by
    rw [h2]; exact delta_hedge_post_trade_frame _ _ _
  have hpd := portfolio_delta_single hedge_state_2 scenario_A_call scenario_underlying 2
    (7 / 8, 1 / 2, 25 / 16)
    (by rw [hedging_keeps_active_option_state hf2]; exact hA1)
    (by rw [find_underlying_congr (hedging_keeps_underlying_state hf2)]; exact hU)
    (by rw [hedging_keeps_option_quantity hf2]; exact hP)
    (by decide)
    (by rw [trading_keeps_price_cache ht, hc2, get_greeks_caches, hgv])
  refine ⟨hlog, hhedge, ?_⟩
  rw [hpd]
  have hh' : (hedge_state_2.hedge_pos scenario_A_call.underlying_id).getD 0 = 1 / 2 := hhedge
  simp only [hh']
  norm_num

/-- C14 fails on the code: with a callback that accepts every trade, a first bid hit on
the CALL of Scenario A (delta 1/2) is hedged by selling 1/2 share and sets the ledger to
1/2; after a second bid hit the position delta is 1, the residual handed to
`exec_delta_hedge` as its target is 1 - 1/2 = 1/2, the trade `target - ledger` is 0, no
trade is made, and `portfolio_delta` is left at 1/2, above 0.05. -/
theorem C14_residual_delta_after_second_hit :
    Reachable hedge_state_2
    ∧ hedge_state_2.callback_log = [(0, -1 / 2, true)]
    ∧ (portfolio_delta hedge_state_2 scenario_A_call.underlying_id).1 = 1 / 2
    ∧ ¬ |(portfolio_delta hedge_state_2 scenario_A_call.underlying_id).1| ≤ 5 / 100 := by
  obtain ⟨hlog, -, hpd⟩ := hedge_state_2_facts
  refine ⟨⟨[scenario_underlying], [scenario_A_call],
    [Action.register_callback (fun _ _ _ => true), Action.on_bid_hit scenario_A_call 1,
      Action.on_bid_hit scenario_A_call 1], rfl⟩, hlog, hpd, ?_⟩
  rw [hpd, abs_of_pos (by norm_num)]
  norm_num

theorem invoke_callback_unregistered (m : MarketMaker) (uid : ℤ) (quantity : ℚ)
    (hcb : m.trade_underlying_callback = none) :
    invoke_callback m uid quantity = (.error .TradeCallbackFailure, m) := by
  unfold invoke_callback
  rw [hcb]

theorem invoke_callback_rejected (m : MarketMaker) (uid : ℤ) (quantity : ℚ)
    (callback : TradeCallback) (hcb : m.trade_underlying_callback = some callback)
    (hok : callback m.callback_log uid quantity = false) :
    invoke_callback m uid quantity
      = (.error .TradeCallbackFailure,
          { m with callback_log := m.callback_log ++ [(uid, quantity, false)] }) := by
  unfold invoke_callback
  rw [hcb]
  simp only [hok, Bool.false_eq_true, if_false]

theorem invoke_callback_accepted (m : MarketMaker) (uid : ℤ) (quantity : ℚ)
    (callback : TradeCallback) (hcb : m.trade_underlying_callback = some callback)
    (hok : callback m.callback_log uid quantity = true) :
    invoke_callback m uid quantity
      = (.ok (), { m with callback_log := m.callback_log ++ [(uid, quantity, true)] }) := by
  unfold invoke_callback
  rw [hcb]
  simp only [hok, if_true]

theorem buy_underlying_invalid (m : MarketMaker) (uid : ℤ) (quantity : ℚ) (hq : quantity ≤ 0) :
    buy_underlying m uid quantity = (.error .InvalidQuantity, m) := by
  unfold buy_underlying
  rw [if_pos hq]

theorem sell_underlying_invalid (m : MarketMaker) (uid : ℤ) (quantity : ℚ) (hq : quantity ≤ 0) :
    sell_underlying m uid quantity = (.error .InvalidQuantity, m) := by
  unfold sell_underlying
  rw [if_pos hq]

theorem buy_underlying_unregistered (m : MarketMaker) (uid : ℤ) (quantity : ℚ)
    (hq : 0 < quantity) (hcb : m.trade_underlying_callback = none) :
    buy_underlying m uid quantity = (.error .TradeCallbackFailure, m) := by
  unfold buy_underlying
  rw [if_neg (not_le.mpr hq), invoke_callback_unregistered m uid quantity hcb]

theorem sell_underlying_unregistered (m : MarketMaker) (uid : ℤ) (quantity : ℚ)
    (hq : 0 < quantity) (hcb : m.trade_underlying_callback = none) :
    sell_underlying m uid quantity = (.error .TradeCallbackFailure, m) := by
  unfold sell_underlying
  rw [if_neg (not_le.mpr hq), invoke_callback_unregistered m uid (-quantity) hcb]

theorem buy_underlying_rejected (m : MarketMaker) (uid : ℤ) (quantity : ℚ)
    (callback : TradeCallback) (hq : 0 < quantity)
    (hcb : m.trade_underlying_callback = some callback)
    (hok : callback m.callback_log uid quantity = false) :
    buy_underlying m uid quantity
      = (.error .TradeCallbackFailure,
          { m with callback_log := m.callback_log ++ [(uid, quantity, false)] }) := by
  unfold buy_underlying
  rw [if_neg (not_le.mpr hq), invoke_callback_rejected m uid quantity callback hcb hok]

theorem sell_underlying_rejected (m : MarketMaker) (uid : ℤ) (quantity : ℚ)
    (callback : TradeCallback) (hq : 0 < quantity)
    (hcb : m.trade_underlying_callback = some callback)
    (hok : callback m.callback_log uid (-quantity) = false) :
    sell_underlying m uid quantity
      = (.error .TradeCallbackFailure,
          { m with callback_log := m.callback_log ++ [(uid, -quantity, false)] }) := by
  unfold sell_underlying
  rw [if_neg (not_le.mpr hq), invoke_callback_rejected m uid (-quantity) callback hcb hok]

theorem buy_underlying_accepted (m : MarketMaker) (uid : ℤ) (quantity : ℚ)
    (callback : TradeCallback) (hq : 0 < quantity)
    (hcb : m.trade_underlying_callback = some callback)
    (hok : callback m.callback_log uid quantity = true) :
    buy_underlying m uid quantity
      = (.ok (),
          { m with
            callback_log := m.callback_log ++ [(uid, quantity, true)]
            position := m.position.add_underlying_quantity uid quantity }) := by
  unfold buy_underlying
  rw [if_neg (not_le.mpr hq), invoke_callback_accepted m uid quantity callback hcb hok]

theorem sell_underlying_accepted (m : MarketMaker) (uid : ℤ) (quantity : ℚ)
    (callback : TradeCallback) (hq : 0 < quantity)
    (hcb : m.trade_underlying_callback = some callback)
    (hok : callback m.callback_log uid (-quantity) = true) :
    sell_underlying m uid quantity
      = (.ok (),
          { m with
            callback_log := m.callback_log ++ [(uid, -quantity, true)]
            position := m.position.add_underlying_quantity uid (-quantity) }) := by
  unfold sell_underlying
  rw [if_neg (not_le.mpr hq), invoke_callback_accepted m uid (-quantity) callback hcb hok]

theorem add_underlying_quantity_self (p : Position) (uid : ℤ) (quantity : ℚ) :
    (p.add_underlying_quantity uid quantity).underlying_quantity_by_underlying_id uid
      = some ((p.underlying_quantity_by_underlying_id uid).getD 0
          + (cround (100 * quantity) : ℚ) / 100) := by
  unfold Position.add_underlying_quantity
  simp only [Function.update_same, mul_comm quantity 100]

theorem add_underlying_quantity_other (p : Position) (uid other : ℤ) (quantity : ℚ)
    (h : other ≠ uid) :
    (p.add_underlying_quantity uid quantity).underlying_quantity_by_underlying_id other
      = p.underlying_quantity_by_underlying_id other := by
  unfold Position.add_underlying_quantity
  simp only [Function.update_noteq h]

/-- C21: buy_underlying(uid, q) and sell_underlying(uid, q) fail with the
invalid-quantity error whenever q <= 0, and then the engine state is the one before the
call (so the callback log has no new invocation and Position is unchanged); for q > 0
neither call raises the invalid-quantity error. -/
theorem C21_invalid_quantity (m : MarketMaker) (uid : ℤ) (q : ℚ) :
    (q ≤ 0 →
      buy_underlying m uid q = (.error .InvalidQuantity, m)
      ∧ sell_underlying m uid q = (.error .InvalidQuantity, m)
      ∧ (buy_underlying m uid q).2.callback_log = m.callback_log
      ∧ (sell_underlying m uid q).2.callback_log = m.callback_log
      ∧ (buy_underlying m uid q).2.position = m.position
      ∧ (sell_underlying m uid q).2.position = m.position)
    ∧ (0 < q →
      (buy_underlying m uid q).1 ≠ .error .InvalidQuantity
      ∧ (sell_underlying m uid q).1 ≠ .error .InvalidQuantity) := by
  constructor
  · intro hq
    rw [buy_underlying_invalid m uid q hq, sell_underlying_invalid m uid q hq]
    exact ⟨rfl, rfl, rfl, rfl, rfl, rfl⟩
  · intro hq
    cases hcb : m.trade_underlying_callback with
    | none =>
      rw [buy_underlying_unregistered m uid q hq hcb,
        sell_underlying_unregistered m uid q hq hcb]
      exact ⟨fun h => (by cases h), fun h => (by cases h)⟩
    | some callback =>
      constructor
      · cases hok : callback m.callback_log uid q with
        | false =>
          rw [buy_underlying_rejected m uid q callback hq hcb hok]
          exact fun h => by cases h
        | true =>
          rw [buy_underlying_accepted m uid q callback hq hcb hok]
          exact fun h => by cases h
      · cases hok : callback m.callback_log uid (-q) with
        | false =>
          rw [sell_underlying_rejected m uid q callback hq hcb hok]
          exact fun h => by cases h
        | true =>
          rw [sell_underlying_accepted m uid q callback hq hcb hok]
          exact fun h => by cases h

/-- Witness for C21: on the fresh engine of Scenario A a purchase of -1 share is refused
with the invalid-quantity error and leaves the engine as it was, and a sale of 1 share
does not raise that error. -/
theorem C21_invalid_quantity_witness :
    buy_underlying scenario_A_engine 0 (-1) = (.error .InvalidQuantity, scenario_A_engine)
    ∧ (sell_underlying scenario_A_engine 0 1).1 ≠ .error .InvalidQuantity :=
  ⟨((C21_invalid_quantity scenario_A_engine 0 (-1)).1 (by norm_num)).1,
    ((C21_invalid_quantity scenario_A_engine 0 1).2 (by norm_num)).2⟩

/-- C22: for q > 0 and a registered callback that returns normally on the call,
buy_underlying(uid, q) succeeds, invokes the callback exactly once, with (uid, +q), and
adds round(100*q)/100 (std::round, half away from zero) to Position.underlying[uid] (0
if absent); sell_underlying(uid, q) invokes it exactly once, with (uid, -q), and adds
round(-100*q)/100; the option positions and the share positions of every other
underlying are unchanged. -/
theorem C22_trade_updates_share_position (m : MarketMaker) (uid : ℤ) (q : ℚ)
    (callback : TradeCallback) (hq : 0 < q)
    (hcb : m.trade_underlying_callback = some callback) :
    (callback m.callback_log uid q = true →
      (buy_underlying m uid q).1 = .ok ()
      ∧ (buy_underlying m uid q).2.callback_log = m.callback_log ++ [(uid, q, true)]
      ∧ (buy_underlying m uid q).2.position.underlying_quantity_by_underlying_id uid
          = some ((m.position.underlying_quantity_by_underlying_id uid).getD 0
              + (cround (100 * q) : ℚ) / 100)
      ∧ (∀ other, other ≠ uid →
          (buy_underlying m uid q).2.position.underlying_quantity_by_underlying_id other
            = m.position.underlying_quantity_by_underlying_id other)
      ∧ (buy_underlying m uid q).2.position.option_quantity_by_option_id
          = m.position.option_quantity_by_option_id)
    ∧ (callback m.callback_log uid (-q) = true →
      (sell_underlying m uid q).1 = .ok ()
      ∧ (sell_underlying m uid q).2.callback_log = m.callback_log ++ [(uid, -q, true)]
      ∧ (sell_underlying m uid q).2.position.underlying_quantity_by_underlying_id uid
          = some ((m.position.underlying_quantity_by_underlying_id uid).getD 0
              + (cround (-100 * q) : ℚ) / 100)
      ∧ (∀ other, other ≠ uid →
          (sell_underlying m uid q).2.position.underlying_quantity_by_underlying_id other
            = m.position.underlying_quantity_by_underlying_id other)
      ∧ (sell_underlying m uid q).2.position.option_quantity_by_option_id
          = m.position.option_quantity_by_option_id) := by
  constructor
  · intro hok
    rw [buy_underlying_accepted m uid q callback hq hcb hok]
    refine ⟨rfl, rfl, add_underlying_quantity_self _ _ _, fun other h => ?_, rfl⟩
    exact add_underlying_quantity_other _ _ _ _ h
  · intro hok
    rw [sell_underlying_accepted m uid q callback hq hcb hok]
    refine ⟨rfl, rfl, ?_, fun other h => ?_, rfl⟩
    · have h := add_underlying_quantity_self m.position uid (-q)
      rw [mul_neg, ← neg_mul] at h
      exact h
    · exact add_underlying_quantity_other _ _ _ _ h

/-- Witness for C22: on the engine of Scenario A with a callback that accepts every
trade, buying 0.125 shares of underlying 0 logs the single invocation (0, 0.125) and
books round(12.5)/100 = 0.13 shares; selling 0.125 shares logs (0, -0.125) and books
round(-12.5)/100 = -0.13 shares. -/
theorem C22_trade_updates_share_position_witness :
    (buy_underlying hedge_state_0 0 (1 / 8)).2.callback_log = [(0, 1 / 8, true)]
    ∧ (buy_underlying hedge_state_0 0 (1 / 8)).2.position.underlying_quantity_by_underlying_id 0
        = some (13 / 100)
    ∧ (sell_underlying hedge_state_0 0 (1 / 8)).2.callback_log = [(0, -(1 / 8), true)]
    ∧ (sell_underlying hedge_state_0 0 (1 / 8)).2.position.underlying_quantity_by_underlying_id 0
        = some (-13 / 100) := by
  have h := C22_trade_updates_share_position hedge_state_0 0 (1 / 8) (fun _ _ _ => true)
    (by norm_num) rfl
  obtain ⟨-, hlog, hpos, -, -⟩ := h.1 rfl
  obtain ⟨-, hlog', hpos', -, -⟩ := h.2 rfl
  have hr : cround (100 * (1 / 8 : ℚ)) = 13 := by
    unfold cround
    rw [if_pos (by norm_num)]
    rw [Int.floor_eq_iff]
    norm_num
  have hr' : cround (-100 * (1 / 8 : ℚ)) = -13 := by
    unfold cround
    rw [if_neg (by norm_num)]
    rw [Int.ceil_eq_iff]
    norm_num
  refine ⟨hlog, ?_, hlog', ?_⟩
  · rw [hpos, hr]
    norm_num [hedge_state_0, register_trade_underlying_callback, scenario_A_engine,
      MarketMaker.new, Position.empty]
  · rw [hpos', hr']
    norm_num [hedge_state_0, register_trade_underlying_callback, scenario_A_engine,
      MarketMaker.new, Position.empty]

/-- C23: if the trade callback fails during a direct call of buy_underlying or
sell_underlying with q > 0 (the registered callback throws on this call, or no callback
is registered), the call fails with the callback failure and Position is left unchanged:
the share position is updated only after the callback has returned normally. -/
theorem C23_callback_failure_propagates (m : MarketMaker) (uid : ℤ) (q : ℚ) (hq : 0 < q) :
    ((∀ callback, m.trade_underlying_callback = some callback →
        callback m.callback_log uid q = false) →
      (buy_underlying m uid q).1 = .error .TradeCallbackFailure
      ∧ (buy_underlying m uid q).2.position = m.position)
    ∧ ((∀ callback, m.trade_underlying_callback = some callback →
        callback m.callback_log uid (-q) = false) →
      (sell_underlying m uid q).1 = .error .TradeCallbackFailure
      ∧ (sell_underlying m uid q).2.position = m.position) := by
  constructor
  · intro hfail
    cases hcb : m.trade_underlying_callback with
    | none =>
      rw [buy_underlying_unregistered m uid q hq hcb]
      exact ⟨rfl, rfl⟩
    | some callback =>
      rw [buy_underlying_rejected m uid q callback hq hcb (hfail callback hcb)]
      exact ⟨rfl, rfl⟩
  · intro hfail
    cases hcb : m.trade_underlying_callback with
    | none =>
      rw [sell_underlying_unregistered m uid q hq hcb]
      exact ⟨rfl, rfl⟩
    | some callback =>
      rw [sell_underlying_rejected m uid q callback hq hcb (hfail callback hcb)]
      exact ⟨rfl, rfl⟩

/-- Witness for C23: on the engine of Scenario A with a callback that rejects every
trade, a purchase and a sale of 1 share both fail with the callback failure and leave
Position untouched. -/
theorem C23_callback_failure_propagates_witness :
    ((buy_underlying (register_trade_underlying_callback scenario_A_engine
        (fun _ _ _ => false)) 0 1).1 = .error .TradeCallbackFailure
      ∧ (buy_underlying (register_trade_underlying_callback scenario_A_engine
          (fun _ _ _ => false)) 0 1).2.position
        = (register_trade_underlying_callback scenario_A_engine
            (fun _ _ _ => false)).position)
    ∧ ((sell_underlying (register_trade_underlying_callback scenario_A_engine
        (fun _ _ _ => false)) 0 1).1 = .error .TradeCallbackFailure
      ∧ (sell_underlying (register_trade_underlying_callback scenario_A_engine
          (fun _ _ _ => false)) 0 1).2.position
        = (register_trade_underlying_callback scenario_A_engine
            (fun _ _ _ => false)).position) := by
  have h := C23_callback_failure_propagates
    (register_trade_underlying_callback scenario_A_engine (fun _ _ _ => false)) 0 1
    (by norm_num)
  have hrej : ∀ (q : ℚ) (callback : TradeCallback),
      (register_trade_underlying_callback scenario_A_engine
        (fun _ _ _ => false)).trade_underlying_callback = some callback →
      callback (register_trade_underlying_callback scenario_A_engine
        (fun _ _ _ => false)).callback_log 0 q = false := by
    intro q callback hcb
    have e : (fun _ _ _ => false) = callback := Option.some.inj hcb
    rw [← e]
  exact ⟨h.1 (hrej 1), h.2 (hrej (-1))⟩

/-! ## Construction of an underlying -/

theorem validate_parameters_cases (u : Underlying) :
    (u.validate_parameters = .error .InvalidParameters
      ∧ (u.down_move_step ≤ 0 ∨ u.up_move_step ≤ 0
          ∨ u.down_move_probability ≤ 0 ∨ u.up_move_probability ≤ 0
          ∨ |u.down_move_probability + u.up_move_probability - 1| > 1 / 1000000000
          ∨ |u.down_move_probability * u.down_move_step
              - u.up_move_probability * u.up_move_step| > 1 / 100000))
    ∨ (u.validate_parameters = .ok ()
      ∧ ¬ (u.down_move_step ≤ 0 ∨ u.up_move_step ≤ 0
          ∨ u.down_move_probability ≤ 0 ∨ u.up_move_probability ≤ 0
          ∨ |u.down_move_probability + u.up_move_probability - 1| > 1 / 1000000000
          ∨ |u.down_move_probability * u.down_move_step
              - u.up_move_probability * u.up_move_step| > 1 / 100000)) := by
  unfold Underlying.validate_parameters
  split_ifs with h1 h2 h3 h4
  · left
    refine ⟨rfl, ?_⟩
    rcases h1 with h | h
    · exact Or.inl h
    · exact Or.inr (Or.inl h)
  · left
    refine ⟨rfl, ?_⟩
    rcases h2 with h | h
    · exact Or.inr (Or.inr (Or.inl h))
    · exact Or.inr (Or.inr (Or.inr (Or.inl h)))
  · left
    exact ⟨rfl, Or.inr (Or.inr (Or.inr (Or.inr (Or.inl h3))))⟩
  · left
    exact ⟨rfl, Or.inr (Or.inr (Or.inr (Or.inr (Or.inr h4))))⟩
  · right
    refine ⟨rfl, ?_⟩
    rintro (h | h | h | h | h | h)
    · exact h1 (Or.inl h)
    · exact h1 (Or.inr h)
    · exact h2 (Or.inl h)
    · exact h2 (Or.inr h)
    · exact h3 h
    · exact h4 h

theorem underlying_new_cases (name : String) (id : ℤ) (val pd d noise pu u : ℚ) :
    (Underlying.new name id val pd d noise pu u = .error .InvalidParameters
      ∧ (d ≤ 0 ∨ u ≤ 0 ∨ pd ≤ 0 ∨ pu ≤ 0 ∨ |pd + pu - 1| > 1 / 1000000000
          ∨ |pd * d - pu * u| > 1 / 100000))
    ∨ (Underlying.new name id val pd d noise pu u
        = .ok { name := name, underlying_id := id, valuation := val,
                down_move_probability := pd, down_move_step := d, noise_std_dev := noise,
                up_move_probability := pu, up_move_step := u }
      ∧ ¬ (d ≤ 0 ∨ u ≤ 0 ∨ pd ≤ 0 ∨ pu ≤ 0 ∨ |pd + pu - 1| > 1 / 1000000000
          ∨ |pd * d - pu * u| > 1 / 100000)) := by
  rcases validate_parameters_cases
      { name := name, underlying_id := id, valuation := val,
        down_move_probability := pd, down_move_step := d, noise_std_dev := noise,
        up_move_probability := pu, up_move_step := u } with ⟨he, hc⟩ | ⟨he, hc⟩
  · left
    refine ⟨?_, hc⟩
    unfold Underlying.new
    simp only [he]
  · right
    refine ⟨?_, hc⟩
    unfold Underlying.new
    simp only [he]

/-- C25: the Underlying constructor fails with the invalid-parameters error if and only
if down_move_step <= 0, or up_move_step <= 0, or down_move_probability <= 0, or
up_move_probability <= 0, or |pd + pu - 1| > 1e-9, or |pd*d - pu*u| > 1e-5; when it does
not fail it returns the record whose fields are the constructor arguments; and whether
it fails does not depend on the name, the id, the valuation (a negative valuation is
accepted) or noise_std_dev. -/
theorem C25_underlying_construction (name : String) (id : ℤ) (val pd d noise pu u : ℚ) :
    (Underlying.new name id val pd d noise pu u = .error .InvalidParameters
      ↔ (d ≤ 0 ∨ u ≤ 0 ∨ pd ≤ 0 ∨ pu ≤ 0 ∨ |pd + pu - 1| > 1 / 1000000000
          ∨ |pd * d - pu * u| > 1 / 100000))
    ∧ (Underlying.new name id val pd d noise pu u = .error .InvalidParameters
      ∨ Underlying.new name id val pd d noise pu u
        = .ok { name := name, underlying_id := id, valuation := val,
                down_move_probability := pd, down_move_step := d, noise_std_dev := noise,
                up_move_probability := pu, up_move_step := u })
    ∧ (∀ (name2 : String) (id2 : ℤ) (val2 noise2 : ℚ),
        (Underlying.new name2 id2 val2 pd d noise2 pu u = .error .InvalidParameters
          ↔ Underlying.new name id val pd d noise pu u = .error .InvalidParameters))
    ∧ Underlying.new name id (-1) (1 / 2) 2 noise (1 / 2) 2
        = .ok { name := name, underlying_id := id, valuation := -1,
                down_move_probability := 1 / 2, down_move_step := 2, noise_std_dev := noise,
                up_move_probability := 1 / 2, up_move_step := 2 } := by
  have key : ∀ (name : String) (id : ℤ) (val noise : ℚ),
      (Underlying.new name id val pd d noise pu u = .error .InvalidParameters
        ↔ (d ≤ 0 ∨ u ≤ 0 ∨ pd ≤ 0 ∨ pu ≤ 0 ∨ |pd + pu - 1| > 1 / 1000000000
            ∨ |pd * d - pu * u| > 1 / 100000)) := by
    intro name id val noise
    rcases underlying_new_cases name id val pd d noise pu u with ⟨he, hc⟩ | ⟨he, hc⟩
    · exact ⟨fun _ => hc, fun _ => he⟩
    · constructor
      · intro h
        rw [he] at h
        cases h
      · intro h
        exact absurd h hc
  refine ⟨key name id val noise, ?_, ?_, ?_⟩
  · rcases underlying_new_cases name id val pd d noise pu u with ⟨he, -⟩ | ⟨he, -⟩
    · exact Or.inl he
    · exact Or.inr he
  · intro name2 id2 val2 noise2
    rw [key name2 id2 val2 noise2, key name id val noise]
  · rcases underlying_new_cases name id (-1) (1 / 2) 2 noise (1 / 2) 2 with ⟨-, hc⟩ | ⟨he, -⟩
    · exfalso
      norm_num at hc
    · exact he

/-! ## The Greeks as finite differences of the lattice price -/

theorem lattice_price_at_valuation (option : OptionContract) (underlying : Underlying) :
    lattice_price_at option underlying underlying.valuation
      = price_option_from_scratch option underlying := rfl

theorem calculate_delta_eq_fd_delta (option : OptionContract) (underlying : Underlying)
    (base : ℚ) : calculate_delta option underlying base = fd_delta option underlying base := by
  unfold calculate_delta fd_delta fd_bump lattice_price_at pump_it_up
  simp only [mul_comm (1 / 10 : ℚ)]

theorem calculate_gamma_eq_fd_gamma (option : OptionContract) (underlying : Underlying) :
    calculate_gamma option underlying = fd_gamma option underlying := by
  unfold calculate_gamma fd_gamma fd_bump lattice_price_at pump_it_up
  simp only [mul_comm (1 / 10 : ℚ), sub_eq_add_neg, pow_two]

theorem get_greeks_miss (m : MarketMaker) (option : OptionContract) (underlying : Underlying)
    (h : cache_find m.price_cache
      (cache_key_string option.option_id underlying.valuation) = none) :
    get_greeks m option underlying
      = ((price_option_from_scratch option underlying,
          calculate_delta option underlying (price_option_from_scratch option underlying),
          calculate_gamma option underlying),
        { m with
          price_cache :=
            (cache_key_string option.option_id underlying.valuation,
              (price_option_from_scratch option underlying,
                calculate_delta option underlying (price_option_from_scratch option underlying),
                calculate_gamma option underlying)) :: m.price_cache }) := by
  unfold get_greeks
  simp only [h]
  unfold cache_emplace
  simp only [h]

/-- C28: get_greeks never extrapolates.  On a cache hit for (option_id, S) it returns
the cached triple and leaves the engine state as it was.  On a miss it returns
(P, delta, gamma) with P = L(S) the lattice price at S, b = min(1.0, 0.1*u),
delta = (L(max(0, S+b)) - P)/b and gamma = (L(max(0, S+b)) - 2*L(S) + L(max(0, S-b)))/b^2
(the centre L(S) being the lattice price again), inserts that triple under
(option_id, S), changes nothing but the cache, and in particular does not modify
LastUnderlyingPrices. -/
theorem C28_get_greeks_never_extrapolates (m : MarketMaker) (option : OptionContract)
    (underlying : Underlying) :
    (∀ greeks : Greeks,
      cache_find m.price_cache
          (cache_key_string option.option_id underlying.valuation) = some greeks →
        get_greeks m option underlying = (greeks, m))
    ∧ (cache_find m.price_cache
          (cache_key_string option.option_id underlying.valuation) = none →
        (get_greeks m option underlying).1
          = (lattice_price_at option underlying underlying.valuation,
              fd_delta option underlying (lattice_price_at option underlying underlying.valuation),
              fd_gamma option underlying)
        ∧ (get_greeks m option underlying).2.price_cache
          = (cache_key_string option.option_id underlying.valuation,
              (lattice_price_at option underlying underlying.valuation,
                fd_delta option underlying
                  (lattice_price_at option underlying underlying.valuation),
                fd_gamma option underlying)) :: m.price_cache
        ∧ cache_find (get_greeks m option underlying).2.price_cache
            (cache_key_string option.option_id underlying.valuation)
          = some (get_greeks m option underlying).1
        ∧ only_cache_changed m (get_greeks m option underlying).2
        ∧ (get_greeks m option underlying).2.last_underlying_prices
          = m.last_underlying_prices) := by
  constructor
  · intro greeks h
    exact get_greeks_hit m option underlying greeks h
  · intro h
    refine ⟨?_, ?_, get_greeks_caches m option underlying, get_greeks_frame m option underlying,
      cache_keeps_last_underlying_prices (get_greeks_frame m option underlying)⟩
    · rw [get_greeks_miss m option underlying h, calculate_delta_eq_fd_delta,
        calculate_gamma_eq_fd_gamma, lattice_price_at_valuation]
    · rw [get_greeks_miss m option underlying h, calculate_delta_eq_fd_delta,
        calculate_gamma_eq_fd_gamma, lattice_price_at_valuation]

/-- Witness for C28: on the fresh engine of Scenario A the cache is empty, get_greeks
misses and returns the lattice price 7/8 with the finite-difference delta 1/2 and gamma
25/16; on the state it leaves behind the same call hits and returns the same triple
without changing the state. -/
theorem C28_get_greeks_never_extrapolates_witness :
    (get_greeks scenario_A_engine scenario_A_call scenario_underlying).1
      = (7 / 8, 1 / 2, 25 / 16)
    ∧ get_greeks (get_greeks scenario_A_engine scenario_A_call scenario_underlying).2
        scenario_A_call scenario_underlying
      = ((7 / 8, 1 / 2, 25 / 16),
          (get_greeks scenario_A_engine scenario_A_call scenario_underlying).2) := by
  have hmiss := (C28_get_greeks_never_extrapolates scenario_A_engine scenario_A_call
    scenario_underlying).2 rfl
  have hv : (get_greeks scenario_A_engine scenario_A_call scenario_underlying).1
      = (7 / 8, 1 / 2, 25 / 16) := by
    rw [hmiss.1, ← calculate_delta_eq_fd_delta, ← calculate_gamma_eq_fd_gamma,
      lattice_price_at_valuation, scenario_A_greeks.1, scenario_A_greeks.2.1,
      scenario_A_greeks.2.2]
  refine ⟨hv, ?_⟩
  have hhit := (C28_get_greeks_never_extrapolates
    (get_greeks scenario_A_engine scenario_A_call scenario_underlying).2 scenario_A_call
    scenario_underlying).1 (7 / 8, 1 / 2, 25 / 16) (by rw [hmiss.2.2.1, hv])
  exact hhit

/-! ## The Taylor branch of `price_option` -/

theorem kink_state_2_facts :
    find_underlying kink_state_2 kink_call.underlying_id = some (kink_underlying (79 / 10))
    ∧ kink_state_2.price_cache = [(cache_key_string 7 8, (0, 1 / 2, 5 / 2))]
    ∧ cache_find kink_state_2.price_cache (cache_key_string 7 (79 / 10)) = none
    ∧ kink_state_2.last_underlying_prices 0 = some 8
    ∧ cache_find kink_state_2.price_cache (cache_key_string 7 8) = some (0, 1 / 2, 5 / 2) := by
  have hframe1 : only_pricing_changed kink_state_0 kink_state_1 :=
    price_option_frame kink_state_0 kink_call
  have hpos1 : kink_state_1.position.option_quantity_by_option_id = fun _ => none := by
    rw [quoting_keeps_position hframe1.to_quoting]; rfl
  have hhedge1 : kink_state_1.hedge_pos = fun _ => none := by
    rw [quoting_keeps_hedge_pos hframe1.to_quoting]; rfl
  obtain ⟨hus2, hc2, hl2, -, -⟩ := on_step_advance_flat kink_state_1
    [kink_underlying (79 / 10), kink_underlying 8] [kink_call] hpos1 hhedge1
  have hk8 : cache_key_string 7 8 = { option_id := 7, negative := false, micros := 8000000 } := by
    rw [cache_key_string_of_micros 7 8 8000000 (by norm_num)]
    simp
  have hk79 : cache_key_string 7 (79 / 10)
      = { option_id := 7, negative := false, micros := 7900000 } := by
    rw [cache_key_string_of_micros 7 (79 / 10) 7900000
      (by rw [abs_of_pos (by norm_num)]; norm_num)]
    norm_num
  have hcache2 : kink_state_2.price_cache = [(cache_key_string 7 8, (0, 1 / 2, 5 / 2))] := by
    unfold kink_state_2
    rw [hc2, kink_state_1_cache]
    simp [prune_inactive, prune_ceiling, cache_key_string, kink_call]
  refine ⟨?_, hcache2, ?_, ?_, ?_⟩
  · unfold find_underlying kink_state_2
    rw [hus2]
    simp [kink_underlying, kink_call]
  · rw [hcache2]
    show cache_find [(cache_key_string 7 8, _)] (cache_key_string 7 (79 / 10)) = none
    rw [hk8, hk79]
    have hb : (({ option_id := 7, negative := false, micros := 7900000 } : CacheKey)
        == { option_id := 7, negative := false, micros := 8000000 }) = false := by
      decide
    simp [cache_find, List.lookup, hb]
  · unfold kink_state_2
    rw [hl2]
    simp [refresh_last_price, kink_underlying]
  · rw [hcache2]
    exact cache_find_singleton _ _

theorem price_option_taylor_eq (m : MarketMaker) (option : OptionContract)
    (underlying : Underlying) (last_price : ℚ) (old : Greeks)
    (hu : find_underlying m option.underlying_id = some underlying)
    (hn : option.steps_until_expiry ≠ 0)
    (hc : cache_find m.price_cache
      (cache_key_string option.option_id underlying.valuation) = none)
    (hl : m.last_underlying_prices underlying.underlying_id = some last_price)
    (hne : last_price ≠ underlying.valuation)
    (hclose : |underlying.valuation - last_price| < underlying.up_move_step * (1 / 10))
    (hold : cache_find m.price_cache
      (cache_key_string option.option_id last_price) = some old) :
    price_option m option
      = (old.1 + old.2.1 * (underlying.valuation - last_price)
            + (1 / 2) * old.2.2 * (underlying.valuation - last_price) ^ 2,
          { m with
            price_cache :=
              (cache_key_string option.option_id underlying.valuation,
                (old.1 + old.2.1 * (underlying.valuation - last_price)
                    + (1 / 2) * old.2.2 * (underlying.valuation - last_price) ^ 2,
                  fd_delta option underlying
                    (old.1 + old.2.1 * (underlying.valuation - last_price)
                      + (1 / 2) * old.2.2 * (underlying.valuation - last_price) ^ 2),
                  fd_gamma option underlying)) :: m.price_cache }) := by
  rw [price_option_miss_taylor m option underlying last_price old hu hn hc hl hne hclose hold]
  unfold price_option_taylor
  simp only []
  have hp : old.1 + old.2.1 * (underlying.valuation - last_price)
        + 1 / 2 * old.2.2 * (underlying.valuation - last_price)
          * (underlying.valuation - last_price)
      = old.1 + old.2.1 * (underlying.valuation - last_price)
        + 1 / 2 * old.2.2 * (underlying.valuation - last_price) ^ 2 := by ring
  rw [hp, calculate_delta_eq_fd_delta, calculate_gamma_eq_fd_gamma]
  unfold cache_emplace
  simp only [hc]

/-- C29: for an option with n >= 1 whose underlying is in the state with valuation S, if
(option_id, S) misses the cache, LastUnderlyingPrices[uid] = S' exists with S' != S and
|S - S'| < 0.1*u, and (option_id, S') is cached as (P', delta', gamma'), then
price_option returns P = P' + delta'*(S - S') + 0.5*gamma'*(S - S')^2, inserts an entry
under (option_id, S) whose price component is P, and leaves LastUnderlyingPrices (so
LastUnderlyingPrices[uid] = S') as it was. -/
theorem C29_taylor_extrapolation_value (m : MarketMaker) (option : OptionContract)
    (underlying : Underlying) (S' P' delta' gamma' : ℚ)
    (hu : find_underlying m option.underlying_id = some underlying)
    (hn : 1 ≤ option.steps_until_expiry)
    (hmiss : cache_find m.price_cache
      (cache_key_string option.option_id underlying.valuation) = none)
    (hlast : m.last_underlying_prices underlying.underlying_id = some S')
    (hne : S' ≠ underlying.valuation)
    (hclose : |underlying.valuation - S'| < (1 / 10) * underlying.up_move_step)
    (hold : cache_find m.price_cache (cache_key_string option.option_id S')
      = some (P', delta', gamma')) :
    (price_option m option).1
      = P' + delta' * (underlying.valuation - S')
          + (1 / 2) * gamma' * (underlying.valuation - S') ^ 2
    ∧ (∃ new_delta new_gamma : ℚ,
        (price_option m option).2.price_cache
          = (cache_key_string option.option_id underlying.valuation,
              (P' + delta' * (underlying.valuation - S')
                  + (1 / 2) * gamma' * (underlying.valuation - S') ^ 2,
                new_delta, new_gamma)) :: m.price_cache
        ∧ cache_find (price_option m option).2.price_cache
            (cache_key_string option.option_id underlying.valuation)
          = some (P' + delta' * (underlying.valuation - S')
                    + (1 / 2) * gamma' * (underlying.valuation - S') ^ 2,
                  new_delta, new_gamma))
    ∧ (price_option m option).2.last_underlying_prices = m.last_underlying_prices
    ∧ (price_option m option).2.last_underlying_prices underlying.underlying_id = some S' := by
  have hn' : option.steps_until_expiry ≠ 0 := by omega
  have hclose' : |underlying.valuation - S'| < underlying.up_move_step * (1 / 10) := by
    rw [mul_comm]; exact hclose
  have e := price_option_taylor_eq m option underlying S' (P', delta', gamma') hu hn' hmiss
    hlast hne hclose' hold
  simp only [] at e
  rw [e]
  refine ⟨rfl, ⟨_, _, rfl, ?_⟩, rfl, hlast⟩
  simp [cache_find, List.lookup]

/-- Witness for C29: the engine that priced the one-step CALL struck at 10 at S' = 8
(cached as (0, 1/2, 5/2)) and then received an underlying vector carrying the id 0 at
7.9 and at 8: pricing the CALL at S = 7.9 extrapolates to
0 + 0.5*(-0.1) + 0.5*2.5*0.01 = -3/80. -/
theorem C29_taylor_extrapolation_value_witness :
    (price_option kink_state_2 kink_call).1 = -3 / 80
    ∧ (price_option kink_state_2 kink_call).2.last_underlying_prices 0 = some 8 := by
  obtain ⟨hfind, -, hmiss, hlast, hhit⟩ := kink_state_2_facts
  have h := C29_taylor_extrapolation_value kink_state_2 kink_call (kink_underlying (79 / 10))
    8 0 (1 / 2) (5 / 2) hfind (by decide) hmiss hlast (by norm_num [kink_underlying])
    (by norm_num [kink_underlying, abs_lt]) hhit
  refine ⟨?_, h.2.2.2⟩
  rw [h.1]
  norm_num [kink_underlying]

theorem kink_fd_values :
    lattice_price_at kink_call (kink_underlying (79 / 10)) (79 / 10) = 0
    ∧ fd_delta kink_call (kink_underlying (79 / 10)) 0 = 1 / 4
    ∧ fd_delta kink_call (kink_underlying (79 / 10)) (-3 / 80) = 7 / 16
    ∧ fd_gamma kink_call (kink_underlying (79 / 10)) = 5 / 4 := by
  refine ⟨?_, ?_, ?_, ?_⟩
  · norm_num [lattice_price_at, price_option_from_scratch, back_induction, lattice_sweep,
      terminal_payoff, kink_call, kink_underlying, List.range_succ]
  · norm_num [fd_delta, fd_bump, lattice_price_at, price_option_from_scratch, back_induction,
      lattice_sweep, terminal_payoff, kink_call, kink_underlying, List.range_succ]
  · norm_num [fd_delta, fd_bump, lattice_price_at, price_option_from_scratch, back_induction,
      lattice_sweep, terminal_payoff, kink_call, kink_underlying, List.range_succ]
  · norm_num [fd_gamma, fd_bump, lattice_price_at, price_option_from_scratch, back_induction,
      lattice_sweep, terminal_payoff, kink_call, kink_underlying, List.range_succ]

/-- The entry that the Taylor-extrapolation path of `price_option` stores under
(option_id, S): the extrapolated price P that the call returns, the forward difference
taken from P, (L(max(0, S+b)) - P)/b, and the finite-difference gamma.  The stored delta
differs from the delta `get_greeks` computes on a miss at S by (P - L(S))/b. -/
theorem taylor_stored_greeks (m : MarketMaker) (option : OptionContract)
    (underlying : Underlying) (S' P' delta' gamma' : ℚ)
    (hu : find_underlying m option.underlying_id = some underlying)
    (hn : 1 ≤ option.steps_until_expiry)
    (hmiss : cache_find m.price_cache
      (cache_key_string option.option_id underlying.valuation) = none)
    (hlast : m.last_underlying_prices underlying.underlying_id = some S')
    (hne : S' ≠ underlying.valuation)
    (hclose : |underlying.valuation - S'| < (1 / 10) * underlying.up_move_step)
    (hold : cache_find m.price_cache (cache_key_string option.option_id S')
      = some (P', delta', gamma')) :
    cache_find (price_option m option).2.price_cache
        (cache_key_string option.option_id underlying.valuation)
      = some ((price_option m option).1,
          fd_delta option underlying (price_option m option).1,
          fd_gamma option underlying)
    ∧ (price_option m option).1
      = P' + delta' * (underlying.valuation - S')
          + (1 / 2) * gamma' * (underlying.valuation - S') ^ 2
    ∧ fd_gamma option underlying = (get_greeks m option underlying).1.2.2
    ∧ fd_delta option underlying (price_option m option).1
      = (get_greeks m option underlying).1.2.1
        - ((price_option m option).1
            - lattice_price_at option underlying underlying.valuation) / fd_bump underlying := by
  have hn' : option.steps_until_expiry ≠ 0 := by omega
  have hclose' : |underlying.valuation - S'| < underlying.up_move_step * (1 / 10) := by
    rw [mul_comm]; exact hclose
  have e := price_option_taylor_eq m option underlying S' (P', delta', gamma') hu hn' hmiss
    hlast hne hclose' hold
  simp only [] at e
  have hg := get_greeks_value_miss m option underlying hmiss
  rw [calculate_delta_eq_fd_delta, calculate_gamma_eq_fd_gamma] at hg
  rw [e, hg]
  refine ⟨?_, rfl, rfl, ?_⟩
  · simp [cache_find, List.lookup]
  · show fd_delta option underlying _ = fd_delta option underlying _ - _
    unfold fd_delta
    rw [← sub_div, lattice_price_at_valuation]
    congr 1
    ring

/-! ## The trade of the hedge controller, case by case -/

theorem exec_delta_hedge_small (m : MarketMaker) (uid : ℤ) (target : ℚ)
    (h : |target - (m.hedge_pos uid).getD 0| < MIN_HEDGE) :
    exec_delta_hedge m uid target
      = { m with
          hedge_pos := Function.update m.hedge_pos uid (some ((m.hedge_pos uid).getD 0)) } := by
  unfold exec_delta_hedge
  simp only []
  rw [if_pos h]

theorem min_hedge_trade_ne_zero {trade : ℚ} (h : MIN_HEDGE ≤ |trade|) : 0 < |trade| :=
  lt_of_lt_of_le (by norm_num [MIN_HEDGE]) h

theorem exec_delta_hedge_unregistered (m : MarketMaker) (uid : ℤ) (target : ℚ)
    (hbig : MIN_HEDGE ≤ |target - (m.hedge_pos uid).getD 0|)
    (hcb : m.trade_underlying_callback = none) :
    exec_delta_hedge m uid target
      = { m with
          hedge_pos := Function.update m.hedge_pos uid (some ((m.hedge_pos uid).getD 0)) } := by
  have hq := min_hedge_trade_ne_zero hbig
  unfold exec_delta_hedge
  simp only []
  rw [if_neg (not_lt.mpr hbig)]
  split_ifs with hpos
  · rw [sell_underlying_unregistered
      { m with hedge_pos := Function.update m.hedge_pos uid (some ((m.hedge_pos uid).getD 0)) }
      uid _ hq hcb]
  · rw [buy_underlying_unregistered
      { m with hedge_pos := Function.update m.hedge_pos uid (some ((m.hedge_pos uid).getD 0)) }
      uid _ hq hcb]

theorem exec_delta_hedge_rejected (m : MarketMaker) (uid : ℤ) (target : ℚ)
    (callback : TradeCallback)
    (hbig : MIN_HEDGE ≤ |target - (m.hedge_pos uid).getD 0|)
    (hcb : m.trade_underlying_callback = some callback)
    (hok : callback m.callback_log uid (-(target - (m.hedge_pos uid).getD 0)) = false) :
    exec_delta_hedge m uid target
      = { m with
          hedge_pos := Function.update m.hedge_pos uid (some ((m.hedge_pos uid).getD 0))
          callback_log :=
            m.callback_log ++ [(uid, -(target - (m.hedge_pos uid).getD 0), false)] } := by
  have hq := min_hedge_trade_ne_zero hbig
  unfold exec_delta_hedge
  simp only []
  rw [if_neg (not_lt.mpr hbig)]
  split_ifs with hpos
  · have hok' : callback m.callback_log uid (-|target - (m.hedge_pos uid).getD 0|) = false := by
      rw [abs_of_pos hpos]; exact hok
    rw [sell_underlying_rejected
      { m with hedge_pos := Function.update m.hedge_pos uid (some ((m.hedge_pos uid).getD 0)) }
      uid _ callback hq hcb hok', abs_of_pos hpos]
  · have hneg : target - (m.hedge_pos uid).getD 0 ≤ 0 := not_lt.mp hpos
    have hok' : callback m.callback_log uid |target - (m.hedge_pos uid).getD 0| = false := by
      rw [abs_of_nonpos hneg]; exact hok
    rw [buy_underlying_rejected
      { m with hedge_pos := Function.update m.hedge_pos uid (some ((m.hedge_pos uid).getD 0)) }
      uid _ callback hq hcb hok', abs_of_nonpos hneg]

theorem exec_delta_hedge_accepted (m : MarketMaker) (uid : ℤ) (target : ℚ)
    (callback : TradeCallback)
    (hbig : MIN_HEDGE ≤ |target - (m.hedge_pos uid).getD 0|)
    (hcb : m.trade_underlying_callback = some callback)
    (hok : callback m.callback_log uid (-(target - (m.hedge_pos uid).getD 0)) = true) :
    exec_delta_hedge m uid target
      = { m with
          hedge_pos := Function.update m.hedge_pos uid (some target)
          callback_log :=
            m.callback_log ++ [(uid, -(target - (m.hedge_pos uid).getD 0), true)]
          position :=
            m.position.add_underlying_quantity uid (-(target - (m.hedge_pos uid).getD 0)) } := by
  have hq := min_hedge_trade_ne_zero hbig
  have hsum : (m.hedge_pos uid).getD 0 + (target - (m.hedge_pos uid).getD 0) = target := by ring
  unfold exec_delta_hedge
  simp only []
  rw [if_neg (not_lt.mpr hbig)]
  split_ifs with hpos
  · have hok' : callback m.callback_log uid (-|target - (m.hedge_pos uid).getD 0|) = true := by
      rw [abs_of_pos hpos]; exact hok
    rw [sell_underlying_accepted
      { m with hedge_pos := Function.update m.hedge_pos uid (some ((m.hedge_pos uid).getD 0)) }
      uid _ callback hq hcb hok', abs_of_pos hpos]
    simp only [Function.update_idem, hsum]
  · have hneg : target - (m.hedge_pos uid).getD 0 ≤ 0 := not_lt.mp hpos
    have hok' : callback m.callback_log uid |target - (m.hedge_pos uid).getD 0| = true := by
      rw [abs_of_nonpos hneg]; exact hok
    rw [buy_underlying_accepted
      { m with hedge_pos := Function.update m.hedge_pos uid (some ((m.hedge_pos uid).getD 0)) }
      uid _ callback hq hcb hok', abs_of_nonpos hneg]
    simp only [Function.update_idem, hsum]

theorem hedge_trade_ne_zero {trade : ℚ} (h : HEDGE_TH < |trade|) : 0 < |trade| :=
  lt_trans (by norm_num [HEDGE_TH]) h

theorem rehedge_trade_unregistered (m : MarketMaker) (uid : ℤ) (trade : ℚ)
    (hbig : HEDGE_TH < |trade|) (hcb : m.trade_underlying_callback = none) :
    rehedge_trade m uid trade
      = { m with
          hedge_pos := Function.update m.hedge_pos uid (some ((m.hedge_pos uid).getD 0)) } := by
  have hq := hedge_trade_ne_zero hbig
  unfold rehedge_trade
  simp only []
  split_ifs with hpos
  · rw [buy_underlying_unregistered
      { m with hedge_pos := Function.update m.hedge_pos uid (some ((m.hedge_pos uid).getD 0)) }
      uid _ hq hcb]
  · rw [sell_underlying_unregistered
      { m with hedge_pos := Function.update m.hedge_pos uid (some ((m.hedge_pos uid).getD 0)) }
      uid _ hq hcb]

theorem rehedge_trade_rejected (m : MarketMaker) (uid : ℤ) (trade : ℚ)
    (callback : TradeCallback) (hbig : HEDGE_TH < |trade|)
    (hcb : m.trade_underlying_callback = some callback)
    (hok : callback m.callback_log uid trade = false) :
    rehedge_trade m uid trade
      = { m with
          hedge_pos := Function.update m.hedge_pos uid (some ((m.hedge_pos uid).getD 0))
          callback_log := m.callback_log ++ [(uid, trade, false)] } := by
  have hq := hedge_trade_ne_zero hbig
  unfold rehedge_trade
  simp only []
  split_ifs with hpos
  · have hok' : callback m.callback_log uid |trade| = false := by
      rw [abs_of_pos hpos]; exact hok
    rw [buy_underlying_rejected
      { m with hedge_pos := Function.update m.hedge_pos uid (some ((m.hedge_pos uid).getD 0)) }
      uid _ callback hq hcb hok', abs_of_pos hpos]
  · have hneg : trade ≤ 0 := not_lt.mp hpos
    have hok' : callback m.callback_log uid (-|trade|) = false := by
      rw [abs_of_nonpos hneg, neg_neg]; exact hok
    rw [sell_underlying_rejected
      { m with hedge_pos := Function.update m.hedge_pos uid (some ((m.hedge_pos uid).getD 0)) }
      uid _ callback hq hcb hok', abs_of_nonpos hneg, neg_neg]

theorem rehedge_trade_accepted (m : MarketMaker) (uid : ℤ) (trade : ℚ)
    (callback : TradeCallback) (hbig : HEDGE_TH < |trade|)
    (hcb : m.trade_underlying_callback = some callback)
    (hok : callback m.callback_log uid trade = true) :
    rehedge_trade m uid trade
      = { m with
          hedge_pos := Function.update m.hedge_pos uid (some ((m.hedge_pos uid).getD 0 + trade))
          callback_log := m.callback_log ++ [(uid, trade, true)]
          position := m.position.add_underlying_quantity uid trade } := by
  have hq := hedge_trade_ne_zero hbig
  unfold rehedge_trade
  simp only []
  split_ifs with hpos
  · have hok' : callback m.callback_log uid |trade| = true := by
      rw [abs_of_pos hpos]; exact hok
    rw [buy_underlying_accepted
      { m with hedge_pos := Function.update m.hedge_pos uid (some ((m.hedge_pos uid).getD 0)) }
      uid _ callback hq hcb hok', abs_of_pos hpos]
    simp only [Function.update_idem]
  · have hneg : trade ≤ 0 := not_lt.mp hpos
    have hok' : callback m.callback_log uid (-|trade|) = true := by
      rw [abs_of_nonpos hneg, neg_neg]; exact hok
    rw [sell_underlying_accepted
      { m with hedge_pos := Function.update m.hedge_pos uid (some ((m.hedge_pos uid).getD 0)) }
      uid _ callback hq hcb hok', abs_of_nonpos hneg, neg_neg]
    simp only [Function.update_idem]

/-! ## The post-trade hedge, step by step -/

theorem cache_keeps_position {m m' : MarketMaker} (h : only_cache_changed m m') :
    m'.position = m.position := by
  have e : _ = _ := h
  rw [e]

theorem cache_keeps_trade_underlying_callback {m m' : MarketMaker}
    (h : only_cache_changed m m') :
    m'.trade_underlying_callback = m.trade_underlying_callback := by
  have e : _ = _ := h
  rw [e]

theorem post_trade_entry_keeps (m : MarketMaker) (option : OptionContract) (q : ℤ)
    (underlying : Underlying) :
    (portfolio_delta (post_trade_state m option q underlying)
        underlying.underlying_id).2.callback_log = m.callback_log
    ∧ (portfolio_delta (post_trade_state m option q underlying)
        underlying.underlying_id).2.hedge_pos = m.hedge_pos
    ∧ (portfolio_delta (post_trade_state m option q underlying)
        underlying.underlying_id).2.position = m.position
    ∧ (portfolio_delta (post_trade_state m option q underlying)
        underlying.underlying_id).2.trade_underlying_callback
        = m.trade_underlying_callback := by
  have hg := get_greeks_frame m option underlying
  have hd := portfolio_delta_frame (post_trade_state m option q underlying)
    underlying.underlying_id
  refine ⟨?_, ?_, ?_, ?_⟩
  · rw [cache_keeps_callback_log hd]
    show (get_greeks m option underlying).2.callback_log = _
    exact cache_keeps_callback_log hg
  · rw [cache_keeps_hedge_pos hd]
    show (get_greeks m option underlying).2.hedge_pos = _
    exact cache_keeps_hedge_pos hg
  · rw [cache_keeps_position hd]
    show (get_greeks m option underlying).2.position = _
    exact cache_keeps_position hg
  · rw [cache_keeps_trade_underlying_callback hd]
    show (get_greeks m option underlying).2.trade_underlying_callback = _
    exact cache_keeps_trade_underlying_callback hg

theorem delta_hedge_post_trade_eq (m : MarketMaker) (option : OptionContract) (q : ℤ)
    (underlying : Underlying)
    (hu : find_underlying m option.underlying_id = some underlying) :
    delta_hedge_post_trade m option q
      = if |post_trade_net m option q underlying| > HEDGE_TH then
          exec_delta_hedge
            (portfolio_delta (post_trade_state m option q underlying)
              underlying.underlying_id).2
            underlying.underlying_id (post_trade_net m option q underlying)
        else
          (portfolio_delta (post_trade_state m option q underlying)
            underlying.underlying_id).2 := by
  unfold delta_hedge_post_trade
  rw [hu]
  rfl

theorem on_bid_hit_eq (m : MarketMaker) (option : OptionContract) (bid_price : ℚ) :
    on_bid_hit m option bid_price
      = delta_hedge_post_trade
          { m with
            position := m.position.add_option_quantity option.option_id 1
            pnl := m.pnl + bid_price } option 1 := rfl

theorem on_offer_hit_eq (m : MarketMaker) (option : OptionContract) (offer_price : ℚ) :
    on_offer_hit m option offer_price
      = delta_hedge_post_trade
          { m with
            position := m.position.add_option_quantity option.option_id (-1)
            pnl := m.pnl - offer_price } option (-1) := rfl

theorem exec_delta_hedge_outcomes (m3 m : MarketMaker) (uid : ℤ) (net : ℚ)
    (hl : m3.callback_log = m.callback_log) (hh : m3.hedge_pos = m.hedge_pos)
    (hp : m3.position = m.position)
    (hc : m3.trade_underlying_callback = m.trade_underlying_callback) :
    (|net - (m.hedge_pos uid).getD 0| < MIN_HEDGE →
      (exec_delta_hedge m3 uid net).callback_log = m.callback_log
      ∧ (∀ u, ((exec_delta_hedge m3 uid net).hedge_pos u).getD 0 = (m.hedge_pos u).getD 0)
      ∧ (exec_delta_hedge m3 uid net).position = m.position)
    ∧ (MIN_HEDGE ≤ |net - (m.hedge_pos uid).getD 0| →
      ∀ callback, m.trade_underlying_callback = some callback →
        (exec_delta_hedge m3 uid net).callback_log
          = m.callback_log ++ [(uid, -(net - (m.hedge_pos uid).getD 0),
              callback m.callback_log uid (-(net - (m.hedge_pos uid).getD 0)))]
        ∧ (callback m.callback_log uid (-(net - (m.hedge_pos uid).getD 0)) = true →
            (exec_delta_hedge m3 uid net).hedge_pos uid = some net
            ∧ (exec_delta_hedge m3 uid net).position.underlying_quantity_by_underlying_id uid
              = some ((m.position.underlying_quantity_by_underlying_id uid).getD 0
                  + (cround (100 * (-(net - (m.hedge_pos uid).getD 0))) : ℚ) / 100))
        ∧ (callback m.callback_log uid (-(net - (m.hedge_pos uid).getD 0)) = false →
            ((exec_delta_hedge m3 uid net).hedge_pos uid).getD 0 = (m.hedge_pos uid).getD 0
            ∧ (exec_delta_hedge m3 uid net).position = m.position)) := by
  constructor
  · intro hsmall
    rw [← hh] at hsmall
    rw [exec_delta_hedge_small m3 uid net hsmall]
    refine ⟨hl, fun u => ?_, hp⟩
    rw [← hh]
    exact getD_update_self_default _ _ _
  · intro hbig callback hcb
    rw [← hh] at hbig
    rw [← hc] at hcb
    cases hok : callback m.callback_log uid (-(net - (m.hedge_pos uid).getD 0)) with
    | false =>
      have hok3 : callback m3.callback_log uid (-(net - (m3.hedge_pos uid).getD 0)) = false := by
        rw [hl, hh]; exact hok
      rw [exec_delta_hedge_rejected m3 uid net callback hbig hcb hok3]
      refine ⟨?_, fun h => Bool.noConfusion h, fun _ => ⟨?_, hp⟩⟩
      · show m3.callback_log ++ _ = _
        rw [hl, hh]
      · rw [← hh]
        exact getD_update_self_default _ _ _
    | true =>
      have hok3 : callback m3.callback_log uid (-(net - (m3.hedge_pos uid).getD 0)) = true := by
        rw [hl, hh]; exact hok
      rw [exec_delta_hedge_accepted m3 uid net callback hbig hcb hok3]
      refine ⟨?_, fun _ => ⟨?_, ?_⟩, fun h => Bool.noConfusion h⟩
      · show m3.callback_log ++ _ = _
        rw [hl, hh]
      · show Function.update m3.hedge_pos uid (some net) uid = some net
        rw [Function.update_same]
      · show (m3.position.add_underlying_quantity uid _).underlying_quantity_by_underlying_id uid
          = _
        rw [add_underlying_quantity_self, hp, hh]

/-- C26: the post-trade hedge.  on_bid_hit and on_offer_hit run delta_hedge_post_trade
after they have updated the option position and pnl.  With the option's underlying found
in the state, uid its id, net = portfolio_delta(uid) and cur = HedgeLedger[uid] (0 if
absent): if |net| <= 0.03 no trade is emitted and the ledger is untouched; otherwise,
with trade = net - cur: if |trade| < 0.05 no trade is emitted and the ledger values and
Position are unchanged; otherwise a registered callback is invoked exactly once, with
(uid, -trade) (a sale of |trade| when trade > 0, a purchase of |trade| when trade < 0);
when it returns normally, HedgeLedger[uid] becomes net = cur + trade and the shares
round(-100*trade)/100 are added to Position.underlying[uid]; when it fails, the ledger
value and Position are unchanged. -/
theorem C26_post_trade_hedge (m : MarketMaker) (option : OptionContract) (q : ℤ)
    (underlying : Underlying)
    (hu : find_underlying m option.underlying_id = some underlying) :
    (|post_trade_net m option q underlying| ≤ HEDGE_TH →
      (delta_hedge_post_trade m option q).callback_log = m.callback_log
      ∧ (delta_hedge_post_trade m option q).hedge_pos = m.hedge_pos
      ∧ (delta_hedge_post_trade m option q).position = m.position)
    ∧ (HEDGE_TH < |post_trade_net m option q underlying| →
      |post_trade_net m option q underlying
          - (m.hedge_pos underlying.underlying_id).getD 0| < MIN_HEDGE →
      (delta_hedge_post_trade m option q).callback_log = m.callback_log
      ∧ (∀ u, ((delta_hedge_post_trade m option q).hedge_pos u).getD 0
          = (m.hedge_pos u).getD 0)
      ∧ (delta_hedge_post_trade m option q).position = m.position)
    ∧ (HEDGE_TH < |post_trade_net m option q underlying| →
      MIN_HEDGE ≤ |post_trade_net m option q underlying
          - (m.hedge_pos underlying.underlying_id).getD 0| →
      ∀ callback, m.trade_underlying_callback = some callback →
        (delta_hedge_post_trade m option q).callback_log
          = m.callback_log ++ [(underlying.underlying_id,
              -(post_trade_net m option q underlying
                  - (m.hedge_pos underlying.underlying_id).getD 0),
              callback m.callback_log underlying.underlying_id
                (-(post_trade_net m option q underlying
                    - (m.hedge_pos underlying.underlying_id).getD 0)))]
        ∧ (callback m.callback_log underlying.underlying_id
              (-(post_trade_net m option q underlying
                  - (m.hedge_pos underlying.underlying_id).getD 0)) = true →
            (delta_hedge_post_trade m option q).hedge_pos underlying.underlying_id
              = some (post_trade_net m option q underlying)
            ∧ (delta_hedge_post_trade m option q).position.underlying_quantity_by_underlying_id
                underlying.underlying_id
              = some ((m.position.underlying_quantity_by_underlying_id
                    underlying.underlying_id).getD 0
                  + (cround (100 * (-(post_trade_net m option q underlying
                      - (m.hedge_pos underlying.underlying_id).getD 0))) : ℚ) / 100))
        ∧ (callback m.callback_log underlying.underlying_id
              (-(post_trade_net m option q underlying
                  - (m.hedge_pos underlying.underlying_id).getD 0)) = false →
            ((delta_hedge_post_trade m option q).hedge_pos underlying.underlying_id).getD 0
              = (m.hedge_pos underlying.underlying_id).getD 0
            ∧ (delta_hedge_post_trade m option q).position = m.position))
    ∧ (∀ bid_price : ℚ,
        on_bid_hit m option bid_price
          = delta_hedge_post_trade
              { m with
                position := m.position.add_option_quantity option.option_id 1
                pnl := m.pnl + bid_price } option 1)
    ∧ (∀ offer_price : ℚ,
        on_offer_hit m option offer_price
          = delta_hedge_post_trade
              { m with
                position := m.position.add_option_quantity option.option_id (-1)
                pnl := m.pnl - offer_price } option (-1)) := by
  obtain ⟨hl, hh, hp, hc⟩ := post_trade_entry_keeps m option q underlying
  have hout := exec_delta_hedge_outcomes _ m underlying.underlying_id
    (post_trade_net m option q underlying) hl hh hp hc
  rw [delta_hedge_post_trade_eq m option q underlying hu]
  refine ⟨?_, ?_, ?_, fun _ => rfl, fun _ => rfl⟩
  · intro hsmall
    rw [if_neg (not_lt.mpr hsmall)]
    exact ⟨hl, hh, hp⟩
  · intro hnet htrade
    rw [if_pos hnet]
    exact hout.1 htrade
  · intro hnet htrade callback hcb
    rw [if_pos hnet]
    exact hout.2 htrade callback hcb

theorem post_trade_net_single (m : MarketMaker) (option : OptionContract)
    (underlying : Underlying) (q s : ℤ)
    (hA : m.active_option_state = [option])
    (hU : find_underlying m option.underlying_id = some underlying)
    (hP : m.position.option_quantity_by_option_id option.option_id = some q)
    (hq : q ≠ 0) :
    post_trade_net m option s underlying
      = (q : ℚ) * (get_greeks m option underlying).1.2.1
          - (m.hedge_pos underlying.underlying_id).getD 0 := by
  have hid : underlying.underlying_id = option.underlying_id := (find_underlying_mem hU).2
  have hg := get_greeks_frame m option underlying
  have e1 : (get_greeks m option underlying).2
      = { m with price_cache := (get_greeks m option underlying).2.price_cache } := hg
  have hpd := portfolio_delta_single (post_trade_state m option s underlying)
    option underlying q (get_greeks m option underlying).1
    (by show (get_greeks m option underlying).2.active_option_state = _; rw [e1]; exact hA)
    (by
      have hus : (post_trade_state m option s underlying).underlying_state
          = m.underlying_state := by
        show (get_greeks m option underlying).2.underlying_state = _
        rw [e1]
      rw [find_underlying_congr hus]; exact hU)
    (by show (get_greeks m option underlying).2.position.option_quantity_by_option_id _ = _
        rw [e1]; exact hP)
    hq
    (by show cache_find (get_greeks m option underlying).2.price_cache _ = _
        exact get_greeks_caches m option underlying)
  have hh : (post_trade_state m option s underlying).hedge_pos = m.hedge_pos := by
    show (get_greeks m option underlying).2.hedge_pos = _
    exact cache_keeps_hedge_pos hg
  unfold post_trade_net
  rw [hid, hpd, hh]

theorem cround_neg_fifty : cround (100 * (-(1 / 2 - 0 : ℚ))) = -50 := by
  unfold cround
  rw [if_neg (by norm_num), Int.ceil_eq_iff]
  norm_num

/-- Witness for C26: on the engine of Scenario A with a callback that accepts every
trade, a bid hit on the CALL (delta 1/2, empty ledger) gives net = 1/2 > 0.03 and
trade = 1/2 >= 0.05: the callback receives exactly (0, -1/2), the ledger of underlying 0
becomes 1/2 and 0.5 shares are sold. -/
theorem C26_post_trade_hedge_witness :
    hedge_state_1.callback_log = [(0, -(1 / 2 - 0), true)]
    ∧ hedge_state_1.hedge_pos 0 = some (1 / 2)
    ∧ hedge_state_1.position.underlying_quantity_by_underlying_id 0 = some (-1 / 2) := by
  have hU : find_underlying
      { hedge_state_0 with
        position := hedge_state_0.position.add_option_quantity scenario_A_call.option_id 1
        pnl := hedge_state_0.pnl + 1 } scenario_A_call.underlying_id
      = some scenario_underlying := by
    simp [find_underlying, hedge_state_0, register_trade_underlying_callback,
      scenario_A_engine, MarketMaker.new, scenario_underlying, scenario_A_call]
  have hgv : (get_greeks
      { hedge_state_0 with
        position := hedge_state_0.position.add_option_quantity scenario_A_call.option_id 1
        pnl := hedge_state_0.pnl + 1 } scenario_A_call scenario_underlying).1
      = (7 / 8, 1 / 2, 25 / 16) := by
    rw [get_greeks_value_miss
      { hedge_state_0 with
        position := hedge_state_0.position.add_option_quantity scenario_A_call.option_id 1
        pnl := hedge_state_0.pnl + 1 } scenario_A_call scenario_underlying rfl,
      scenario_A_greeks.1, scenario_A_greeks.2.1, scenario_A_greeks.2.2]
  have hnet : post_trade_net
      { hedge_state_0 with
        position := hedge_state_0.position.add_option_quantity scenario_A_call.option_id 1
        pnl := hedge_state_0.pnl + 1 } scenario_A_call 1 scenario_underlying = 1 / 2 := by
    rw [post_trade_net_single _ scenario_A_call scenario_underlying 1 1 rfl hU
      (by simp [Position.add_option_quantity, wrap_int32, hedge_state_0,
        register_trade_underlying_callback, scenario_A_engine, MarketMaker.new,
        Position.empty])
      (by decide), hgv]
    norm_num [hedge_state_0, register_trade_underlying_callback, scenario_A_engine,
      MarketMaker.new]
  have h := (C26_post_trade_hedge
      { hedge_state_0 with
        position := hedge_state_0.position.add_option_quantity scenario_A_call.option_id 1
        pnl := hedge_state_0.pnl + 1 } scenario_A_call 1 scenario_underlying hU).2.2.1
  rw [hnet] at h
  have h1 : hedge_state_1 = delta_hedge_post_trade
      { hedge_state_0 with
        position := hedge_state_0.position.add_option_quantity scenario_A_call.option_id 1
        pnl := hedge_state_0.pnl + 1 } scenario_A_call 1 := rfl
  rw [← h1] at h
  have hcur : (({ hedge_state_0 with
        position := hedge_state_0.position.add_option_quantity scenario_A_call.option_id 1
        pnl := hedge_state_0.pnl + 1 } : MarketMaker).hedge_pos
        scenario_underlying.underlying_id).getD 0 = 0 := rfl
  rw [hcur] at h
  obtain ⟨hlog, hacc, -⟩ := h (by norm_num [HEDGE_TH, abs_of_pos])
    (by norm_num [MIN_HEDGE, abs_of_pos]) (fun _ _ _ => true) rfl
  obtain ⟨hledger, hshares⟩ := hacc rfl
  refine ⟨hlog, hledger, ?_⟩
  have e : hedge_state_1.position.underlying_quantity_by_underlying_id 0
      = hedge_state_1.position.underlying_quantity_by_underlying_id
          scenario_underlying.underlying_id := rfl
  rw [e, hshares, cround_neg_fifty]
  norm_num [hedge_state_0, register_trade_underlying_callback, scenario_A_engine,
    MarketMaker.new, Position.add_option_quantity, Position.empty]

/-! ## The per-step rehedge, underlying by underlying -/

theorem rehedge_step_eq (m : MarketMaker) (u : Underlying)
    (hmove : GAMMA_SCALP_TH
      ≤ |u.valuation - (m.last_underlying_prices u.underlying_id).getD u.valuation|) :
    rehedge_step m u
      = { (if |(portfolio_delta m u.underlying_id).1| > HEDGE_TH then
            rehedge_trade (portfolio_delta m u.underlying_id).2 u.underlying_id
              (portfolio_delta m u.underlying_id).1
          else (portfolio_delta m u.underlying_id).2) with
          last_hedge :=
            Function.update
              (if |(portfolio_delta m u.underlying_id).1| > HEDGE_TH then
                rehedge_trade (portfolio_delta m u.underlying_id).2 u.underlying_id
                  (portfolio_delta m u.underlying_id).1
              else (portfolio_delta m u.underlying_id).2).last_hedge
              u.underlying_id (some u.valuation) } := by
  unfold rehedge_step
  simp only []
  cases hlp : m.last_underlying_prices u.underlying_id with
  | none =>
    rw [hlp] at hmove
    simp only [Option.getD_none] at hmove
    simp only []
    rw [if_neg (not_lt.mpr hmove)]
  | some last =>
    rw [hlp] at hmove
    simp only [Option.getD_some] at hmove
    simp only []
    rw [if_neg (not_lt.mpr hmove)]

theorem rehedge_step_skip (m : MarketMaker) (u : Underlying)
    (hstill : |u.valuation - (m.last_underlying_prices u.underlying_id).getD u.valuation|
      < GAMMA_SCALP_TH) :
    rehedge_step m u = m := by
  unfold rehedge_step
  simp only []
  cases hlp : m.last_underlying_prices u.underlying_id with
  | none =>
    rw [hlp] at hstill
    simp only [Option.getD_none] at hstill
    simp only []
    rw [if_pos hstill]
  | some last =>
    rw [hlp] at hstill
    simp only [Option.getD_some] at hstill
    simp only []
    rw [if_pos hstill]

theorem rehedge_step_outcomes (m : MarketMaker) (u : Underlying)
    (hmove : GAMMA_SCALP_TH
      ≤ |u.valuation - (m.last_underlying_prices u.underlying_id).getD u.valuation|) :
    (|(portfolio_delta m u.underlying_id).1| ≤ HEDGE_TH →
      (rehedge_step m u).callback_log = m.callback_log
      ∧ (rehedge_step m u).hedge_pos = m.hedge_pos
      ∧ (rehedge_step m u).position = m.position)
    ∧ (HEDGE_TH < |(portfolio_delta m u.underlying_id).1| →
      ∀ callback, m.trade_underlying_callback = some callback →
        (rehedge_step m u).callback_log
          = m.callback_log ++ [(u.underlying_id, (portfolio_delta m u.underlying_id).1,
              callback m.callback_log u.underlying_id (portfolio_delta m u.underlying_id).1)]
        ∧ (callback m.callback_log u.underlying_id (portfolio_delta m u.underlying_id).1 = true →
            (rehedge_step m u).hedge_pos u.underlying_id
              = some ((m.hedge_pos u.underlying_id).getD 0
                  + (portfolio_delta m u.underlying_id).1)
            ∧ (rehedge_step m u).position.underlying_quantity_by_underlying_id u.underlying_id
              = some ((m.position.underlying_quantity_by_underlying_id u.underlying_id).getD 0
                  + (cround (100 * (portfolio_delta m u.underlying_id).1) : ℚ) / 100))
        ∧ (callback m.callback_log u.underlying_id (portfolio_delta m u.underlying_id).1 = false →
            ((rehedge_step m u).hedge_pos u.underlying_id).getD 0
              = (m.hedge_pos u.underlying_id).getD 0
            ∧ (rehedge_step m u).position = m.position)) := by
  have hd := portfolio_delta_frame m u.underlying_id
  have hl := cache_keeps_callback_log hd
  have hh := cache_keeps_hedge_pos hd
  have hp := cache_keeps_position hd
  have hc := cache_keeps_trade_underlying_callback hd
  rw [rehedge_step_eq m u hmove]
  constructor
  · intro hsmall
    rw [if_neg (not_lt.mpr hsmall)]
    exact ⟨hl, hh, hp⟩
  · intro hbig callback hcb
    rw [if_pos hbig]
    rw [← hc] at hcb
    cases hok : callback m.callback_log u.underlying_id (portfolio_delta m u.underlying_id).1 with
    | false =>
      have hok3 : callback (portfolio_delta m u.underlying_id).2.callback_log u.underlying_id
          (portfolio_delta m u.underlying_id).1 = false := by rw [hl]; exact hok
      rw [rehedge_trade_rejected _ u.underlying_id _ callback hbig hcb hok3]
      refine ⟨?_, fun h => Bool.noConfusion h, fun _ => ⟨?_, hp⟩⟩
      · show (portfolio_delta m u.underlying_id).2.callback_log ++ _ = _
        rw [hl]
      · show ((Function.update (portfolio_delta m u.underlying_id).2.hedge_pos u.underlying_id
            (some (((portfolio_delta m u.underlying_id).2.hedge_pos u.underlying_id).getD 0)))
            u.underlying_id).getD 0 = _
        rw [getD_update_self_default, hh]
    | true =>
      have hok3 : callback (portfolio_delta m u.underlying_id).2.callback_log u.underlying_id
          (portfolio_delta m u.underlying_id).1 = true := by rw [hl]; exact hok
      rw [rehedge_trade_accepted _ u.underlying_id _ callback hbig hcb hok3]
      refine ⟨?_, fun _ => ⟨?_, ?_⟩, fun h => Bool.noConfusion h⟩
      · show (portfolio_delta m u.underlying_id).2.callback_log ++ _ = _
        rw [hl]
      · show Function.update (portfolio_delta m u.underlying_id).2.hedge_pos u.underlying_id
            (some (((portfolio_delta m u.underlying_id).2.hedge_pos u.underlying_id).getD 0
              + (portfolio_delta m u.underlying_id).1)) u.underlying_id = _
        rw [Function.update_same, hh]
      · show ((portfolio_delta m u.underlying_id).2.position.add_underlying_quantity
            u.underlying_id _).underlying_quantity_by_underlying_id u.underlying_id = _
        rw [add_underlying_quantity_self, hp]

theorem rehedge_append (m : MarketMaker) (pre post : List Underlying) (u : Underlying) :
    rehedge m (pre ++ u :: post) = rehedge (rehedge_step (rehedge m pre) u) post := by
  unfold rehedge
  rw [List.foldl_append, List.foldl_cons]

theorem on_step_advance_eq (m : MarketMaker) (us : List Underlying)
    (os : List OptionContract) :
    on_step_advance m us os
      = { rehedge (step_advance_entry m us os) us with
          last_underlying_prices :=
            us.foldl refresh_last_price m.last_underlying_prices } := by
  have hf := rehedge_frame us (step_advance_entry m us os)
  have h1 : (rehedge (step_advance_entry m us os) us).underlying_state = us :=
    hedging_keeps_underlying_state hf
  have h2 : (rehedge (step_advance_entry m us os) us).last_underlying_prices
      = (step_advance_entry m us os).last_underlying_prices :=
    hedging_keeps_last_underlying_prices hf
  have h3 : (step_advance_entry m us os).last_underlying_prices = m.last_underlying_prices :=
    rfl
  have e : on_step_advance m us os
      = { rehedge (step_advance_entry m us os) us with
          last_underlying_prices :=
            (rehedge (step_advance_entry m us os) us).underlying_state.foldl refresh_last_price
              (rehedge (step_advance_entry m us os) us).last_underlying_prices } := rfl
  rw [e, h1, h2, h3]

theorem rehedge_reaches_keeps (m : MarketMaker) (us : List Underlying)
    (os : List OptionContract) (pre : List Underlying) :
    (rehedge_reaches m us os pre).last_underlying_prices = m.last_underlying_prices
    ∧ (rehedge_reaches m us os pre).trade_underlying_callback = m.trade_underlying_callback := by
  have hf := rehedge_frame pre (step_advance_entry m us os)
  have h1 : (rehedge (step_advance_entry m us os) pre).last_underlying_prices
      = (step_advance_entry m us os).last_underlying_prices :=
    hedging_keeps_last_underlying_prices hf
  have h2 : (rehedge (step_advance_entry m us os) pre).trade_underlying_callback
      = (step_advance_entry m us os).trade_underlying_callback :=
    hedging_keeps_trade_underlying_callback hf
  exact ⟨h1, h2⟩

/-- C27: the per-step rehedge.  on_step_advance runs the loop of rehedge over the
underlyings of the new state before it refreshes LastUnderlyingPrices, so that for an
underlying u of the new state (the new state is pre ++ u :: post), with S its valuation
and S' = LastUnderlyingPrices[uid] as it was before the call (S if absent), the loop
body runs in the state reached after `pre` and the trades of the call are those of the
loop.  If |S - S'| < 0.005 the body changes nothing and no trade is emitted for u.
Otherwise, with net = portfolio_delta(uid): if |net| <= 0.03 no trade is emitted and
the ledger and Position are untouched; if |net| > 0.03 a registered callback is invoked
exactly once, with (uid, net) (a purchase of |net| when net > 0, a sale of |net| when
net < 0), with no comparison of |net| against MIN_HEDGE; when it returns normally
HedgeLedger[uid] increases by net and round(100*net)/100 shares are added to
Position.underlying[uid]; when it fails the ledger value and Position are unchanged. -/
theorem C27_per_step_rehedge (m : MarketMaker) (us : List Underlying)
    (os : List OptionContract) (pre post : List Underlying) (u : Underlying)
    (hus : us = pre ++ u :: post) :
    ((on_step_advance m us os).callback_log
        = (rehedge (rehedge_step (rehedge_reaches m us os pre) u) post).callback_log
      ∧ (on_step_advance m us os).hedge_pos
        = (rehedge (rehedge_step (rehedge_reaches m us os pre) u) post).hedge_pos
      ∧ (on_step_advance m us os).position
        = (rehedge (rehedge_step (rehedge_reaches m us os pre) u) post).position)
    ∧ (|u.valuation - (m.last_underlying_prices u.underlying_id).getD u.valuation|
        < GAMMA_SCALP_TH →
      rehedge_step (rehedge_reaches m us os pre) u = rehedge_reaches m us os pre)
    ∧ (GAMMA_SCALP_TH
        ≤ |u.valuation - (m.last_underlying_prices u.underlying_id).getD u.valuation| →
      |(portfolio_delta (rehedge_reaches m us os pre) u.underlying_id).1| ≤ HEDGE_TH →
      (rehedge_step (rehedge_reaches m us os pre) u).callback_log
        = (rehedge_reaches m us os pre).callback_log
      ∧ (rehedge_step (rehedge_reaches m us os pre) u).hedge_pos
        = (rehedge_reaches m us os pre).hedge_pos
      ∧ (rehedge_step (rehedge_reaches m us os pre) u).position
        = (rehedge_reaches m us os pre).position)
    ∧ (GAMMA_SCALP_TH
        ≤ |u.valuation - (m.last_underlying_prices u.underlying_id).getD u.valuation| →
      HEDGE_TH < |(portfolio_delta (rehedge_reaches m us os pre) u.underlying_id).1| →
      ∀ callback, m.trade_underlying_callback = some callback →
        (rehedge_step (rehedge_reaches m us os pre) u).callback_log
          = (rehedge_reaches m us os pre).callback_log
            ++ [(u.underlying_id,
                (portfolio_delta (rehedge_reaches m us os pre) u.underlying_id).1,
                callback (rehedge_reaches m us os pre).callback_log u.underlying_id
                  (portfolio_delta (rehedge_reaches m us os pre) u.underlying_id).1)]
        ∧ (callback (rehedge_reaches m us os pre).callback_log u.underlying_id
              (portfolio_delta (rehedge_reaches m us os pre) u.underlying_id).1 = true →
            (rehedge_step (rehedge_reaches m us os pre) u).hedge_pos u.underlying_id
              = some (((rehedge_reaches m us os pre).hedge_pos u.underlying_id).getD 0
                  + (portfolio_delta (rehedge_reaches m us os pre) u.underlying_id).1)
            ∧ (rehedge_step (rehedge_reaches m us os pre)
                  u).position.underlying_quantity_by_underlying_id u.underlying_id
              = some (((rehedge_reaches m us os pre).position.underlying_quantity_by_underlying_id
                    u.underlying_id).getD 0
                  + (cround (100
                      * (portfolio_delta (rehedge_reaches m us os pre) u.underlying_id).1)
                      : ℚ) / 100))
        ∧ (callback (rehedge_reaches m us os pre).callback_log u.underlying_id
              (portfolio_delta (rehedge_reaches m us os pre) u.underlying_id).1 = false →
            ((rehedge_step (rehedge_reaches m us os pre) u).hedge_pos u.underlying_id).getD 0
              = ((rehedge_reaches m us os pre).hedge_pos u.underlying_id).getD 0
            ∧ (rehedge_step (rehedge_reaches m us os pre) u).position
              = (rehedge_reaches m us os pre).position)) := by
  obtain ⟨hlast, hcb⟩ := rehedge_reaches_keeps m us os pre
  have hrun : rehedge (step_advance_entry m us os) us
      = rehedge (rehedge_step (rehedge_reaches m us os pre) u) post := by
    rw [hus]
    exact rehedge_append _ pre post u
  rw [← hlast]
  refine ⟨?_, ?_, ?_, ?_⟩
  · have e := on_step_advance_eq m us os
    have e1 : (on_step_advance m us os).callback_log
        = (rehedge (step_advance_entry m us os) us).callback_log := by rw [e]
    have e2 : (on_step_advance m us os).hedge_pos
        = (rehedge (step_advance_entry m us os) us).hedge_pos := by rw [e]
    have e3 : (on_step_advance m us os).position
        = (rehedge (step_advance_entry m us os) us).position := by rw [e]
    rw [e1, e2, e3, hrun]
    exact ⟨rfl, rfl, rfl⟩
  · intro hstill
    exact rehedge_step_skip _ u hstill
  · intro hmove hsmall
    exact (rehedge_step_outcomes _ u hmove).1 hsmall
  · intro hmove hbig callback hreg
    rw [← hcb] at hreg
    exact (rehedge_step_outcomes _ u hmove).2 hbig callback hreg

/-! ## A per-step trade below the minimum hedge size -/

theorem portfolio_delta_one_option (m : MarketMaker) (option : OptionContract)
    (underlying : Underlying) (q : ℤ)
    (hA : m.active_option_state = [option])
    (hU : find_underlying m option.underlying_id = some underlying)
    (hP : m.position.option_quantity_by_option_id option.option_id = some q)
    (hq : q ≠ 0) :
    portfolio_delta m option.underlying_id
      = ((q : ℚ) * (get_greeks m option underlying).1.2.1
            - (m.hedge_pos option.underlying_id).getD 0,
          (get_greeks m option underlying).2) := by
  have hh := cache_keeps_hedge_pos (get_greeks_frame m option underlying)
  unfold portfolio_delta
  rw [hU]
  simp only [hA, List.foldl]
  have hstep : portfolio_delta_step option.underlying_id underlying (0, m) option
      = ((q : ℚ) * (get_greeks m option underlying).1.2.1,
          (get_greeks m option underlying).2) := by
    unfold portfolio_delta_step
    simp only [if_true, hP, hq, ne_eq, not_false_eq_true]
    simp
  rw [hstep]
  simp only [hh]
  cases m.hedge_pos option.underlying_id with
  | none => simp
  | some h => simp

theorem thin_state_1_eq :
    thin_state_1
      = { thin_state_0 with
          last_underlying_prices := Function.update (fun _ => none) 0 (some (77 / 10)) } := by
  have hskip : rehedge_step
      (step_advance_entry thin_state_0 [kink_underlying (77 / 10)] [kink_call])
      (kink_underlying (77 / 10))
      = step_advance_entry thin_state_0 [kink_underlying (77 / 10)] [kink_call] := by
    apply rehedge_step_skip
    have hn : (step_advance_entry thin_state_0 [kink_underlying (77 / 10)]
        [kink_call]).last_underlying_prices (kink_underlying (77 / 10)).underlying_id
        = none := rfl
    rw [hn]
    norm_num [GAMMA_SCALP_TH]
  unfold thin_state_1
  rw [on_step_advance_eq]
  have hr : rehedge (step_advance_entry thin_state_0 [kink_underlying (77 / 10)] [kink_call])
      [kink_underlying (77 / 10)]
      = step_advance_entry thin_state_0 [kink_underlying (77 / 10)] [kink_call] := by
    unfold rehedge
    rw [List.foldl_cons, List.foldl_nil]
    exact hskip
  rw [hr]
  rfl

theorem kink_fd_values_far :
    price_option_from_scratch kink_call (kink_underlying (77 / 10)) = 0
    ∧ calculate_delta kink_call (kink_underlying (77 / 10)) 0 = 0
    ∧ calculate_gamma kink_call (kink_underlying (77 / 10)) = 0
    ∧ price_option_from_scratch kink_call (kink_underlying (7819 / 1000)) = 0
    ∧ calculate_delta kink_call (kink_underlying (7819 / 1000)) 0 = 19 / 400 := by
  refine ⟨?_, ?_, ?_, ?_, ?_⟩
  · norm_num [price_option_from_scratch, back_induction, lattice_sweep, terminal_payoff,
      kink_call, kink_underlying, List.range_succ]
  · norm_num [calculate_delta, pump_it_up, price_option_from_scratch, back_induction,
      lattice_sweep, terminal_payoff, kink_call, kink_underlying, List.range_succ]
  · norm_num [calculate_gamma, pump_it_up, price_option_from_scratch, back_induction,
      lattice_sweep, terminal_payoff, kink_call, kink_underlying, List.range_succ]
  · norm_num [price_option_from_scratch, back_induction, lattice_sweep, terminal_payoff,
      kink_call, kink_underlying, List.range_succ]
  · norm_num [calculate_delta, pump_it_up, price_option_from_scratch, back_induction,
      lattice_sweep, terminal_payoff, kink_call, kink_underlying, List.range_succ]

theorem thin_state_2_facts :
    thin_state_2.callback_log = []
    ∧ thin_state_2.hedge_pos = (fun _ => none)
    ∧ thin_state_2.position.option_quantity_by_option_id kink_call.option_id = some 1
    ∧ thin_state_2.last_underlying_prices 0 = some (77 / 10)
    ∧ thin_state_2.trade_underlying_callback = some (fun _ _ _ => true)
    ∧ thin_state_2.price_cache = [(cache_key_string 7 (77 / 10), (0, 0, 0))] := by
  obtain ⟨hL, hD, hG, -, -⟩ := kink_fd_values_far
  have h2 : thin_state_2 = delta_hedge_post_trade
      { thin_state_1 with
        position := thin_state_1.position.add_option_quantity kink_call.option_id 1
        pnl := thin_state_1.pnl + 0 } kink_call 1 := rfl
  generalize hb : ({ thin_state_1 with
        position := thin_state_1.position.add_option_quantity kink_call.option_id 1
        pnl := thin_state_1.pnl + 0 } : MarketMaker) = booked at h2
  have hA : booked.active_option_state = [kink_call] := by
    rw [← hb, thin_state_1_eq]; rfl
  have hU : find_underlying booked kink_call.underlying_id
      = some (kink_underlying (77 / 10)) := by
    rw [← hb, thin_state_1_eq]
    simp [find_underlying, thin_state_0, register_trade_underlying_callback, MarketMaker.new,
      kink_underlying, kink_call]
  have hP : booked.position.option_quantity_by_option_id kink_call.option_id = some 1 := by
    rw [← hb, thin_state_1_eq]
    simp [Position.add_option_quantity, wrap_int32, thin_state_0, register_trade_underlying_callback,
      MarketMaker.new, Position.empty]
  have hC : booked.price_cache = [] := by
    rw [← hb, thin_state_1_eq]; rfl
  have hH : booked.hedge_pos = fun _ => none := by
    rw [← hb, thin_state_1_eq]; rfl
  have hLog : booked.callback_log = [] := by
    rw [← hb, thin_state_1_eq]; rfl
  have hLast : booked.last_underlying_prices 0 = some (77 / 10) := by
    rw [← hb, thin_state_1_eq]
    simp
  have hCb : booked.trade_underlying_callback = some (fun _ _ _ => true) := by
    rw [← hb, thin_state_1_eq]; rfl
  have hmiss : cache_find booked.price_cache
      (cache_key_string kink_call.option_id (kink_underlying (77 / 10)).valuation) = none := by
    rw [hC]; rfl
  have hg := get_greeks_miss booked kink_call (kink_underlying (77 / 10)) hmiss
  rw [hL, hD, hG] at hg
  have hnet : post_trade_net booked kink_call 1 (kink_underlying (77 / 10)) = 0 := by
    rw [post_trade_net_single booked kink_call (kink_underlying (77 / 10)) 1 1 hA hU hP
      (by decide), hg, hH]
    norm_num
  have heq := delta_hedge_post_trade_eq booked kink_call 1 (kink_underlying (77 / 10)) hU
  rw [hnet, if_neg (by norm_num [HEDGE_TH])] at heq
  obtain ⟨kl, kh, kp, kc⟩ := post_trade_entry_keeps booked kink_call 1
    (kink_underlying (77 / 10))
  have hf := delta_hedge_post_trade_frame booked kink_call 1
  rw [← h2] at hf
  have hpts : (post_trade_state booked kink_call 1 (kink_underlying (77 / 10))).price_cache
      = [(cache_key_string 7 (77 / 10), (0, 0, 0))] := by
    show (get_greeks booked kink_call (kink_underlying (77 / 10))).2.price_cache = _
    rw [hg, hC]
    rfl
  have hptsA : (post_trade_state booked kink_call 1
      (kink_underlying (77 / 10))).active_option_state = [kink_call] := by
    show (get_greeks booked kink_call (kink_underlying (77 / 10))).2.active_option_state = _
    rw [hg]; exact hA
  have hptsU : find_underlying (post_trade_state booked kink_call 1
      (kink_underlying (77 / 10))) kink_call.underlying_id
      = some (kink_underlying (77 / 10)) := by
    have hus : (post_trade_state booked kink_call 1
        (kink_underlying (77 / 10))).underlying_state = booked.underlying_state := by
      show (get_greeks booked kink_call (kink_underlying (77 / 10))).2.underlying_state = _
      rw [hg]
    rw [find_underlying_congr hus]; exact hU
  have hptsP : (post_trade_state booked kink_call 1
      (kink_underlying (77 / 10))).position.option_quantity_by_option_id kink_call.option_id
      = some 1 := by
    show (get_greeks booked kink_call
      (kink_underlying (77 / 10))).2.position.option_quantity_by_option_id _ = _
    rw [hg]; exact hP
  have hpd := portfolio_delta_one_option
    (post_trade_state booked kink_call 1 (kink_underlying (77 / 10))) kink_call
    (kink_underlying (77 / 10)) 1 hptsA hptsU hptsP (by decide)
  have hhit : cache_find (post_trade_state booked kink_call 1
      (kink_underlying (77 / 10))).price_cache
      (cache_key_string kink_call.option_id (kink_underlying (77 / 10)).valuation)
      = some (0, 0, 0) := by
    rw [hpts]
    exact cache_find_singleton _ _
  rw [get_greeks_hit _ kink_call (kink_underlying (77 / 10)) (0, 0, 0) hhit] at hpd
  have hid : (kink_underlying (77 / 10)).underlying_id = kink_call.underlying_id := rfl
  rw [hid] at heq kl kh kp kc
  refine ⟨?_, ?_, ?_, ?_, ?_, ?_⟩
  · rw [h2, heq, kl, hLog]
  · rw [h2, heq, kh, hH]
  · rw [hedging_keeps_option_quantity hf]; exact hP
  · rw [hedging_keeps_last_underlying_prices hf]; exact hLast
  · rw [hedging_keeps_trade_underlying_callback hf]; exact hCb
  · rw [h2, heq, hpd]
    exact hpts

theorem thin_rehedge_net :
    (portfolio_delta
        (rehedge_reaches thin_state_2 [kink_underlying (7819 / 1000)] [kink_call] [])
        (kink_underlying (7819 / 1000)).underlying_id).1 = 19 / 400
    ∧ (rehedge_reaches thin_state_2 [kink_underlying (7819 / 1000)] [kink_call]
        []).callback_log = []
    ∧ (rehedge_reaches thin_state_2 [kink_underlying (7819 / 1000)] [kink_call]
        []).hedge_pos = (fun _ => none) := by
  obtain ⟨hlog, hhedge, hpos, -, -, hcache⟩ := thin_state_2_facts
  obtain ⟨-, -, -, hL, hD⟩ := kink_fd_values_far
  have hmid : rehedge_reaches thin_state_2 [kink_underlying (7819 / 1000)] [kink_call] []
      = step_advance_entry thin_state_2 [kink_underlying (7819 / 1000)] [kink_call] := by
    unfold rehedge_reaches rehedge
    rw [List.foldl_nil]
  rw [hmid]
  have hk77 : cache_key_string 7 (77 / 10)
      = { option_id := 7, negative := false, micros := 7700000 } := by
    rw [cache_key_string_of_micros 7 (77 / 10) 7700000
      (by rw [abs_of_pos (by norm_num)]; norm_num)]
    norm_num
  have hk78 : cache_key_string 7 (7819 / 1000)
      = { option_id := 7, negative := false, micros := 7819000 } := by
    rw [cache_key_string_of_micros 7 (7819 / 1000) 7819000
      (by rw [abs_of_pos (by norm_num)]; norm_num)]
    norm_num
  have hC : (step_advance_entry thin_state_2 [kink_underlying (7819 / 1000)]
      [kink_call]).price_cache = [(cache_key_string 7 (77 / 10), (0, 0, 0))] := by
    show prune_ceiling (prune_inactive thin_state_2.price_cache [kink_call]) = _
    rw [hcache]
    simp [prune_inactive, prune_ceiling, cache_key_string, kink_call]
  have hmiss : cache_find (step_advance_entry thin_state_2 [kink_underlying (7819 / 1000)]
      [kink_call]).price_cache
      (cache_key_string kink_call.option_id (kink_underlying (7819 / 1000)).valuation)
      = none := by
    rw [hC]
    show cache_find [(cache_key_string 7 (77 / 10), _)] (cache_key_string 7 (7819 / 1000)) = none
    rw [hk77, hk78]
    have hb : (({ option_id := 7, negative := false, micros := 7819000 } : CacheKey)
        == { option_id := 7, negative := false, micros := 7700000 }) = false := by
      decide
    simp [cache_find, List.lookup, hb]
  have hU : find_underlying (step_advance_entry thin_state_2 [kink_underlying (7819 / 1000)]
      [kink_call]) kink_call.underlying_id = some (kink_underlying (7819 / 1000)) := by
    simp [find_underlying, step_advance_entry, kink_underlying, kink_call]
  have hpd := portfolio_delta_one_option
    (step_advance_entry thin_state_2 [kink_underlying (7819 / 1000)] [kink_call]) kink_call
    (kink_underlying (7819 / 1000)) 1 rfl hU hpos (by decide)
  rw [get_greeks_value_miss _ kink_call (kink_underlying (7819 / 1000)) hmiss, hL, hD] at hpd
  have hid : (kink_underlying (7819 / 1000)).underlying_id = kink_call.underlying_id := rfl
  refine ⟨?_, hlog, hhedge⟩
  rw [hid, hpd]
  have hh0 : (step_advance_entry thin_state_2 [kink_underlying (7819 / 1000)]
      [kink_call]).hedge_pos = fun _ => none := hhedge
  simp only [hh0]
  norm_num

/-- Witness for C27: an engine holds one CALL whose delta moved from 0 at S' = 7.7 to
0.0475 at S = 7.819, with an empty ledger and a callback that accepts every trade.  In
the step advance to 7.819, |S - S'| = 0.119 >= 0.005 and net = 0.0475 > 0.03: the
callback receives exactly (0, 0.0475), a purchase, and the ledger of underlying 0 rises
from 0 to 0.0475, although the trade is smaller than MIN_HEDGE = 0.05. -/
theorem C27_per_step_rehedge_witness :
    thin_state_3.callback_log = [(0, 19 / 400, true)]
    ∧ thin_state_3.hedge_pos 0 = some (0 + 19 / 400)
    ∧ (19 / 400 : ℚ) < MIN_HEDGE := by
  obtain ⟨-, -, -, hlast, hcb, -⟩ := thin_state_2_facts
  obtain ⟨hnet, hlog, hhedge⟩ := thin_rehedge_net
  have h := C27_per_step_rehedge thin_state_2 [kink_underlying (7819 / 1000)] [kink_call]
    [] [] (kink_underlying (7819 / 1000)) rfl
  obtain ⟨⟨hl3, hh3, -⟩, -, -, htrade⟩ := h
  have hlast' : thin_state_2.last_underlying_prices
      (kink_underlying (7819 / 1000)).underlying_id = some (77 / 10) := hlast
  rw [hlast', hnet, hlog, hhedge] at htrade
  obtain ⟨hlog', hacc, -⟩ := htrade
    (by norm_num [GAMMA_SCALP_TH, kink_underlying, abs_of_pos])
    (by norm_num [HEDGE_TH, abs_of_pos]) (fun _ _ _ => true) hcb
  obtain ⟨hledger, -⟩ := hacc rfl
  have h3 : thin_state_3
      = on_step_advance thin_state_2 [kink_underlying (7819 / 1000)] [kink_call] := rfl
  have hnil : ∀ x : MarketMaker, rehedge x [] = x := fun x => by
    unfold rehedge
    rw [List.foldl_nil]
  rw [hnil] at hl3 hh3
  refine ⟨?_, ?_, by norm_num [MIN_HEDGE]⟩
  · rw [h3, hl3, hlog']
    rfl
  · rw [h3, hh3]
    exact hledger

/-! ## Failed hedge trades -/

theorem all_failed_for_append {uid : ℤ} {l1 l2 : List TradeRecord}
    (h : all_failed_for uid (l1 ++ l2)) : all_failed_for uid l1 ∧ all_failed_for uid l2 :=
  ⟨fun r hr => h r (List.mem_append_left _ hr), fun r hr => h r (List.mem_append_right _ hr)⟩

theorem accepted_quantity_of_all_failed (uid : ℤ) (l : List TradeRecord)
    (h : all_failed_for uid l) : accepted_quantity uid l = 0 := by
  induction l with
  | nil => rfl
  | cons r l ih =>
    have hr : ¬ (r.1 = uid ∧ r.2.2 = true) := by
      rintro ⟨h1, h2⟩
      have := h r (List.mem_cons_self _ _) h1
      rw [this] at h2
      exact Bool.noConfusion h2
    have hl : all_failed_for uid l := fun x hx => h x (List.mem_cons_of_mem _ hx)
    have e : accepted_quantity uid (r :: l)
        = (if r.1 = uid ∧ r.2.2 = true then r.2.1 else 0) + accepted_quantity uid l := by
      unfold accepted_quantity
      rw [List.map_cons, List.sum_cons]
    rw [e, if_neg hr, ih hl, add_zero]

theorem shares_kept_of_unchanged {m m' : MarketMaker}
    (hl : m'.callback_log = m.callback_log)
    (hp : m'.position.underlying_quantity_by_underlying_id
      = m.position.underlying_quantity_by_underlying_id) :
    shares_kept_on_failure m m' :=
  ⟨[], by rw [hl, List.append_nil], fun uid _ => by rw [hp]⟩

theorem shares_kept_trans {m m' m'' : MarketMaker}
    (h1 : shares_kept_on_failure m m') (h2 : shares_kept_on_failure m' m'') :
    shares_kept_on_failure m m'' := by
  obtain ⟨s1, hl1, hk1⟩ := h1
  obtain ⟨s2, hl2, hk2⟩ := h2
  refine ⟨s1 ++ s2, by rw [hl2, hl1, List.append_assoc], fun uid hf => ?_⟩
  obtain ⟨hf1, hf2⟩ := all_failed_for_append hf
  rw [hk2 uid hf2, hk1 uid hf1]

theorem shares_kept_of_cache {m m' : MarketMaker} (h : only_cache_changed m m') :
    shares_kept_on_failure m m' :=
  shares_kept_of_unchanged (cache_keeps_callback_log h) (by rw [cache_keeps_position h])

theorem shares_kept_of_accepted (m : MarketMaker) (uid : ℤ) (quantity : ℚ)
    (hedge : ℤ → Option ℚ) :
    shares_kept_on_failure m
      { m with
        hedge_pos := hedge
        callback_log := m.callback_log ++ [(uid, quantity, true)]
        position := m.position.add_underlying_quantity uid quantity } := by
  refine ⟨[(uid, quantity, true)], rfl, fun u hf => ?_⟩
  by_cases hu : u = uid
  · have := hf (uid, quantity, true) (List.mem_singleton.mpr rfl) hu.symm
    exact Bool.noConfusion this
  · exact add_underlying_quantity_other _ _ _ _ hu

theorem exec_delta_hedge_shares_kept (m : MarketMaker) (uid : ℤ) (target : ℚ) :
    shares_kept_on_failure m (exec_delta_hedge m uid target) := by
  by_cases hsmall : |target - (m.hedge_pos uid).getD 0| < MIN_HEDGE
  · rw [exec_delta_hedge_small m uid target hsmall]
    exact shares_kept_of_unchanged rfl rfl
  · have hbig : MIN_HEDGE ≤ |target - (m.hedge_pos uid).getD 0| := not_lt.mp hsmall
    cases hcb : m.trade_underlying_callback with
    | none =>
      rw [exec_delta_hedge_unregistered m uid target hbig hcb]
      exact shares_kept_of_unchanged rfl rfl
    | some callback =>
      cases hok : callback m.callback_log uid (-(target - (m.hedge_pos uid).getD 0)) with
      | false =>
        rw [exec_delta_hedge_rejected m uid target callback hbig hcb hok]
        exact ⟨[(uid, -(target - (m.hedge_pos uid).getD 0), false)], rfl, fun _ _ => rfl⟩
      | true =>
        rw [exec_delta_hedge_accepted m uid target callback hbig hcb hok]
        exact shares_kept_of_accepted m uid _ _

theorem rehedge_trade_shares_kept (m : MarketMaker) (uid : ℤ) (trade : ℚ)
    (hbig : HEDGE_TH < |trade|) :
    shares_kept_on_failure m (rehedge_trade m uid trade) := by
  cases hcb : m.trade_underlying_callback with
  | none =>
    rw [rehedge_trade_unregistered m uid trade hbig hcb]
    exact shares_kept_of_unchanged rfl rfl
  | some callback =>
    cases hok : callback m.callback_log uid trade with
    | false =>
      rw [rehedge_trade_rejected m uid trade callback hbig hcb hok]
      exact ⟨[(uid, trade, false)], rfl, fun _ _ => rfl⟩
    | true =>
      rw [rehedge_trade_accepted m uid trade callback hbig hcb hok]
      exact shares_kept_of_accepted m uid _ _

theorem delta_hedge_post_trade_shares_kept (m : MarketMaker) (option : OptionContract)
    (q : ℤ) : shares_kept_on_failure m (delta_hedge_post_trade m option q) := by
  cases hu : find_underlying m option.underlying_id with
  | none =>
    have e : delta_hedge_post_trade m option q = m := by
      unfold delta_hedge_post_trade
      rw [hu]
    rw [e]
    exact shares_kept_of_unchanged rfl rfl
  | some underlying =>
    obtain ⟨hl, -, hp, -⟩ := post_trade_entry_keeps m option q underlying
    have h0 : shares_kept_on_failure m
        (portfolio_delta (post_trade_state m option q underlying)
          underlying.underlying_id).2 :=
      shares_kept_of_unchanged hl (by rw [hp])
    rw [delta_hedge_post_trade_eq m option q underlying hu]
    split_ifs
    · exact shares_kept_trans h0 (exec_delta_hedge_shares_kept _ _ _)
    · exact h0

theorem on_bid_hit_shares_kept (m : MarketMaker) (option : OptionContract) (bid_price : ℚ) :
    shares_kept_on_failure m (on_bid_hit m option bid_price) := by
  rw [on_bid_hit_eq]
  have h0 : shares_kept_on_failure m
      { m with
        position := m.position.add_option_quantity option.option_id 1
        pnl := m.pnl + bid_price } :=
    shares_kept_of_unchanged rfl rfl
  exact shares_kept_trans h0 (delta_hedge_post_trade_shares_kept _ option 1)

theorem on_offer_hit_shares_kept (m : MarketMaker) (option : OptionContract)
    (offer_price : ℚ) : shares_kept_on_failure m (on_offer_hit m option offer_price) := by
  rw [on_offer_hit_eq]
  have h0 : shares_kept_on_failure m
      { m with
        position := m.position.add_option_quantity option.option_id (-1)
        pnl := m.pnl - offer_price } :=
    shares_kept_of_unchanged rfl rfl
  exact shares_kept_trans h0 (delta_hedge_post_trade_shares_kept _ option (-1))

theorem rehedge_step_shares_kept (m : MarketMaker) (u : Underlying) :
    shares_kept_on_failure m (rehedge_step m u) := by
  by_cases hstill : |u.valuation - (m.last_underlying_prices u.underlying_id).getD u.valuation|
      < GAMMA_SCALP_TH
  · rw [rehedge_step_skip m u hstill]
    exact shares_kept_of_unchanged rfl rfl
  · rw [rehedge_step_eq m u (not_lt.mp hstill)]
    have h1 := shares_kept_of_cache (portfolio_delta_frame m u.underlying_id)
    split_ifs with hbig
    · exact shares_kept_trans
        (shares_kept_trans h1 (rehedge_trade_shares_kept _ _ _ hbig))
        (shares_kept_of_unchanged rfl rfl)
    · exact shares_kept_trans h1 (shares_kept_of_unchanged rfl rfl)

theorem rehedge_shares_kept (new_u_state : List Underlying) :
    ∀ m : MarketMaker, shares_kept_on_failure m (rehedge m new_u_state) := by
  induction new_u_state with
  | nil => intro m; exact shares_kept_of_unchanged rfl rfl
  | cons u us ih =>
    intro m
    unfold rehedge at *
    rw [List.foldl_cons]
    exact shares_kept_trans (rehedge_step_shares_kept m u) (ih _)

theorem on_step_advance_shares_kept (m : MarketMaker) (us : List Underlying)
    (os : List OptionContract) : shares_kept_on_failure m (on_step_advance m us os) := by
  rw [on_step_advance_eq]
  have h0 : shares_kept_on_failure m (step_advance_entry m us os) :=
    shares_kept_of_unchanged rfl rfl
  exact shares_kept_trans (shares_kept_trans h0 (rehedge_shares_kept us _))
    (shares_kept_of_unchanged rfl rfl)

theorem log_extends_of_rehedge_accounting {m m' : MarketMaker}
    (h : rehedge_accounting m m') : ∃ suffix, m'.callback_log = m.callback_log ++ suffix := by
  obtain ⟨suffix, hlog, -⟩ := h
  exact ⟨suffix, hlog⟩

theorem step_advance_attempt_recorded (m : MarketMaker) (us : List Underlying)
    (os : List OptionContract) (pre post : List Underlying) (u : Underlying)
    (callback : TradeCallback) (hus : us = pre ++ u :: post)
    (hcb : m.trade_underlying_callback = some callback)
    (hmove : GAMMA_SCALP_TH
      ≤ |u.valuation - (m.last_underlying_prices u.underlying_id).getD u.valuation|)
    (hbig : HEDGE_TH < |(portfolio_delta (rehedge_reaches m us os pre) u.underlying_id).1|) :
    (u.underlying_id, (portfolio_delta (rehedge_reaches m us os pre) u.underlying_id).1,
        callback (rehedge_reaches m us os pre).callback_log u.underlying_id
          (portfolio_delta (rehedge_reaches m us os pre) u.underlying_id).1)
      ∈ (Action.on_step_advance us os).call_records m := by
  obtain ⟨hlast, hreg⟩ := rehedge_reaches_keeps m us os pre
  rw [← hlast] at hmove
  rw [← hreg] at hcb
  obtain ⟨hlog, -, -⟩ := (rehedge_step_outcomes _ u hmove).2 hbig callback hcb
  obtain ⟨s1, hs1⟩ := log_extends_of_rehedge_accounting
    (rehedge_run_accounting pre (step_advance_entry m us os))
  obtain ⟨s3, hs3⟩ := log_extends_of_rehedge_accounting
    (rehedge_run_accounting post (rehedge_step (rehedge_reaches m us os pre) u))
  have hmid : (rehedge_reaches m us os pre).callback_log = m.callback_log ++ s1 := hs1
  have hrun : rehedge (step_advance_entry m us os) us
      = rehedge (rehedge_step (rehedge_reaches m us os pre) u) post := by
    rw [hus]
    exact rehedge_append _ pre post u
  have hfinal : (Action.apply m (Action.on_step_advance us os)).callback_log
      = m.callback_log
        ++ (s1 ++ [(u.underlying_id,
            (portfolio_delta (rehedge_reaches m us os pre) u.underlying_id).1,
            callback (rehedge_reaches m us os pre).callback_log u.underlying_id
              (portfolio_delta (rehedge_reaches m us os pre) u.underlying_id).1)] ++ s3) := by
    show (on_step_advance m us os).callback_log = _
    have e := on_step_advance_eq m us os
    have e1 : (on_step_advance m us os).callback_log
        = (rehedge (step_advance_entry m us os) us).callback_log := by rw [e]
    rw [e1, hrun, hs3, hlog, hmid]
    simp only [List.append_assoc]
  rw [call_records_of_append hfinal]
  simp

theorem hedge_failure_kept (m : MarketMaker) :
    (∀ (option : OptionContract) (bid_price : ℚ),
      (on_bid_hit m option bid_price).position.option_quantity_by_option_id option.option_id
        = some (wrap_int32
            ((m.position.option_quantity_by_option_id option.option_id).getD 0 + 1))
      ∧ (on_bid_hit m option bid_price).pnl = m.pnl + bid_price
      ∧ ∀ uid, all_failed_for uid ((Action.on_bid_hit option bid_price).call_records m) →
          ((on_bid_hit m option bid_price).hedge_pos uid).getD 0 = (m.hedge_pos uid).getD 0
          ∧ (on_bid_hit m option bid_price).position.underlying_quantity_by_underlying_id uid
            = m.position.underlying_quantity_by_underlying_id uid)
    ∧ (∀ (option : OptionContract) (offer_price : ℚ),
      (on_offer_hit m option offer_price).position.option_quantity_by_option_id
          option.option_id
        = some (wrap_int32
            ((m.position.option_quantity_by_option_id option.option_id).getD 0 - 1))
      ∧ (on_offer_hit m option offer_price).pnl = m.pnl - offer_price
      ∧ ∀ uid, all_failed_for uid ((Action.on_offer_hit option offer_price).call_records m) →
          ((on_offer_hit m option offer_price).hedge_pos uid).getD 0
            = (m.hedge_pos uid).getD 0
          ∧ (on_offer_hit m option offer_price).position.underlying_quantity_by_underlying_id
              uid
            = m.position.underlying_quantity_by_underlying_id uid)
    ∧ (∀ (us : List Underlying) (os : List OptionContract) (uid : ℤ),
      all_failed_for uid ((Action.on_step_advance us os).call_records m) →
        ((on_step_advance m us os).hedge_pos uid).getD 0 = (m.hedge_pos uid).getD 0
        ∧ (on_step_advance m us os).position.underlying_quantity_by_underlying_id uid
          = m.position.underlying_quantity_by_underlying_id uid)
    ∧ (∀ (us : List Underlying) (os : List OptionContract) (pre post : List Underlying)
        (u : Underlying) (callback : TradeCallback),
      us = pre ++ u :: post →
      m.trade_underlying_callback = some callback →
      GAMMA_SCALP_TH
        ≤ |u.valuation - (m.last_underlying_prices u.underlying_id).getD u.valuation| →
      HEDGE_TH < |(portfolio_delta (rehedge_reaches m us os pre) u.underlying_id).1| →
      (u.underlying_id, (portfolio_delta (rehedge_reaches m us os pre) u.underlying_id).1,
          callback (rehedge_reaches m us os pre).callback_log u.underlying_id
            (portfolio_delta (rehedge_reaches m us os pre) u.underlying_id).1)
        ∈ (Action.on_step_advance us os).call_records m) := by
  refine ⟨?_, ?_, ?_, ?_⟩
  · intro option bid_price
    refine ⟨?_, ?_, ?_⟩
    · rw [on_bid_hit_option_quantity, Function.update_same]
    · rw [on_bid_hit_eq, hedging_keeps_pnl (delta_hedge_post_trade_frame _ option 1)]
    · intro uid hfail
      obtain ⟨s, hs, hh⟩ := on_bid_hit_accounting m option bid_price
      obtain ⟨s', hs', hk⟩ := on_bid_hit_shares_kept m option bid_price
      have e : (Action.on_bid_hit option bid_price).call_records m = s :=
        call_records_of_append hs
      have e' : s' = s := List.append_cancel_left (hs'.symm.trans hs)
      rw [e] at hfail
      rw [e'] at hk
      exact ⟨by rw [hh, accepted_quantity_of_all_failed uid s hfail, sub_zero], hk uid hfail⟩
  · intro option offer_price
    refine ⟨?_, ?_, ?_⟩
    · rw [on_offer_hit_option_quantity, Function.update_same]
      rfl
    · rw [on_offer_hit_eq, hedging_keeps_pnl (delta_hedge_post_trade_frame _ option (-1))]
    · intro uid hfail
      obtain ⟨s, hs, hh⟩ := on_offer_hit_accounting m option offer_price
      obtain ⟨s', hs', hk⟩ := on_offer_hit_shares_kept m option offer_price
      have e : (Action.on_offer_hit option offer_price).call_records m = s :=
        call_records_of_append hs
      have e' : s' = s := List.append_cancel_left (hs'.symm.trans hs)
      rw [e] at hfail
      rw [e'] at hk
      exact ⟨by rw [hh, accepted_quantity_of_all_failed uid s hfail, sub_zero], hk uid hfail⟩
  · intro us os uid hfail
    obtain ⟨s, hs, hh⟩ := on_step_advance_accounting m us os
    obtain ⟨s', hs', hk⟩ := on_step_advance_shares_kept m us os
    have e : (Action.on_step_advance us os).call_records m = s :=
      call_records_of_append hs
    have e' : s' = s := List.append_cancel_left (hs'.symm.trans hs)
    rw [e] at hfail
    rw [e'] at hk
    exact ⟨by rw [hh, accepted_quantity_of_all_failed uid s hfail, add_zero], hk uid hfail⟩
  · intro us os pre post u callback hus hcb hmove hbig
    exact step_advance_attempt_recorded m us os pre post u callback hus hcb hmove hbig

/-! ## The rehedge loop after a failed trade -/

theorem portfolio_delta_step_other (u_id : ℤ) (underlying : Underlying)
    (acc : ℚ × MarketMaker) (opt : OptionContract) (h : opt.underlying_id ≠ u_id) :
    portfolio_delta_step u_id underlying acc opt = acc := by
  unfold portfolio_delta_step
  rw [if_neg h]

theorem portfolio_delta_fold_other (u_id : ℤ) (underlying : Underlying)
    (l : List OptionContract) (h : ∀ o ∈ l, o.underlying_id ≠ u_id) :
    ∀ acc : ℚ × MarketMaker, l.foldl (portfolio_delta_step u_id underlying) acc = acc := by
  induction l with
  | nil => intro acc; rfl
  | cons o l ih =>
    intro acc
    rw [List.foldl_cons, portfolio_delta_step_other u_id underlying acc o
      (h o (List.mem_cons_self _ _))]
    exact ih (fun x hx => h x (List.mem_cons_of_mem _ hx)) acc

theorem portfolio_delta_sole (m : MarketMaker) (option : OptionContract)
    (underlying : Underlying) (q : ℤ) (l1 l2 : List OptionContract)
    (hA : m.active_option_state = l1 ++ option :: l2)
    (h1 : ∀ o ∈ l1, o.underlying_id ≠ option.underlying_id)
    (h2 : ∀ o ∈ l2, o.underlying_id ≠ option.underlying_id)
    (hU : find_underlying m option.underlying_id = some underlying)
    (hP : m.position.option_quantity_by_option_id option.option_id = some q)
    (hq : q ≠ 0) :
    portfolio_delta m option.underlying_id
      = ((q : ℚ) * (get_greeks m option underlying).1.2.1
            - (m.hedge_pos option.underlying_id).getD 0,
          (get_greeks m option underlying).2) := by
  have hh := cache_keeps_hedge_pos (get_greeks_frame m option underlying)
  unfold portfolio_delta
  rw [hU]
  simp only [hA]
  rw [List.foldl_append, List.foldl_cons,
    portfolio_delta_fold_other option.underlying_id underlying l1 h1 (0, m)]
  have hstep : portfolio_delta_step option.underlying_id underlying (0, m) option
      = ((q : ℚ) * (get_greeks m option underlying).1.2.1,
          (get_greeks m option underlying).2) := by
    unfold portfolio_delta_step
    simp only [if_true, hP, hq, ne_eq, not_false_eq_true]
    simp
  rw [hstep, portfolio_delta_fold_other option.underlying_id underlying l2 h2]
  simp only [hh]
  cases m.hedge_pos option.underlying_id with
  | none => simp
  | some h => simp

theorem pair_fd_values (id : ℤ) :
    price_option_from_scratch (pair_call id) (pair_underlying id (79 / 10)) = 0
    ∧ calculate_delta (pair_call id) (pair_underlying id (79 / 10)) 0 = 1 / 4
    ∧ calculate_gamma (pair_call id) (pair_underlying id (79 / 10)) = 5 / 4
    ∧ price_option_from_scratch (pair_call id) (pair_underlying id 8) = 0
    ∧ calculate_delta (pair_call id) (pair_underlying id 8) 0 = 1 / 2 := by
  refine ⟨?_, ?_, ?_, ?_, ?_⟩
  · norm_num [price_option_from_scratch, back_induction, lattice_sweep, terminal_payoff,
      pair_call, pair_underlying, List.range_succ]
  · norm_num [calculate_delta, pump_it_up, price_option_from_scratch, back_induction,
      lattice_sweep, terminal_payoff, pair_call, pair_underlying, List.range_succ]
  · norm_num [calculate_gamma, pump_it_up, price_option_from_scratch, back_induction,
      lattice_sweep, terminal_payoff, pair_call, pair_underlying, List.range_succ]
  · norm_num [price_option_from_scratch, back_induction, lattice_sweep, terminal_payoff,
      pair_call, pair_underlying, List.range_succ]
  · norm_num [calculate_delta, pump_it_up, price_option_from_scratch, back_induction,
      lattice_sweep, terminal_payoff, pair_call, pair_underlying, List.range_succ]

theorem pair_state_1_eq :
    pair_state_1
      = { pair_state_0 with
          last_underlying_prices :=
            Function.update (Function.update (fun _ => none) 0 (some (79 / 10))) 1
              (some (79 / 10)) } := by
  have hskip : ∀ (m : MarketMaker) (id : ℤ), m.last_underlying_prices id = none →
      rehedge_step m (pair_underlying id (79 / 10)) = m := by
    intro m id hn
    apply rehedge_step_skip
    have hn' : m.last_underlying_prices (pair_underlying id (79 / 10)).underlying_id = none :=
      hn
    rw [hn']
    norm_num [GAMMA_SCALP_TH]
  unfold pair_state_1
  rw [on_step_advance_eq]
  have hr : rehedge (step_advance_entry pair_state_0
        [pair_underlying 0 (79 / 10), pair_underlying 1 (79 / 10)] [pair_call 0, pair_call 1])
      [pair_underlying 0 (79 / 10), pair_underlying 1 (79 / 10)]
      = step_advance_entry pair_state_0
        [pair_underlying 0 (79 / 10), pair_underlying 1 (79 / 10)]
        [pair_call 0, pair_call 1] := by
    unfold rehedge
    rw [List.foldl_cons, List.foldl_cons, List.foldl_nil, hskip _ 0 rfl, hskip _ 1 rfl]
  rw [hr]
  rfl

theorem post_trade_state_portfolio_delta (m : MarketMaker) (option : OptionContract)
    (underlying : Underlying) (q s : ℤ) (l1 l2 : List OptionContract)
    (hA : m.active_option_state = l1 ++ option :: l2)
    (h1 : ∀ o ∈ l1, o.underlying_id ≠ option.underlying_id)
    (h2 : ∀ o ∈ l2, o.underlying_id ≠ option.underlying_id)
    (hU : find_underlying m option.underlying_id = some underlying)
    (hP : m.position.option_quantity_by_option_id option.option_id = some q)
    (hq : q ≠ 0) :
    portfolio_delta (post_trade_state m option s underlying) underlying.underlying_id
      = ((q : ℚ) * (get_greeks m option underlying).1.2.1
            - (m.hedge_pos option.underlying_id).getD 0,
          post_trade_state m option s underlying) := by
  have hid : underlying.underlying_id = option.underlying_id := (find_underlying_mem hU).2
  have hg := get_greeks_frame m option underlying
  have e1 : (get_greeks m option underlying).2
      = { m with price_cache := (get_greeks m option underlying).2.price_cache } := hg
  have hus : (post_trade_state m option s underlying).underlying_state
      = m.underlying_state := by
    show (get_greeks m option underlying).2.underlying_state = _
    rw [e1]
  have hpd := portfolio_delta_sole (post_trade_state m option s underlying)
    option underlying q l1 l2
    (by show (get_greeks m option underlying).2.active_option_state = _; rw [e1]; exact hA)
    h1 h2
    (by rw [find_underlying_congr hus]; exact hU)
    (by show (get_greeks m option underlying).2.position.option_quantity_by_option_id _ = _
        rw [e1]; exact hP)
    hq
  have hhit : cache_find (post_trade_state m option s underlying).price_cache
      (cache_key_string option.option_id underlying.valuation)
      = some (get_greeks m option underlying).1 := by
    show cache_find (get_greeks m option underlying).2.price_cache _ = _
    exact get_greeks_caches m option underlying
  have hh : (post_trade_state m option s underlying).hedge_pos = m.hedge_pos := by
    show (get_greeks m option underlying).2.hedge_pos = _
    exact cache_keeps_hedge_pos hg
  rw [get_greeks_hit _ option underlying _ hhit, hh] at hpd
  rw [hid, hpd]

theorem pair_key (id : ℤ) (S : ℚ) (k : ℕ) (hS : 0 ≤ S) (hk : S * 1000000 = (k : ℚ)) :
    cache_key_string (20 + id) S = { option_id := 20 + id, negative := false, micros := k } := by
  rw [cache_key_string_of_micros (20 + id) S k (by rw [abs_of_nonneg hS]; exact hk)]
  have : ¬ S < 0 := not_lt.mpr hS
  simp [this]

theorem delta_hedge_post_trade_rejected (m : MarketMaker) (option : OptionContract)
    (underlying : Underlying) (q s : ℤ) (l1 l2 : List OptionContract)
    (callback : TradeCallback)
    (hA : m.active_option_state = l1 ++ option :: l2)
    (h1 : ∀ o ∈ l1, o.underlying_id ≠ option.underlying_id)
    (h2 : ∀ o ∈ l2, o.underlying_id ≠ option.underlying_id)
    (hU : find_underlying m option.underlying_id = some underlying)
    (hP : m.position.option_quantity_by_option_id option.option_id = some q)
    (hq : q ≠ 0)
    (hnet : HEDGE_TH < |(q : ℚ) * (get_greeks m option underlying).1.2.1
        - (m.hedge_pos option.underlying_id).getD 0|)
    (hbig : MIN_HEDGE ≤ |(q : ℚ) * (get_greeks m option underlying).1.2.1
        - (m.hedge_pos option.underlying_id).getD 0
        - (m.hedge_pos option.underlying_id).getD 0|)
    (hcb : m.trade_underlying_callback = some callback)
    (hok : callback m.callback_log option.underlying_id
        (-((q : ℚ) * (get_greeks m option underlying).1.2.1
          - (m.hedge_pos option.underlying_id).getD 0
          - (m.hedge_pos option.underlying_id).getD 0)) = false) :
    delta_hedge_post_trade m option s
      = { post_trade_state m option s underlying with
          hedge_pos := Function.update m.hedge_pos option.underlying_id
            (some ((m.hedge_pos option.underlying_id).getD 0))
          callback_log := m.callback_log
            ++ [(option.underlying_id,
                -((q : ℚ) * (get_greeks m option underlying).1.2.1
                  - (m.hedge_pos option.underlying_id).getD 0
                  - (m.hedge_pos option.underlying_id).getD 0), false)] } := by
  have hid : underlying.underlying_id = option.underlying_id := (find_underlying_mem hU).2
  have hpd := post_trade_state_portfolio_delta m option underlying q s l1 l2 hA h1 h2 hU hP hq
  have hg := get_greeks_frame m option underlying
  have kh : (post_trade_state m option s underlying).hedge_pos = m.hedge_pos := by
    show (get_greeks m option underlying).2.hedge_pos = _
    exact cache_keeps_hedge_pos hg
  have kl : (post_trade_state m option s underlying).callback_log = m.callback_log := by
    show (get_greeks m option underlying).2.callback_log = _
    exact cache_keeps_callback_log hg
  have kc : (post_trade_state m option s underlying).trade_underlying_callback
      = m.trade_underlying_callback := by
    show (get_greeks m option underlying).2.trade_underlying_callback = _
    exact cache_keeps_trade_underlying_callback hg
  rw [delta_hedge_post_trade_eq m option s underlying hU]
  unfold post_trade_net
  rw [hpd]
  simp only []
  rw [if_pos hnet, hid]
  rw [exec_delta_hedge_rejected (post_trade_state m option s underlying) option.underlying_id
    _ callback (by rw [kh]; exact hbig) (by rw [kc]; exact hcb) (by rw [kl, kh]; exact hok)]
  rw [kh, kl]

theorem pair_hit_rejected (m : MarketMaker) (i : ℤ) (l1 l2 : List OptionContract)
    (hA : m.active_option_state = l1 ++ pair_call i :: l2)
    (h1 : ∀ o ∈ l1, o.underlying_id ≠ (pair_call i).underlying_id)
    (h2 : ∀ o ∈ l2, o.underlying_id ≠ (pair_call i).underlying_id)
    (hU : find_underlying m (pair_call i).underlying_id = some (pair_underlying i (79 / 10)))
    (hcb : m.trade_underlying_callback = some (fun _ _ _ => false))
    (hP : m.position.option_quantity_by_option_id (pair_call i).option_id = none)
    (hH : m.hedge_pos (pair_call i).underlying_id = none)
    (hmiss : cache_find m.price_cache
      (cache_key_string (pair_call i).option_id (pair_underlying i (79 / 10)).valuation)
      = none) :
    on_bid_hit m (pair_call i) 0
      = { m with
          position := m.position.add_option_quantity (pair_call i).option_id 1
          pnl := m.pnl + 0
          price_cache :=
            (cache_key_string (pair_call i).option_id (pair_underlying i (79 / 10)).valuation,
              (0, 1 / 4, 5 / 4)) :: m.price_cache
          target_deltas := Function.update m.target_deltas i
            (some ((m.target_deltas i).getD 0 + ((1 : ℤ) : ℚ) * (1 / 4)))
          hedge_pos := Function.update m.hedge_pos i (some 0)
          callback_log := m.callback_log ++ [(i, -(1 / 4), false)] } := by
  obtain ⟨hL, hD, hG, -, -⟩ := pair_fd_values i
  rw [on_bid_hit_eq]
  have hg := get_greeks_miss
    { m with
      position := m.position.add_option_quantity (pair_call i).option_id 1
      pnl := m.pnl + 0 } (pair_call i) (pair_underlying i (79 / 10)) hmiss
  rw [hL, hD, hG] at hg
  have hP' : ({ m with
      position := m.position.add_option_quantity (pair_call i).option_id 1
      pnl := m.pnl + 0 } : MarketMaker).position.option_quantity_by_option_id
      (pair_call i).option_id = some 1 := by
    simp [Position.add_option_quantity, wrap_int32, hP]
  have hval : ((1 : ℤ) : ℚ) * (1 / 4 : ℚ) - 0 - 0 = 1 / 4 := by norm_num
  have hval' : ((1 : ℤ) : ℚ) * (1 / 4 : ℚ) - 0 = 1 / 4 := by norm_num
  rw [delta_hedge_post_trade_rejected
    { m with
      position := m.position.add_option_quantity (pair_call i).option_id 1
      pnl := m.pnl + 0 } (pair_call i) (pair_underlying i (79 / 10)) 1 1 l1 l2
    (fun _ _ _ => false) hA h1 h2
    (by rw [find_underlying_congr rfl]; exact hU) hP' (by decide)
    (by rw [hg]; simp only [hH, Option.getD_none]; rw [hval', abs_of_pos (by norm_num)]
        norm_num [HEDGE_TH])
    (by rw [hg]; simp only [hH, Option.getD_none]; rw [hval, abs_of_pos (by norm_num)]
        norm_num [MIN_HEDGE])
    hcb rfl]
  unfold post_trade_state
  rw [hg]
  simp only [hH, Option.getD_none, hval]
  rfl

theorem pair_keys :
    cache_key_string (pair_call 0).option_id (pair_underlying 0 (79 / 10)).valuation
      = { option_id := 20, negative := false, micros := 7900000 }
    ∧ cache_key_string (pair_call 1).option_id (pair_underlying 1 (79 / 10)).valuation
      = { option_id := 21, negative := false, micros := 7900000 }
    ∧ cache_key_string (pair_call 0).option_id (pair_underlying 0 8).valuation
      = { option_id := 20, negative := false, micros := 8000000 }
    ∧ cache_key_string (pair_call 1).option_id (pair_underlying 1 8).valuation
      = { option_id := 21, negative := false, micros := 8000000 } := by
  refine ⟨?_, ?_, ?_, ?_⟩
  · exact pair_key 0 (79 / 10) 7900000 (by norm_num) (by norm_num)
  · exact pair_key 1 (79 / 10) 7900000 (by norm_num) (by norm_num)
  · exact pair_key 0 8 8000000 (by norm_num) (by norm_num)
  · exact pair_key 1 8 8000000 (by norm_num) (by norm_num)

theorem pair_state_2_eq :
    pair_state_2
      = { pair_state_1 with
          position := pair_state_1.position.add_option_quantity (pair_call 0).option_id 1
          pnl := pair_state_1.pnl + 0
          price_cache :=
            [(cache_key_string (pair_call 0).option_id (pair_underlying 0 (79 / 10)).valuation,
              (0, 1 / 4, 5 / 4))]
          target_deltas := Function.update pair_state_1.target_deltas 0
            (some ((pair_state_1.target_deltas 0).getD 0 + ((1 : ℤ) : ℚ) * (1 / 4)))
          hedge_pos := Function.update (fun _ => none) 0 (some 0)
          callback_log := [(0, -(1 / 4), false)] } := by
  have h := pair_hit_rejected pair_state_1 0 [] [pair_call 1]
    (by rw [pair_state_1_eq]; rfl)
    (by intro o ho; cases ho)
    (by intro o ho
        rw [List.mem_singleton] at ho
        rw [ho]
        decide)
    (by rw [pair_state_1_eq]
        simp [find_underlying, pair_state_0, register_trade_underlying_callback,
          MarketMaker.new, pair_underlying, pair_call])
    (by rw [pair_state_1_eq]; rfl)
    (by rw [pair_state_1_eq]; rfl)
    (by rw [pair_state_1_eq]; rfl)
    (by rw [pair_state_1_eq]; rfl)
  have hc : pair_state_1.price_cache = [] := by rw [pair_state_1_eq]; rfl
  have hh : pair_state_1.hedge_pos = fun _ => none := by rw [pair_state_1_eq]; rfl
  have hl : pair_state_1.callback_log = [] := by rw [pair_state_1_eq]; rfl
  rw [hc, hh, hl] at h
  exact h

theorem pair_state_3_eq :
    pair_state_3
      = { pair_state_2 with
          position := pair_state_2.position.add_option_quantity (pair_call 1).option_id 1
          pnl := pair_state_2.pnl + 0
          price_cache :=
            [(cache_key_string (pair_call 1).option_id (pair_underlying 1 (79 / 10)).valuation,
                (0, 1 / 4, 5 / 4)),
              (cache_key_string (pair_call 0).option_id (pair_underlying 0 (79 / 10)).valuation,
                (0, 1 / 4, 5 / 4))]
          target_deltas := Function.update pair_state_2.target_deltas 1
            (some ((pair_state_2.target_deltas 1).getD 0 + ((1 : ℤ) : ℚ) * (1 / 4)))
          hedge_pos := Function.update (Function.update (fun _ => none) 0 (some 0)) 1 (some 0)
          callback_log := [(0, -(1 / 4), false), (1, -(1 / 4), false)] } := by
  obtain ⟨hk0, hk1, -, -⟩ := pair_keys
  have hc : pair_state_2.price_cache
      = [(cache_key_string (pair_call 0).option_id (pair_underlying 0 (79 / 10)).valuation,
          (0, 1 / 4, 5 / 4))] := by rw [pair_state_2_eq]
  have hh : pair_state_2.hedge_pos = Function.update (fun _ => none) 0 (some 0) := by
    rw [pair_state_2_eq]
  have hl : pair_state_2.callback_log = [(0, -(1 / 4), false)] := by rw [pair_state_2_eq]
  have h := pair_hit_rejected pair_state_2 1 [pair_call 0] []
    (by rw [pair_state_2_eq, pair_state_1_eq]; rfl)
    (by intro o ho
        rw [List.mem_singleton] at ho
        rw [ho]
        decide)
    (by intro o ho; cases ho)
    (by rw [pair_state_2_eq, pair_state_1_eq]
        simp [find_underlying, pair_state_0, register_trade_underlying_callback,
          MarketMaker.new, pair_underlying, pair_call])
    (by rw [pair_state_2_eq, pair_state_1_eq]; rfl)
    (by rw [pair_state_2_eq, pair_state_1_eq]
        simp [Position.add_option_quantity, wrap_int32, pair_state_0, register_trade_underlying_callback,
          MarketMaker.new, Position.empty, pair_call])
    (by rw [hh]
        simp [pair_call])
    (by rw [hc, hk0, hk1]
        have hb : (({ option_id := 21, negative := false, micros := 7900000 } : CacheKey)
            == { option_id := 20, negative := false, micros := 7900000 }) = false := by
          decide
        simp [cache_find, List.lookup, hb])
  rw [hc, hh, hl] at h
  exact h

theorem pair_step_rejected (m : MarketMaker) (i : ℤ) (l1 l2 : List OptionContract)
    (hA : m.active_option_state = l1 ++ pair_call i :: l2)
    (h1 : ∀ o ∈ l1, o.underlying_id ≠ (pair_call i).underlying_id)
    (h2 : ∀ o ∈ l2, o.underlying_id ≠ (pair_call i).underlying_id)
    (hU : find_underlying m (pair_call i).underlying_id = some (pair_underlying i 8))
    (hcb : m.trade_underlying_callback = some (fun _ _ _ => false))
    (hP : m.position.option_quantity_by_option_id (pair_call i).option_id = some 1)
    (hH : (m.hedge_pos (pair_call i).underlying_id).getD 0 = 0)
    (hmiss : cache_find m.price_cache
      (cache_key_string (pair_call i).option_id (pair_underlying i 8).valuation) = none)
    (hlast : m.last_underlying_prices (pair_underlying i 8).underlying_id = some (79 / 10)) :
    (portfolio_delta m (pair_underlying i 8).underlying_id).1 = 1 / 2
    ∧ rehedge_step m (pair_underlying i 8)
      = { m with
          price_cache :=
            (cache_key_string (pair_call i).option_id (pair_underlying i 8).valuation,
              (0, 1 / 2, calculate_gamma (pair_call i) (pair_underlying i 8))) :: m.price_cache
          hedge_pos := Function.update m.hedge_pos i (some 0)
          callback_log := m.callback_log ++ [(i, 1 / 2, false)]
          last_hedge := Function.update m.last_hedge i (some 8) } := by
  obtain ⟨-, -, -, hL, hD⟩ := pair_fd_values i
  have hg := get_greeks_miss m (pair_call i) (pair_underlying i 8) hmiss
  rw [hL, hD] at hg
  have hpd := portfolio_delta_sole m (pair_call i) (pair_underlying i 8) 1 l1 l2 hA h1 h2 hU hP
    (by decide)
  rw [hg, hH] at hpd
  have hval : ((1 : ℤ) : ℚ) * (1 / 2 : ℚ) - 0 = 1 / 2 := by norm_num
  simp only [hval] at hpd
  have hid : (pair_underlying i 8).underlying_id = (pair_call i).underlying_id := rfl
  have hbig : HEDGE_TH < |(1 / 2 : ℚ)| := by
    rw [abs_of_pos (by norm_num)]; norm_num [HEDGE_TH]
  refine ⟨by rw [hid, hpd], ?_⟩
  rw [rehedge_step_eq m (pair_underlying i 8)
    (by rw [hlast]; norm_num [GAMMA_SCALP_TH, pair_underlying, abs_of_pos])]
  rw [hid, hpd]
  simp only []
  rw [if_pos hbig]
  rw [rehedge_trade_rejected
    { m with
      price_cache :=
        (cache_key_string (pair_call i).option_id (pair_underlying i 8).valuation,
          (0, 1 / 2, calculate_gamma (pair_call i) (pair_underlying i 8))) :: m.price_cache }
    (pair_call i).underlying_id (1 / 2) (fun _ _ _ => false) hbig hcb rfl]
  rw [hH]
  rfl

theorem pair_state_3_facts :
    pair_state_3.active_option_state = [pair_call 0, pair_call 1]
    ∧ pair_state_3.trade_underlying_callback = some (fun _ _ _ => false)
    ∧ pair_state_3.position.option_quantity_by_option_id 20 = some 1
    ∧ pair_state_3.position.option_quantity_by_option_id 21 = some 1
    ∧ pair_state_3.hedge_pos
        = Function.update (Function.update (fun _ => none) 0 (some 0)) 1 (some 0)
    ∧ pair_state_3.last_underlying_prices
        = Function.update (Function.update (fun _ => none) 0 (some (79 / 10))) 1
            (some (79 / 10))
    ∧ pair_state_3.callback_log = [(0, -(1 / 4), false), (1, -(1 / 4), false)]
    ∧ pair_state_3.price_cache
        = [(cache_key_string (pair_call 1).option_id (pair_underlying 1 (79 / 10)).valuation,
              (0, 1 / 4, 5 / 4)),
            (cache_key_string (pair_call 0).option_id (pair_underlying 0 (79 / 10)).valuation,
              (0, 1 / 4, 5 / 4))] := by
  refine ⟨?_, ?_, ?_, ?_, ?_, ?_, ?_, ?_⟩
  · rw [pair_state_3_eq, pair_state_2_eq, pair_state_1_eq]; rfl
  · rw [pair_state_3_eq, pair_state_2_eq, pair_state_1_eq]; rfl
  · rw [pair_state_3_eq, pair_state_2_eq, pair_state_1_eq]
    simp [Position.add_option_quantity, wrap_int32, pair_state_0, register_trade_underlying_callback,
      MarketMaker.new, Position.empty, pair_call]
  · rw [pair_state_3_eq, pair_state_2_eq, pair_state_1_eq]
    simp [Position.add_option_quantity, wrap_int32, pair_state_0, register_trade_underlying_callback,
      MarketMaker.new, Position.empty, pair_call]
  · rw [pair_state_3_eq]
  · rw [pair_state_3_eq, pair_state_2_eq, pair_state_1_eq]
  · rw [pair_state_3_eq]
  · rw [pair_state_3_eq]

theorem pair_state_4_facts :
    (portfolio_delta
        (rehedge_reaches pair_state_3 [pair_underlying 0 8, pair_underlying 1 8]
          [pair_call 0, pair_call 1] [])
        (pair_underlying 0 8).underlying_id).1 = 1 / 2
    ∧ (portfolio_delta
        (rehedge_reaches pair_state_3 [pair_underlying 0 8, pair_underlying 1 8]
          [pair_call 0, pair_call 1] [pair_underlying 0 8])
        (pair_underlying 1 8).underlying_id).1 = 1 / 2
    ∧ pair_state_4.callback_log
        = pair_state_3.callback_log ++ [(0, 1 / 2, false), (1, 1 / 2, false)] := by
  obtain ⟨hA, hcb, hp0, hp1, hh, hlast, hlog, hcache⟩ := pair_state_3_facts
  obtain ⟨hk0, hk1, hk0', hk1'⟩ := pair_keys
  have hE : rehedge_reaches pair_state_3 [pair_underlying 0 8, pair_underlying 1 8]
      [pair_call 0, pair_call 1] []
      = step_advance_entry pair_state_3 [pair_underlying 0 8, pair_underlying 1 8]
          [pair_call 0, pair_call 1] := by
    unfold rehedge_reaches rehedge
    rw [List.foldl_nil]
  have hEc : (step_advance_entry pair_state_3 [pair_underlying 0 8, pair_underlying 1 8]
      [pair_call 0, pair_call 1]).price_cache
      = [(cache_key_string (pair_call 1).option_id (pair_underlying 1 (79 / 10)).valuation,
            (0, 1 / 4, 5 / 4)),
          (cache_key_string (pair_call 0).option_id (pair_underlying 0 (79 / 10)).valuation,
            (0, 1 / 4, 5 / 4))] := by
    show prune_ceiling (prune_inactive pair_state_3.price_cache [pair_call 0, pair_call 1]) = _
    rw [hcache, hk0, hk1]
    simp [prune_inactive, prune_ceiling, pair_call]
  have hb1 : (({ option_id := 20, negative := false, micros := 8000000 } : CacheKey)
      == { option_id := 21, negative := false, micros := 7900000 }) = false := by decide
  have hb2 : (({ option_id := 20, negative := false, micros := 8000000 } : CacheKey)
      == { option_id := 20, negative := false, micros := 7900000 }) = false := by decide
  have hb3 : (({ option_id := 21, negative := false, micros := 8000000 } : CacheKey)
      == { option_id := 21, negative := false, micros := 7900000 }) = false := by decide
  have hb4 : (({ option_id := 21, negative := false, micros := 8000000 } : CacheKey)
      == { option_id := 20, negative := false, micros := 7900000 }) = false := by decide
  have hb5 : (({ option_id := 21, negative := false, micros := 8000000 } : CacheKey)
      == { option_id := 20, negative := false, micros := 8000000 }) = false := by decide
  obtain ⟨hnet0, hstep0⟩ := pair_step_rejected
    (step_advance_entry pair_state_3 [pair_underlying 0 8, pair_underlying 1 8]
      [pair_call 0, pair_call 1]) 0 [] [pair_call 1] rfl
    (by intro o ho; cases ho)
    (by intro o ho
        rw [List.mem_singleton] at ho
        rw [ho]
        decide)
    (by simp [find_underlying, step_advance_entry, pair_underlying, pair_call])
    hcb hp0
    (by show (pair_state_3.hedge_pos (pair_call 0).underlying_id).getD 0 = 0
        rw [hh]
        simp [pair_call])
    (by rw [hEc, hk0, hk1, hk0']
        simp [cache_find, List.lookup, hb1, hb2])
    (by show pair_state_3.last_underlying_prices (pair_underlying 0 8).underlying_id = _
        rw [hlast]
        simp [pair_underlying])
  have hM1 : rehedge_reaches pair_state_3 [pair_underlying 0 8, pair_underlying 1 8]
      [pair_call 0, pair_call 1] [pair_underlying 0 8]
      = rehedge_step (step_advance_entry pair_state_3
          [pair_underlying 0 8, pair_underlying 1 8] [pair_call 0, pair_call 1])
          (pair_underlying 0 8) := by
    unfold rehedge_reaches rehedge
    rw [List.foldl_cons, List.foldl_nil]
  obtain ⟨hnet1, hstep1⟩ := pair_step_rejected
    (rehedge_step (step_advance_entry pair_state_3
      [pair_underlying 0 8, pair_underlying 1 8] [pair_call 0, pair_call 1])
      (pair_underlying 0 8)) 1 [pair_call 0] []
    (by rw [hstep0]; rfl)
    (by intro o ho
        rw [List.mem_singleton] at ho
        rw [ho]
        decide)
    (by intro o ho; cases ho)
    (by rw [hstep0]
        simp [find_underlying, step_advance_entry, pair_underlying, pair_call])
    (by rw [hstep0]; exact hcb)
    (by rw [hstep0]; exact hp1)
    (by rw [hstep0]
        show ((Function.update pair_state_3.hedge_pos 0 (some 0))
          (pair_call 1).underlying_id).getD 0 = 0
        rw [hh]
        simp [pair_call])
    (by rw [hstep0]
        show cache_find (_ :: (step_advance_entry pair_state_3
          [pair_underlying 0 8, pair_underlying 1 8] [pair_call 0, pair_call 1]).price_cache) _
          = none
        rw [hEc, hk0, hk1, hk0', hk1']
        simp [cache_find, List.lookup, hb3, hb4, hb5])
    (by rw [hstep0]
        show pair_state_3.last_underlying_prices (pair_underlying 1 8).underlying_id = _
        rw [hlast]
        simp [pair_underlying])
  refine ⟨by rw [hE]; exact hnet0, by rw [hM1]; exact hnet1, ?_⟩
  have h4 : pair_state_4 = on_step_advance pair_state_3
      [pair_underlying 0 8, pair_underlying 1 8] [pair_call 0, pair_call 1] := rfl
  have e := on_step_advance_eq pair_state_3 [pair_underlying 0 8, pair_underlying 1 8]
    [pair_call 0, pair_call 1]
  have hr : rehedge (step_advance_entry pair_state_3
        [pair_underlying 0 8, pair_underlying 1 8] [pair_call 0, pair_call 1])
      [pair_underlying 0 8, pair_underlying 1 8]
      = rehedge_step (rehedge_step (step_advance_entry pair_state_3
          [pair_underlying 0 8, pair_underlying 1 8] [pair_call 0, pair_call 1])
          (pair_underlying 0 8)) (pair_underlying 1 8) := by
    unfold rehedge
    rw [List.foldl_cons, List.foldl_cons, List.foldl_nil]
  have e1 : pair_state_4.callback_log
      = (rehedge (step_advance_entry pair_state_3
          [pair_underlying 0 8, pair_underlying 1 8] [pair_call 0, pair_call 1])
          [pair_underlying 0 8, pair_underlying 1 8]).callback_log := by rw [h4, e]
  rw [e1, hr, hstep1, hstep0]
  show (pair_state_3.callback_log ++ [(0, 1 / 2, false)]) ++ [(1, 1 / 2, false)] = _
  rw [List.append_assoc]
  rfl

/-! ## Quoting and trading -/

/-- C40: for every engine state and option, make_market and price_option never invoke
the trade callback (the log of invocations is unchanged) and leave Position (both maps),
pnl, HedgeLedger, underlying_state and active_option_state unchanged.  make_market can
change only the price cache, LastUnderlyingPrices and the safe_mode flag; price_option
can change only the price cache and LastUnderlyingPrices, so it also leaves safe_mode
alone. -/
theorem C40_quoting_has_no_trading_effects (m : MarketMaker) (option : OptionContract) :
    ((make_market m option).2.callback_log = m.callback_log
      ∧ (make_market m option).2.position = m.position
      ∧ (make_market m option).2.pnl = m.pnl
      ∧ (make_market m option).2.hedge_pos = m.hedge_pos
      ∧ (make_market m option).2.underlying_state = m.underlying_state
      ∧ (make_market m option).2.active_option_state = m.active_option_state
      ∧ (make_market m option).2
        = { m with
            price_cache := (make_market m option).2.price_cache
            last_underlying_prices := (make_market m option).2.last_underlying_prices
            safe_mode := (make_market m option).2.safe_mode })
    ∧ ((price_option m option).2.callback_log = m.callback_log
      ∧ (price_option m option).2.position = m.position
      ∧ (price_option m option).2.pnl = m.pnl
      ∧ (price_option m option).2.hedge_pos = m.hedge_pos
      ∧ (price_option m option).2.underlying_state = m.underlying_state
      ∧ (price_option m option).2.active_option_state = m.active_option_state
      ∧ (price_option m option).2.safe_mode = m.safe_mode
      ∧ (price_option m option).2
        = { m with
            price_cache := (price_option m option).2.price_cache
            last_underlying_prices := (price_option m option).2.last_underlying_prices }) := by
  have hq := make_market_frame m option
  have hp := price_option_frame m option
  exact ⟨⟨quoting_keeps_callback_log hq, quoting_keeps_position hq, quoting_keeps_pnl hq,
      quoting_keeps_hedge_pos hq, quoting_keeps_underlying_state hq,
      quoting_keeps_active_option_state hq, hq⟩,
    ⟨quoting_keeps_callback_log hp.to_quoting, quoting_keeps_position hp.to_quoting,
      quoting_keeps_pnl hp.to_quoting, quoting_keeps_hedge_pos hp.to_quoting,
      quoting_keeps_underlying_state hp.to_quoting,
      quoting_keeps_active_option_state hp.to_quoting, pricing_keeps_safe_mode hp, hp⟩⟩

/-! ## Bounds on the finite-difference delta -/

theorem lattice_value_const (pu pd : ℚ) (h : pu + pd = 1) (c : ℚ) (k i0 : ℕ) :
    lattice_value pu pd (fun _ => c) k i0 = c := by
  have e := lattice_value_affine pu pd h c 0 k i0
  simp only [zero_mul, add_zero, mul_zero] at e
  exact e

theorem lattice_value_bounds (pu pd : ℚ) (hpu : 0 ≤ pu) (hpd : 0 ≤ pd) (h : pu + pd = 1)
    (f : ℕ → ℚ) (lo hi : ℚ) (k i0 : ℕ)
    (hf : ∀ j, j ≤ k → lo ≤ f (i0 + j) ∧ f (i0 + j) ≤ hi) :
    lo ≤ lattice_value pu pd f k i0 ∧ lattice_value pu pd f k i0 ≤ hi := by
  constructor
  · rw [← lattice_value_const pu pd h lo k i0]
    exact lattice_value_mono pu pd hpu hpd _ _ k i0 (fun j hj => (hf j hj).1)
  · rw [← lattice_value_const pu pd h hi k i0]
    exact lattice_value_mono pu pd hpu hpd _ _ k i0 (fun j hj => (hf j hj).2)

theorem call_payoff_lipschitz (x y K : ℚ) (h : x ≤ y) :
    0 ≤ max (max y 0 - K) 0 - max (max x 0 - K) 0
    ∧ max (max y 0 - K) 0 - max (max x 0 - K) 0 ≤ y - x := by
  simp only [max_def]
  constructor <;> split_ifs <;> linarith

theorem put_payoff_lipschitz (x y K : ℚ) (h : x ≤ y) :
    -(y - x) ≤ max (K - max y 0) 0 - max (K - max x 0) 0
    ∧ max (K - max y 0) 0 - max (K - max x 0) 0 ≤ 0 := by
  simp only [max_def]
  constructor <;> split_ifs <;> linarith

theorem terminal_payoff_bump_call (option : OptionContract) (underlying : Underlying) (b : ℚ)
    (hc : option.option_type = OptionType.CALL) (hb : 0 ≤ b) (i : ℕ) :
    0 ≤ terminal_payoff option { underlying with valuation := underlying.valuation + b } i
          - terminal_payoff option underlying i
    ∧ terminal_payoff option { underlying with valuation := underlying.valuation + b } i
          - terminal_payoff option underlying i ≤ b := by
  unfold terminal_payoff
  simp only [hc, if_true]
  have := call_payoff_lipschitz
    (underlying.valuation + (i : ℚ) * underlying.up_move_step
      - ((option.steps_until_expiry - i : ℕ) : ℚ) * underlying.down_move_step)
    (underlying.valuation + b + (i : ℚ) * underlying.up_move_step
      - ((option.steps_until_expiry - i : ℕ) : ℚ) * underlying.down_move_step)
    (option.strike : ℚ) (by linarith)
  constructor
  · exact this.1
  · linarith [this.2]

theorem terminal_payoff_bump_put (option : OptionContract) (underlying : Underlying) (b : ℚ)
    (hc : option.option_type ≠ OptionType.CALL) (hb : 0 ≤ b) (i : ℕ) :
    -b ≤ terminal_payoff option { underlying with valuation := underlying.valuation + b } i
          - terminal_payoff option underlying i
    ∧ terminal_payoff option { underlying with valuation := underlying.valuation + b } i
          - terminal_payoff option underlying i ≤ 0 := by
  unfold terminal_payoff
  simp only [hc, if_false]
  have := put_payoff_lipschitz
    (underlying.valuation + (i : ℚ) * underlying.up_move_step
      - ((option.steps_until_expiry - i : ℕ) : ℚ) * underlying.down_move_step)
    (underlying.valuation + b + (i : ℚ) * underlying.up_move_step
      - ((option.steps_until_expiry - i : ℕ) : ℚ) * underlying.down_move_step)
    (option.strike : ℚ) (by linarith)
  constructor
  · linarith [this.1]
  · exact this.2
theorem pump_it_up_of_nonneg (underlying : Underlying) (b : ℚ)
    (h : 0 ≤ underlying.valuation + b) :
    pump_it_up underlying b = { underlying with valuation := underlying.valuation + b } := by
  unfold pump_it_up
  rw [max_eq_right h]

theorem calculate_delta_bounds (option : OptionContract) (underlying : Underlying)
    (hv : underlying.valid)
    (hp : underlying.up_move_probability + underlying.down_move_probability = 1)
    (hS : 0 ≤ underlying.valuation) :
    (option.option_type = OptionType.CALL →
      0 ≤ calculate_delta option underlying (price_option_from_scratch option underlying)
      ∧ calculate_delta option underlying (price_option_from_scratch option underlying) ≤ 1)
    ∧ (option.option_type = OptionType.PUT →
      -1 ≤ calculate_delta option underlying (price_option_from_scratch option underlying)
      ∧ calculate_delta option underlying (price_option_from_scratch option underlying) ≤ 0) := by
  obtain ⟨_, hu, hpd, hpu, _, _⟩ := (valid_iff underlying).mp hv
  have hb : 0 < min 1 (underlying.up_move_step * (1 / 10)) :=
    lt_min (by norm_num) (by positivity)
  unfold calculate_delta
  simp only []
  rw [pump_it_up_of_nonneg underlying _ (by linarith),
    price_option_from_scratch_eq_lattice_value, price_option_from_scratch_eq_lattice_value,
    lattice_value_sub]
  constructor
  · intro hc
    have hb' := lattice_value_bounds underlying.up_move_probability
      underlying.down_move_probability hpu.le hpd.le hp
      (fun j => terminal_payoff option
          { underlying with
            valuation := underlying.valuation + min 1 (underlying.up_move_step * (1 / 10)) } j
        - terminal_payoff option underlying j)
      0 (min 1 (underlying.up_move_step * (1 / 10))) option.steps_until_expiry 0
      (fun j _ => terminal_payoff_bump_call option underlying _ hc hb.le (0 + j))
    exact ⟨div_nonneg hb'.1 hb.le, (div_le_one hb).mpr hb'.2⟩
  · intro hc
    have hc' : option.option_type ≠ OptionType.CALL := by rw [hc]; decide
    have hb' := lattice_value_bounds underlying.up_move_probability
      underlying.down_move_probability hpu.le hpd.le hp
      (fun j => terminal_payoff option
          { underlying with
            valuation := underlying.valuation + min 1 (underlying.up_move_step * (1 / 10)) } j
        - terminal_payoff option underlying j)
      (-(min 1 (underlying.up_move_step * (1 / 10)))) 0 option.steps_until_expiry 0
      (fun j _ => terminal_payoff_bump_put option underlying _ hc' hb.le (0 + j))
    constructor
    · rw [le_div_iff₀ hb]
      linarith [hb'.1]
    · exact div_nonpos_of_nonpos_of_nonneg hb'.2 hb.le

/-- C38: for every option and every underlying that passes validation, with
`pu + pd = 1` exactly and valuation `S >= 0`, the delta that `get_greeks` computes on a
cache miss is the forward difference of lattice prices taken from the lattice price at
`S`, and it lies in `[0, 1]` for a CALL and in `[-1, 0]` for a PUT. -/
theorem C38_delta_bounds (m : MarketMaker) (option : OptionContract) (underlying : Underlying)
    (hv : underlying.valid)
    (hp : underlying.up_move_probability + underlying.down_move_probability = 1)
    (hS : 0 ≤ underlying.valuation)
    (hmiss : cache_find m.price_cache
      (cache_key_string option.option_id underlying.valuation) = none) :
    (get_greeks m option underlying).1.2.1
      = fd_delta option underlying (lattice_price_at option underlying underlying.valuation)
    ∧ (option.option_type = OptionType.CALL →
        0 ≤ (get_greeks m option underlying).1.2.1
        ∧ (get_greeks m option underlying).1.2.1 ≤ 1)
    ∧ (option.option_type = OptionType.PUT →
        -1 ≤ (get_greeks m option underlying).1.2.1
        ∧ (get_greeks m option underlying).1.2.1 ≤ 0) := by
  rw [get_greeks_miss m option underlying hmiss]
  exact ⟨calculate_delta_eq_fd_delta option underlying _,
    calculate_delta_bounds option underlying hv hp hS⟩

theorem C38_delta_bounds_witness :
    scenario_underlying.valid
    ∧ (get_greeks (MarketMaker.new [scenario_underlying] [scenario_A_call])
          scenario_A_call scenario_underlying).1.2.1
        = fd_delta scenario_A_call scenario_underlying
            (lattice_price_at scenario_A_call scenario_underlying scenario_underlying.valuation)
    ∧ (scenario_A_call.option_type = OptionType.CALL →
        0 ≤ (get_greeks (MarketMaker.new [scenario_underlying] [scenario_A_call])
              scenario_A_call scenario_underlying).1.2.1
        ∧ (get_greeks (MarketMaker.new [scenario_underlying] [scenario_A_call])
              scenario_A_call scenario_underlying).1.2.1 ≤ 1)
    ∧ (scenario_A_call.option_type = OptionType.PUT →
        -1 ≤ (get_greeks (MarketMaker.new [scenario_underlying] [scenario_A_call])
              scenario_A_call scenario_underlying).1.2.1
        ∧ (get_greeks (MarketMaker.new [scenario_underlying] [scenario_A_call])
              scenario_A_call scenario_underlying).1.2.1 ≤ 0) :=
  ⟨scenario_underlying_valid,
    C38_delta_bounds (MarketMaker.new [scenario_underlying] [scenario_A_call])
      scenario_A_call scenario_underlying scenario_underlying_valid
      (by norm_num [scenario_underlying]) (by norm_num [scenario_underlying]) rfl⟩

/-! ## The lattice price and the intrinsic payoff -/

theorem terminal_payoff_ge_call (option : OptionContract) (underlying : Underlying)
    (hc : option.option_type = OptionType.CALL) (i : ℕ) (hi : i ≤ option.steps_until_expiry) :
    underlying.valuation
        - (option.steps_until_expiry : ℚ) * underlying.down_move_step - (option.strike : ℚ)
        + (underlying.up_move_step + underlying.down_move_step) * (i : ℚ)
      ≤ terminal_payoff option underlying i := by
  unfold terminal_payoff
  simp only [hc, if_true]
  rw [Nat.cast_sub hi]
  refine le_trans ?_ (le_max_left _ _)
  have := le_max_left (underlying.valuation + (i : ℚ) * underlying.up_move_step
    - ((option.steps_until_expiry : ℚ) - (i : ℚ)) * underlying.down_move_step) 0
  linarith

theorem terminal_payoff_ge_put (option : OptionContract) (underlying : Underlying)
    (hc : option.option_type ≠ OptionType.CALL)
    (hfloor : 0 ≤ underlying.valuation
      - (option.steps_until_expiry : ℚ) * underlying.down_move_step)
    (hu : 0 ≤ underlying.up_move_step) (hd : 0 ≤ underlying.down_move_step)
    (i : ℕ) (hi : i ≤ option.steps_until_expiry) :
    (option.strike : ℚ) - underlying.valuation
        + (option.steps_until_expiry : ℚ) * underlying.down_move_step
        + (-(underlying.up_move_step + underlying.down_move_step)) * (i : ℚ)
      ≤ terminal_payoff option underlying i := by
  unfold terminal_payoff
  simp only [hc, if_false]
  rw [Nat.cast_sub hi]
  refine le_trans ?_ (le_max_left _ _)
  have hi0 : (0 : ℚ) ≤ (i : ℚ) := Nat.cast_nonneg i
  have h0 : 0 ≤ underlying.valuation + (i : ℚ) * underlying.up_move_step
      - ((option.steps_until_expiry : ℚ) - (i : ℚ)) * underlying.down_move_step := by
    nlinarith [mul_nonneg hi0 hu, mul_nonneg hi0 hd]
  rw [max_eq_left h0]
  linarith

theorem lattice_price_ge_call (option : OptionContract) (underlying : Underlying)
    (hv : underlying.valid)
    (hp : underlying.up_move_probability + underlying.down_move_probability = 1)
    (hm : underlying.up_move_probability * underlying.up_move_step
      = underlying.down_move_probability * underlying.down_move_step)
    (hc : option.option_type = OptionType.CALL) :
    underlying.valuation - (option.strike : ℚ) ≤ price_option_from_scratch option underlying := by
  obtain ⟨-, -, hpd, hpu, -, -⟩ := (valid_iff underlying).mp hv
  rw [price_option_from_scratch_eq_lattice_value]
  have h := lattice_value_mono underlying.up_move_probability underlying.down_move_probability
    hpu.le hpd.le
    (fun j => underlying.valuation
        - (option.steps_until_expiry : ℚ) * underlying.down_move_step - (option.strike : ℚ)
        + (underlying.up_move_step + underlying.down_move_step) * (j : ℚ))
    (terminal_payoff option underlying) option.steps_until_expiry 0
    (fun j hj => terminal_payoff_ge_call option underlying hc (0 + j) (by omega))
  rw [lattice_value_affine _ _ hp] at h
  have hpd' : underlying.down_move_probability = 1 - underlying.up_move_probability := by
    linarith
  rw [hpd'] at hm
  refine le_trans (le_of_eq ?_) h
  push_cast
  linear_combination (-(option.steps_until_expiry : ℚ)) * hm

theorem lattice_price_ge_put (option : OptionContract) (underlying : Underlying)
    (hv : underlying.valid)
    (hp : underlying.up_move_probability + underlying.down_move_probability = 1)
    (hm : underlying.up_move_probability * underlying.up_move_step
      = underlying.down_move_probability * underlying.down_move_step)
    (hc : option.option_type ≠ OptionType.CALL)
    (hfloor : 0 ≤ underlying.valuation
      - (option.steps_until_expiry : ℚ) * underlying.down_move_step) :
    (option.strike : ℚ) - underlying.valuation ≤ price_option_from_scratch option underlying := by
  obtain ⟨hd, hu, hpd, hpu, -, -⟩ := (valid_iff underlying).mp hv
  rw [price_option_from_scratch_eq_lattice_value]
  have h := lattice_value_mono underlying.up_move_probability underlying.down_move_probability
    hpu.le hpd.le
    (fun j => (option.strike : ℚ) - underlying.valuation
        + (option.steps_until_expiry : ℚ) * underlying.down_move_step
        + (-(underlying.up_move_step + underlying.down_move_step)) * (j : ℚ))
    (terminal_payoff option underlying) option.steps_until_expiry 0
    (fun j hj => terminal_payoff_ge_put option underlying hc hfloor hu.le hd.le (0 + j)
      (by omega))
  rw [lattice_value_affine _ _ hp] at h
  have hpd' : underlying.down_move_probability = 1 - underlying.up_move_probability := by
    linarith
  rw [hpd'] at hm
  refine le_trans (le_of_eq ?_) h
  push_cast
  linear_combination (option.steps_until_expiry : ℚ) * hm

theorem lattice_price_nonneg (option : OptionContract) (underlying : Underlying)
    (hv : underlying.valid) : 0 ≤ price_option_from_scratch option underlying := by
  obtain ⟨-, -, hpd, hpu, -, -⟩ := (valid_iff underlying).mp hv
  rw [price_option_from_scratch_eq_lattice_value]
  exact lattice_value_nonneg _ _ hpu.le hpd.le _ _ _
    (fun j _ => terminal_payoff_nonneg option underlying _)

/-- C39 (as stated) fails for a PUT whose down nodes are floored: with S = 1, u = d = 2,
pu = pd = 0.5, n = 1 and K = 3 the terminal prices are max(-1, 0) = 0 and 3, the lattice
price is 0.5*3 + 0.5*0 = 3/2, and the intrinsic payoff is max(0, 3 - 1) = 2. -/
theorem C39_counterexample :
    low_underlying.valid
    ∧ low_underlying.up_move_probability + low_underlying.down_move_probability = 1
    ∧ low_underlying.up_move_probability * low_underlying.up_move_step
        = low_underlying.down_move_probability * low_underlying.down_move_step
    ∧ 0 ≤ low_underlying.valuation
    ∧ floored_put.option_type = OptionType.PUT
    ∧ price_option_from_scratch floored_put low_underlying = 3 / 2
    ∧ floored_put.expiry_valuation low_underlying.valuation = 2
    ∧ ¬ (floored_put.expiry_valuation low_underlying.valuation
          ≤ price_option_from_scratch floored_put low_underlying) := by
  have hp : price_option_from_scratch floored_put low_underlying = 3 / 2 := by
    norm_num [price_option_from_scratch, back_induction, lattice_sweep, terminal_payoff,
      floored_put, low_underlying, List.range_succ, put_eq_call_iff_false]
  have he : floored_put.expiry_valuation low_underlying.valuation = 2 := by
    norm_num [OptionContract.expiry_valuation, floored_put, low_underlying,
      put_eq_call_iff_false]
  refine ⟨low_underlying_valid, ?_, ?_, ?_, rfl, hp, he, ?_⟩
  · norm_num [low_underlying]
  · norm_num [low_underlying]
  · norm_num [low_underlying]
  · rw [hp, he]; norm_num

/-- C39 (amended): for every option with n >= 0 and every valid underlying with
pu + pd = 1 and pu*u = pd*d exactly and valuation S >= 0, the lattice price
`price_option_from_scratch(option, underlying)` is at least the intrinsic payoff
`option.expiry_valuation(S)` when the option is a CALL, and when it is a PUT none of
whose terminal nodes is floored (S - n*d >= 0). -/
theorem C39_no_negative_time_value (option : OptionContract) (underlying : Underlying)
    (hv : underlying.valid)
    (hp : underlying.up_move_probability + underlying.down_move_probability = 1)
    (hm : underlying.up_move_probability * underlying.up_move_step
      = underlying.down_move_probability * underlying.down_move_step)
    (_hS : 0 ≤ underlying.valuation) :
    (option.option_type = OptionType.CALL →
      option.expiry_valuation underlying.valuation
        ≤ price_option_from_scratch option underlying)
    ∧ (option.option_type = OptionType.PUT →
      0 ≤ underlying.valuation - (option.steps_until_expiry : ℚ) * underlying.down_move_step →
      option.expiry_valuation underlying.valuation
        ≤ price_option_from_scratch option underlying) := by
  constructor
  · intro hc
    unfold OptionContract.expiry_valuation
    rw [if_pos hc]
    exact max_le (lattice_price_nonneg option underlying hv)
      (lattice_price_ge_call option underlying hv hp hm hc)
  · intro hc hfloor
    have hc' : option.option_type ≠ OptionType.CALL := by rw [hc]; decide
    unfold OptionContract.expiry_valuation
    rw [if_neg hc']
    exact max_le (lattice_price_nonneg option underlying hv)
      (lattice_price_ge_put option underlying hv hp hm hc' hfloor)

/-- Witness for C39 (amended): Scenario B (S=150, K=150, n=5, u=d=2), CALL and PUT. -/
theorem C39_no_negative_time_value_witness :
    scenario_B_call.expiry_valuation scenario_underlying.valuation
      ≤ price_option_from_scratch scenario_B_call scenario_underlying
    ∧ scenario_B_put.expiry_valuation scenario_underlying.valuation
      ≤ price_option_from_scratch scenario_B_put scenario_underlying :=
  ⟨(C39_no_negative_time_value scenario_B_call scenario_underlying scenario_underlying_valid
      (by norm_num [scenario_underlying]) (by norm_num [scenario_underlying])
      (by norm_num [scenario_underlying])).1 rfl,
   (C39_no_negative_time_value scenario_B_put scenario_underlying scenario_underlying_valid
      (by norm_num [scenario_underlying]) (by norm_num [scenario_underlying])
      (by norm_num [scenario_underlying])).2 rfl
      (by norm_num [scenario_underlying, scenario_B_put])⟩

/-! ## Construction of the bumped underlying -/

theorem pump_it_up_checked_ok (underlying : Underlying) (hv : underlying.valid) (bump : ℚ) :
    pump_it_up_checked underlying bump = .ok (pump_it_up underlying bump) := by
  obtain ⟨hd, hu, hpd, hpu, h1, h2⟩ := (valid_iff underlying).mp hv
  unfold pump_it_up_checked pump_it_up
  rcases underlying_new_cases underlying.name underlying.underlying_id
      (max 0 (underlying.valuation + bump)) underlying.down_move_probability
      underlying.down_move_step underlying.noise_std_dev underlying.up_move_probability
      underlying.up_move_step with ⟨-, hc⟩ | ⟨he, -⟩
  · exfalso
    rcases hc with h | h | h | h | h | h
    · exact absurd hd (not_lt.mpr h)
    · exact absurd hu (not_lt.mpr h)
    · exact absurd hpd (not_lt.mpr h)
    · exact absurd hpu (not_lt.mpr h)
    · exact absurd h1 (not_le.mpr h)
    · exact absurd h2 (not_le.mpr h)
  · exact he

theorem calculate_delta_checked_ok (option : OptionContract) (underlying : Underlying)
    (hv : underlying.valid) (base_price : ℚ) :
    calculate_delta_checked option underlying base_price
      = .ok (calculate_delta option underlying base_price) := by
  unfold calculate_delta_checked calculate_delta
  simp only [pump_it_up_checked_ok underlying hv]

theorem calculate_gamma_checked_ok (option : OptionContract) (underlying : Underlying)
    (hv : underlying.valid) :
    calculate_gamma_checked option underlying = .ok (calculate_gamma option underlying) := by
  unfold calculate_gamma_checked calculate_gamma
  simp only [pump_it_up_checked_ok underlying hv]

theorem get_greeks_checked_ok (m : MarketMaker) (option : OptionContract)
    (underlying : Underlying) (hv : underlying.valid) :
    get_greeks_checked m option underlying
      = (.ok (get_greeks m option underlying).1, (get_greeks m option underlying).2) := by
  unfold get_greeks_checked get_greeks
  simp only [calculate_delta_checked_ok option underlying hv,
    calculate_gamma_checked_ok option underlying hv]
  split <;> rfl

/-- C32: for every underlying that passed validation and every bump, `pump_it_up` does not
raise the invalid-parameters error (its constructor call returns the bumped underlying),
and the result has valuation max(0, S + bump) with name, id, u, d, pu, pd and noise_std_dev
equal to the original; hence `calculate_delta`, `calculate_gamma` and `get_greeks` return
normally on a valid underlying, with the values and the state of the total functions. -/
theorem C32_bumped_construction_safe (underlying : Underlying) (hv : underlying.valid)
    (bump : ℚ) :
    pump_it_up_checked underlying bump ≠ .error .InvalidParameters
    ∧ pump_it_up_checked underlying bump = .ok (pump_it_up underlying bump)
    ∧ (pump_it_up underlying bump).valuation = max 0 (underlying.valuation + bump)
    ∧ (pump_it_up underlying bump).name = underlying.name
    ∧ (pump_it_up underlying bump).underlying_id = underlying.underlying_id
    ∧ (pump_it_up underlying bump).up_move_step = underlying.up_move_step
    ∧ (pump_it_up underlying bump).down_move_step = underlying.down_move_step
    ∧ (pump_it_up underlying bump).up_move_probability = underlying.up_move_probability
    ∧ (pump_it_up underlying bump).down_move_probability = underlying.down_move_probability
    ∧ (pump_it_up underlying bump).noise_std_dev = underlying.noise_std_dev
    ∧ (∀ (option : OptionContract) (base_price : ℚ),
        calculate_delta_checked option underlying base_price
          = .ok (calculate_delta option underlying base_price))
    ∧ (∀ option : OptionContract,
        calculate_gamma_checked option underlying = .ok (calculate_gamma option underlying))
    ∧ (∀ (m : MarketMaker) (option : OptionContract),
        get_greeks_checked m option underlying
          = (.ok (get_greeks m option underlying).1, (get_greeks m option underlying).2)) := by
  refine ⟨?_, pump_it_up_checked_ok underlying hv bump, rfl, rfl, rfl, rfl, rfl, rfl, rfl, rfl,
    fun option base_price => calculate_delta_checked_ok option underlying hv base_price,
    fun option => calculate_gamma_checked_ok option underlying hv,
    fun m option => get_greeks_checked_ok m option underlying hv⟩
  rw [pump_it_up_checked_ok underlying hv bump]
  intro h
  cases h

/-- Witness for C32: the Scenario A underlying (S=150) bumped by -200, floored at 0. -/
theorem C32_bumped_construction_safe_witness :
    scenario_underlying.valid
    ∧ pump_it_up_checked scenario_underlying (-200) = .ok (pump_it_up scenario_underlying (-200))
    ∧ (pump_it_up scenario_underlying (-200)).valuation = 0 :=
  ⟨scenario_underlying_valid,
    (C32_bumped_construction_safe scenario_underlying scenario_underlying_valid (-200)).2.1,
    by
      rw [(C32_bumped_construction_safe scenario_underlying scenario_underlying_valid
        (-200)).2.2.1]
      norm_num [scenario_underlying]⟩

/-! ## The quantities passed to the trade functions -/

theorem perform_valid_quantity (c : TradeCall) (m : MarketMaker) (h : 0 < c.quantity) :
    (c.perform m).1 ≠ .error .InvalidQuantity := by
  unfold TradeCall.perform
  split_ifs
  · unfold sell_underlying
    rw [if_neg (not_le.mpr h)]
    unfold invoke_callback
    cases m.trade_underlying_callback with
    | none => exact fun e => (by cases e)
    | some callback =>
      simp only []
      split_ifs
      · exact fun e => (by cases e)
      · exact fun e => (by cases e)
  · unfold buy_underlying
    rw [if_neg (not_le.mpr h)]
    unfold invoke_callback
    cases m.trade_underlying_callback with
    | none => exact fun e => (by cases e)
    | some callback =>
      simp only []
      split_ifs
      · exact fun e => (by cases e)
      · exact fun e => (by cases e)

theorem exec_delta_hedge_calls_quantity (m : MarketMaker) (uid : ℤ) (target : ℚ)
    (c : TradeCall) (hc : c ∈ exec_delta_hedge_calls m uid target) :
    MIN_HEDGE ≤ c.quantity := by
  unfold exec_delta_hedge_calls at hc
  simp only [] at hc
  split_ifs at hc with h1 h2
  · cases hc
  · rw [List.mem_singleton.mp hc]
    exact not_lt.mp h1
  · rw [List.mem_singleton.mp hc]
    exact not_lt.mp h1

theorem rehedge_step_calls_quantity (m : MarketMaker) (u : Underlying)
    (c : TradeCall) (hc : c ∈ rehedge_step_calls m u) :
    HEDGE_TH < c.quantity := by
  unfold rehedge_step_calls at hc
  simp only [] at hc
  split_ifs at hc with h1 h2 h3
  · cases hc
  · rw [List.mem_singleton.mp hc]
    exact h2
  · rw [List.mem_singleton.mp hc]
    exact h2
  · cases hc

theorem rehedge_calls_quantity (us : List Underlying) :
    ∀ (m : MarketMaker) (c : TradeCall), c ∈ rehedge_calls m us → HEDGE_TH < c.quantity := by
  induction us with
  | nil =>
    intro m c hc
    cases hc
  | cons u us ih =>
    intro m c hc
    unfold rehedge_calls at hc
    rcases List.mem_append.mp hc with h | h
    · exact rehedge_step_calls_quantity m u c h
    · exact ih _ c h

theorem exec_delta_hedge_by_calls (m : MarketMaker) (uid : ℤ) (target : ℚ) :
    exec_delta_hedge m uid target
      = hedge_by_calls m uid (target - (m.hedge_pos uid).getD 0)
          (exec_delta_hedge_calls m uid target) := by
  unfold exec_delta_hedge hedge_by_calls exec_delta_hedge_calls
  simp only []
  split_ifs with h1 h2
  · rfl
  · simp only [TradeCall.perform, if_true]
  · simp only [TradeCall.perform, Bool.false_eq_true, if_false]

theorem rehedge_trade_by_calls (m : MarketMaker) (u : Underlying)
    (hmove : GAMMA_SCALP_TH
      ≤ |u.valuation - (m.last_underlying_prices u.underlying_id).getD u.valuation|)
    (hbig : HEDGE_TH < |(portfolio_delta m u.underlying_id).1|) :
    rehedge_trade (portfolio_delta m u.underlying_id).2 u.underlying_id
        (portfolio_delta m u.underlying_id).1
      = hedge_by_calls (portfolio_delta m u.underlying_id).2 u.underlying_id
          (portfolio_delta m u.underlying_id).1 (rehedge_step_calls m u) := by
  have hc : rehedge_step_calls m u
      = if (portfolio_delta m u.underlying_id).1 > 0 then
          [{ sell := false, underlying_id := u.underlying_id,
             quantity := |(portfolio_delta m u.underlying_id).1| }]
        else
          [{ sell := true, underlying_id := u.underlying_id,
             quantity := |(portfolio_delta m u.underlying_id).1| }] := by
    unfold rehedge_step_calls
    simp only []
    cases hlp : m.last_underlying_prices u.underlying_id with
    | none =>
      rw [hlp] at hmove
      simp only [Option.getD_none] at hmove
      simp only []
      rw [if_neg (not_lt.mpr hmove), if_pos hbig]
    | some last =>
      rw [hlp] at hmove
      simp only [Option.getD_some] at hmove
      simp only []
      rw [if_neg (not_lt.mpr hmove), if_pos hbig]
  rw [hc]
  unfold rehedge_trade hedge_by_calls
  simp only []
  split_ifs with h2
  · simp only [TradeCall.perform, Bool.false_eq_true, if_false]
  · simp only [TradeCall.perform, if_true]
/-- C33: every call of `buy_underlying` or `sell_underlying` that `exec_delta_hedge` makes
passes a quantity of at least MIN_HEDGE = 0.05, and every such call that `rehedge` makes
passes a quantity above HEDGE_TH = 0.03; so the `quantity <= 0` branch is not taken by any
of them and none returns the invalid-quantity error, in whatever state it is performed.
The calls listed are the ones the two functions perform: `exec_delta_hedge` and the trade
of a `rehedge` iteration are the shared `try` block run on them. -/
theorem C33_invalid_quantity_unreachable :
    (∀ (m : MarketMaker) (uid : ℤ) (target : ℚ) (c : TradeCall),
      c ∈ exec_delta_hedge_calls m uid target →
        5 / 100 ≤ c.quantity ∧ ¬ c.quantity ≤ 0
        ∧ ∀ m' : MarketMaker, (c.perform m').1 ≠ .error .InvalidQuantity)
    ∧ (∀ (m : MarketMaker) (us : List Underlying) (c : TradeCall),
      c ∈ rehedge_calls m us →
        3 / 100 < c.quantity ∧ ¬ c.quantity ≤ 0
        ∧ ∀ m' : MarketMaker, (c.perform m').1 ≠ .error .InvalidQuantity)
    ∧ (∀ (m : MarketMaker) (uid : ℤ) (target : ℚ),
      exec_delta_hedge m uid target
        = hedge_by_calls m uid (target - (m.hedge_pos uid).getD 0)
            (exec_delta_hedge_calls m uid target))
    ∧ (∀ (m : MarketMaker) (u : Underlying),
      GAMMA_SCALP_TH
          ≤ |u.valuation - (m.last_underlying_prices u.underlying_id).getD u.valuation| →
      HEDGE_TH < |(portfolio_delta m u.underlying_id).1| →
      rehedge_trade (portfolio_delta m u.underlying_id).2 u.underlying_id
          (portfolio_delta m u.underlying_id).1
        = hedge_by_calls (portfolio_delta m u.underlying_id).2 u.underlying_id
            (portfolio_delta m u.underlying_id).1 (rehedge_step_calls m u)) := by
  refine ⟨?_, ?_, exec_delta_hedge_by_calls, rehedge_trade_by_calls⟩
  · intro m uid target c hc
    have h := exec_delta_hedge_calls_quantity m uid target c hc
    have h0 : 0 < c.quantity := lt_of_lt_of_le (by norm_num [MIN_HEDGE]) h
    exact ⟨h, not_le.mpr h0, fun m' => perform_valid_quantity c m' h0⟩
  · intro m us c hc
    have h := rehedge_calls_quantity us m c hc
    have h0 : 0 < c.quantity := lt_trans (by norm_num [HEDGE_TH]) h
    exact ⟨h, not_le.mpr h0, fun m' => perform_valid_quantity c m' h0⟩

/-- Witness for C33: on a fresh engine `exec_delta_hedge` with target 1/2 sells 1/2; and
the rehedge of the CALL struck at 10 after the move from 7.7 to 7.819 buys 19/400. -/
theorem C33_invalid_quantity_unreachable_witness :
    (({ sell := true, underlying_id := 0, quantity := 1 / 2 } : TradeCall)
        ∈ exec_delta_hedge_calls (MarketMaker.new [] []) 0 (1 / 2)
      ∧ (5 / 100 : ℚ) ≤ 1 / 2)
    ∧ (({ sell := false, underlying_id := 0, quantity := 19 / 400 } : TradeCall)
        ∈ rehedge_calls
            (rehedge_reaches thin_state_2 [kink_underlying (7819 / 1000)] [kink_call] [])
            [kink_underlying (7819 / 1000)]
      ∧ (3 / 100 : ℚ) < 19 / 400) := by
  have h1 : ({ sell := true, underlying_id := 0, quantity := 1 / 2 } : TradeCall)
      ∈ exec_delta_hedge_calls (MarketMaker.new [] []) 0 (1 / 2) := by
    have habs : |(1 / 2 : ℚ)| = 1 / 2 := abs_of_pos (by norm_num)
    norm_num [exec_delta_hedge_calls, MarketMaker.new, MIN_HEDGE, habs]
  have h2 : ({ sell := false, underlying_id := 0, quantity := 19 / 400 } : TradeCall)
      ∈ rehedge_calls
          (rehedge_reaches thin_state_2 [kink_underlying (7819 / 1000)] [kink_call] [])
          [kink_underlying (7819 / 1000)] := by
    obtain ⟨hnet, -, -⟩ := thin_rehedge_net
    have hlast : (rehedge_reaches thin_state_2 [kink_underlying (7819 / 1000)] [kink_call]
        []).last_underlying_prices (kink_underlying (7819 / 1000)).underlying_id
        = some (77 / 10) := thin_state_2_facts.2.2.2.1
    have habs : |(19 / 400 : ℚ)| = 19 / 400 := abs_of_pos (by norm_num)
    have habs2 : |(119 / 1000 : ℚ)| = 119 / 1000 := abs_of_pos (by norm_num)
    unfold rehedge_calls rehedge_calls rehedge_step_calls
    simp only [hlast, hnet]
    norm_num [GAMMA_SCALP_TH, HEDGE_TH, habs, habs2, kink_underlying]
  exact ⟨⟨h1, (C33_invalid_quantity_unreachable.1 _ _ _ _ h1).1⟩,
    ⟨h2, (C33_invalid_quantity_unreachable.2.1 _ _ _ h2).1⟩⟩

/-! ## The portfolio value as a sum -/

theorem fold_option_value (l : List OptionContract) :
    ∀ acc : ℚ × MarketMaker,
      l.foldl portfolio_value_option_step acc
        = (acc.1 + (option_value_sum acc.2 l).1, (option_value_sum acc.2 l).2) := by
  induction l with
  | nil =>
    intro acc
    simp [option_value_sum]
  | cons o l ih =>
    intro acc
    rw [List.foldl_cons, ih]
    unfold portfolio_value_option_step
    rw [option_value_sum]
    cases hq : acc.2.position.option_quantity_by_option_id o.option_id with
    | none => simp
    | some q =>
      by_cases h0 : q = 0
      · simp [h0]
      · simp [h0, add_assoc]

theorem fold_share_value (position : Position) (l : List Underlying) :
    ∀ total : ℚ,
      l.foldl (portfolio_value_underlying_step position) total
        = total + share_value_sum position l := by
  induction l with
  | nil =>
    intro total
    simp [share_value_sum]
  | cons u l ih =>
    intro total
    rw [List.foldl_cons, ih]
    unfold portfolio_value_underlying_step share_value_sum
    cases hq : position.underlying_quantity_by_underlying_id u.underlying_id with
    | none => simp [hq]
    | some q =>
      by_cases h0 : q = 0
      · simp [hq, h0]
      · simp [hq, h0, add_assoc]

theorem option_value_sum_frame (l : List OptionContract) :
    ∀ m : MarketMaker, only_pricing_changed m (option_value_sum m l).2 := by
  induction l with
  | nil => intro m; exact only_pricing_changed_refl m
  | cons o l ih =>
    intro m
    rw [option_value_sum]
    simp only []
    split_ifs
    · exact only_pricing_changed_trans (price_option_frame m o) (ih _)
    · exact ih m

theorem portfolio_value_eq_sum (m : MarketMaker) :
    portfolio_value m
      = (m.pnl + (option_value_sum m m.active_option_state).1
          + share_value_sum m.position m.underlying_state,
        (option_value_sum m m.active_option_state).2) := by
  have hf := (option_value_sum_frame m.active_option_state m).to_quoting
  unfold portfolio_value
  simp only []
  rw [fold_option_value, fold_share_value]
  simp only []
  rw [quoting_keeps_position hf, quoting_keeps_underlying_state hf]

theorem price_option_position (m : MarketMaker) (p : Position) (option : OptionContract) :
    price_option { m with position := p } option
      = ((price_option m option).1, { (price_option m option).2 with position := p }) := by
  unfold price_option price_option_full price_option_taylor find_underlying
  simp only []
  split
  · rfl
  · split_ifs
    · rfl
    · split
      · rfl
      · split
        · rfl
        · split_ifs
          · split <;> rfl
          · rfl
theorem option_value_sum_position (p : Position) (l : List OptionContract) :
    ∀ m : MarketMaker,
      (∀ o ∈ l, p.option_quantity_by_option_id o.option_id
        = m.position.option_quantity_by_option_id o.option_id) →
      option_value_sum { m with position := p } l
        = ((option_value_sum m l).1, { (option_value_sum m l).2 with position := p }) := by
  induction l with
  | nil => intro m _; rfl
  | cons o l ih =>
    intro m h
    have ho := h o (List.mem_cons_self _ _)
    have hl : ∀ o' ∈ l, p.option_quantity_by_option_id o'.option_id
        = m.position.option_quantity_by_option_id o'.option_id :=
      fun o' ho' => h o' (List.mem_cons_of_mem _ ho')
    rw [option_value_sum, option_value_sum]
    simp only [ho]
    split_ifs with hq
    · rw [price_option_position]
      simp only []
      have hp : (price_option m o).2.position = m.position :=
        quoting_keeps_position (price_option_frame m o).to_quoting
      rw [ih (price_option m o).2 (by rw [hp]; exact hl)]
    · exact ih m hl

/-- C31: `portfolio_value()` equals realized pnl, plus for each option of
`active_option_state` with a non-zero position, position × `price_option(option)` (priced
in list order, each call in the state the previous one left), plus for each underlying of
the engine state with a non-zero share position, shares × valuation; the state it leaves
is the one after those `price_option` calls.  Positions in options that are not in
`active_option_state` contribute nothing: changing them leaves the value unchanged.  On a
freshly constructed engine the value is 0. -/
theorem C31_portfolio_value_formula :
    (∀ m : MarketMaker,
      (portfolio_value m).1
        = m.pnl + (option_value_sum m m.active_option_state).1
            + share_value_sum m.position m.underlying_state
      ∧ (portfolio_value m).2 = (option_value_sum m m.active_option_state).2)
    ∧ (∀ (m : MarketMaker) (quantities : ℤ → Option ℤ),
        (∀ o ∈ m.active_option_state,
          quantities o.option_id = m.position.option_quantity_by_option_id o.option_id) →
        (portfolio_value
            { m with
              position :=
                { m.position with option_quantity_by_option_id := quantities } }).1
          = (portfolio_value m).1)
    ∧ (∀ (us : List Underlying) (os : List OptionContract),
        (portfolio_value (MarketMaker.new us os)).1 = 0) := by
  refine ⟨fun m => ?_, fun m quantities h => ?_, fun us os => ?_⟩
  · rw [portfolio_value_eq_sum]
    exact ⟨rfl, rfl⟩
  · rw [portfolio_value_eq_sum, portfolio_value_eq_sum]
    simp only []
    rw [option_value_sum_position _ _ m h]
    rfl
  · rw [portfolio_value_of_empty_position _ rfl]
    rfl

/-- Witness for C31: an engine on the Scenario A underlying holding one Scenario C CALL
(active, worth 50), three Scenario A CALLs (not in the active list) and 2 shares, with
pnl 5: the value is 5 + 1*50 + 2*150 = 355, as without the inactive position. -/
theorem C31_portfolio_value_formula_witness :
    (portfolio_value
        { MarketMaker.new [scenario_underlying] [scenario_C_call] with
          pnl := 5
          position :=
            { option_quantity_by_option_id :=
                Function.update (Function.update (fun _ => none) 1 (some 1)) 0 (some 3)
              underlying_quantity_by_underlying_id :=
                Function.update (fun _ => none) 0 (some 2) } }).1
      = (portfolio_value
        { MarketMaker.new [scenario_underlying] [scenario_C_call] with
          pnl := 5
          position :=
            { option_quantity_by_option_id := Function.update (fun _ => none) 1 (some 1)
              underlying_quantity_by_underlying_id :=
                Function.update (fun _ => none) 0 (some 2) } }).1
    ∧ (portfolio_value
        { MarketMaker.new [scenario_underlying] [scenario_C_call] with
          pnl := 5
          position :=
            { option_quantity_by_option_id := Function.update (fun _ => none) 1 (some 1)
              underlying_quantity_by_underlying_id :=
                Function.update (fun _ => none) 0 (some 2) } }).1 = 355 := by
  constructor
  · exact C31_portfolio_value_formula.2.1
      { MarketMaker.new [scenario_underlying] [scenario_C_call] with
        pnl := 5
        position :=
          { option_quantity_by_option_id := Function.update (fun _ => none) 1 (some 1)
            underlying_quantity_by_underlying_id :=
              Function.update (fun _ => none) 0 (some 2) } }
      (Function.update (Function.update (fun _ => none) 1 (some 1)) 0 (some 3))
      (by
        intro o ho
        have e : o = scenario_C_call := List.mem_singleton.mp ho
        rw [e]
        simp [scenario_C_call, MarketMaker.new, Function.update])
  · norm_num [portfolio_value, portfolio_value_option_step, portfolio_value_underlying_step,
      price_option, find_underlying, MarketMaker.new, scenario_C_call, scenario_underlying,
      OptionContract.expiry_valuation, Function.update]

/-! ## The residual delta after a successful hedge -/

theorem get_greeks_cache_mono (m : MarketMaker) (option : OptionContract)
    (underlying : Underlying) (key : CacheKey) (g : Greeks)
    (h : cache_find m.price_cache key = some g) :
    cache_find (get_greeks m option underlying).2.price_cache key = some g := by
  cases hm : cache_find m.price_cache
      (cache_key_string option.option_id underlying.valuation) with
  | some greeks =>
    rw [get_greeks_hit m option underlying greeks hm]
    exact h
  | none =>
    rw [get_greeks_miss m option underlying hm]
    have hne : key ≠ cache_key_string option.option_id underlying.valuation := by
      intro e
      rw [e, hm] at h
      cases h
    unfold cache_find at h ⊢
    simp only [List.lookup, beq_eq_false_iff_ne.mpr hne]
    exact h

theorem portfolio_delta_step_cache_mono (u_id : ℤ) (underlying : Underlying)
    (key : CacheKey) (g : Greeks) (acc : ℚ × MarketMaker) (opt : OptionContract)
    (h : cache_find acc.2.price_cache key = some g) :
    cache_find (portfolio_delta_step u_id underlying acc opt).2.price_cache key = some g := by
  unfold portfolio_delta_step
  split_ifs
  · split
    · exact h
    · split_ifs
      · exact get_greeks_cache_mono _ _ _ _ _ h
      · exact h
  · exact h

theorem delta_fold_stable (u_id : ℤ) (underlying : Underlying) (b : MarketMaker)
    (l : List OptionContract) :
    ∀ a : ℚ × MarketMaker,
      a.2.position.option_quantity_by_option_id = b.position.option_quantity_by_option_id →
      (∀ key g,
        cache_find (l.foldl (portfolio_delta_step u_id underlying) a).2.price_cache key = some g →
        cache_find b.price_cache key = some g) →
      (l.foldl (portfolio_delta_step u_id underlying) a).1
          = a.1 + (l.map (fun opt =>
              if opt.underlying_id = u_id then
                (((b.position.option_quantity_by_option_id opt.option_id).getD 0 : ℤ) : ℚ)
                  * (get_greeks b opt underlying).1.2.1
              else 0)).sum
      ∧ ∀ c : ℚ, l.foldl (portfolio_delta_step u_id underlying) (c, b)
          = (c + (l.map (fun opt =>
              if opt.underlying_id = u_id then
                (((b.position.option_quantity_by_option_id opt.option_id).getD 0 : ℤ) : ℚ)
                  * (get_greeks b opt underlying).1.2.1
              else 0)).sum, b) := by
  induction l with
  | nil =>
    intro a _ _
    simp
  | cons o l ih =>
    intro a hpos hcache
    rw [List.foldl_cons] at hcache
    have hpos' : (portfolio_delta_step u_id underlying a o).2.position.option_quantity_by_option_id
        = b.position.option_quantity_by_option_id := by
      rw [cache_keeps_position (portfolio_delta_step_frame u_id underlying a o)]
      exact hpos
    obtain ⟨ih1, ih2⟩ := ih _ hpos' hcache
    have key : (portfolio_delta_step u_id underlying a o).1
          = a.1 + (if o.underlying_id = u_id then
              (((b.position.option_quantity_by_option_id o.option_id).getD 0 : ℤ) : ℚ)
                * (get_greeks b o underlying).1.2.1
            else 0)
        ∧ ∀ c : ℚ, portfolio_delta_step u_id underlying (c, b) o
          = (c + (if o.underlying_id = u_id then
              (((b.position.option_quantity_by_option_id o.option_id).getD 0 : ℤ) : ℚ)
                * (get_greeks b o underlying).1.2.1
            else 0), b) := by
      by_cases hu : o.underlying_id = u_id
      · cases hq : b.position.option_quantity_by_option_id o.option_id with
        | none =>
          unfold portfolio_delta_step
          simp only [hu, if_true, hpos, hq, Option.getD_none, Int.cast_zero, zero_mul, add_zero]
          exact ⟨trivial, fun _ => trivial⟩
        | some q =>
          by_cases h0 : q = 0
          · unfold portfolio_delta_step
            simp only [hu, if_true, hpos, hq, h0, Option.getD_some, Int.cast_zero, zero_mul,
              add_zero, ne_eq, not_true_eq_false, if_false]
            exact ⟨trivial, fun _ => trivial⟩
          · have hstep : portfolio_delta_step u_id underlying a o
                = (a.1 + (q : ℚ) * (get_greeks a.2 o underlying).1.2.1,
                    (get_greeks a.2 o underlying).2) := by
              unfold portfolio_delta_step
              simp only [hu, if_true, hpos, hq, ne_eq, h0, not_false_eq_true]
            have hb : cache_find b.price_cache
                (cache_key_string o.option_id underlying.valuation)
                = some (get_greeks a.2 o underlying).1 := by
              apply hcache
              apply foldl_inv (fun s => cache_find s.price_cache
                  (cache_key_string o.option_id underlying.valuation)
                  = some (get_greeks a.2 o underlying).1)
                (portfolio_delta_step u_id underlying)
                (fun acc x h => portfolio_delta_step_cache_mono u_id underlying _ _ acc x h)
              rw [hstep]
              exact get_greeks_caches a.2 o underlying
            have hgb := get_greeks_hit b o underlying _ hb
            constructor
            · rw [hstep, hgb]
              simp only [hu, if_true, Option.getD_some]
            · intro c
              unfold portfolio_delta_step
              simp only [hu, if_true, hq, ne_eq, h0, not_false_eq_true, hgb, Option.getD_some]
      · unfold portfolio_delta_step
        simp only [hu, if_false, add_zero]
        exact ⟨trivial, fun _ => trivial⟩
    constructor
    · rw [List.foldl_cons, ih1, key.1, List.map_cons, List.sum_cons, add_assoc]
    · intro c
      rw [List.foldl_cons, key.2 c, ih2, List.map_cons, List.sum_cons, add_assoc]
theorem portfolio_delta_value (m : MarketMaker) (uid : ℤ) (underlying : Underlying)
    (hu : find_underlying m uid = some underlying) :
    portfolio_delta m uid
      = ((m.active_option_state.foldl (portfolio_delta_step uid underlying) (0, m)).1
            - (m.hedge_pos uid).getD 0,
          (m.active_option_state.foldl (portfolio_delta_step uid underlying) (0, m)).2) := by
  have hh := cache_keeps_hedge_pos
    (foldl_frame only_cache_changed only_cache_changed_refl only_cache_changed_trans _
      (portfolio_delta_step_frame uid underlying) m.active_option_state (0, m))
  unfold portfolio_delta
  rw [hu]
  simp only []
  rw [hh]
  cases m.hedge_pos uid with
  | none => simp
  | some h => simp

theorem portfolio_delta_first_pass (m b : MarketMaker) (uid : ℤ) (underlying : Underlying)
    (hu : find_underlying m uid = some underlying)
    (hA : b.active_option_state = m.active_option_state)
    (hP : b.position.option_quantity_by_option_id = m.position.option_quantity_by_option_id)
    (hC : b.price_cache = (portfolio_delta m uid).2.price_cache) :
    (portfolio_delta m uid).1
      = position_delta_sum b uid underlying - (m.hedge_pos uid).getD 0 := by
  rw [portfolio_delta_value m uid underlying hu] at hC ⊢
  simp only [] at hC ⊢
  have h := (delta_fold_stable uid underlying b m.active_option_state (0, m) hP.symm
    (fun key g hg => by rw [hC]; exact hg)).1
  rw [h]
  unfold position_delta_sum
  rw [hA]
  simp

theorem portfolio_delta_second_pass (m b : MarketMaker) (uid : ℤ) (underlying : Underlying)
    (hu : find_underlying m uid = some underlying)
    (hU : b.underlying_state = m.underlying_state)
    (hA : b.active_option_state = m.active_option_state)
    (hP : b.position.option_quantity_by_option_id = m.position.option_quantity_by_option_id)
    (hC : b.price_cache = (portfolio_delta m uid).2.price_cache) :
    portfolio_delta b uid
      = (position_delta_sum b uid underlying - (b.hedge_pos uid).getD 0, b) := by
  have hub : find_underlying b uid = some underlying := by
    rw [find_underlying_congr hU]; exact hu
  rw [portfolio_delta_value b uid underlying hub]
  rw [portfolio_delta_value m uid underlying hu] at hC
  simp only [] at hC
  have h := (delta_fold_stable uid underlying b m.active_option_state (0, m) hP.symm
    (fun key g hg => by rw [hC]; exact hg)).2 0
  rw [hA, h]
  unfold position_delta_sum
  rw [hA]
  simp
theorem exec_delta_hedge_residual (s : MarketMaker) (uid : ℤ) (underlying : Underlying)
    (callback : TradeCallback)
    (hu : find_underlying s uid = some underlying)
    (hbig : MIN_HEDGE ≤ |(portfolio_delta s uid).1 - (s.hedge_pos uid).getD 0|)
    (hcb : s.trade_underlying_callback = some callback)
    (hok : callback s.callback_log uid
      (-((portfolio_delta s uid).1 - (s.hedge_pos uid).getD 0)) = true) :
    portfolio_delta
        (exec_delta_hedge (portfolio_delta s uid).2 uid (portfolio_delta s uid).1) uid
      = ((s.hedge_pos uid).getD 0,
          exec_delta_hedge (portfolio_delta s uid).2 uid (portfolio_delta s uid).1) := by
  have hd := portfolio_delta_frame s uid
  have hh := cache_keeps_hedge_pos hd
  have hl := cache_keeps_callback_log hd
  have hc := cache_keeps_trade_underlying_callback hd
  have hp := cache_keeps_position hd
  have hU : (portfolio_delta s uid).2.underlying_state = s.underlying_state := by
    have e : _ = _ := hd
    rw [e]
  have hA : (portfolio_delta s uid).2.active_option_state = s.active_option_state := by
    have e : _ = _ := hd
    rw [e]
  have hacc := exec_delta_hedge_accepted (portfolio_delta s uid).2 uid (portfolio_delta s uid).1
    callback (by rw [hh]; exact hbig) (by rw [hc]; exact hcb) (by rw [hl, hh]; exact hok)
  generalize exec_delta_hedge (portfolio_delta s uid).2 uid (portfolio_delta s uid).1 = b at hacc
  have hbU : b.underlying_state = s.underlying_state := by rw [hacc]; exact hU
  have hbA : b.active_option_state = s.active_option_state := by rw [hacc]; exact hA
  have hbP : b.position.option_quantity_by_option_id
      = s.position.option_quantity_by_option_id := by
    rw [hacc]
    show (portfolio_delta s uid).2.position.option_quantity_by_option_id = _
    rw [hp]
  have hbC : b.price_cache = (portfolio_delta s uid).2.price_cache := by rw [hacc]
  have hbH : b.hedge_pos uid = some (portfolio_delta s uid).1 := by
    rw [hacc]
    simp
  have h1 := portfolio_delta_first_pass s b uid underlying hu hbA hbP hbC
  rw [portfolio_delta_second_pass s b uid underlying hu hbU hbA hbP hbC, hbH, h1]
  simp

theorem rehedge_step_residual (m : MarketMaker) (u : Underlying) (underlying : Underlying)
    (callback : TradeCallback)
    (hu : find_underlying m u.underlying_id = some underlying)
    (hmove : GAMMA_SCALP_TH
      ≤ |u.valuation - (m.last_underlying_prices u.underlying_id).getD u.valuation|)
    (hbig : HEDGE_TH < |(portfolio_delta m u.underlying_id).1|)
    (hcb : m.trade_underlying_callback = some callback)
    (hok : callback m.callback_log u.underlying_id (portfolio_delta m u.underlying_id).1 = true) :
    (rehedge_step m u).hedge_pos u.underlying_id
        = some (position_delta_sum (rehedge_step m u) u.underlying_id underlying)
    ∧ portfolio_delta (rehedge_step m u) u.underlying_id = (0, rehedge_step m u) := by
  have hd := portfolio_delta_frame m u.underlying_id
  have hh := cache_keeps_hedge_pos hd
  have hl := cache_keeps_callback_log hd
  have hc := cache_keeps_trade_underlying_callback hd
  have hp := cache_keeps_position hd
  have hU : (portfolio_delta m u.underlying_id).2.underlying_state = m.underlying_state := by
    have e : _ = _ := hd
    rw [e]
  have hA : (portfolio_delta m u.underlying_id).2.active_option_state
      = m.active_option_state := by
    have e : _ = _ := hd
    rw [e]
  have hacc := rehedge_trade_accepted (portfolio_delta m u.underlying_id).2 u.underlying_id
    (portfolio_delta m u.underlying_id).1 callback hbig (by rw [hc]; exact hcb)
    (by rw [hl]; exact hok)
  have hstep := rehedge_step_eq m u hmove
  rw [if_pos hbig] at hstep
  generalize rehedge_step m u = b at hstep
  rw [hacc] at hstep
  have hbU : b.underlying_state = m.underlying_state := by rw [hstep]; exact hU
  have hbA : b.active_option_state = m.active_option_state := by rw [hstep]; exact hA
  have hbP : b.position.option_quantity_by_option_id
      = m.position.option_quantity_by_option_id := by
    rw [hstep]
    show (portfolio_delta m u.underlying_id).2.position.option_quantity_by_option_id = _
    rw [hp]
  have hbC : b.price_cache = (portfolio_delta m u.underlying_id).2.price_cache := by
    rw [hstep]
  have hbH : b.hedge_pos u.underlying_id
      = some ((m.hedge_pos u.underlying_id).getD 0 + (portfolio_delta m u.underlying_id).1) := by
    rw [hstep]
    simp [hh]
  have h1 := portfolio_delta_first_pass m b u.underlying_id underlying hu hbA hbP hbC
  have hsum : (m.hedge_pos u.underlying_id).getD 0 + (portfolio_delta m u.underlying_id).1
      = position_delta_sum b u.underlying_id underlying := by
    rw [h1]; ring
  rw [hsum] at hbH
  refine ⟨hbH, ?_⟩
  rw [portfolio_delta_second_pass m b u.underlying_id underlying hu hbU hbA hbP hbC, hbH]
  simp
/-- C35: whenever the post-trade hedge executes a trade successfully, that is
`delta_hedge_post_trade` finds the option's underlying, computes net = portfolio_delta(uid)
with |net| > 0.03, calls `exec_delta_hedge` with target net where |net - cur| >= 0.05 for
cur = HedgeLedger[uid] before the call, and the callback returns normally, then
portfolio_delta(uid) evaluated afterwards equals cur, the previous ledger value (and the
evaluation leaves the state as it is). -/
theorem C35_post_trade_residual (m : MarketMaker) (option : OptionContract) (q : ℤ)
    (underlying : Underlying) (callback : TradeCallback)
    (hu : find_underlying m option.underlying_id = some underlying)
    (hnet : HEDGE_TH < |post_trade_net m option q underlying|)
    (hbig : MIN_HEDGE ≤ |post_trade_net m option q underlying
      - (m.hedge_pos underlying.underlying_id).getD 0|)
    (hcb : m.trade_underlying_callback = some callback)
    (hok : callback m.callback_log underlying.underlying_id
      (-(post_trade_net m option q underlying
          - (m.hedge_pos underlying.underlying_id).getD 0)) = true) :
    delta_hedge_post_trade m option q
        = exec_delta_hedge
            (portfolio_delta (post_trade_state m option q underlying)
              underlying.underlying_id).2
            underlying.underlying_id (post_trade_net m option q underlying)
    ∧ portfolio_delta (delta_hedge_post_trade m option q) underlying.underlying_id
        = ((m.hedge_pos underlying.underlying_id).getD 0, delta_hedge_post_trade m option q) := by
  have hg := get_greeks_frame m option underlying
  have hid : underlying.underlying_id = option.underlying_id := (find_underlying_mem hu).2
  have hus : (post_trade_state m option q underlying).underlying_state = m.underlying_state := by
    show (get_greeks m option underlying).2.underlying_state = _
    have e : _ = _ := hg
    rw [e]
  have hh : (post_trade_state m option q underlying).hedge_pos = m.hedge_pos := by
    show (get_greeks m option underlying).2.hedge_pos = _
    exact cache_keeps_hedge_pos hg
  have hl : (post_trade_state m option q underlying).callback_log = m.callback_log := by
    show (get_greeks m option underlying).2.callback_log = _
    exact cache_keeps_callback_log hg
  have hc : (post_trade_state m option q underlying).trade_underlying_callback
      = m.trade_underlying_callback := by
    show (get_greeks m option underlying).2.trade_underlying_callback = _
    exact cache_keeps_trade_underlying_callback hg
  have hu' : find_underlying (post_trade_state m option q underlying) underlying.underlying_id
      = some underlying := by
    rw [find_underlying_congr hus, hid]; exact hu
  have heq := delta_hedge_post_trade_eq m option q underlying hu
  rw [if_pos hnet] at heq
  refine ⟨heq, ?_⟩
  have hres := exec_delta_hedge_residual (post_trade_state m option q underlying)
    underlying.underlying_id underlying callback hu'
    (by rw [hh]; exact hbig) (by rw [hc]; exact hcb) (by rw [hl, hh]; exact hok)
  rw [hh] at hres
  rw [heq]
  exact hres

/-- Witness for C35: Scenario A with a callback that accepts every trade.  The first bid
hit (net 1/2, empty ledger) sells 1/2 share, and the residual afterwards is the previous
ledger value 0.  After the second bid hit the callback has still been invoked exactly
once, and portfolio_delta is 1/2, the delta of the CALL. -/
theorem C35_post_trade_residual_witness :
    (portfolio_delta hedge_state_1 scenario_A_call.underlying_id).1 = 0
    ∧ hedge_state_1.callback_log = [(0, -1 / 2, true)]
    ∧ hedge_state_2.callback_log = [(0, -1 / 2, true)]
    ∧ (portfolio_delta hedge_state_2 scenario_A_call.underlying_id).1 = 1 / 2 := by
  have hU : find_underlying
      { hedge_state_0 with
        position := hedge_state_0.position.add_option_quantity scenario_A_call.option_id 1
        pnl := hedge_state_0.pnl + 1 } scenario_A_call.underlying_id
      = some scenario_underlying := by
    simp [find_underlying, hedge_state_0, register_trade_underlying_callback,
      scenario_A_engine, MarketMaker.new, scenario_underlying, scenario_A_call]
  have hgv : (get_greeks
      { hedge_state_0 with
        position := hedge_state_0.position.add_option_quantity scenario_A_call.option_id 1
        pnl := hedge_state_0.pnl + 1 } scenario_A_call scenario_underlying).1
      = (7 / 8, 1 / 2, 25 / 16) := by
    rw [get_greeks_value_miss
      { hedge_state_0 with
        position := hedge_state_0.position.add_option_quantity scenario_A_call.option_id 1
        pnl := hedge_state_0.pnl + 1 } scenario_A_call scenario_underlying rfl,
      scenario_A_greeks.1, scenario_A_greeks.2.1, scenario_A_greeks.2.2]
  have hnet : post_trade_net
      { hedge_state_0 with
        position := hedge_state_0.position.add_option_quantity scenario_A_call.option_id 1
        pnl := hedge_state_0.pnl + 1 } scenario_A_call 1 scenario_underlying = 1 / 2 := by
    rw [post_trade_net_single _ scenario_A_call scenario_underlying 1 1 rfl hU
      (by simp [Position.add_option_quantity, wrap_int32, hedge_state_0,
        register_trade_underlying_callback, scenario_A_engine, MarketMaker.new,
        Position.empty])
      (by decide), hgv]
    norm_num [hedge_state_0, register_trade_underlying_callback, scenario_A_engine,
      MarketMaker.new]
  have hcur : (({ hedge_state_0 with
        position := hedge_state_0.position.add_option_quantity scenario_A_call.option_id 1
        pnl := hedge_state_0.pnl + 1 } : MarketMaker).hedge_pos
          scenario_underlying.underlying_id).getD 0 = 0 := rfl
  have habs : |(1 / 2 : ℚ)| = 1 / 2 := abs_of_pos (by norm_num)
  have h := (C35_post_trade_residual
      { hedge_state_0 with
        position := hedge_state_0.position.add_option_quantity scenario_A_call.option_id 1
        pnl := hedge_state_0.pnl + 1 } scenario_A_call 1 scenario_underlying
      (fun _ _ _ => true) hU
      (by rw [hnet, habs]; norm_num [HEDGE_TH])
      (by rw [hnet, hcur, sub_zero, habs]; norm_num [MIN_HEDGE])
      rfl rfl).2
  have h1 : hedge_state_1 = delta_hedge_post_trade
      { hedge_state_0 with
        position := hedge_state_0.position.add_option_quantity scenario_A_call.option_id 1
        pnl := hedge_state_0.pnl + 1 } scenario_A_call 1 := rfl
  rw [← h1, hcur] at h
  have hid : scenario_A_call.underlying_id = scenario_underlying.underlying_id := rfl
  refine ⟨?_, hedge_state_1_facts.1, hedge_state_2_facts.1, hedge_state_2_facts.2.2⟩
  rw [hid, h]

/-- C36: whenever an iteration of the per-step rehedge executes a trade successfully for
an underlying (|S - S'| >= 0.005, |net| > 0.03 for net = portfolio_delta(uid), and the
callback returns normally), HedgeLedger[uid] afterwards equals the sum of position × delta
over the active options on that underlying, and portfolio_delta(uid) evaluated immediately
afterwards is exactly 0 (and leaves the state as it is). -/
theorem C36_rehedge_residual (m : MarketMaker) (u : Underlying) (callback : TradeCallback)
    (hmove : GAMMA_SCALP_TH
      ≤ |u.valuation - (m.last_underlying_prices u.underlying_id).getD u.valuation|)
    (hbig : HEDGE_TH < |(portfolio_delta m u.underlying_id).1|)
    (hcb : m.trade_underlying_callback = some callback)
    (hok : callback m.callback_log u.underlying_id (portfolio_delta m u.underlying_id).1 = true) :
    ∃ underlying, find_underlying m u.underlying_id = some underlying
      ∧ (rehedge_step m u).hedge_pos u.underlying_id
          = some (position_delta_sum (rehedge_step m u) u.underlying_id underlying)
      ∧ portfolio_delta (rehedge_step m u) u.underlying_id = (0, rehedge_step m u) := by
  cases hu : find_underlying m u.underlying_id with
  | none =>
    exfalso
    have h0 : (portfolio_delta m u.underlying_id).1 = 0 := by
      unfold portfolio_delta
      rw [hu]
    rw [h0, abs_zero] at hbig
    norm_num [HEDGE_TH] at hbig
  | some underlying =>
    exact ⟨underlying, rfl, rehedge_step_residual m u underlying callback hu hmove hbig hcb hok⟩
/-- Witness for C36: the CALL struck at 10 held long after the move from 7.7 to 7.819,
with a callback that accepts every trade: the rehedge buys 19/400, and portfolio_delta
evaluated in the state it leaves is 0. -/
theorem C36_rehedge_residual_witness :
    portfolio_delta
        (rehedge_step
          (rehedge_reaches thin_state_2 [kink_underlying (7819 / 1000)] [kink_call] [])
          (kink_underlying (7819 / 1000)))
        (kink_underlying (7819 / 1000)).underlying_id
      = (0, rehedge_step
          (rehedge_reaches thin_state_2 [kink_underlying (7819 / 1000)] [kink_call] [])
          (kink_underlying (7819 / 1000))) := by
  obtain ⟨-, -, -, hlast, hcb, -⟩ := thin_state_2_facts
  obtain ⟨hnet, -, -⟩ := thin_rehedge_net
  have hlast' : (rehedge_reaches thin_state_2 [kink_underlying (7819 / 1000)] [kink_call]
      []).last_underlying_prices (kink_underlying (7819 / 1000)).underlying_id
      = some (77 / 10) := hlast
  have hcb' : (rehedge_reaches thin_state_2 [kink_underlying (7819 / 1000)] [kink_call]
      []).trade_underlying_callback = some (fun _ _ _ => true) := hcb
  have habs : |(19 / 400 : ℚ)| = 19 / 400 := abs_of_pos (by norm_num)
  have habs2 : |(119 / 1000 : ℚ)| = 119 / 1000 := abs_of_pos (by norm_num)
  obtain ⟨underlying, -, -, h⟩ := C36_rehedge_residual
    (rehedge_reaches thin_state_2 [kink_underlying (7819 / 1000)] [kink_call] [])
    (kink_underlying (7819 / 1000)) (fun _ _ _ => true)
    (by rw [hlast']; norm_num [GAMMA_SCALP_TH, kink_underlying, habs2])
    (by rw [hnet, habs]; norm_num [HEDGE_TH])
    hcb' rfl
  exact h

/-! ## Last recorded prices on runs with distinct underlying ids -/

theorem last_prices_of_hedging {m m' : MarketMaker} (hf : only_hedging_changed m m')
    (h : distinct_underlying_ids m.underlying_state ∧ last_prices_current m) :
    distinct_underlying_ids m'.underlying_state ∧ last_prices_current m' := by
  unfold last_prices_current at *
  rw [hedging_keeps_underlying_state hf, hedging_keeps_last_underlying_prices hf]
  exact h

theorem price_option_last_prices (m : MarketMaker) (option : OptionContract)
    (h : distinct_underlying_ids m.underlying_state ∧ last_prices_current m) :
    distinct_underlying_ids (price_option m option).2.underlying_state
      ∧ last_prices_current (price_option m option).2 := by
  cases hfind : find_underlying m option.underlying_id with
  | none =>
    have e : price_option m option = (0, m) := by
      unfold price_option; rw [hfind]
    rw [e]
    exact h
  | some underlying =>
    obtain ⟨hmem, -⟩ := find_underlying_mem hfind
    by_cases hn : option.steps_until_expiry = 0
    · have e : price_option m option
          = (option.expiry_valuation underlying.valuation, m) := by
        unfold price_option; rw [hfind]; simp only [hn, if_true]
      rw [e]
      exact h
    · cases hc : cache_find m.price_cache
          (cache_key_string option.option_id underlying.valuation) with
      | some greeks =>
        rw [price_option_hit m option underlying greeks hfind hn hc]
        exact h
      | none =>
        rw [price_option_miss_full m option underlying hfind hn hc
          (fun s hs => h.2 underlying hmem s hs)]
        unfold price_option_full
        refine ⟨h.1, ?_⟩
        intro u' hu' s hs
        simp only [] at hs
        by_cases hid : u'.underlying_id = underlying.underlying_id
        · have hu'' : u' = underlying := eq_of_mem_of_id_eq h.1 hmem hu' hid
          rw [hid, Function.update_same] at hs
          rw [hu'']
          exact (Option.some.inj hs).symm
        · rw [Function.update_noteq hid] at hs
          exact h.2 u' hu' s hs

theorem portfolio_value_step_last_prices (acc : ℚ × MarketMaker) (option : OptionContract)
    (h : distinct_underlying_ids acc.2.underlying_state ∧ last_prices_current acc.2) :
    distinct_underlying_ids (portfolio_value_option_step acc option).2.underlying_state
      ∧ last_prices_current (portfolio_value_option_step acc option).2 := by
  unfold portfolio_value_option_step
  split
  · exact h
  · split_ifs
    · exact price_option_last_prices _ _ h
    · exact h

theorem check_risk_limit_last_prices (m : MarketMaker)
    (h : distinct_underlying_ids m.underlying_state ∧ last_prices_current m) :
    distinct_underlying_ids (check_risk_limit m).2.underlying_state
      ∧ last_prices_current (check_risk_limit m).2 := by
  have hv : distinct_underlying_ids (portfolio_value m).2.underlying_state
      ∧ last_prices_current (portfolio_value m).2 := by
    unfold portfolio_value
    exact foldl_inv
      (fun s => distinct_underlying_ids s.underlying_state ∧ last_prices_current s)
      portfolio_value_option_step portfolio_value_step_last_prices
      m.active_option_state (m.pnl, m) h
  unfold check_risk_limit
  simp only []
  split_ifs
  · exact hv
  · exact hv
  · exact hv

theorem make_market_last_prices (m : MarketMaker) (option : OptionContract)
    (h : distinct_underlying_ids m.underlying_state ∧ last_prices_current m) :
    distinct_underlying_ids (make_market m option).2.underlying_state
      ∧ last_prices_current (make_market m option).2 := by
  have h1 := check_risk_limit_last_prices m h
  unfold make_market
  simp only []
  split_ifs
  · exact h1
  · have h2 := price_option_last_prices (check_risk_limit m).2 option h1
    unfold make_market_quote
    simp only []
    split
    · exact h2
    · rename_i underlying hfind
      have h3 := last_prices_of_hedging
        (get_greeks_frame (price_option (check_risk_limit m).2 option).2 option
          underlying).to_hedging h2
      split_ifs <;> exact h3

theorem on_step_advance_last_prices (m : MarketMaker) (us : List Underlying)
    (os : List OptionContract) (hus : distinct_underlying_ids us) :
    distinct_underlying_ids (on_step_advance m us os).underlying_state
      ∧ last_prices_current (on_step_advance m us os) := by
  have hf := rehedge_frame us
    { m with
      underlying_state := us
      active_option_state := os
      price_cache := prune_ceiling (prune_inactive m.price_cache os) }
  have hst := hedging_keeps_underlying_state hf
  unfold on_step_advance last_prices_current
  simp only []
  refine ⟨?_, ?_⟩
  · simp only [hst]
    exact hus
  · intro u hu s hs
    simp only [hst] at hu hs
    rw [refresh_mem us hus u hu] at hs
    exact (Option.some.inj hs).symm

theorem apply_last_prices (m : MarketMaker) (a : Action)
    (h : distinct_underlying_ids m.underlying_state ∧ last_prices_current m)
    (ha : a.distinct_underlying_ids) :
    distinct_underlying_ids (a.apply m).underlying_state ∧ last_prices_current (a.apply m) := by
  cases a with
  | make_market option => exact make_market_last_prices m option h
  | price_option option => exact price_option_last_prices m option h
  | on_bid_hit option bid_price =>
    have h0 : distinct_underlying_ids
        ({ m with
          position := m.position.add_option_quantity option.option_id 1
          pnl := m.pnl + bid_price } : MarketMaker).underlying_state
        ∧ last_prices_current
          { m with
            position := m.position.add_option_quantity option.option_id 1
            pnl := m.pnl + bid_price } := h
    exact last_prices_of_hedging (delta_hedge_post_trade_frame _ option 1) h0
  | on_offer_hit option offer_price =>
    have h0 : distinct_underlying_ids
        ({ m with
          position := m.position.add_option_quantity option.option_id (-1)
          pnl := m.pnl - offer_price } : MarketMaker).underlying_state
        ∧ last_prices_current
          { m with
            position := m.position.add_option_quantity option.option_id (-1)
            pnl := m.pnl - offer_price } := h
    exact last_prices_of_hedging (delta_hedge_post_trade_frame _ option (-1)) h0
  | on_step_advance us os => exact on_step_advance_last_prices m us os ha
  | register_callback callback => exact h

theorem run_last_prices (actions : List Action) :
    ∀ m : MarketMaker,
      distinct_underlying_ids m.underlying_state ∧ last_prices_current m →
      (∀ a ∈ actions, a.distinct_underlying_ids) →
      distinct_underlying_ids (run m actions).underlying_state
        ∧ last_prices_current (run m actions) := by
  induction actions with
  | nil => intro m h _; exact h
  | cons a as ih =>
    intro m h ha
    unfold run at *
    rw [List.foldl_cons]
    exact ih _ (apply_last_prices m a h (ha a (List.mem_cons_self _ _)))
      (fun b hb => ha b (List.mem_cons_of_mem _ hb))

theorem no_taylor_of_last_prices (m : MarketMaker) (option : OptionContract)
    (h : last_prices_current m) : ¬ takes_taylor_branch m option := by
  rintro ⟨underlying, last_price, old, hfind, -, -, hl, hne, -, -⟩
  exact hne (h underlying (find_underlying_mem hfind).1 last_price hl)

theorem enters_price_option_last_prices (m : MarketMaker) (a : Action) (s : MarketMaker)
    (h : distinct_underlying_ids m.underlying_state ∧ last_prices_current m)
    (hs : enters_price_option m a s) :
    distinct_underlying_ids s.underlying_state ∧ last_prices_current s := by
  cases a with
  | price_option option =>
    have e : s = m := hs
    rw [e]
    exact h
  | make_market option =>
    rcases hs with ⟨pre, post, -, e⟩ | e
    · rw [e]
      exact foldl_inv
        (fun s => distinct_underlying_ids s.underlying_state ∧ last_prices_current s)
        portfolio_value_option_step portfolio_value_step_last_prices pre (m.pnl, m) h
    · rw [e]
      exact check_risk_limit_last_prices m h
  | on_bid_hit option bid_price => exact absurd hs (fun x => x)
  | on_offer_hit option offer_price => exact absurd hs (fun x => x)
  | on_step_advance us os => exact absurd hs (fun x => x)
  | register_callback callback => exact absurd hs (fun x => x)
/-! ## Crossed and uncrossed quotes -/

theorem cache_find_cons_self (cache : List (CacheKey × Greeks)) (key : CacheKey)
    (greeks : Greeks) : cache_find ((key, greeks) :: cache) key = some greeks := by
  simp [cache_find, List.lookup]

theorem throws_foreign_congr (foreign : ForeignThrow) (m m' : MarketMaker)
    (hc : m'.trade_underlying_callback = m.trade_underlying_callback)
    (hl : m'.callback_log = m.callback_log) (uid : ℤ) (q : ℚ) :
    throws_foreign foreign m' uid q = throws_foreign foreign m uid q := by
  unfold throws_foreign
  rw [hc, hl]

theorem throws_only_std_congr (foreign : ForeignThrow) {m m' : MarketMaker}
    (hc : m'.trade_underlying_callback = m.trade_underlying_callback)
    (h : throws_only_std foreign m) : throws_only_std foreign m' := by
  intro log uid q
  rw [← h log uid q]
  exact throws_foreign_congr foreign { m with callback_log := log }
    { m' with callback_log := log } hc rfl uid q

theorem throws_only_std_apply (foreign : ForeignThrow) (m : MarketMaker)
    (h : throws_only_std foreign m) (uid : ℤ) (q : ℚ) :
    throws_foreign foreign m uid q = false := by
  rw [← h m.callback_log uid q]

theorem throws_only_std_of_unregistered (foreign : ForeignThrow) (m : MarketMaker)
    (h : m.trade_underlying_callback = none) : throws_only_std foreign m := by
  intro log uid q
  unfold throws_foreign
  simp only [h]

theorem throws_only_std_of_never (m : MarketMaker) :
    throws_only_std (fun _ _ _ => false) m := by
  intro log uid q
  unfold throws_foreign
  cases m.trade_underlying_callback <;> simp

theorem exec_delta_hedge_exn_state (foreign : ForeignThrow) (m : MarketMaker) (uid : ℤ)
    (target : ℚ) :
    (exec_delta_hedge_exn foreign m uid target).2 = exec_delta_hedge m uid target := by
  unfold exec_delta_hedge_exn exec_delta_hedge
  simp only []
  split_ifs
  · rfl
  · split <;> rfl
  · split <;> rfl

theorem exec_delta_hedge_exn_std (foreign : ForeignThrow) (m : MarketMaker) (uid : ℤ)
    (target : ℚ) (h : throws_only_std foreign m) :
    (exec_delta_hedge_exn foreign m uid target).1 = false := by
  have h1 : ∀ q, throws_foreign foreign
      { m with hedge_pos := Function.update m.hedge_pos uid (some ((m.hedge_pos uid).getD 0)) }
      uid q = false :=
    fun q => throws_only_std_apply foreign _ (throws_only_std_congr foreign rfl h) uid q
  have hb : ∀ q, buy_underlying_throws_foreign foreign
      { m with hedge_pos := Function.update m.hedge_pos uid (some ((m.hedge_pos uid).getD 0)) }
      uid q = false := by
    intro q
    unfold buy_underlying_throws_foreign
    split_ifs
    · rfl
    · exact h1 _
  have hs : ∀ q, sell_underlying_throws_foreign foreign
      { m with hedge_pos := Function.update m.hedge_pos uid (some ((m.hedge_pos uid).getD 0)) }
      uid q = false := by
    intro q
    unfold sell_underlying_throws_foreign
    split_ifs
    · rfl
    · exact h1 _
  unfold exec_delta_hedge_exn
  simp only []
  split_ifs
  · rfl
  · split
    · exact hs _
    · rfl
  · split
    · exact hb _
    · rfl

theorem delta_hedge_post_trade_exn_state (foreign : ForeignThrow) (m : MarketMaker)
    (option : OptionContract) (q : ℤ) :
    (delta_hedge_post_trade_exn foreign m option q).2 = delta_hedge_post_trade m option q := by
  unfold delta_hedge_post_trade_exn delta_hedge_post_trade
  split
  · rfl
  · simp only []
    split_ifs
    · exact exec_delta_hedge_exn_state foreign _ _ _
    · rfl

theorem delta_hedge_post_trade_exn_std (foreign : ForeignThrow) (m : MarketMaker)
    (option : OptionContract) (q : ℤ) (h : throws_only_std foreign m) :
    (delta_hedge_post_trade_exn foreign m option q).1 = false := by
  unfold delta_hedge_post_trade_exn
  split
  · rfl
  · rename_i underlying _
    simp only []
    split_ifs
    · apply exec_delta_hedge_exn_std
      apply throws_only_std_congr foreign _ h
      rw [cache_keeps_trade_underlying_callback (portfolio_delta_frame _ _)]
      show (get_greeks m option underlying).2.trade_underlying_callback = _
      exact cache_keeps_trade_underlying_callback (get_greeks_frame m option underlying)
    · rfl

theorem on_bid_hit_exn_state (foreign : ForeignThrow) (m : MarketMaker)
    (option : OptionContract) (bid_price : ℚ) :
    (on_bid_hit_exn foreign m option bid_price).2 = on_bid_hit m option bid_price :=
  delta_hedge_post_trade_exn_state foreign _ option 1

theorem on_offer_hit_exn_state (foreign : ForeignThrow) (m : MarketMaker)
    (option : OptionContract) (offer_price : ℚ) :
    (on_offer_hit_exn foreign m option offer_price).2 = on_offer_hit m option offer_price :=
  delta_hedge_post_trade_exn_state foreign _ option (-1)

theorem on_bid_hit_exn_std (foreign : ForeignThrow) (m : MarketMaker)
    (option : OptionContract) (bid_price : ℚ) (h : throws_only_std foreign m) :
    (on_bid_hit_exn foreign m option bid_price).1 = false :=
  delta_hedge_post_trade_exn_std foreign _ option 1 (throws_only_std_congr foreign rfl h)

theorem on_offer_hit_exn_std (foreign : ForeignThrow) (m : MarketMaker)
    (option : OptionContract) (offer_price : ℚ) (h : throws_only_std foreign m) :
    (on_offer_hit_exn foreign m option offer_price).1 = false :=
  delta_hedge_post_trade_exn_std foreign _ option (-1) (throws_only_std_congr foreign rfl h)

theorem rehedge_trade_exn_state (foreign : ForeignThrow) (m : MarketMaker) (uid : ℤ)
    (trade : ℚ) :
    (rehedge_trade_exn foreign m uid trade).2 = rehedge_trade m uid trade := by
  unfold rehedge_trade_exn rehedge_trade
  simp only []
  split_ifs
  · split <;> rfl
  · split <;> rfl

theorem rehedge_trade_exn_std (foreign : ForeignThrow) (m : MarketMaker) (uid : ℤ)
    (trade : ℚ) (h : throws_only_std foreign m) :
    (rehedge_trade_exn foreign m uid trade).1 = false := by
  have h1 : ∀ q, throws_foreign foreign
      { m with hedge_pos := Function.update m.hedge_pos uid (some ((m.hedge_pos uid).getD 0)) }
      uid q = false :=
    fun q => throws_only_std_apply foreign _ (throws_only_std_congr foreign rfl h) uid q
  have hb : ∀ q, buy_underlying_throws_foreign foreign
      { m with hedge_pos := Function.update m.hedge_pos uid (some ((m.hedge_pos uid).getD 0)) }
      uid q = false := by
    intro q
    unfold buy_underlying_throws_foreign
    split_ifs
    · rfl
    · exact h1 _
  have hs : ∀ q, sell_underlying_throws_foreign foreign
      { m with hedge_pos := Function.update m.hedge_pos uid (some ((m.hedge_pos uid).getD 0)) }
      uid q = false := by
    intro q
    unfold sell_underlying_throws_foreign
    split_ifs
    · rfl
    · exact h1 _
  unfold rehedge_trade_exn
  simp only []
  split_ifs
  · split
    · exact hb _
    · rfl
  · split
    · exact hs _
    · rfl

theorem rehedge_step_exn_skip (foreign : ForeignThrow) (m : MarketMaker) (u : Underlying)
    (hstill : |u.valuation - (m.last_underlying_prices u.underlying_id).getD u.valuation|
      < GAMMA_SCALP_TH) :
    rehedge_step_exn foreign m u = (false, m) := by
  unfold rehedge_step_exn
  simp only []
  cases hlp : m.last_underlying_prices u.underlying_id with
  | none =>
    rw [hlp] at hstill
    simp only [Option.getD_none] at hstill
    simp only []
    rw [if_pos hstill]
  | some last =>
    rw [hlp] at hstill
    simp only [Option.getD_some] at hstill
    simp only []
    rw [if_pos hstill]

theorem rehedge_step_exn_eq (foreign : ForeignThrow) (m : MarketMaker) (u : Underlying)
    (hmove : GAMMA_SCALP_TH
      ≤ |u.valuation - (m.last_underlying_prices u.underlying_id).getD u.valuation|) :
    rehedge_step_exn foreign m u
      = if (if |(portfolio_delta m u.underlying_id).1| > HEDGE_TH then
              rehedge_trade_exn foreign (portfolio_delta m u.underlying_id).2 u.underlying_id
                (portfolio_delta m u.underlying_id).1
            else (false, (portfolio_delta m u.underlying_id).2)).1 = true then
          (true,
            (if |(portfolio_delta m u.underlying_id).1| > HEDGE_TH then
              rehedge_trade_exn foreign (portfolio_delta m u.underlying_id).2 u.underlying_id
                (portfolio_delta m u.underlying_id).1
            else (false, (portfolio_delta m u.underlying_id).2)).2)
        else
          (false,
            { (if |(portfolio_delta m u.underlying_id).1| > HEDGE_TH then
                rehedge_trade_exn foreign (portfolio_delta m u.underlying_id).2 u.underlying_id
                  (portfolio_delta m u.underlying_id).1
              else (false, (portfolio_delta m u.underlying_id).2)).2 with
              last_hedge :=
                Function.update
                  (if |(portfolio_delta m u.underlying_id).1| > HEDGE_TH then
                    rehedge_trade_exn foreign (portfolio_delta m u.underlying_id).2
                      u.underlying_id (portfolio_delta m u.underlying_id).1
                  else (false, (portfolio_delta m u.underlying_id).2)).2.last_hedge
                  u.underlying_id (some u.valuation) }) := by
  unfold rehedge_step_exn
  simp only []
  cases hlp : m.last_underlying_prices u.underlying_id with
  | none =>
    rw [hlp] at hmove
    simp only [Option.getD_none] at hmove
    simp only []
    rw [if_neg (not_lt.mpr hmove)]
  | some last =>
    rw [hlp] at hmove
    simp only [Option.getD_some] at hmove
    simp only []
    rw [if_neg (not_lt.mpr hmove)]

theorem rehedge_step_exn_returns (foreign : ForeignThrow) (m : MarketMaker) (u : Underlying)
    (h : (rehedge_step_exn foreign m u).1 = false) :
    (rehedge_step_exn foreign m u).2 = rehedge_step m u := by
  by_cases hmove : GAMMA_SCALP_TH
      ≤ |u.valuation - (m.last_underlying_prices u.underlying_id).getD u.valuation|
  · rw [rehedge_step_exn_eq foreign m u hmove] at h ⊢
    rw [rehedge_step_eq m u hmove]
    by_cases h2 : |(portfolio_delta m u.underlying_id).1| > HEDGE_TH
    · rw [if_pos h2] at h ⊢
      rw [if_pos h2]
      by_cases h3 : (rehedge_trade_exn foreign (portfolio_delta m u.underlying_id).2
          u.underlying_id (portfolio_delta m u.underlying_id).1).1 = true
      · rw [if_pos h3] at h
        cases h
      · rw [if_neg h3]
        simp only []
        rw [rehedge_trade_exn_state]
    · rw [if_neg h2]
      rw [if_neg h2]
      simp
  · rw [rehedge_step_exn_skip foreign m u (not_le.mp hmove),
      rehedge_step_skip m u (not_le.mp hmove)]

theorem rehedge_step_exn_std (foreign : ForeignThrow) (m : MarketMaker) (u : Underlying)
    (hstd : throws_only_std foreign m) :
    (rehedge_step_exn foreign m u).1 = false := by
  by_cases hmove : GAMMA_SCALP_TH
      ≤ |u.valuation - (m.last_underlying_prices u.underlying_id).getD u.valuation|
  · rw [rehedge_step_exn_eq foreign m u hmove]
    have hs : throws_only_std foreign (portfolio_delta m u.underlying_id).2 :=
      throws_only_std_congr foreign
        (cache_keeps_trade_underlying_callback (portfolio_delta_frame m u.underlying_id)) hstd
    by_cases h2 : |(portfolio_delta m u.underlying_id).1| > HEDGE_TH
    · rw [if_pos h2, rehedge_trade_exn_std foreign _ _ _ hs]
      simp
    · rw [if_neg h2]
      simp
  · rw [rehedge_step_exn_skip foreign m u (not_le.mp hmove)]

theorem rehedge_exn_returns (foreign : ForeignThrow) (us : List Underlying) :
    ∀ m : MarketMaker, (rehedge_exn foreign m us).1 = false →
      (rehedge_exn foreign m us).2 = rehedge m us := by
  induction us with
  | nil => intro m _; rfl
  | cons u us ih =>
    intro m h
    unfold rehedge_exn at h ⊢
    simp only [] at h ⊢
    by_cases h1 : (rehedge_step_exn foreign m u).1 = true
    · rw [if_pos h1] at h
      cases h
    · rw [if_neg h1] at h ⊢
      have h1' : (rehedge_step_exn foreign m u).1 = false := by
        cases hb : (rehedge_step_exn foreign m u).1
        · rfl
        · exact absurd hb h1
      rw [ih _ h, rehedge_step_exn_returns foreign m u h1']
      unfold rehedge
      rw [List.foldl_cons]

theorem rehedge_exn_std (foreign : ForeignThrow) (us : List Underlying) :
    ∀ m : MarketMaker, throws_only_std foreign m → (rehedge_exn foreign m us).1 = false := by
  induction us with
  | nil => intro m _; rfl
  | cons u us ih =>
    intro m hstd
    have h1 := rehedge_step_exn_std foreign m u hstd
    unfold rehedge_exn
    simp only []
    rw [if_neg (by rw [h1]; simp)]
    apply ih
    rw [rehedge_step_exn_returns foreign m u h1]
    exact throws_only_std_congr foreign
      (hedging_keeps_trade_underlying_callback (rehedge_step_frame m u)) hstd

theorem on_step_advance_exn_returns (foreign : ForeignThrow) (m : MarketMaker)
    (us : List Underlying) (os : List OptionContract)
    (h : (on_step_advance_exn foreign m us os).1 = false) :
    (on_step_advance_exn foreign m us os).2 = on_step_advance m us os := by
  unfold on_step_advance_exn at h ⊢
  unfold on_step_advance
  simp only [] at h ⊢
  by_cases h1 : (rehedge_exn foreign
      { m with
        underlying_state := us
        active_option_state := os
        price_cache := prune_ceiling (prune_inactive m.price_cache os) } us).1 = true
  · rw [if_pos h1] at h
    cases h
  · rw [if_neg h1]
    have h1' : (rehedge_exn foreign
        { m with
          underlying_state := us
          active_option_state := os
          price_cache := prune_ceiling (prune_inactive m.price_cache os) } us).1 = false := by
      cases hb : (rehedge_exn foreign
        { m with
          underlying_state := us
          active_option_state := os
          price_cache := prune_ceiling (prune_inactive m.price_cache os) } us).1
      · rfl
      · exact absurd hb h1
    simp only []
    rw [rehedge_exn_returns foreign us _ h1']

theorem on_step_advance_exn_std (foreign : ForeignThrow) (m : MarketMaker)
    (us : List Underlying) (os : List OptionContract) (hstd : throws_only_std foreign m) :
    (on_step_advance_exn foreign m us os).1 = false := by
  have h1 := rehedge_exn_std foreign us
    { m with
      underlying_state := us
      active_option_state := os
      price_cache := prune_ceiling (prune_inactive m.price_cache os) }
    (throws_only_std_congr foreign rfl hstd)
  unfold on_step_advance_exn
  simp only []
  rw [if_neg (by rw [h1]; simp)]

theorem apply_exn_state (foreign : ForeignThrow) (m : MarketMaker) (a : Action)
    (h : a.is_step_advance = true → (a.apply_exn foreign m).1 = false) :
    (a.apply_exn foreign m).2 = a.apply m := by
  cases a with
  | make_market option => rfl
  | price_option option => rfl
  | on_bid_hit option bid_price => exact on_bid_hit_exn_state foreign m option bid_price
  | on_offer_hit option offer_price => exact on_offer_hit_exn_state foreign m option offer_price
  | on_step_advance us os => exact on_step_advance_exn_returns foreign m us os (h rfl)
  | register_callback callback => rfl

theorem apply_exn_std (foreign : ForeignThrow) (m : MarketMaker) (a : Action)
    (hstd : throws_only_std foreign m) : (a.apply_exn foreign m).1 = false := by
  cases a with
  | make_market option => rfl
  | price_option option => rfl
  | on_bid_hit option bid_price => exact on_bid_hit_exn_std foreign m option bid_price hstd
  | on_offer_hit option offer_price =>
    exact on_offer_hit_exn_std foreign m option offer_price hstd
  | on_step_advance us os => exact on_step_advance_exn_std foreign m us os hstd
  | register_callback callback => rfl

theorem run_exn_eq_run (foreign : ForeignThrow) (actions : List Action) :
    ∀ m : MarketMaker, step_advances_return foreign m actions →
      run_exn foreign m actions = run m actions := by
  induction actions with
  | nil => intro m _; rfl
  | cons a as ih =>
    intro m h
    obtain ⟨h1, h2⟩ := h
    have e := apply_exn_state foreign m a h1
    unfold run_exn run at *
    rw [List.foldl_cons, List.foldl_cons]
    rw [e] at h2 ⊢
    exact ih _ h2

theorem step_advances_return_of_std (foreign : ForeignThrow)
    (hstd : ∀ m : MarketMaker, throws_only_std foreign m) (actions : List Action) :
    ∀ m : MarketMaker, step_advances_return foreign m actions := by
  induction actions with
  | nil => intro m; trivial
  | cons a as ih =>
    intro m
    exact ⟨fun _ => apply_exn_std foreign m a (hstd m), ih _⟩

/-! ## The option position ledger on a 32-bit counter -/

theorem rehedge_step_exn_frame (foreign : ForeignThrow) (m : MarketMaker) (u : Underlying) :
    only_hedging_changed m (rehedge_step_exn foreign m u).2 := by
  by_cases h : (rehedge_step_exn foreign m u).1 = true
  · by_cases hmove : GAMMA_SCALP_TH
        ≤ |u.valuation - (m.last_underlying_prices u.underlying_id).getD u.valuation|
    · rw [rehedge_step_exn_eq foreign m u hmove] at h ⊢
      have hd := (portfolio_delta_frame m u.underlying_id).to_hedging
      by_cases hin : (if |(portfolio_delta m u.underlying_id).1| > HEDGE_TH then
              rehedge_trade_exn foreign (portfolio_delta m u.underlying_id).2 u.underlying_id
                (portfolio_delta m u.underlying_id).1
            else (false, (portfolio_delta m u.underlying_id).2)).1 = true
      · rw [if_pos hin]
        by_cases h2 : |(portfolio_delta m u.underlying_id).1| > HEDGE_TH
        · rw [if_pos h2]
          simp only []
          rw [rehedge_trade_exn_state]
          exact only_hedging_changed_trans hd (rehedge_trade_frame _ _ _)
        · rw [if_neg h2]
          exact hd
      · rw [if_neg hin] at h
        cases h
    · rw [rehedge_step_exn_skip foreign m u (not_le.mp hmove)] at h
      cases h
  · have h' : (rehedge_step_exn foreign m u).1 = false := by
      cases hb : (rehedge_step_exn foreign m u).1
      · rfl
      · exact absurd hb h
    rw [rehedge_step_exn_returns foreign m u h']
    exact rehedge_step_frame m u

theorem rehedge_exn_frame (foreign : ForeignThrow) (us : List Underlying) :
    ∀ m : MarketMaker, only_hedging_changed m (rehedge_exn foreign m us).2 := by
  induction us with
  | nil => intro m; exact only_hedging_changed_refl m
  | cons u us ih =>
    intro m
    unfold rehedge_exn
    simp only []
    split_ifs
    · exact rehedge_step_exn_frame foreign m u
    · exact only_hedging_changed_trans (rehedge_step_exn_frame foreign m u) (ih _)

theorem on_step_advance_exn_option_quantity (foreign : ForeignThrow) (m : MarketMaker)
    (us : List Underlying) (os : List OptionContract) :
    (on_step_advance_exn foreign m us os).2.position.option_quantity_by_option_id
      = m.position.option_quantity_by_option_id := by
  unfold on_step_advance_exn
  simp only []
  split_ifs
  · show (rehedge_exn foreign _ us).2.position.option_quantity_by_option_id = _
    rw [hedging_keeps_option_quantity (rehedge_exn_frame foreign us _)]
  · show (rehedge_exn foreign _ us).2.position.option_quantity_by_option_id = _
    rw [hedging_keeps_option_quantity (rehedge_exn_frame foreign us _)]

theorem apply_exn_option_quantity (foreign : ForeignThrow) (m : MarketMaker) (a : Action) :
    (a.apply_exn foreign m).2.position.option_quantity_by_option_id
      = (a.apply m).position.option_quantity_by_option_id := by
  cases a with
  | make_market option => rfl
  | price_option option => rfl
  | on_bid_hit option bid_price =>
    show (on_bid_hit_exn foreign m option bid_price).2.position.option_quantity_by_option_id = _
    rw [on_bid_hit_exn_state]
    rfl
  | on_offer_hit option offer_price =>
    show (on_offer_hit_exn foreign m option offer_price).2.position.option_quantity_by_option_id
      = _
    rw [on_offer_hit_exn_state]
    rfl
  | on_step_advance us os =>
    show (on_step_advance_exn foreign m us os).2.position.option_quantity_by_option_id
      = (on_step_advance m us os).position.option_quantity_by_option_id
    rw [on_step_advance_exn_option_quantity, on_step_advance_option_quantity]
  | register_callback callback => rfl

theorem run_exn_option_quantity (foreign : ForeignThrow) (id : ℤ) (actions : List Action) :
    ∀ m : MarketMaker,
      wrap_int32 ((m.position.option_quantity_by_option_id id).getD 0)
        = (m.position.option_quantity_by_option_id id).getD 0 →
      ((run_exn foreign m actions).position.option_quantity_by_option_id id).getD 0
        = wrap_int32 ((m.position.option_quantity_by_option_id id).getD 0
            + (actions.countP (Action.is_bid_hit_on id) : ℤ)
            - (actions.countP (Action.is_offer_hit_on id) : ℤ)) := by
  induction actions with
  | nil =>
    intro m hw
    simp only [run_exn, List.foldl_nil, List.countP_nil, Nat.cast_zero, add_zero, sub_zero]
    exact hw.symm
  | cons a as ih =>
    intro m hw
    have hrun : run_exn foreign m (a :: as) = run_exn foreign (a.apply_exn foreign m).2 as :=
      rfl
    have ha : (((a.apply_exn foreign m).2).position.option_quantity_by_option_id id).getD 0
        = wrap_int32 ((m.position.option_quantity_by_option_id id).getD 0
          + (if a.is_bid_hit_on id = true then 1 else 0)
          - (if a.is_offer_hit_on id = true then 1 else 0)) := by
      rw [apply_exn_option_quantity]
      exact apply_option_quantity m a id hw
    rw [hrun, ih _ (by rw [ha, wrap_int32_idem]), ha, List.countP_cons,
      List.countP_cons, add_sub_assoc, wrap_int32_add]
    congr 1
    push_cast
    split_ifs <;> ring

theorem countP_replicate_bid_hit (option : OptionContract) (bid_price : ℚ) (n : ℕ) :
    (List.replicate n (Action.on_bid_hit option bid_price)).countP
        (Action.is_bid_hit_on option.option_id) = n
    ∧ (List.replicate n (Action.on_bid_hit option bid_price)).countP
        (Action.is_offer_hit_on option.option_id) = 0 := by
  induction n with
  | zero => exact ⟨rfl, rfl⟩
  | succ n ih =>
    rw [List.replicate_succ, List.countP_cons, List.countP_cons, ih.1, ih.2]
    simp [Action.is_bid_hit_on, Action.is_offer_hit_on]

/-- C12 (as stated) fails on the 32-bit counter: `Position::add_option_quantity` adds into
an `int`.  After 2^31 = 2147483648 on_bid_hit calls on one option from a fresh engine
(no on_offer_hit), position.options[id] is -2147483648, not 2147483648. -/
theorem C12_counterexample :
    (List.replicate 2147483648 (Action.on_bid_hit scenario_A_call 0)).countP
        (Action.is_bid_hit_on scenario_A_call.option_id) = 2147483648
    ∧ (List.replicate 2147483648 (Action.on_bid_hit scenario_A_call 0)).countP
        (Action.is_offer_hit_on scenario_A_call.option_id) = 0
    ∧ ((run (MarketMaker.new [scenario_underlying] [scenario_A_call])
          (List.replicate 2147483648 (Action.on_bid_hit scenario_A_call 0))
        ).position.option_quantity_by_option_id scenario_A_call.option_id).getD 0
        = -2147483648
    ∧ ¬ (∀ (us : List Underlying) (os : List OptionContract) (actions : List Action) (id : ℤ),
          ((run (MarketMaker.new us os) actions).position.option_quantity_by_option_id
              id).getD 0
            = (actions.countP (Action.is_bid_hit_on id) : ℤ)
                - (actions.countP (Action.is_offer_hit_on id) : ℤ)) := by
  obtain ⟨hb, ho⟩ := countP_replicate_bid_hit scenario_A_call 0 2147483648
  have hrun := run_option_quantity scenario_A_call.option_id
    (List.replicate 2147483648 (Action.on_bid_hit scenario_A_call 0))
    (MarketMaker.new [scenario_underlying] [scenario_A_call])
    (by simp [MarketMaker.new, Position.empty, wrap_int32])
  rw [hb, ho] at hrun
  have hval : ((run (MarketMaker.new [scenario_underlying] [scenario_A_call])
        (List.replicate 2147483648 (Action.on_bid_hit scenario_A_call 0))
      ).position.option_quantity_by_option_id scenario_A_call.option_id).getD 0
      = -2147483648 := by
    rw [hrun]
    simp [MarketMaker.new, Position.empty, wrap_int32]
  refine ⟨hb, ho, hval, ?_⟩
  intro hall
  have h := hall [scenario_underlying] [scenario_A_call]
    (List.replicate 2147483648 (Action.on_bid_hit scenario_A_call 0)) scenario_A_call.option_id
  rw [hval, hb, ho] at h
  norm_num at h

/-- C12 (amended): starting from a fresh engine, after any sequence of make_market,
price_option, on_bid_hit, on_offer_hit and on_step_advance calls (and callback
registrations), whether the trade callback returns, throws a std::exception or throws
another object that leaves the entry point, position.options[id] (0 if absent) is the
number of on_bid_hit calls minus the number of on_offer_hit calls made for that option
id, wrapped into the 32-bit `int` the engine counts in; it equals that number whenever
the number lies in [-2^31, 2^31 - 1]. -/
theorem C12_position_ledger_additivity (foreign : ForeignThrow) (us : List Underlying)
    (os : List OptionContract) (actions : List Action) (id : ℤ) :
    ((run_exn foreign (MarketMaker.new us os) actions).position.option_quantity_by_option_id
        id).getD 0
      = wrap_int32 ((actions.countP (Action.is_bid_hit_on id) : ℤ)
          - (actions.countP (Action.is_offer_hit_on id) : ℤ))
    ∧ (-2147483648 ≤ (actions.countP (Action.is_bid_hit_on id) : ℤ)
          - (actions.countP (Action.is_offer_hit_on id) : ℤ) →
        (actions.countP (Action.is_bid_hit_on id) : ℤ)
          - (actions.countP (Action.is_offer_hit_on id) : ℤ) < 2147483648 →
        ((run_exn foreign (MarketMaker.new us os)
            actions).position.option_quantity_by_option_id id).getD 0
          = (actions.countP (Action.is_bid_hit_on id) : ℤ)
              - (actions.countP (Action.is_offer_hit_on id) : ℤ)) := by
  have h := run_exn_option_quantity foreign id actions (MarketMaker.new us os)
    (by simp [MarketMaker.new, Position.empty, wrap_int32])
  have e : ((MarketMaker.new us os).position.option_quantity_by_option_id id).getD 0 = 0 := rfl
  rw [e, zero_add] at h
  refine ⟨h, fun h1 h2 => ?_⟩
  rw [h, wrap_int32_of_range _ h1 h2]

/-- Witness for C12 (amended): two bid hits and one offer hit on the CALL of Scenario A,
with a quote in between: the position is 1. -/
theorem C12_position_ledger_additivity_witness :
    ((run_exn (fun _ _ _ => true) (MarketMaker.new [scenario_underlying] [scenario_A_call])
        [Action.on_bid_hit scenario_A_call 1, Action.make_market scenario_A_call,
          Action.on_bid_hit scenario_A_call 1,
          Action.on_offer_hit scenario_A_call 1]).position.option_quantity_by_option_id
        scenario_A_call.option_id).getD 0 = 1 := by
  have h := (C12_position_ledger_additivity (fun _ _ _ => true) [scenario_underlying]
    [scenario_A_call]
    [Action.on_bid_hit scenario_A_call 1, Action.make_market scenario_A_call,
      Action.on_bid_hit scenario_A_call 1, Action.on_offer_hit scenario_A_call 1]
    scenario_A_call.option_id).2
    (by simp [Action.is_bid_hit_on, Action.is_offer_hit_on, List.countP_cons])
    (by simp [Action.is_bid_hit_on, Action.is_offer_hit_on, List.countP_cons])
  rw [h]
  simp [Action.is_bid_hit_on, Action.is_offer_hit_on, List.countP_cons]

/-! ## A rehedge trade left by an exception -/

theorem throws_foreign_rejected (foreign : ForeignThrow) (m : MarketMaker) (uid : ℤ) (q : ℚ)
    (callback : TradeCallback)
    (hcb : m.trade_underlying_callback = some callback)
    (hrej : callback m.callback_log uid q = false) :
    throws_foreign foreign m uid q = foreign m.callback_log uid q := by
  unfold throws_foreign
  rw [hcb]
  simp only [hrej, Bool.not_false, Bool.true_and]

theorem rehedge_trade_exn_flag (foreign : ForeignThrow) (m : MarketMaker) (uid : ℤ)
    (trade : ℚ) (callback : TradeCallback) (hbig : HEDGE_TH < |trade|)
    (hcb : m.trade_underlying_callback = some callback)
    (hrej : callback m.callback_log uid trade = false) :
    (rehedge_trade_exn foreign m uid trade).1 = foreign m.callback_log uid trade := by
  have hq := hedge_trade_ne_zero hbig
  unfold rehedge_trade_exn
  simp only []
  split_ifs with hpos
  · have hok' : callback m.callback_log uid |trade| = false := by
      rw [abs_of_pos hpos]; exact hrej
    rw [buy_underlying_rejected
      { m with hedge_pos := Function.update m.hedge_pos uid (some ((m.hedge_pos uid).getD 0)) }
      uid _ callback hq hcb hok']
    simp only []
    unfold buy_underlying_throws_foreign
    rw [if_neg (not_le.mpr hq),
      throws_foreign_rejected foreign
        { m with
          hedge_pos := Function.update m.hedge_pos uid (some ((m.hedge_pos uid).getD 0)) }
        uid _ callback hcb hok', abs_of_pos hpos]
  · have hneg : trade ≤ 0 := not_lt.mp hpos
    have hok' : callback m.callback_log uid (-|trade|) = false := by
      rw [abs_of_nonpos hneg, neg_neg]; exact hrej
    rw [sell_underlying_rejected
      { m with hedge_pos := Function.update m.hedge_pos uid (some ((m.hedge_pos uid).getD 0)) }
      uid _ callback hq hcb hok']
    simp only []
    unfold sell_underlying_throws_foreign
    rw [if_neg (not_le.mpr hq),
      throws_foreign_rejected foreign
        { m with
          hedge_pos := Function.update m.hedge_pos uid (some ((m.hedge_pos uid).getD 0)) }
        uid _ callback hcb hok', abs_of_nonpos hneg, neg_neg]

theorem rehedge_step_exn_escape (foreign : ForeignThrow) (m : MarketMaker) (u : Underlying)
    (callback : TradeCallback)
    (hmove : GAMMA_SCALP_TH
      ≤ |u.valuation - (m.last_underlying_prices u.underlying_id).getD u.valuation|)
    (hbig : HEDGE_TH < |(portfolio_delta m u.underlying_id).1|)
    (hcb : (portfolio_delta m u.underlying_id).2.trade_underlying_callback = some callback)
    (hrej : callback (portfolio_delta m u.underlying_id).2.callback_log u.underlying_id
      (portfolio_delta m u.underlying_id).1 = false)
    (hfor : foreign (portfolio_delta m u.underlying_id).2.callback_log u.underlying_id
      (portfolio_delta m u.underlying_id).1 = true) :
    rehedge_step_exn foreign m u
      = (true,
          { (portfolio_delta m u.underlying_id).2 with
            hedge_pos := Function.update (portfolio_delta m u.underlying_id).2.hedge_pos
              u.underlying_id
              (some (((portfolio_delta m u.underlying_id).2.hedge_pos u.underlying_id).getD 0))
            callback_log := (portfolio_delta m u.underlying_id).2.callback_log
              ++ [(u.underlying_id, (portfolio_delta m u.underlying_id).1, false)] }) := by
  have hflag := rehedge_trade_exn_flag foreign _ u.underlying_id _ callback hbig hcb hrej
  rw [hfor] at hflag
  rw [rehedge_step_exn_eq foreign m u hmove, if_pos hbig, if_pos hflag]
  have hst := rehedge_trade_exn_state foreign (portfolio_delta m u.underlying_id).2
    u.underlying_id (portfolio_delta m u.underlying_id).1
  rw [rehedge_trade_rejected _ u.underlying_id _ callback hbig hcb hrej] at hst
  rw [hst]

theorem on_step_advance_exn_escape (foreign : ForeignThrow) (m : MarketMaker) (u : Underlying)
    (us : List Underlying) (os : List OptionContract)
    (h : (rehedge_step_exn foreign (step_advance_entry m (u :: us) os) u).1 = true) :
    on_step_advance_exn foreign m (u :: us) os
      = (true, (rehedge_step_exn foreign (step_advance_entry m (u :: us) os) u).2) := by
  have hr : rehedge_exn foreign (step_advance_entry m (u :: us) os) (u :: us)
      = (true, (rehedge_step_exn foreign (step_advance_entry m (u :: us) os) u).2) := by
    rw [rehedge_exn]
    rw [if_pos h]
  unfold on_step_advance_exn
  simp only []
  have e : rehedge_exn foreign
      { underlying_state := u :: us, active_option_state := os, position := m.position,
        trade_underlying_callback := m.trade_underlying_callback,
        price_cache := prune_ceiling (prune_inactive m.price_cache os),
        last_underlying_prices := m.last_underlying_prices,
        target_deltas := m.target_deltas, hedge_pos := m.hedge_pos,
        last_hedge := m.last_hedge, pnl := m.pnl, safe_mode := m.safe_mode,
        callback_log := m.callback_log } (u :: us)
      = (true, (rehedge_step_exn foreign (step_advance_entry m (u :: us) os) u).2) := hr
  rw [e]
  simp

/-! ## Failures of the trade callback that are not swallowed -/

theorem rehedge_exn_unrecorded (foreign : ForeignThrow) (us : List Underlying) :
    ∀ m : MarketMaker, (∀ u ∈ us, m.last_underlying_prices u.underlying_id = none) →
      rehedge_exn foreign m us = (false, m) := by
  induction us with
  | nil => intro m _; rfl
  | cons u us ih =>
    intro m h
    have hs : rehedge_step_exn foreign m u = (false, m) := by
      apply rehedge_step_exn_skip
      rw [h u (List.mem_cons_self _ _)]
      norm_num [GAMMA_SCALP_TH]
    rw [rehedge_exn, hs]
    simp only [Bool.false_eq_true, if_false]
    exact ih m (fun v hv => h v (List.mem_cons_of_mem _ hv))

theorem on_step_advance_exn_unrecorded (foreign : ForeignThrow) (m : MarketMaker)
    (us : List Underlying) (os : List OptionContract)
    (h : ∀ u ∈ us, m.last_underlying_prices u.underlying_id = none) :
    on_step_advance_exn foreign m us os = (false, on_step_advance m us os) := by
  have hflag : (on_step_advance_exn foreign m us os).1 = false := by
    have hr := rehedge_exn_unrecorded foreign us (step_advance_entry m us os) h
    unfold on_step_advance_exn
    simp only []
    have e : rehedge_exn foreign
        { underlying_state := us, active_option_state := os, position := m.position,
          trade_underlying_callback := m.trade_underlying_callback,
          price_cache := prune_ceiling (prune_inactive m.price_cache os),
          last_underlying_prices := m.last_underlying_prices,
          target_deltas := m.target_deltas, hedge_pos := m.hedge_pos,
          last_hedge := m.last_hedge, pnl := m.pnl, safe_mode := m.safe_mode,
          callback_log := m.callback_log } us
        = (false, step_advance_entry m us os) := hr
    rw [e]
    simp
  exact Prod.ext hflag (on_step_advance_exn_returns foreign m us os hflag)

theorem pair_state_3_run :
    run_exn (fun _ _ _ => true)
        (MarketMaker.new [pair_underlying 0 (79 / 10), pair_underlying 1 (79 / 10)]
          [pair_call 0, pair_call 1])
        [Action.register_callback (fun _ _ _ => false),
          Action.on_step_advance [pair_underlying 0 (79 / 10), pair_underlying 1 (79 / 10)]
            [pair_call 0, pair_call 1],
          Action.on_bid_hit (pair_call 0) 0, Action.on_bid_hit (pair_call 1) 0]
      = pair_state_3 := by
  show (on_bid_hit_exn (fun _ _ _ => true)
      (on_bid_hit_exn (fun _ _ _ => true)
        (on_step_advance_exn (fun _ _ _ => true) pair_state_0
          [pair_underlying 0 (79 / 10), pair_underlying 1 (79 / 10)]
          [pair_call 0, pair_call 1]).2 (pair_call 0) 0).2 (pair_call 1) 0).2 = pair_state_3
  rw [on_step_advance_exn_unrecorded _ _ _ _ (fun u _ => rfl), on_bid_hit_exn_state,
    on_bid_hit_exn_state]
  rfl

theorem pair_step_escape :
    on_step_advance_exn (fun _ _ _ => true) pair_state_3
        [pair_underlying 0 8, pair_underlying 1 8] [pair_call 0, pair_call 1]
      = (true,
          { (portfolio_delta
                (step_advance_entry pair_state_3 [pair_underlying 0 8, pair_underlying 1 8]
                  [pair_call 0, pair_call 1]) 0).2 with
            hedge_pos := Function.update pair_state_3.hedge_pos 0 (some 0)
            callback_log := pair_state_3.callback_log ++ [(0, 1 / 2, false)] }) := by
  obtain ⟨hA, hcb, hp0, hp1, hh, hlast, hlog, hcache⟩ := pair_state_3_facts
  obtain ⟨hnet0, -, -⟩ := pair_state_4_facts
  have hE : rehedge_reaches pair_state_3 [pair_underlying 0 8, pair_underlying 1 8]
      [pair_call 0, pair_call 1] []
      = step_advance_entry pair_state_3 [pair_underlying 0 8, pair_underlying 1 8]
          [pair_call 0, pair_call 1] := by
    unfold rehedge_reaches rehedge
    rw [List.foldl_nil]
  rw [hE] at hnet0
  have hid : (pair_underlying 0 8).underlying_id = 0 := rfl
  rw [hid] at hnet0
  have hfr := portfolio_delta_frame
    (step_advance_entry pair_state_3 [pair_underlying 0 8, pair_underlying 1 8]
      [pair_call 0, pair_call 1]) 0
  have hcb' : (portfolio_delta
      (step_advance_entry pair_state_3 [pair_underlying 0 8, pair_underlying 1 8]
        [pair_call 0, pair_call 1]) 0).2.trade_underlying_callback
      = some (fun _ _ _ => false) := by
    rw [cache_keeps_trade_underlying_callback hfr]
    exact hcb
  have hlog' : (portfolio_delta
      (step_advance_entry pair_state_3 [pair_underlying 0 8, pair_underlying 1 8]
        [pair_call 0, pair_call 1]) 0).2.callback_log = pair_state_3.callback_log := by
    rw [cache_keeps_callback_log hfr]
    rfl
  have hhp' : (portfolio_delta
      (step_advance_entry pair_state_3 [pair_underlying 0 8, pair_underlying 1 8]
        [pair_call 0, pair_call 1]) 0).2.hedge_pos = pair_state_3.hedge_pos := by
    rw [cache_keeps_hedge_pos hfr]
    rfl
  have hstep := rehedge_step_exn_escape (fun _ _ _ => true)
    (step_advance_entry pair_state_3 [pair_underlying 0 8, pair_underlying 1 8]
      [pair_call 0, pair_call 1]) (pair_underlying 0 8) (fun _ _ _ => false)
    (by show GAMMA_SCALP_TH ≤ |(8 : ℚ) - (pair_state_3.last_underlying_prices 0).getD 8|
        rw [hlast]
        norm_num [GAMMA_SCALP_TH, abs_of_pos])
    (by rw [hid, hnet0, abs_of_pos (by norm_num)]
        norm_num [HEDGE_TH])
    (by rw [hid]; exact hcb') rfl rfl
  rw [hid, hnet0, hlog', hhp'] at hstep
  have h0 : (pair_state_3.hedge_pos 0).getD 0 = 0 := by
    rw [hh]
    simp
  rw [h0] at hstep
  rw [on_step_advance_exn_escape _ _ _ _ _ (by rw [hstep]), hstep]

/-- C24 (as stated) fails for a callback that throws an object which is not a
std::exception.  The engine holds one CALL on each of two underlyings (state reached by a
registration, a step advance and two bid hits); every invocation of its callback throws
such an object.  In the step advance to S=8 the purchase (0, 1/2) for the first underlying
fails and the exception passes `catch (const std::exception&)`: on_step_advance does not
complete normally, the loop never attempts the trade (1, 1/2) for the second underlying
(which it does attempt when the failure is a std::exception), and the last prices are not
refreshed. -/
theorem C24_counterexample :
    run_exn (fun _ _ _ => true)
        (MarketMaker.new [pair_underlying 0 (79 / 10), pair_underlying 1 (79 / 10)]
          [pair_call 0, pair_call 1])
        [Action.register_callback (fun _ _ _ => false),
          Action.on_step_advance [pair_underlying 0 (79 / 10), pair_underlying 1 (79 / 10)]
            [pair_call 0, pair_call 1],
          Action.on_bid_hit (pair_call 0) 0, Action.on_bid_hit (pair_call 1) 0]
      = pair_state_3
    ∧ (on_step_advance_exn (fun _ _ _ => true) pair_state_3
        [pair_underlying 0 8, pair_underlying 1 8] [pair_call 0, pair_call 1]).1 = true
    ∧ (on_step_advance_exn (fun _ _ _ => true) pair_state_3
        [pair_underlying 0 8, pair_underlying 1 8] [pair_call 0, pair_call 1]).2.callback_log
        = pair_state_3.callback_log ++ [(0, 1 / 2, false)]
    ∧ (on_step_advance_exn (fun _ _ _ => false) pair_state_3
        [pair_underlying 0 8, pair_underlying 1 8] [pair_call 0, pair_call 1]).2.callback_log
        = pair_state_3.callback_log ++ [(0, 1 / 2, false), (1, 1 / 2, false)]
    ∧ (on_step_advance_exn (fun _ _ _ => true) pair_state_3
        [pair_underlying 0 8, pair_underlying 1 8]
        [pair_call 0, pair_call 1]).2.last_underlying_prices 1 = some (79 / 10)
    ∧ ¬ (∀ (foreign : ForeignThrow) (m : MarketMaker) (us : List Underlying)
          (os : List OptionContract), (on_step_advance_exn foreign m us os).1 = false) := by
  obtain ⟨-, -, -, -, -, hlast, -, -⟩ := pair_state_3_facts
  obtain ⟨-, -, hlog4⟩ := pair_state_4_facts
  have hesc := pair_step_escape
  have hflag : (on_step_advance_exn (fun _ _ _ => true) pair_state_3
      [pair_underlying 0 8, pair_underlying 1 8] [pair_call 0, pair_call 1]).1 = true := by
    rw [hesc]
  refine ⟨pair_state_3_run, hflag, by rw [hesc], ?_, ?_, ?_⟩
  · rw [on_step_advance_exn_returns _ _ _ _
      (on_step_advance_exn_std _ _ _ _ (throws_only_std_of_never pair_state_3))]
    exact hlog4
  · rw [hesc]
    show (portfolio_delta
      (step_advance_entry pair_state_3 [pair_underlying 0 8, pair_underlying 1 8]
        [pair_call 0, pair_call 1]) 0).2.last_underlying_prices 1 = _
    rw [cache_keeps_last_underlying_prices (portfolio_delta_frame _ 0)]
    show pair_state_3.last_underlying_prices 1 = _
    rw [hlast]
    simp
  · intro hall
    rw [hall] at hflag
    cases hflag

/-- C24 (amended): if the trade callback fails inside exec_delta_hedge or inside the
per-step rehedge loop by throwing a std::exception (std::bad_function_call of an unset
callback included), the failure is swallowed: on_bid_hit, on_offer_hit and on_step_advance
return normally (no exception leaves them, and the state they leave is the one computed
with every failure swallowed), HedgeLedger[uid] and Position.underlying[uid] keep the
values they had before the attempted trade (for every uid all of whose invocations in the
call failed), the option-position and pnl updates of the triggering on_bid_hit or
on_offer_hit are still applied (the option count is the 32-bit sum), and the rehedge loop
still processes the remaining underlyings: for every underlying of the new state that has
moved by at least 0.05 and whose net delta exceeds 0.03 when the loop reaches it, the
trade is attempted, whatever happened to the trades before it. -/
theorem C24_hedge_failure_swallowed (foreign : ForeignThrow) (m : MarketMaker)
    (hstd : throws_only_std foreign m) :
    (∀ (option : OptionContract) (bid_price : ℚ),
      on_bid_hit_exn foreign m option bid_price = (false, on_bid_hit m option bid_price)
      ∧ (on_bid_hit m option bid_price).position.option_quantity_by_option_id option.option_id
        = some (wrap_int32
            ((m.position.option_quantity_by_option_id option.option_id).getD 0 + 1))
      ∧ (on_bid_hit m option bid_price).pnl = m.pnl + bid_price
      ∧ ∀ uid, all_failed_for uid ((Action.on_bid_hit option bid_price).call_records m) →
          ((on_bid_hit m option bid_price).hedge_pos uid).getD 0 = (m.hedge_pos uid).getD 0
          ∧ (on_bid_hit m option bid_price).position.underlying_quantity_by_underlying_id uid
            = m.position.underlying_quantity_by_underlying_id uid)
    ∧ (∀ (option : OptionContract) (offer_price : ℚ),
      on_offer_hit_exn foreign m option offer_price
        = (false, on_offer_hit m option offer_price)
      ∧ (on_offer_hit m option offer_price).position.option_quantity_by_option_id
          option.option_id
        = some (wrap_int32
            ((m.position.option_quantity_by_option_id option.option_id).getD 0 - 1))
      ∧ (on_offer_hit m option offer_price).pnl = m.pnl - offer_price
      ∧ ∀ uid, all_failed_for uid ((Action.on_offer_hit option offer_price).call_records m) →
          ((on_offer_hit m option offer_price).hedge_pos uid).getD 0
            = (m.hedge_pos uid).getD 0
          ∧ (on_offer_hit m option offer_price).position.underlying_quantity_by_underlying_id
              uid
            = m.position.underlying_quantity_by_underlying_id uid)
    ∧ (∀ (us : List Underlying) (os : List OptionContract),
      on_step_advance_exn foreign m us os = (false, on_step_advance m us os)
      ∧ ∀ uid : ℤ, all_failed_for uid ((Action.on_step_advance us os).call_records m) →
        ((on_step_advance m us os).hedge_pos uid).getD 0 = (m.hedge_pos uid).getD 0
        ∧ (on_step_advance m us os).position.underlying_quantity_by_underlying_id uid
          = m.position.underlying_quantity_by_underlying_id uid)
    ∧ (∀ (us : List Underlying) (os : List OptionContract) (pre post : List Underlying)
        (u : Underlying) (callback : TradeCallback),
      us = pre ++ u :: post →
      m.trade_underlying_callback = some callback →
      GAMMA_SCALP_TH
        ≤ |u.valuation - (m.last_underlying_prices u.underlying_id).getD u.valuation| →
      HEDGE_TH < |(portfolio_delta (rehedge_reaches m us os pre) u.underlying_id).1| →
      (u.underlying_id, (portfolio_delta (rehedge_reaches m us os pre) u.underlying_id).1,
          callback (rehedge_reaches m us os pre).callback_log u.underlying_id
            (portfolio_delta (rehedge_reaches m us os pre) u.underlying_id).1)
        ∈ (Action.on_step_advance us os).call_records m) := by
  obtain ⟨hbid, hoffer, hstep, hloop⟩ := hedge_failure_kept m
  refine ⟨fun option bid_price => ⟨?_, hbid option bid_price⟩,
    fun option offer_price => ⟨?_, hoffer option offer_price⟩,
    fun us os => ⟨?_, hstep us os⟩, hloop⟩
  · exact Prod.ext (on_bid_hit_exn_std foreign m option bid_price hstd)
      (on_bid_hit_exn_state foreign m option bid_price)
  · exact Prod.ext (on_offer_hit_exn_std foreign m option offer_price hstd)
      (on_offer_hit_exn_state foreign m option offer_price)
  · exact Prod.ext (on_step_advance_exn_std foreign m us os hstd)
      (on_step_advance_exn_returns foreign m us os
        (on_step_advance_exn_std foreign m us os hstd))
/-- Witness for C24 (amended): an engine on two underlyings at S=7.9 holds one CALL (delta
1/4) on each and its callback fails at every invocation with a std::exception.  The bid
hit on the first CALL attempts the sale (0, -1/4), which fails: the call returns, the option
position and pnl are booked, the ledger value and the shares of underlying 0 stay as they
were.  In the step advance to S=8 the purchase (0, 1/2) for the first underlying fails and
the loop goes on to attempt (1, 1/2) for the second; the call returns, the ledger value
and the shares of underlying 1 stay as they were. -/
theorem C24_hedge_failure_swallowed_witness :
    on_bid_hit_exn (fun _ _ _ => false) pair_state_1 (pair_call 0) 0 = (false, pair_state_2)
    ∧ (Action.on_bid_hit (pair_call 0) 0).call_records pair_state_1 = [(0, -(1 / 4), false)]
    ∧ pair_state_2.position.option_quantity_by_option_id (pair_call 0).option_id
        = some (wrap_int32 ((pair_state_1.position.option_quantity_by_option_id
            (pair_call 0).option_id).getD 0 + 1))
    ∧ pair_state_2.pnl = pair_state_1.pnl + 0
    ∧ (pair_state_2.hedge_pos 0).getD 0 = (pair_state_1.hedge_pos 0).getD 0
    ∧ pair_state_2.position.underlying_quantity_by_underlying_id 0
        = pair_state_1.position.underlying_quantity_by_underlying_id 0
    ∧ on_step_advance_exn (fun _ _ _ => false) pair_state_3
          [pair_underlying 0 8, pair_underlying 1 8] [pair_call 0, pair_call 1]
        = (false, pair_state_4)
    ∧ (Action.on_step_advance [pair_underlying 0 8, pair_underlying 1 8]
          [pair_call 0, pair_call 1]).call_records pair_state_3
        = [(0, 1 / 2, false), (1, 1 / 2, false)]
    ∧ (1, 1 / 2, false)
        ∈ (Action.on_step_advance [pair_underlying 0 8, pair_underlying 1 8]
            [pair_call 0, pair_call 1]).call_records pair_state_3
    ∧ (pair_state_4.hedge_pos 1).getD 0 = (pair_state_3.hedge_pos 1).getD 0
    ∧ pair_state_4.position.underlying_quantity_by_underlying_id 1
        = pair_state_3.position.underlying_quantity_by_underlying_id 1 := by
  obtain ⟨-, hcb, -, -, -, hlast, -, -⟩ := pair_state_3_facts
  obtain ⟨-, hnet1, hlog4⟩ := pair_state_4_facts
  have hrec2 : (Action.on_bid_hit (pair_call 0) 0).call_records pair_state_1
      = [(0, -(1 / 4), false)] := by
    apply call_records_of_append
    show pair_state_2.callback_log = _
    have hl1 : pair_state_1.callback_log = [] := by rw [pair_state_1_eq]; rfl
    rw [pair_state_2_eq, hl1]
    rfl
  have hrec4 : (Action.on_step_advance [pair_underlying 0 8, pair_underlying 1 8]
      [pair_call 0, pair_call 1]).call_records pair_state_3
      = [(0, 1 / 2, false), (1, 1 / 2, false)] :=
    call_records_of_append hlog4
  obtain ⟨hret2, hq, hpnl, hkeep⟩ :=
    (C24_hedge_failure_swallowed (fun _ _ _ => false) pair_state_1
      (throws_only_std_of_never pair_state_1)).1 (pair_call 0) 0
  obtain ⟨hledger2, hshares2⟩ := hkeep 0 (by
    rw [hrec2]
    intro r hr _
    rw [List.mem_singleton] at hr
    rw [hr])
  obtain ⟨-, -, hstep, hloop⟩ := C24_hedge_failure_swallowed (fun _ _ _ => false) pair_state_3
    (throws_only_std_of_never pair_state_3)
  obtain ⟨hret4, hstep4⟩ := hstep [pair_underlying 0 8, pair_underlying 1 8]
    [pair_call 0, pair_call 1]
  obtain ⟨hledger4, hshares4⟩ := hstep4 1 (by
      rw [hrec4]
      intro r hr _
      simp only [List.mem_cons, List.mem_singleton, List.not_mem_nil, or_false] at hr
      rcases hr with hr | hr <;> rw [hr])
  have hmem := hloop [pair_underlying 0 8, pair_underlying 1 8] [pair_call 0, pair_call 1]
    [pair_underlying 0 8] [] (pair_underlying 1 8) (fun _ _ _ => false) rfl hcb
    (by have hl1 : pair_state_3.last_underlying_prices (pair_underlying 1 8).underlying_id
            = some (79 / 10) := by
          rw [hlast]
          simp [pair_underlying]
        rw [hl1]
        norm_num [GAMMA_SCALP_TH, pair_underlying, abs_of_pos])
    (by rw [hnet1, abs_of_pos (by norm_num)]
        norm_num [HEDGE_TH])
  rw [hnet1] at hmem
  exact ⟨hret2, hrec2, hq, hpnl, hledger2, hshares2, hret4, hrec4, hmem, hledger4, hshares4⟩

/-! ## The run that ends in a step advance left by an exception -/

theorem pair_gamma_at_8 (id : ℤ) :
    calculate_gamma (pair_call id) (pair_underlying id 8) = 5 / 2 := by
  norm_num [calculate_gamma, pump_it_up, price_option_from_scratch, back_induction,
    lattice_sweep, terminal_payoff, pair_call, pair_underlying, List.range_succ]

theorem pair_underlying_valid (id : ℤ) (S : ℚ) : (pair_underlying id S).valid := by
  rw [valid_iff]
  norm_num [pair_underlying, abs_of_nonneg]

theorem down_state_1_eq :
    down_state_1
      = { down_state_0 with
          last_underlying_prices :=
            Function.update (Function.update (fun _ => none) 0 (some 8)) 1 (some 8) } := by
  have hskip : ∀ (m : MarketMaker) (id : ℤ), m.last_underlying_prices id = none →
      rehedge_step m (pair_underlying id 8) = m := by
    intro m id hn
    apply rehedge_step_skip
    have hn' : m.last_underlying_prices (pair_underlying id 8).underlying_id = none := hn
    rw [hn']
    norm_num [GAMMA_SCALP_TH]
  unfold down_state_1
  rw [on_step_advance_eq]
  have hr : rehedge (step_advance_entry down_state_0
        [pair_underlying 0 8, pair_underlying 1 8] [pair_call 0, pair_call 1])
      [pair_underlying 0 8, pair_underlying 1 8]
      = step_advance_entry down_state_0
        [pair_underlying 0 8, pair_underlying 1 8] [pair_call 0, pair_call 1] := by
    unfold rehedge
    rw [List.foldl_cons, List.foldl_cons, List.foldl_nil, hskip _ 0 rfl, hskip _ 1 rfl]
  rw [hr]
  rfl

theorem down_state_2_eq :
    down_state_2
      = { down_state_1 with
          price_cache :=
            [(cache_key_string (pair_call 1).option_id (pair_underlying 1 8).valuation,
              (0, 1 / 2, 5 / 2))] } := by
  obtain ⟨-, -, -, hL, hD⟩ := pair_fd_values 1
  have hG := pair_gamma_at_8 1
  have hfind : find_underlying down_state_1 (pair_call 1).underlying_id
      = some (pair_underlying 1 8) := by
    rw [down_state_1_eq]
    simp [find_underlying, down_state_0, register_trade_underlying_callback,
      MarketMaker.new, pair_underlying, pair_call]
  have hc : down_state_1.price_cache = [] := by rw [down_state_1_eq]; rfl
  have hl : down_state_1.last_underlying_prices
      = Function.update (Function.update (fun _ => none) 0 (some 8)) 1 (some 8) := by
    rw [down_state_1_eq]
  unfold down_state_2
  rw [price_option_miss_full down_state_1 (pair_call 1) (pair_underlying 1 8) hfind
    (by decide) (by rw [hc]; rfl)
    (by intro s hs
        rw [hl] at hs
        simp [pair_underlying] at hs
        rw [← hs]
        rfl)]
  unfold price_option_full
  simp only []
  rw [hL, hD, hG, hc, hl]
  have hupd : Function.update
      (Function.update (Function.update (fun _ => none) 0 (some (8 : ℚ))) 1 (some 8))
      (pair_underlying 1 8).underlying_id (some (pair_underlying 1 8).valuation)
      = Function.update (Function.update (fun _ => none) 0 (some (8 : ℚ))) 1 (some 8) := by
    exact Function.update_idem _ _ _
  rw [hupd, ← hl]
  rfl
theorem pair_hit_rejected_at_8 (m : MarketMaker) (i : ℤ) (l1 l2 : List OptionContract)
    (hA : m.active_option_state = l1 ++ pair_call i :: l2)
    (h1 : ∀ o ∈ l1, o.underlying_id ≠ (pair_call i).underlying_id)
    (h2 : ∀ o ∈ l2, o.underlying_id ≠ (pair_call i).underlying_id)
    (hU : find_underlying m (pair_call i).underlying_id = some (pair_underlying i 8))
    (hcb : m.trade_underlying_callback = some (fun _ _ _ => false))
    (hP : m.position.option_quantity_by_option_id (pair_call i).option_id = none)
    (hH : m.hedge_pos (pair_call i).underlying_id = none)
    (hmiss : cache_find m.price_cache
      (cache_key_string (pair_call i).option_id (pair_underlying i 8).valuation) = none) :
    on_bid_hit m (pair_call i) 0
      = { m with
          position := m.position.add_option_quantity (pair_call i).option_id 1
          pnl := m.pnl + 0
          price_cache :=
            (cache_key_string (pair_call i).option_id (pair_underlying i 8).valuation,
              (0, 1 / 2, 5 / 2)) :: m.price_cache
          target_deltas := Function.update m.target_deltas i
            (some ((m.target_deltas i).getD 0 + ((1 : ℤ) : ℚ) * (1 / 2)))
          hedge_pos := Function.update m.hedge_pos i (some 0)
          callback_log := m.callback_log ++ [(i, -(1 / 2), false)] } := by
  obtain ⟨-, -, -, hL, hD⟩ := pair_fd_values i
  have hG := pair_gamma_at_8 i
  rw [on_bid_hit_eq]
  have hg := get_greeks_miss
    { m with
      position := m.position.add_option_quantity (pair_call i).option_id 1
      pnl := m.pnl + 0 } (pair_call i) (pair_underlying i 8) hmiss
  rw [hL, hD, hG] at hg
  have hP' : ({ m with
      position := m.position.add_option_quantity (pair_call i).option_id 1
      pnl := m.pnl + 0 } : MarketMaker).position.option_quantity_by_option_id
      (pair_call i).option_id = some 1 := by
    simp [Position.add_option_quantity, wrap_int32, hP]
  have hval : ((1 : ℤ) : ℚ) * (1 / 2 : ℚ) - 0 - 0 = 1 / 2 := by norm_num
  have hval' : ((1 : ℤ) : ℚ) * (1 / 2 : ℚ) - 0 = 1 / 2 := by norm_num
  rw [delta_hedge_post_trade_rejected
    { m with
      position := m.position.add_option_quantity (pair_call i).option_id 1
      pnl := m.pnl + 0 } (pair_call i) (pair_underlying i 8) 1 1 l1 l2
    (fun _ _ _ => false) hA h1 h2
    (by rw [find_underlying_congr rfl]; exact hU) hP' (by decide)
    (by rw [hg]; simp only [hH, Option.getD_none]; rw [hval', abs_of_pos (by norm_num)]
        norm_num [HEDGE_TH])
    (by rw [hg]; simp only [hH, Option.getD_none]; rw [hval, abs_of_pos (by norm_num)]
        norm_num [MIN_HEDGE])
    hcb rfl]
  unfold post_trade_state
  rw [hg]
  simp only [hH, Option.getD_none, hval]
  rfl

theorem down_state_3_eq :
    down_state_3
      = { down_state_2 with
          position := down_state_2.position.add_option_quantity (pair_call 0).option_id 1
          pnl := down_state_2.pnl + 0
          price_cache :=
            [(cache_key_string (pair_call 0).option_id (pair_underlying 0 8).valuation,
                (0, 1 / 2, 5 / 2)),
              (cache_key_string (pair_call 1).option_id (pair_underlying 1 8).valuation,
                (0, 1 / 2, 5 / 2))]
          target_deltas := Function.update down_state_2.target_deltas 0
            (some ((down_state_2.target_deltas 0).getD 0 + ((1 : ℤ) : ℚ) * (1 / 2)))
          hedge_pos := Function.update (fun _ => none) 0 (some 0)
          callback_log := [(0, -(1 / 2), false)] } := by
  obtain ⟨-, -, hk0, hk1⟩ := pair_keys
  have hc : down_state_2.price_cache
      = [(cache_key_string (pair_call 1).option_id (pair_underlying 1 8).valuation,
          (0, 1 / 2, 5 / 2))] := by rw [down_state_2_eq]
  have hh : down_state_2.hedge_pos = fun _ => none := by
    rw [down_state_2_eq, down_state_1_eq]; rfl
  have hl : down_state_2.callback_log = [] := by rw [down_state_2_eq, down_state_1_eq]; rfl
  have h := pair_hit_rejected_at_8 down_state_2 0 [] [pair_call 1]
    (by rw [down_state_2_eq, down_state_1_eq]; rfl)
    (by intro o ho; cases ho)
    (by intro o ho
        rw [List.mem_singleton] at ho
        rw [ho]
        decide)
    (by rw [down_state_2_eq, down_state_1_eq]
        simp [find_underlying, down_state_0, register_trade_underlying_callback,
          MarketMaker.new, pair_underlying, pair_call])
    (by rw [down_state_2_eq, down_state_1_eq]; rfl)
    (by rw [down_state_2_eq, down_state_1_eq]; rfl)
    (by rw [hh])
    (by rw [hc, hk0, hk1]
        have hb : (({ option_id := 20, negative := false, micros := 8000000 } : CacheKey)
            == { option_id := 21, negative := false, micros := 8000000 }) = false := by
          decide
        simp [cache_find, List.lookup, hb])
  rw [hc, hh, hl] at h
  exact h

theorem down_state_3_facts :
    down_state_3.active_option_state = [pair_call 0, pair_call 1]
    ∧ down_state_3.trade_underlying_callback = some (fun _ _ _ => false)
    ∧ down_state_3.position.option_quantity_by_option_id 20 = some 1
    ∧ down_state_3.position.option_quantity_by_option_id 21 = none
    ∧ down_state_3.position.underlying_quantity_by_underlying_id = (fun _ => none)
    ∧ down_state_3.hedge_pos = Function.update (fun _ => none) 0 (some 0)
    ∧ down_state_3.last_underlying_prices
        = Function.update (Function.update (fun _ => none) 0 (some 8)) 1 (some 8)
    ∧ down_state_3.callback_log = [(0, -(1 / 2), false)]
    ∧ down_state_3.price_cache
        = [(cache_key_string (pair_call 0).option_id (pair_underlying 0 8).valuation,
              (0, 1 / 2, 5 / 2)),
            (cache_key_string (pair_call 1).option_id (pair_underlying 1 8).valuation,
              (0, 1 / 2, 5 / 2))]
    ∧ down_state_3.pnl = 0
    ∧ down_state_3.safe_mode = false := by
  refine ⟨?_, ?_, ?_, ?_, ?_, ?_, ?_, ?_, ?_, ?_, ?_⟩
  · rw [down_state_3_eq, down_state_2_eq, down_state_1_eq]; rfl
  · rw [down_state_3_eq, down_state_2_eq, down_state_1_eq]; rfl
  · rw [down_state_3_eq, down_state_2_eq, down_state_1_eq]
    simp [Position.add_option_quantity, wrap_int32, down_state_0,
      register_trade_underlying_callback, MarketMaker.new, Position.empty, pair_call]
  · rw [down_state_3_eq, down_state_2_eq, down_state_1_eq]
    simp [Position.add_option_quantity, wrap_int32, down_state_0,
      register_trade_underlying_callback, MarketMaker.new, Position.empty, pair_call]
  · rw [down_state_3_eq, down_state_2_eq, down_state_1_eq]
    rfl
  · rw [down_state_3_eq]
  · rw [down_state_3_eq, down_state_2_eq, down_state_1_eq]
  · rw [down_state_3_eq]
  · rw [down_state_3_eq]
  · rw [down_state_3_eq, down_state_2_eq, down_state_1_eq]
    simp [down_state_0, register_trade_underlying_callback, MarketMaker.new]
  · rw [down_state_3_eq, down_state_2_eq, down_state_1_eq]
    rfl

theorem down_entry_cache :
    (step_advance_entry down_state_3
        [pair_underlying 0 (79 / 10), pair_underlying 1 (79 / 10)]
        [pair_call 0, pair_call 1]).price_cache
      = [(cache_key_string (pair_call 0).option_id (pair_underlying 0 8).valuation,
            (0, 1 / 2, 5 / 2)),
          (cache_key_string (pair_call 1).option_id (pair_underlying 1 8).valuation,
            (0, 1 / 2, 5 / 2))] := by
  obtain ⟨-, -, -, -, -, -, -, -, hcache, -, -⟩ := down_state_3_facts
  obtain ⟨-, -, hk0, hk1⟩ := pair_keys
  show prune_ceiling (prune_inactive down_state_3.price_cache [pair_call 0, pair_call 1]) = _
  rw [hcache, hk0, hk1]
  simp [prune_inactive, prune_ceiling, pair_call]

theorem down_entry_delta :
    portfolio_delta
        (step_advance_entry down_state_3
          [pair_underlying 0 (79 / 10), pair_underlying 1 (79 / 10)]
          [pair_call 0, pair_call 1]) 0
      = (1 / 4,
          { step_advance_entry down_state_3
              [pair_underlying 0 (79 / 10), pair_underlying 1 (79 / 10)]
              [pair_call 0, pair_call 1] with
            price_cache :=
              [(cache_key_string (pair_call 0).option_id
                    (pair_underlying 0 (79 / 10)).valuation, (0, 1 / 4, 5 / 4)),
                (cache_key_string (pair_call 0).option_id (pair_underlying 0 8).valuation,
                  (0, 1 / 2, 5 / 2)),
                (cache_key_string (pair_call 1).option_id (pair_underlying 1 8).valuation,
                  (0, 1 / 2, 5 / 2))] }) := by
  obtain ⟨hA, hcb, hp0, hp1, hq, hh, hlast, hlog, hcache, hpnl, hsafe⟩ := down_state_3_facts
  obtain ⟨hk0, hk1, hk0', hk1'⟩ := pair_keys
  obtain ⟨hL, hD, hG, -, -⟩ := pair_fd_values 0
  have hEc := down_entry_cache
  have hmiss : cache_find
      (step_advance_entry down_state_3
        [pair_underlying 0 (79 / 10), pair_underlying 1 (79 / 10)]
        [pair_call 0, pair_call 1]).price_cache
      (cache_key_string (pair_call 0).option_id (pair_underlying 0 (79 / 10)).valuation)
      = none := by
    rw [hEc, hk0, hk0', hk1']
    have hb1 : (({ option_id := 20, negative := false, micros := 7900000 } : CacheKey)
        == { option_id := 20, negative := false, micros := 8000000 }) = false := by decide
    have hb2 : (({ option_id := 20, negative := false, micros := 7900000 } : CacheKey)
        == { option_id := 21, negative := false, micros := 8000000 }) = false := by decide
    simp [cache_find, List.lookup, hb1, hb2]
  have hg := get_greeks_miss _ (pair_call 0) (pair_underlying 0 (79 / 10)) hmiss
  rw [hL, hD, hG, hEc] at hg
  have hpd := portfolio_delta_sole
    (step_advance_entry down_state_3
      [pair_underlying 0 (79 / 10), pair_underlying 1 (79 / 10)]
      [pair_call 0, pair_call 1]) (pair_call 0) (pair_underlying 0 (79 / 10)) 1 []
    [pair_call 1] rfl
    (by intro o ho; cases ho)
    (by intro o ho
        rw [List.mem_singleton] at ho
        rw [ho]
        decide)
    (by simp [find_underlying, step_advance_entry, pair_underlying, pair_call])
    hp0 (by decide)
  have hH : ((step_advance_entry down_state_3
      [pair_underlying 0 (79 / 10), pair_underlying 1 (79 / 10)]
      [pair_call 0, pair_call 1]).hedge_pos (pair_call 0).underlying_id).getD 0 = 0 := by
    show (down_state_3.hedge_pos 0).getD 0 = 0
    rw [hh]
    simp
  rw [hg, hH] at hpd
  have hval : ((1 : ℤ) : ℚ) * (1 / 4 : ℚ) - 0 = 1 / 4 := by norm_num
  simp only [hval] at hpd
  exact hpd

theorem down_state_4_eq :
    on_step_advance_exn (fun _ _ _ => true) down_state_3
        [pair_underlying 0 (79 / 10), pair_underlying 1 (79 / 10)] [pair_call 0, pair_call 1]
      = (true,
          { step_advance_entry down_state_3
              [pair_underlying 0 (79 / 10), pair_underlying 1 (79 / 10)]
              [pair_call 0, pair_call 1] with
            price_cache :=
              [(cache_key_string (pair_call 0).option_id
                    (pair_underlying 0 (79 / 10)).valuation, (0, 1 / 4, 5 / 4)),
                (cache_key_string (pair_call 0).option_id (pair_underlying 0 8).valuation,
                  (0, 1 / 2, 5 / 2)),
                (cache_key_string (pair_call 1).option_id (pair_underlying 1 8).valuation,
                  (0, 1 / 2, 5 / 2))]
            hedge_pos := Function.update down_state_3.hedge_pos 0 (some 0)
            callback_log := down_state_3.callback_log ++ [(0, 1 / 4, false)] }) := by
  obtain ⟨hA, hcb, hp0, hp1, hq, hh, hlast, hlog, hcache, hpnl, hsafe⟩ := down_state_3_facts
  have hpd := down_entry_delta
  have hid : (pair_underlying 0 (79 / 10)).underlying_id = 0 := rfl
  have hstep := rehedge_step_exn_escape (fun _ _ _ => true)
    (step_advance_entry down_state_3
      [pair_underlying 0 (79 / 10), pair_underlying 1 (79 / 10)]
      [pair_call 0, pair_call 1]) (pair_underlying 0 (79 / 10)) (fun _ _ _ => false)
    (by show GAMMA_SCALP_TH ≤ |(79 / 10 : ℚ) - (down_state_3.last_underlying_prices 0).getD (79 / 10)|
        rw [hlast]
        norm_num [GAMMA_SCALP_TH, abs_of_neg])
    (by rw [hid, hpd, abs_of_pos (by norm_num)]
        norm_num [HEDGE_TH])
    (by rw [hid, hpd]; exact hcb) rfl rfl
  rw [hid, hpd] at hstep
  have h0 : (down_state_3.hedge_pos 0).getD 0 = 0 := by
    rw [hh]
    simp
  have main : on_step_advance_exn (fun _ _ _ => true) down_state_3
        [pair_underlying 0 (79 / 10), pair_underlying 1 (79 / 10)] [pair_call 0, pair_call 1]
      = (true,
          { step_advance_entry down_state_3
              [pair_underlying 0 (79 / 10), pair_underlying 1 (79 / 10)]
              [pair_call 0, pair_call 1] with
            price_cache :=
              [(cache_key_string (pair_call 0).option_id
                    (pair_underlying 0 (79 / 10)).valuation, (0, 1 / 4, 5 / 4)),
                (cache_key_string (pair_call 0).option_id (pair_underlying 0 8).valuation,
                  (0, 1 / 2, 5 / 2)),
                (cache_key_string (pair_call 1).option_id (pair_underlying 1 8).valuation,
                  (0, 1 / 2, 5 / 2))]
            hedge_pos := Function.update down_state_3.hedge_pos 0
              (some ((down_state_3.hedge_pos 0).getD 0))
            callback_log := down_state_3.callback_log ++ [(0, 1 / 4, false)] }) := by
    rw [on_step_advance_exn_escape _ _ _ _ _ (by rw [hstep]), hstep]
    rfl
  rw [h0] at main
  exact main

theorem down_state_4_facts :
    (on_step_advance_exn (fun _ _ _ => true) down_state_3
        [pair_underlying 0 (79 / 10), pair_underlying 1 (79 / 10)]
        [pair_call 0, pair_call 1]).1 = true
    ∧ down_state_4.underlying_state
        = [pair_underlying 0 (79 / 10), pair_underlying 1 (79 / 10)]
    ∧ down_state_4.active_option_state = [pair_call 0, pair_call 1]
    ∧ down_state_4.price_cache
        = [(cache_key_string (pair_call 0).option_id (pair_underlying 0 (79 / 10)).valuation,
              (0, 1 / 4, 5 / 4)),
            (cache_key_string (pair_call 0).option_id (pair_underlying 0 8).valuation,
              (0, 1 / 2, 5 / 2)),
            (cache_key_string (pair_call 1).option_id (pair_underlying 1 8).valuation,
              (0, 1 / 2, 5 / 2))]
    ∧ down_state_4.last_underlying_prices
        = Function.update (Function.update (fun _ => none) 0 (some 8)) 1 (some 8)
    ∧ down_state_4.position.option_quantity_by_option_id 20 = some 1
    ∧ down_state_4.position.option_quantity_by_option_id 21 = none
    ∧ down_state_4.position.underlying_quantity_by_underlying_id = (fun _ => none)
    ∧ down_state_4.pnl = 0
    ∧ down_state_4.safe_mode = false := by
  obtain ⟨hA, hcb, hp0, hp1, hq, hh, hlast, hlog, hcache, hpnl, hsafe⟩ := down_state_3_facts
  have h4 := down_state_4_eq
  have e : down_state_4 = (on_step_advance_exn (fun _ _ _ => true) down_state_3
      [pair_underlying 0 (79 / 10), pair_underlying 1 (79 / 10)]
      [pair_call 0, pair_call 1]).2 := rfl
  rw [e, h4]
  exact ⟨rfl, rfl, rfl, rfl, hlast, hp0, hp1, hq, hpnl, hsafe⟩

theorem down_state_4_run :
    run_exn (fun _ _ _ => true)
        (MarketMaker.new [pair_underlying 0 8, pair_underlying 1 8] [pair_call 0, pair_call 1])
        down_actions
      = down_state_4 := by
  have h1 := on_step_advance_exn_unrecorded (fun _ _ _ => true) down_state_0
    [pair_underlying 0 8, pair_underlying 1 8] [pair_call 0, pair_call 1] (fun u _ => rfl)
  show (on_step_advance_exn (fun _ _ _ => true)
      (on_bid_hit_exn (fun _ _ _ => true)
        (price_option
          (on_step_advance_exn (fun _ _ _ => true) down_state_0
            [pair_underlying 0 8, pair_underlying 1 8] [pair_call 0, pair_call 1]).2
          (pair_call 1)).2 (pair_call 0) 0).2
      [pair_underlying 0 (79 / 10), pair_underlying 1 (79 / 10)]
      [pair_call 0, pair_call 1]).2 = down_state_4
  rw [h1, on_bid_hit_exn_state]
  rfl

theorem down_state_4_find (i : ℤ) (hi : i = 0 ∨ i = 1) :
    find_underlying down_state_4 i = some (pair_underlying i (79 / 10)) := by
  obtain ⟨-, hU, -⟩ := down_state_4_facts
  unfold find_underlying
  rw [hU]
  rcases hi with hi | hi <;> rw [hi] <;> simp [pair_underlying]

theorem down_state_4_taylor :
    takes_taylor_branch down_state_4 (pair_call 1)
    ∧ price_option down_state_4 (pair_call 1)
      = (-3 / 80,
          { down_state_4 with
            price_cache :=
              (cache_key_string (pair_call 1).option_id
                  (pair_underlying 1 (79 / 10)).valuation,
                (-3 / 80, fd_delta (pair_call 1) (pair_underlying 1 (79 / 10)) (-3 / 80),
                  fd_gamma (pair_call 1) (pair_underlying 1 (79 / 10))))
                :: down_state_4.price_cache }) := by
  obtain ⟨-, hU, hA, hcache, hlast, hp0, hp1, hq, hpnl, hsafe⟩ := down_state_4_facts
  obtain ⟨hk0, hk1, hk0', hk1'⟩ := pair_keys
  have hfind : find_underlying down_state_4 (pair_call 1).underlying_id
      = some (pair_underlying 1 (79 / 10)) := down_state_4_find 1 (Or.inr rfl)
  have hmiss : cache_find down_state_4.price_cache
      (cache_key_string (pair_call 1).option_id (pair_underlying 1 (79 / 10)).valuation)
      = none := by
    rw [hcache, hk0, hk1, hk0', hk1']
    have hb1 : (({ option_id := 21, negative := false, micros := 7900000 } : CacheKey)
        == { option_id := 20, negative := false, micros := 7900000 }) = false := by decide
    have hb2 : (({ option_id := 21, negative := false, micros := 7900000 } : CacheKey)
        == { option_id := 20, negative := false, micros := 8000000 }) = false := by decide
    have hb3 : (({ option_id := 21, negative := false, micros := 7900000 } : CacheKey)
        == { option_id := 21, negative := false, micros := 8000000 }) = false := by decide
    simp [cache_find, List.lookup, hb1, hb2, hb3]
  have hl : down_state_4.last_underlying_prices (pair_underlying 1 (79 / 10)).underlying_id
      = some 8 := by
    rw [hlast]
    simp [pair_underlying]
  have hold : cache_find down_state_4.price_cache
      (cache_key_string (pair_call 1).option_id 8) = some (0, 1 / 2, 5 / 2) := by
    have hk : cache_key_string (pair_call 1).option_id 8
        = { option_id := 21, negative := false, micros := 8000000 } := hk1'
    rw [hcache, hk0, hk0', hk1', hk]
    have hb1 : (({ option_id := 21, negative := false, micros := 8000000 } : CacheKey)
        == { option_id := 20, negative := false, micros := 7900000 }) = false := by decide
    have hb2 : (({ option_id := 21, negative := false, micros := 8000000 } : CacheKey)
        == { option_id := 20, negative := false, micros := 8000000 }) = false := by decide
    simp [cache_find, List.lookup, hb1, hb2]
  have hne : (8 : ℚ) ≠ (pair_underlying 1 (79 / 10)).valuation := by
    norm_num [pair_underlying]
  have hclose : |(pair_underlying 1 (79 / 10)).valuation - 8|
      < (pair_underlying 1 (79 / 10)).up_move_step * (1 / 10) := by
    have hv : (pair_underlying 1 (79 / 10)).valuation - 8 = -(1 / 10) := by
      norm_num [pair_underlying]
    rw [hv, abs_neg, abs_of_pos (by norm_num)]
    norm_num [pair_underlying]
  refine ⟨⟨pair_underlying 1 (79 / 10), 8, (0, 1 / 2, 5 / 2), hfind, (by decide), hmiss, hl,
    hne, hclose, hold⟩, ?_⟩
  have hprice := price_option_taylor_eq down_state_4 (pair_call 1)
    (pair_underlying 1 (79 / 10)) 8 (0, 1 / 2, 5 / 2) hfind (by decide) hmiss hl hne hclose
    hold
  have hv : (0 : ℚ) + 1 / 2 * ((pair_underlying 1 (79 / 10)).valuation - 8)
      + 1 / 2 * (5 / 2) * ((pair_underlying 1 (79 / 10)).valuation - 8) ^ 2 = -3 / 80 := by
    norm_num [pair_underlying]
  simp only [hv] at hprice
  exact hprice

theorem pair_taylor_greeks (id : ℤ) :
    fd_delta (pair_call id) (pair_underlying id (79 / 10)) (-3 / 80) = 7 / 16
    ∧ fd_gamma (pair_call id) (pair_underlying id (79 / 10)) = 5 / 4
    ∧ fd_delta (pair_call id) (pair_underlying id (79 / 10))
        (lattice_price_at (pair_call id) (pair_underlying id (79 / 10)) (79 / 10)) = 1 / 4 := by
  obtain ⟨hL, hD, hG, -, -⟩ := pair_fd_values id
  refine ⟨?_, ?_, ?_⟩
  · rw [← calculate_delta_eq_fd_delta]
    norm_num [calculate_delta, pump_it_up, price_option_from_scratch, back_induction,
      lattice_sweep, terminal_payoff, pair_call, pair_underlying, List.range_succ]
  · rw [← calculate_gamma_eq_fd_gamma]
    exact hG
  · have hL' : lattice_price_at (pair_call id) (pair_underlying id (79 / 10)) (79 / 10)
        = 0 := by
      have e := lattice_price_at_valuation (pair_call id) (pair_underlying id (79 / 10))
      have e' : (pair_underlying id (79 / 10)).valuation = 79 / 10 := rfl
      rw [e'] at e
      rw [e]
      exact hL
    rw [hL', ← calculate_delta_eq_fd_delta]
    exact hD

/-! ## Claims that depend on every step advance returning -/

theorem pair_well_formed (S : ℚ) :
    well_formed_underlyings [pair_underlying 0 S, pair_underlying 1 S] := by
  refine ⟨?_, by simp [pair_underlying]⟩
  intro u hu
  simp only [List.mem_cons, List.mem_singleton, List.not_mem_nil, or_false] at hu
  rcases hu with hu | hu <;> rw [hu] <;> exact pair_underlying_valid _ _

theorem down_actions_distinct :
    distinct_underlying_ids [pair_underlying 0 8, pair_underlying 1 8]
    ∧ ∀ a ∈ down_actions, a.distinct_underlying_ids := by
  refine ⟨(pair_well_formed 8).2, ?_⟩
  intro a ha
  simp only [down_actions, List.mem_cons, List.mem_singleton, List.not_mem_nil, or_false] at ha
  rcases ha with ha | ha | ha | ha | ha <;> rw [ha]
  · exact True.intro
  · exact (pair_well_formed 8).2
  · exact True.intro
  · exact True.intro
  · exact (pair_well_formed (79 / 10)).2

/-- C34 (as stated) fails when a step advance is left by an exception.  All underlying
vectors have pairwise distinct ids (two underlyings, ids 0 and 1) and the callback does
not re-enter the engine; it throws an object that is not a std::exception.  After a step
advance at S=8, price_option of the second CALL and a bid hit on the first CALL, the step
advance to S=7.9 is left by the exception of the purchase (0, 1/4) before the refresh of
LastUnderlyingPrices: underlying 1 is in the engine state at 7.9 while
LastUnderlyingPrices[1] = 8, and price_option of the second CALL takes the Taylor branch
(returning -3/80). -/
theorem C34_counterexample :
    distinct_underlying_ids [pair_underlying 0 8, pair_underlying 1 8]
    ∧ (∀ a ∈ down_actions, a.distinct_underlying_ids)
    ∧ run_exn (fun _ _ _ => true)
        (MarketMaker.new [pair_underlying 0 8, pair_underlying 1 8] [pair_call 0, pair_call 1])
        down_actions = down_state_4
    ∧ pair_underlying 1 (79 / 10) ∈ down_state_4.underlying_state
    ∧ down_state_4.last_underlying_prices (pair_underlying 1 (79 / 10)).underlying_id
        = some 8
    ∧ ¬ last_prices_current down_state_4
    ∧ takes_taylor_branch down_state_4 (pair_call 1)
    ∧ (price_option down_state_4 (pair_call 1)).1 = -3 / 80
    ∧ ¬ (∀ (foreign : ForeignThrow) (us : List Underlying) (os : List OptionContract)
          (actions : List Action),
          distinct_underlying_ids us → (∀ a ∈ actions, a.distinct_underlying_ids) →
          last_prices_current (run_exn foreign (MarketMaker.new us os) actions)) := by
  obtain ⟨-, hU, -, -, hlast, -⟩ := down_state_4_facts
  have hmem : pair_underlying 1 (79 / 10) ∈ down_state_4.underlying_state := by
    rw [hU]
    simp
  have hl : down_state_4.last_underlying_prices (pair_underlying 1 (79 / 10)).underlying_id
      = some 8 := by
    rw [hlast]
    simp [pair_underlying]
  have hnot : ¬ last_prices_current down_state_4 := by
    intro hcur
    have h := hcur _ hmem 8 hl
    norm_num [pair_underlying] at h
  refine ⟨down_actions_distinct.1, down_actions_distinct.2, down_state_4_run, hmem, hl, hnot,
    down_state_4_taylor.1, by rw [down_state_4_taylor.2], ?_⟩
  intro hall
  have h := hall (fun _ _ _ => true) [pair_underlying 0 8, pair_underlying 1 8]
    [pair_call 0, pair_call 1] down_actions down_actions_distinct.1 down_actions_distinct.2
  rw [down_state_4_run] at h
  exact hnot h

/-- C34 (amended): if the underlying vector given to the constructor and the one given to
every `on_step_advance` call have pairwise distinct underlying ids (the trade callback is
a function of its arguments and earlier invocations, so it cannot re-enter the engine),
and no `on_step_advance` call of the run is left by an exception (the rehedge loop
swallows a std::exception; any other object thrown by the callback leaves
on_step_advance before the refresh of LastUnderlyingPrices), then in every state reached
from construction through the entry points, and in every state in which a following
`make_market` or `price_option` call enters `price_option`, each underlying id present in
both LastUnderlyingPrices and the engine state has LastUnderlyingPrices[uid] equal to
that underlying's current valuation; consequently the guards of the Taylor branch never
hold there, and on a cache miss `price_option` runs the full lattice computation.  (When
the guards do hold, `price_option` extrapolates.) -/
theorem C34_last_prices_current (foreign : ForeignThrow) (us : List Underlying)
    (os : List OptionContract) (actions : List Action)
    (hus : distinct_underlying_ids us)
    (ha : ∀ a ∈ actions, a.distinct_underlying_ids)
    (hret : step_advances_return foreign (MarketMaker.new us os) actions) :
    last_prices_current (run_exn foreign (MarketMaker.new us os) actions)
    ∧ (∀ (a : Action) (s : MarketMaker),
        enters_price_option (run_exn foreign (MarketMaker.new us os) actions) a s →
        last_prices_current s
        ∧ ∀ option : OptionContract,
            ¬ takes_taylor_branch s option
            ∧ ∀ underlying, find_underlying s option.underlying_id = some underlying →
                option.steps_until_expiry ≠ 0 →
                cache_find s.price_cache
                  (cache_key_string option.option_id underlying.valuation) = none →
                price_option s option
                  = price_option_full s option underlying
                      (cache_key_string option.option_id underlying.valuation))
    ∧ (∀ (m : MarketMaker) (option : OptionContract) (underlying : Underlying)
        (last_price : ℚ) (old : Greeks),
        find_underlying m option.underlying_id = some underlying →
        option.steps_until_expiry ≠ 0 →
        cache_find m.price_cache
          (cache_key_string option.option_id underlying.valuation) = none →
        m.last_underlying_prices underlying.underlying_id = some last_price →
        last_price ≠ underlying.valuation →
        |underlying.valuation - last_price| < underlying.up_move_step * (1 / 10) →
        cache_find m.price_cache (cache_key_string option.option_id last_price) = some old →
        price_option m option
          = price_option_taylor m option underlying
              (cache_key_string option.option_id underlying.valuation) last_price old) := by
  have h0 : distinct_underlying_ids (MarketMaker.new us os).underlying_state
      ∧ last_prices_current (MarketMaker.new us os) := by
    refine ⟨hus, ?_⟩
    intro u _ s hs
    simp [MarketMaker.new] at hs
  have hrun := run_last_prices actions (MarketMaker.new us os) h0 ha
  rw [run_exn_eq_run foreign actions _ hret]
  refine ⟨hrun.2, ?_, ?_⟩
  · intro a s hs
    have hS := enters_price_option_last_prices _ a s hrun hs
    refine ⟨hS.2, fun option => ⟨no_taylor_of_last_prices s option hS.2, ?_⟩⟩
    intro underlying hfind hn hmiss
    exact price_option_miss_full s option underlying hfind hn hmiss
      (fun x hx => hS.2 underlying (find_underlying_mem hfind).1 x hx)
  · intro m option underlying last_price old hfind hn hmiss hl hne hclose hold
    exact price_option_miss_taylor m option underlying last_price old hfind hn hmiss hl hne
      hclose hold

/-- Witness for C34 (amended): the run of the C34 counterexample with a callback that
fails with a std::exception instead: the failure of the purchase (0, 1/4) is swallowed,
the step advance to S=7.9 returns and refreshes the last prices, and when a following
`make_market` prices the second CALL after its risk check, the recorded prices are
current and the Taylor guards do not hold. -/
theorem C34_last_prices_current_witness :
    last_prices_current
        (check_risk_limit
          (run_exn (fun _ _ _ => false)
            (MarketMaker.new [pair_underlying 0 8, pair_underlying 1 8]
              [pair_call 0, pair_call 1]) down_actions)).2
    ∧ ¬ takes_taylor_branch
        (check_risk_limit
          (run_exn (fun _ _ _ => false)
            (MarketMaker.new [pair_underlying 0 8, pair_underlying 1 8]
              [pair_call 0, pair_call 1]) down_actions)).2 (pair_call 1) := by
  have h := (C34_last_prices_current (fun _ _ _ => false)
    [pair_underlying 0 8, pair_underlying 1 8] [pair_call 0, pair_call 1] down_actions
    down_actions_distinct.1 down_actions_distinct.2
    (step_advances_return_of_std (fun _ _ _ => false) throws_only_std_of_never _ _)).2.1
    (Action.make_market (pair_call 1)) _ (Or.inr rfl)
  exact ⟨h.1, (h.2 (pair_call 1)).1⟩

/-- C30 (the code departs from the claim): in the Taylor-extrapolation path `price_option`
passes the extrapolated price, not the lattice price, as `base_price` to
`calculate_delta` (line 321), so the stored delta is (L(S+b) - P)/b with P the
extrapolated price, not the finite-difference delta (L(S+b) - L(S))/b that `get_greeks`
computes on a miss at S.  Two runs reach the path for a one-step CALL struck at 10 with
the triple (0, 1/2, 5/2) cached at S' = 8 and S = 7.9: one through an underlying vector
carrying the id 0 twice, one (on distinct ids) through a step advance left by an exception
of the callback.  In both, the call returns -3/80 and stores the delta 7/16, whereas the
finite-difference delta, which is also the delta get_greeks computes on a miss at 7.9,
is 1/4.  The stored gamma is the finite-difference gamma 5/4. -/
theorem C30_taylor_stored_delta_not_finite_difference :
    ((price_option kink_state_2 kink_call).1 = -3 / 80
      ∧ cache_find (price_option kink_state_2 kink_call).2.price_cache
          (cache_key_string 7 (79 / 10)) = some (-3 / 80, 7 / 16, 5 / 4)
      ∧ fd_delta kink_call (kink_underlying (79 / 10))
          (lattice_price_at kink_call (kink_underlying (79 / 10)) (79 / 10)) = 1 / 4
      ∧ (get_greeks kink_state_2 kink_call (kink_underlying (79 / 10))).1 = (0, 1 / 4, 5 / 4))
    ∧ (run_exn (fun _ _ _ => true)
          (MarketMaker.new [pair_underlying 0 8, pair_underlying 1 8]
            [pair_call 0, pair_call 1]) down_actions = down_state_4
      ∧ (price_option down_state_4 (pair_call 1)).1 = -3 / 80
      ∧ cache_find (price_option down_state_4 (pair_call 1)).2.price_cache
          (cache_key_string (pair_call 1).option_id (pair_underlying 1 (79 / 10)).valuation)
          = some (-3 / 80, 7 / 16, 5 / 4)
      ∧ fd_delta (pair_call 1) (pair_underlying 1 (79 / 10))
          (lattice_price_at (pair_call 1) (pair_underlying 1 (79 / 10)) (79 / 10)) = 1 / 4
      ∧ (get_greeks down_state_4 (pair_call 1) (pair_underlying 1 (79 / 10))).1
          = (0, 1 / 4, 5 / 4))
    ∧ (7 / 16 : ℚ) ≠ 1 / 4 := by
  obtain ⟨hfind, -, hmiss, hlast, hhit⟩ := kink_state_2_facts
  obtain ⟨hL, hd0, hdT, hg⟩ := kink_fd_values
  have e := price_option_taylor_eq kink_state_2 kink_call (kink_underlying (79 / 10))
    8 (0, 1 / 2, 5 / 2) hfind (by decide) hmiss hlast (by norm_num [kink_underlying])
    (by norm_num [kink_underlying, abs_lt]) hhit
  have hP : (0 : ℚ) + 1 / 2 * ((kink_underlying (79 / 10)).valuation - 8)
      + 1 / 2 * (5 / 2) * ((kink_underlying (79 / 10)).valuation - 8) ^ 2 = -3 / 80 := by
    norm_num [kink_underlying]
  simp only [hP] at e
  rw [hdT, hg] at e
  obtain ⟨⟨u, lp, old, hfu, hn, hmiss4, -⟩, hprice4⟩ := down_state_4_taylor
  obtain ⟨hdT4, hg4, hd04⟩ := pair_taylor_greeks 1
  obtain ⟨hL4, hD4, hG4, -, -⟩ := pair_fd_values 1
  have hfind4 : find_underlying down_state_4 (pair_call 1).underlying_id
      = some (pair_underlying 1 (79 / 10)) := down_state_4_find 1 (Or.inr rfl)
  have hu : u = pair_underlying 1 (79 / 10) := by
    rw [hfind4] at hfu
    exact (Option.some.inj hfu).symm
  rw [hu] at hmiss4
  rw [hdT4, hg4] at hprice4
  refine ⟨⟨?_, ?_, ?_, ?_⟩, ⟨down_state_4_run, ?_, ?_, hd04, ?_⟩, by norm_num⟩
  · rw [e]
  · rw [e]
    show cache_find ((cache_key_string 7 (79 / 10), _) :: _) (cache_key_string 7 (79 / 10)) = _
    simp [cache_find, List.lookup]
  · rw [hL, hd0]
  · rw [get_greeks_value_miss kink_state_2 kink_call (kink_underlying (79 / 10)) hmiss,
      calculate_delta_eq_fd_delta, calculate_gamma_eq_fd_gamma]
    have hL' : price_option_from_scratch kink_call (kink_underlying (79 / 10)) = 0 := hL
    rw [hL', hd0, hg]
  · rw [hprice4]
  · rw [hprice4]
    exact cache_find_cons_self _ _ _
  · rw [get_greeks_value_miss down_state_4 (pair_call 1) (pair_underlying 1 (79 / 10)) hmiss4,
      hL4, hD4, hG4]

end MorningsideMM
